import Mathlib

/-!
# Archive volume I/O core of fsarchiver: reader and writer

A shallow embedding of `src/archreader.c` and `src/archwriter.c`.

* Bytes are natural numbers below 256, buffers are lists of bytes.
* The reader's lookahead cache `[cache, cachewrite)` is a list, `cacheread`
  is an offset into it, `cachesize` is the allocated capacity.  The bytes the
  file descriptor has not delivered yet are the list `input`.
* Constants, option values and helpers that are declared outside the two
  source files are fields of `Env`.
* C return codes are the constructors of `Ret`.
-/

set_option autoImplicit false

namespace Fsarchiver

/-! ## Return codes -/

/-- Return values of the C functions.  `success` is `0` / `FSAERR_SUCCESS`,
`neg1` is `-1`, `pos1` is `1`, `fatal` is `OLDERR_FATAL`, `minor` is
`OLDERR_MINOR`, `enomem` is `FSAERR_ENOMEM`.  Two more outcomes are not C
values: `crash` (the C code divides by zero, reads outside a buffer or fails an
assertion) and `hang` (the C loop does not terminate). -/
inductive Ret where
  | success
  | neg1
  | pos1
  | fatal
  | minor
  | enomem
  | crash
  | hang
  deriving DecidableEq, Repr

/-- Code returned by a caller that maps a failed call `r` to its own error code
`e`; a crash or a hang of the callee is a crash or a hang of the caller. -/
def Ret.fail (r e : Ret) : Ret := if r = .crash ∨ r = .hang then r else e

/-- Test `r < 0` on a return code: `-1` and the `FSAERR_` error codes are
negative, `OLDERR_FATAL` and `OLDERR_MINOR` are positive. -/
def Ret.negative (r : Ret) : Bool := r = .neg1 ∨ r = .enomem

/-! ## Environment: what the two source files take from elsewhere -/

/-- One attribute of a dictionary. -/
structure DicoItem where
  type : Nat
  section_ : Nat
  key : Nat
  data : List Nat
  deriving DecidableEq, Repr

/-- Constants, options and helper functions used by the reader and the writer
but declared in other files of the program. -/
structure Env where
  /-- Size of the scan window and of the format-version probe. -/
  FSA_CACHE_HEADER : Nat
  /-- Largest accepted REALSIZE of a block. -/
  FSA_MAX_BLKSIZE : Nat
  /-- Filesystem id of records that belong to no filesystem. -/
  FSA_FILESYSID_NULL : Nat
  /-- Block size forced on SCSI tapes. -/
  FSA_TAPE_BLOCK : Nat
  /-- Size of the buffers that hold a file-format string. -/
  FSA_MAX_FILEFMTLEN : Nat
  /-- Size of the buffers that hold a program-version string. -/
  FSA_MAX_PROGVERLEN : Nat
  /-- Option `g_options.datablocksize`. -/
  datablocksize : Nat
  /-- Option `g_options.splitsize`. -/
  splitsize : Int
  /-- Option `g_options.overwrite`. -/
  overwrite : Bool
  /-- Value of `get_abort()`. -/
  abort : Bool
  /-- Predicate `is_magic_valid` on a 4-byte window. -/
  is_magic_valid : List Nat → Bool
  /-- Checksum `fletcher32(buf, len)`. -/
  fletcher32 : List Nat → Nat
  BLOCKHEADITEMKEY_BLOCKOFFSET : Nat
  BLOCKHEADITEMKEY_REALSIZE : Nat
  BLOCKHEADITEMKEY_COMPRESSALGO : Nat
  BLOCKHEADITEMKEY_ENCRYPTALGO : Nat
  BLOCKHEADITEMKEY_ARSIZE : Nat
  BLOCKHEADITEMKEY_COMPSIZE : Nat
  BLOCKHEADITEMKEY_ARCSUM : Nat
  VOLUMEHEADKEY_VOLNUM : Nat
  VOLUMEHEADKEY_ARCHID : Nat
  VOLUMEHEADKEY_FILEFORMATVER : Nat
  VOLUMEHEADKEY_PROGVERCREAT : Nat
  VOLUMEFOOTKEY_VOLNUM : Nat
  VOLUMEFOOTKEY_ARCHID : Nat
  VOLUMEFOOTKEY_LASTVOL : Nat
  /-- Magic of a volume header. -/
  FSA_MAGIC_VOLH : List Nat
  /-- Magic of a volume footer. -/
  FSA_MAGIC_VOLF : List Nat
  /-- Program version string `FSA_VERSION`. -/
  FSA_VERSION : List Nat
  /-- Type tags the dictionary codec gives to `u32` and string attributes. -/
  DICTYPE_U32 : Nat
  DICTYPE_DATA : Nat
  /-- Helper `get_path_to_volume(basepath, curvol)`. -/
  get_path_to_volume : String → Nat → String
  /-- Helper `path_force_extension(path, ".fsa")`. -/
  path_force_extension : String → String
  /-- Helper `writebuf_add_header(wb, dico, magic, archid, fsid)`: the bytes of
  the framed header record, `none` for a non-zero return value. -/
  writebuf_add_header : List DicoItem → List Nat → Nat → Nat → Option (List Nat)
  /-- Helper `writebuf_add_block(wb, blkinfo, archid, fsid)` applied to the
  payload and the scalar fields of the block: the bytes of the framed block
  record, `none` for a non-zero return value. -/
  writebuf_add_block : Option (List Nat) → List Nat → Nat → Nat → Option (List Nat)

/-- Size of a magic tag, `FSA_SIZEOF_MAGIC`. -/
def FSA_SIZEOF_MAGIC : Nat := 4

/-- The `u32` value returned by `fletcher32`. -/
def Env.sum32 (E : Env) (buf : List Nat) : Nat := E.fletcher32 buf % 2 ^ 32

/-! ## Little-endian scalars -/

/-- Value of a little-endian byte string (`le16_to_cpu`, `le32_to_cpu`,
`le64_to_cpu` on the bytes that were copied into the scalar). -/
def le_to_cpu : List Nat → Nat
  | [] => 0
  | b :: bs => b + 256 * le_to_cpu bs

/-- Little-endian bytes of the low `8 * w` bits of `n`. -/
def cpu_to_le : Nat → Nat → List Nat
  | 0, _ => []
  | w + 1, n => n % 256 :: cpu_to_le w (n / 256)

/-! ## Dictionary (external collaborator) -/

/-- Modelled from the spec: the type `cdico` of `dico.h` (not under src/), an
ordered collection of attributes identified by `(section, key)`. -/
abbrev cdico := List DicoItem

/-- Modelled from the spec: `dico_alloc` of `dico.c` (not under src/) returns an
empty dictionary. -/
def dico_alloc : cdico := []

/-- Modelled from the spec: `dico_add_generic(d, section, key, data, size, type)`
of `dico.c` (not under src/) adds one attribute at the end of the dictionary;
`none` stands for a non-zero return value. -/
def dico_add_generic (d : cdico) (sec key : Nat) (data : List Nat) (type : Nat) :
    Option cdico :=
  some (d ++ [{ type := type, section_ := sec, key := key, data := data }])

/-- Modelled from the spec: `dico_get_data(d, section, key)` of `dico.c` (not
under src/) returns the value of the first attribute with that section and key. -/
def dico_get_data (d : cdico) (sec key : Nat) : Option (List Nat) :=
  (d.find? (fun it => it.section_ == sec && it.key == key)).map (fun it => it.data)

/-- Modelled from the spec: `dico_get_u16/u32/u64` of `dico.c` (not under src/)
return the little-endian scalar stored under `(section, key)`; they fail when the
attribute is absent or its value does not have the width of the scalar. -/
def dico_get_scalar (w : Nat) (d : cdico) (sec key : Nat) : Option Nat :=
  match dico_get_data d sec key with
  | some v => if v.length = w then some (le_to_cpu v) else none
  | none => none

def dico_get_u16 (d : cdico) (sec key : Nat) : Option Nat := dico_get_scalar 2 d sec key

def dico_get_u32 (d : cdico) (sec key : Nat) : Option Nat := dico_get_scalar 4 d sec key

def dico_get_u64 (d : cdico) (sec key : Nat) : Option Nat := dico_get_scalar 8 d sec key

/-- Modelled from the spec: `dico_get_data(d, section, key, data, maxsize, NULL)`
of `dico.c` (not under src/) copies the value of the attribute into a buffer of
`maxsize` bytes; it fails when the attribute is absent or longer than the buffer. -/
def dico_get_data_max (d : cdico) (sec key maxsize : Nat) : Option (List Nat) :=
  match dico_get_data d sec key with
  | some v => if v.length ≤ maxsize then some v else none
  | none => none

/-! ## C strings -/

/-- The bytes of a C string held in a buffer: the bytes before the first NUL.
Bytes past the end of the list are taken to be NUL. -/
def cstr (l : List Nat) : List Nat := l.takeWhile (fun b => b != 0)

/-- Test `strncmp(a, b, n) == 0`. -/
def strncmp_eq (a b : List Nat) (n : Nat) : Bool := cstr (a.take n) == cstr (b.take n)

/-! ## Reader state -/

/-- The function stored in `ai->read`. -/
inductive ReadFn where
  | read_regular
  | read_select
  | read_blocks
  deriving DecidableEq, Repr

/-- The function stored in `ai->skip`. -/
inductive SkipFn where
  | skip_regular
  | skip_select
  | skip_blocks
  | skip_st
  deriving DecidableEq, Repr

/-- The fields of `struct s_archreader` used by the modelled functions, and the
bytes `input` that the descriptor `archfd` will deliver next. -/
structure Reader where
  read : ReadFn
  skip : SkipFn
  archid : Nat
  curvol : Nat
  filefmtver : Nat
  filefmt : List Nat
  creatver : List Nat
  devblocksize : Nat
  /-- Bytes held in `[cache, cachewrite)`. -/
  cache : List Nat
  /-- Offset `cacheread - cache`. -/
  cacheread : Nat
  /-- Allocated capacity of the cache buffer. -/
  cachesize : Nat
  /-- Bytes not yet delivered by `archfd`. -/
  input : List Nat
  deriving DecidableEq, Repr

/-- State written by `archreader_init`, for a given transport content.  The C
function zeroes the record, so its `read` and `skip` pointers are NULL until
`archreader_open` selects them; the value here carries the pair chosen for a
regular file. -/
def archreader_init (input : List Nat) : Reader :=
  { read := .read_regular, skip := .skip_regular, archid := 0, curvol := 0,
    filefmtver := 0, filefmt := [], creatver := [], devblocksize := 0,
    cache := [], cacheread := 0, cachesize := 0, input := input }

/-! ## Lookahead cache -/

/-- Function `archreader_precache`: make room for `size` more bytes after
`cachewrite`.  The new capacity is computed from `size` alone. -/
def archreader_precache (E : Env) (ai : Reader) (size : Nat) : Ret × Reader :=
  if ai.cache.length + size ≤ ai.cachesize then (.success, ai)
  else if E.datablocksize = 0 ∨ ai.devblocksize = 0 then (.crash, ai)
  else
    let cachesize := (size / E.datablocksize + 1) * E.datablocksize
    let xmod := cachesize % ai.devblocksize
    let cachesize := cachesize + (if xmod = 0 then 0 else ai.devblocksize - xmod)
    (.success, { ai with cachesize := cachesize })

/-- Number of bytes missing in the cache for a request of `size` bytes:
`size - (cachewrite - cacheread)` as a signed value. -/
def missing (ai : Reader) (size : Nat) : Int :=
  (size : Int) - ((ai.cache.length : Int) - (ai.cacheread : Int))

/-- Function `archreader_read_regular`. -/
def archreader_read_regular (E : Env) (ai : Reader) (size : Nat) : Ret × Reader :=
  let msize := missing ai size
  if msize ≤ 0 then (.success, ai)
  else
    let p := archreader_precache E ai msize.toNat
    if p.1 ≠ .success then (p.1.fail .neg1, p.2)
    else
      let got := p.2.input.take msize.toNat
      let ai2 := { p.2 with input := p.2.input.drop msize.toNat }
      if got.length ≠ msize.toNat then (.neg1, ai2)
      else (.success, { ai2 with cache := ai2.cache ++ got })

/-- Function `archreader_read_select_raw`: the loop reads until `size` bytes have
arrived or the descriptor is at end of file; with the abort flag set it returns
`-1` (`none`).  The result is the list of bytes stored at `buf`. -/
def archreader_read_select_raw (E : Env) (input : List Nat) (size : Nat) :
    Option (List Nat) × List Nat :=
  if E.abort then (none, input) else (some (input.take size), input.drop size)

/-- Function `archreader_read_select`. -/
def archreader_read_select (E : Env) (ai : Reader) (size : Nat) : Ret × Reader :=
  let msize := missing ai size
  if msize ≤ 0 then (.success, ai)
  else
    let p := archreader_precache E ai msize.toNat
    if p.1 ≠ .success then (p.1.fail .neg1, p.2)
    else
      let r := archreader_read_select_raw E p.2.input msize.toNat
      let ai2 := { p.2 with input := r.2 }
      match r.1 with
      | none => (.neg1, ai2)
      | some got =>
        if got.length ≠ msize.toNat then (.neg1, ai2)
        else (.success, { ai2 with cache := ai2.cache ++ got })

/-- Function `archreader_read_blocks_raw`: one `read` of `size` bytes. -/
def archreader_read_blocks_raw (input : List Nat) (size : Nat) : List Nat × List Nat :=
  (input.take size, input.drop size)

/-- Function `archreader_read_blocks`: the request is rounded up to a multiple
of `devblocksize`, and the number of bytes obtained is compared with `size`. -/
def archreader_read_blocks (E : Env) (ai : Reader) (size : Nat) : Ret × Reader :=
  let msize := missing ai size
  if msize ≤ 0 then (.success, ai)
  else if ai.devblocksize = 0 then (.crash, ai)
  else
    let xmod := msize.toNat % ai.devblocksize
    let msize := if xmod = 0 then msize.toNat else msize.toNat + (ai.devblocksize - xmod)
    let p := archreader_precache E ai msize
    if p.1 ≠ .success then (p.1.fail .neg1, p.2)
    else
      let r := archreader_read_blocks_raw p.2.input msize
      let ai2 := { p.2 with input := r.2 }
      if r.1.length < size then (.neg1, ai2)
      else (.success, { ai2 with cache := ai2.cache ++ r.1 })

/-- Call through the pointer `ai->read`. -/
def ai_read (E : Env) (ai : Reader) (size : Nat) : Ret × Reader :=
  match ai.read with
  | .read_regular => archreader_read_regular E ai size
  | .read_select => archreader_read_select E ai size
  | .read_blocks => archreader_read_blocks E ai size

/-- Function `archreader_read_data`: returns the code, the bytes copied to
`data` (none when the call fails or `size` is 0) and the new state. -/
def archreader_read_data (E : Env) (ai : Reader) (size : Nat) : Ret × List Nat × Reader :=
  if size = 0 then (.success, [], ai)
  else
    let r := ai_read E ai size
    if r.1 ≠ .success then (r.1.fail .neg1, [], r.2)
    else
      (.success, (r.2.cache.drop r.2.cacheread).take size,
        { r.2 with cacheread := r.2.cacheread + size })

/-- Function `archreader_unread`: step `cacheread` back by `size` bytes and move
the unconsumed bytes to the start of the buffer. -/
def archreader_unread (ai : Reader) (size : Nat) : Ret × Reader :=
  if ai.cacheread < size then (.neg1, ai)
  else
    let offset := ai.cacheread - size
    if offset ≠ 0 then (.success, { ai with cache := ai.cache.drop offset, cacheread := 0 })
    else (.success, { ai with cacheread := offset })

/-! ## Skipping -/

/-- Bytes of `[cache, cachewrite)` after a raw read has stored `got` at the start
of the cache buffer. -/
def overwrite (got cache : List Nat) : List Nat :=
  got.take cache.length ++ cache.drop got.length

/-- Function `archreader_skip_regular`: `lseek64` moves the descriptor forward. -/
def archreader_skip_regular (ai : Reader) (offset : Nat) : Ret × Reader :=
  let moffset : Int := (ai.cache.length : Int) - (ai.cacheread : Int)
  if (offset : Int) ≤ moffset then (.success, { ai with cacheread := ai.cacheread + offset })
  else
    (.success, { ai with input := ai.input.drop ((offset : Int) - moffset).toNat,
                         cache := [], cacheread := 0 })

/-- The loop `for (...; pending >= cachesize; pending -= cachesize)` of the skip
functions, one raw read of `cachesize` bytes per turn.  The result is `none`
when a read comes up short, else the remaining input, `pending` and the cache
bytes. -/
def skip_chunks (cachesize : Nat) : Nat → List Nat → Nat → List Nat →
    Option (List Nat × Nat × List Nat)
  | 0, input, pending, cache => some (input, pending, cache)
  | fuel + 1, input, pending, cache =>
    if pending < cachesize then some (input, pending, cache)
    else if (input.take cachesize).length ≠ cachesize then none
    else skip_chunks cachesize fuel (input.drop cachesize) (pending - cachesize)
      (overwrite (input.take cachesize) cache)

/-- Function `archreader_skip_select`. -/
def archreader_skip_select (E : Env) (ai : Reader) (offset : Nat) : Ret × Reader :=
  let moffset : Int := (ai.cache.length : Int) - (ai.cacheread : Int)
  if (offset : Int) ≤ moffset then (.success, { ai with cacheread := ai.cacheread + offset })
  else if E.abort then (.neg1, ai)
  else if ai.cachesize = 0 then (.hang, ai)
  else
    let pending := ((offset : Int) - moffset).toNat
    match skip_chunks ai.cachesize (pending + 1) ai.input pending ai.cache with
    | none => (.neg1, { ai with input := [], cache := overwrite ai.input ai.cache })
    | some (input, pending, cache) =>
      if pending ≠ 0 ∧ (input.take pending).length ≠ pending then
        (.neg1, { ai with input := [], cache := overwrite input cache })
      else (.success, { ai with input := input.drop pending, cache := [], cacheread := 0 })

/-- Function `archreader_skip_blocks`. -/
def archreader_skip_blocks (E : Env) (ai : Reader) (offset : Nat) : Ret × Reader :=
  let moffset : Int := (ai.cache.length : Int) - (ai.cacheread : Int)
  if (offset : Int) ≤ moffset then (.success, { ai with cacheread := ai.cacheread + offset })
  else if E.abort then (.fatal, ai)
  else
    let pending := ((offset : Int) - moffset).toNat
    if ai.cachesize ≤ pending ∧ (ai.devblocksize = 0 ∨ ai.cachesize % ai.devblocksize ≠ 0) then
      (.crash, ai)
    else if ai.cachesize = 0 then (.hang, ai)
    else
      match skip_chunks ai.cachesize (pending + 1) ai.input pending ai.cache with
      | none => (.neg1, { ai with input := [], cache := overwrite ai.input ai.cache })
      | some (input, pending, cache) =>
        if pending ≠ 0 then
          if ai.devblocksize = 0 then (.crash, { ai with input := input, cache := cache })
          else
            let xmod := pending % ai.devblocksize
            let mpending := if xmod = 0 then pending else pending + (ai.devblocksize - xmod)
            let r := archreader_read_blocks_raw input mpending
            if r.1.length < mpending then
              (.neg1, { ai with input := r.2, cache := overwrite r.1 cache })
            else (.success, { ai with input := r.2, cache := r.1, cacheread := pending })
        else (.success, { ai with input := input, cache := [], cacheread := 0 })

/-- Function `archreader_skip_st`. -/
def archreader_skip_st (E : Env) (ai : Reader) (offset : Nat) : Ret × Reader :=
  archreader_skip_blocks E ai offset

/-- Call through the pointer `ai->skip`. -/
def ai_skip (E : Env) (ai : Reader) (offset : Nat) : Ret × Reader :=
  match ai.skip with
  | .skip_regular => archreader_skip_regular ai offset
  | .skip_select => archreader_skip_select E ai offset
  | .skip_blocks => archreader_skip_blocks E ai offset
  | .skip_st => archreader_skip_st E ai offset

/-! ## Frame codec: decoding a dictionary -/

/-- The loop `for (i=0; i < count; i++)` of `archreader_read_dico`: decode
`count` attributes of `buffer` from offset `bufpos` on and add them to `d`.  A
read at or past the end of `buffer` is a crash. -/
def read_items (buffer : List Nat) : Nat → Nat → cdico → Ret × cdico
  | 0, _, d => (.success, d)
  | count + 1, bufpos, d =>
    if buffer.length < bufpos + 6 then (.crash, d)
    else
      let type := (buffer.drop bufpos).headD 0
      let sec := (buffer.drop (bufpos + 1)).headD 0
      let key := le_to_cpu ((buffer.drop (bufpos + 2)).take 2)
      let size := le_to_cpu ((buffer.drop (bufpos + 4)).take 2)
      if buffer.length < bufpos + 6 + size then (.crash, d)
      else
        match dico_add_generic d sec key ((buffer.drop (bufpos + 6)).take size) type with
        | none => (.fatal, d)
        | some d1 => read_items buffer count (bufpos + 6 + size) d1

/-- Function `archreader_read_dico`. -/
def archreader_read_dico (E : Env) (ai : Reader) (d : cdico) : Ret × Reader × cdico :=
  if ai.filefmtver ≠ 1 ∧ ai.filefmtver ≠ 2 then (.fatal, ai, d)
  else
    let r1 := archreader_read_data E ai (if ai.filefmtver = 1 then 2 else 4)
    if r1.1 ≠ .success then (r1.1.fail .fatal, r1.2.2, d)
    else
      let headerlen := le_to_cpu r1.2.1
      let r2 := archreader_read_data E r1.2.2 headerlen
      if r2.1 ≠ .success then (r2.1.fail .fatal, r2.2.2, d)
      else
        let buffer := r2.2.1
        let r3 := archreader_read_data E r2.2.2 4
        if r3.1 ≠ .success then (r3.1.fail .fatal, r3.2.2, d)
        else
          let origsum := le_to_cpu r3.2.1
          let newsum := E.sum32 buffer
          if newsum ≠ origsum then (.minor, r3.2.2, d)
          else if buffer.length < 2 then (.crash, r3.2.2, d)
          else
            let count := le_to_cpu (buffer.take 2)
            let r4 := read_items buffer count 2 d
            (r4.1, r3.2.2, r4.2)

/-! ## Magic scanner -/

/-- The ten bytes of the format identifier `FsArCh_001`. -/
def FSA_FILEFORMAT_001 : List Nat := [70, 115, 65, 114, 67, 104, 95, 48, 48, 49]

/-- The ten bytes of the format identifier `FsArCh_00Y`. -/
def FSA_FILEFORMAT_00Y : List Nat := [70, 115, 65, 114, 67, 104, 95, 48, 48, 89]

/-- The ten bytes of the format identifier `FsArCh_002`. -/
def FSA_FILEFORMAT_002 : List Nat := [70, 115, 65, 114, 67, 104, 95, 48, 48, 50]

/-- Modelled from the spec: the constant `FSA_FILEFORMAT` of `fsarchiver.h` (not
under src/), the ten-byte identifier of the current format. -/
def FSA_FILEFORMAT : List Nat := FSA_FILEFORMAT_002

/-- Function `archreader_fmt_version`: returns the code and the reader with
`filefmtver` set. -/
def archreader_fmt_version (ai : Reader) (volhead : List Nat) : Ret × Reader :=
  let magiclen := FSA_FILEFORMAT.length
  if (volhead.drop 40).take magiclen = FSA_FILEFORMAT_001.take magiclen
      ∨ (volhead.drop 40).take magiclen = FSA_FILEFORMAT_00Y.take magiclen then
    (.success, { ai with filefmtver := 1 })
  else if (volhead.drop 42).take magiclen = FSA_FILEFORMAT_002.take magiclen then
    (.success, { ai with filefmtver := 2 })
  else (.neg1, ai)

/-- The loop `for (i=0; !leave && (i<=readsize-FSA_SIZEOF_MAGIC); i++)`: the
first window position of `volhead` holding a valid magic. -/
def find_magic (E : Env) (volhead : List Nat) (readsize : Nat) : Option Nat :=
  (List.range (readsize + 1 - FSA_SIZEOF_MAGIC)).find?
    (fun i => E.is_magic_valid ((volhead.drop i).take FSA_SIZEOF_MAGIC))

/-- The two nested `while (!(leave||get_abort()))` loops of
`archreader_read_header` with the abort flag clear, entered with `leave` false.
Each unit of fuel pays for one pass of the inner loop body.  The local variables
are `readsize` and `unread`; the result is `none` when the fuel runs out, else
the error code returned from inside the loops (`success` when the loops are left
normally) and the reader. -/
def scan_loops (E : Env) (readvol : Bool) : Nat → Reader → Nat → Nat → Option (Ret × Reader)
  | 0, _, _, _ => none
  | fuel + 1, ai, readsize, unread =>
    let r := archreader_read_data E ai readsize
    if r.1 ≠ .success then some (r.1.fail .fatal, r.2.2)
    else
      match find_magic E r.2.1 readsize with
      | none =>
        let u := archreader_unread r.2.2 (FSA_SIZEOF_MAGIC - 1)
        if u.1 ≠ .success then some (.fatal, u.2)
        else scan_loops E readvol fuel u.2 E.FSA_CACHE_HEADER unread
      | some k =>
        let u := archreader_unread r.2.2 (readsize - (k + 1) + 1)
        if u.1 ≠ .success then some (.fatal, u.2)
        else if readvol then
          let v := archreader_read_data E u.2 E.FSA_CACHE_HEADER
          if v.1 ≠ .success then some (v.1.fail .fatal, v.2.2)
          else
            let f := archreader_fmt_version v.2.2 v.2.1
            if f.1 ≠ .success then
              let w := archreader_unread f.2 (E.FSA_CACHE_HEADER - FSA_SIZEOF_MAGIC)
              if w.1 ≠ .success then some (.fatal, w.2)
              else scan_loops E readvol fuel w.2 E.FSA_CACHE_HEADER
                (E.FSA_CACHE_HEADER - FSA_SIZEOF_MAGIC)
            else
              let w := archreader_unread f.2 unread
              if w.1 ≠ .success then some (.fatal, w.2) else some (.success, w.2)
        else some (.success, u.2)

/-- Outputs of `archreader_read_header`. -/
structure HeaderOut where
  ret : Ret
  magic : List Nat
  d : Option cdico
  fsid : Nat
  deriving DecidableEq, Repr

/-- Function `archreader_read_header`; `none` when the fuel given to the scan
loops runs out. -/
def archreader_read_header (E : Env) (fuel : Nat) (ai : Reader) (readvol : Bool) :
    Option (HeaderOut × Reader) :=
  let magic0 := List.replicate FSA_SIZEOF_MAGIC 0
  let fsid0 := E.FSA_FILESYSID_NULL
  if E.abort then some ({ ret := .fatal, magic := magic0, d := none, fsid := fsid0 }, ai)
  else
    match scan_loops E readvol fuel ai FSA_SIZEOF_MAGIC E.FSA_CACHE_HEADER with
    | none => none
    | some (res, ai1) =>
      if res ≠ .success then some ({ ret := res, magic := magic0, d := none, fsid := fsid0 }, ai1)
      else
        let m := archreader_read_data E ai1 FSA_SIZEOF_MAGIC
        if m.1 ≠ .success then
          some ({ ret := m.1.fail .fatal, magic := magic0, d := none, fsid := fsid0 }, m.2.2)
        else
          let magic := m.2.1
          let d := dico_alloc
          let a := archreader_read_data E m.2.2 4
          if a.1 ≠ .success then
            some ({ ret := a.1.fail .fatal, magic := magic, d := some d, fsid := fsid0 }, a.2.2)
          else
            let archid := le_to_cpu a.2.1
            if ai1.archid ≠ 0 ∧ archid ≠ ai1.archid then
              some ({ ret := .minor, magic := magic, d := some d, fsid := fsid0 }, a.2.2)
            else
              let f := archreader_read_data E a.2.2 2
              if f.1 ≠ .success then
                some ({ ret := f.1.fail .fatal, magic := magic, d := some d, fsid := fsid0 }, f.2.2)
              else
                let fsid := le_to_cpu f.2.1
                let r := archreader_read_dico E f.2.2 d
                some ({ ret := r.1, magic := magic, d := some r.2.2, fsid := fsid }, r.2.1)

/-- Function `archreader_read_volheader`; `none` when the fuel given to
`archreader_read_header` runs out.  The local buffers `filefmt` and `creatver`
hold the bytes copied by `dico_get_data`. -/
def archreader_read_volheader (E : Env) (fuel : Nat) (ai : Reader) : Option (Ret × Reader) :=
  match archreader_read_header E fuel ai true with
  | none => none
  | some (h, ai1) =>
    if h.ret ≠ .success then some (h.ret.fail .neg1, ai1)
    else if strncmp_eq h.magic E.FSA_MAGIC_VOLH FSA_SIZEOF_MAGIC = false then some (.neg1, ai1)
    else
      match dico_get_u32 (h.d.getD []) 0 E.VOLUMEHEADKEY_ARCHID with
      | none => some (.neg1, ai1)
      | some readid =>
        if ai1.archid ≠ 0 ∧ readid ≠ ai1.archid then some (.neg1, ai1)
        else
          let ai2 := if ai1.archid = 0 then { ai1 with archid := readid } else ai1
          match dico_get_u32 (h.d.getD []) 0 E.VOLUMEHEADKEY_VOLNUM with
          | none => some (.neg1, ai2)
          | some volnum =>
            if volnum ≠ ai2.curvol then some (.neg1, ai2)
            else
              match dico_get_data_max (h.d.getD []) 0 E.VOLUMEHEADKEY_FILEFORMATVER
                  E.FSA_MAX_FILEFMTLEN with
              | none => some (.neg1, ai2)
              | some filefmt =>
                if ai2.filefmt.headD 0 ≠ 0 ∧
                    strncmp_eq filefmt ai2.filefmt E.FSA_MAX_FILEFMTLEN = false then
                  some (.neg1, ai2)
                else
                  let ai3 :=
                    if ai2.filefmt.headD 0 = 0 then { ai2 with filefmt := filefmt } else ai2
                  match dico_get_data_max (h.d.getD []) 0 E.VOLUMEHEADKEY_PROGVERCREAT
                      E.FSA_MAX_PROGVERLEN with
                  | none => some (.neg1, ai3)
                  | some creatver =>
                    some (.success,
                      if ai3.creatver.headD 0 = 0 then { ai3 with creatver := creatver } else ai3)

/-! ## Data blocks -/

/-- The fields of `struct s_blockinfo`; `blkdata` is `none` for a null pointer. -/
structure s_blockinfo where
  blkdata : Option (List Nat)
  blkrealsize : Nat
  blkoffset : Nat
  blkarcsum : Nat
  blkcompalgo : Nat
  blkcryptalgo : Nat
  blkarsize : Nat
  blkcompsize : Nat
  blkfsid : Nat
  deriving DecidableEq, Repr

/-- A block information structure after `memset(out_blkinfo, 0, ...)`. -/
def blkinfo_zero : s_blockinfo :=
  { blkdata := none, blkrealsize := 0, blkoffset := 0, blkarcsum := 0, blkcompalgo := 0,
    blkcryptalgo := 0, blkarsize := 0, blkcompsize := 0, blkfsid := 0 }

/-- Function `archreader_reset_block`: the payload is replaced by `blkarsize`
zero bytes. -/
def archreader_reset_block (out_blkinfo : s_blockinfo) : Ret × s_blockinfo :=
  (.success, { out_blkinfo with blkdata := some (List.replicate out_blkinfo.blkarsize 0) })

/-- Function `archreader_read_block`: returns the code, `*out_sumok`,
`*out_blkinfo` and the reader. -/
def archreader_read_block (E : Env) (ai : Reader) (in_blkdico : cdico) (in_skipblock : Bool) :
    Ret × Int × s_blockinfo × Reader :=
  match dico_get_u64 in_blkdico 0 E.BLOCKHEADITEMKEY_BLOCKOFFSET with
  | none => (.neg1, -1, blkinfo_zero, ai)
  | some blockoffset =>
  match dico_get_u32 in_blkdico 0 E.BLOCKHEADITEMKEY_REALSIZE with
  | none => (.neg1, -1, blkinfo_zero, ai)
  | some curblocksize =>
  if E.FSA_MAX_BLKSIZE < curblocksize then (.neg1, -1, blkinfo_zero, ai) else
  match dico_get_u16 in_blkdico 0 E.BLOCKHEADITEMKEY_COMPRESSALGO with
  | none => (.neg1, -1, blkinfo_zero, ai)
  | some compalgo =>
  match dico_get_u16 in_blkdico 0 E.BLOCKHEADITEMKEY_ENCRYPTALGO with
  | none => (.neg1, -1, blkinfo_zero, ai)
  | some cryptalgo =>
  match dico_get_u32 in_blkdico 0 E.BLOCKHEADITEMKEY_ARSIZE with
  | none => (.neg1, -1, blkinfo_zero, ai)
  | some finalsize =>
  match dico_get_u32 in_blkdico 0 E.BLOCKHEADITEMKEY_COMPSIZE with
  | none => (.neg1, -1, blkinfo_zero, ai)
  | some compsize =>
  match dico_get_u32 in_blkdico 0 E.BLOCKHEADITEMKEY_ARCSUM with
  | none => (.neg1, -1, blkinfo_zero, ai)
  | some arblockcsumorig =>
  if in_skipblock then
    let s := ai_skip E ai finalsize
    if s.1.negative ∨ s.1 = .crash ∨ s.1 = .hang then (s.1.fail .neg1, -1, blkinfo_zero, s.2)
    else (.success, -1, blkinfo_zero, s.2)
  else
    let r := archreader_read_data E ai finalsize
    if r.1 ≠ .success then (r.1.fail .neg1, -1, blkinfo_zero, r.2.2)
    else
      let buffer := r.2.1
      let out_blkinfo : s_blockinfo :=
        { blkdata := some buffer, blkrealsize := curblocksize, blkoffset := blockoffset,
          blkarcsum := arblockcsumorig, blkcompalgo := compalgo, blkcryptalgo := cryptalgo,
          blkarsize := finalsize, blkcompsize := compsize, blkfsid := 0 }
      let arblockcsumcalc := E.sum32 buffer
      if arblockcsumcalc ≠ arblockcsumorig then
        let u := archreader_unread r.2.2 out_blkinfo.blkarsize
        if u.1 ≠ .success then (.enomem, 0, out_blkinfo, u.2)
        else
          let b := archreader_reset_block out_blkinfo
          if b.1 ≠ .success then (.enomem, 0, b.2, u.2)
          else (.success, 0, b.2, u.2)
      else (.success, 1, out_blkinfo, r.2.2)

/-! ## Writer: operating system interface -/

/-- What `stat64` reports about a path (`tape` is a character device whose major
number is `SCSI_TAPE_MAJOR`). -/
inductive FileType where
  | regular
  | block
  | socket
  | chardev
  | tape
  | fifo
  | other
  deriving DecidableEq, Repr

/-- System calls issued by the writer, in order. -/
inductive Event where
  | ev_open (path : String) (creat : Bool)
  | ev_connect (path : String)
  | ev_write (bytes : List Nat)
  | ev_fsync
  | ev_close
  | ev_setblk (size : Nat)
  deriving DecidableEq, Repr

/-- The operating system as seen by the writer.  `accept` scripts the coming
`write` calls: its head is the largest byte count the next call takes (an empty
script takes everything). -/
structure World where
  stat : String → Option FileType
  st_blksize : String → Nat
  open_ok : String → Bool
  socket_ok : Bool
  connect_ok : Bool
  /-- Block size reported by `MTIOCGET`, `none` when the ioctl fails. -/
  mt_blksize : Option Nat
  setblk_ok : Bool
  accept : List Nat
  trace : List Event

/-- System call `write(fd, buf, size)`: returns the number of bytes written. -/
def sys_write (w : World) (bytes : List Nat) : Nat × World :=
  match w.accept with
  | [] => (bytes.length, { w with trace := w.trace ++ [.ev_write bytes] })
  | c :: cs =>
    (min c bytes.length,
      { w with accept := cs, trace := w.trace ++ [.ev_write (bytes.take (min c bytes.length))] })

/-- Append one event to the trace. -/
def World.log (w : World) (e : Event) : World := { w with trace := w.trace ++ [e] }

/-! ## Writer state -/

/-- The function stored in `ai->write`. -/
inductive WriteFn where
  | write_regular
  | write_blocks
  | write_flush
  deriving DecidableEq, Repr

/-- The fields of `struct s_archwriter`.  `cache` holds the bytes of
`[cache, cachewrite)`. -/
structure Writer where
  archfd : Int
  archid : Nat
  curvol : Nat
  currentpos : Int
  devblocksize : Nat
  cache : List Nat
  cachesize : Nat
  write : Option WriteFn
  originaltapeblocksize : Int
  newarch : Bool
  basepath : String
  volpath : String
  vollist : List String
  deriving DecidableEq, Repr

/-- A serialized record, `struct s_writebuf`. -/
structure s_writebuf where
  data : List Nat
  size : Int
  deriving DecidableEq, Repr

/-- A header handed to `archwriter_dowrite_header`, `struct s_headinfo`. -/
structure s_headinfo where
  magic : List Nat
  fsid : Nat
  dico : cdico
  deriving DecidableEq, Repr

/-- Function `archwriter_init`; the paths are filled in by the caller. -/
def archwriter_init (basepath volpath : String) : Writer :=
  { archfd := -1, archid := 0, curvol := 0, currentpos := 0, devblocksize := 0, cache := [],
    cachesize := 0, write := none, originaltapeblocksize := -1, newarch := false,
    basepath := basepath, volpath := volpath, vollist := [] }

/-- Function `archwriter_generate_id`, for the value drawn by
`generate_random_u32_id`. -/
def archwriter_generate_id (ai : Writer) (id : Nat) : Writer := { ai with archid := id }

/-- The end of `archwriter_create`: record the volume and reset the position. -/
def create_finish (ai : Writer) (w : World) : Ret × Writer × World :=
  (.success, { ai with vollist := ai.vollist ++ [ai.volpath], currentpos := 0 }, w)

/-- The tape set-up of `archwriter_create`, after the descriptor is open. -/
def create_tape (E : Env) (ai : Writer) (w : World) : Ret × Writer × World :=
  match w.mt_blksize with
  | none => (.neg1, ai, w.log .ev_close)
  | some orig =>
    let ai1 := { ai with write := some .write_blocks, devblocksize := E.FSA_TAPE_BLOCK,
                         originaltapeblocksize := orig }
    if E.FSA_TAPE_BLOCK ≠ orig then
      if w.setblk_ok then create_finish ai1 (w.log (.ev_setblk E.FSA_TAPE_BLOCK))
      else (.neg1, ai1, w.log .ev_close)
    else create_finish ai1 w

/-- The end of `archwriter_create` once the descriptor is open: the tape set-up
for a SCSI tape, then the bookkeeping. -/
def create_opened (E : Env) (ai : Writer) (w : World) (st : Option FileType) :
    Ret × Writer × World :=
  if st = some .tape then create_tape E ai w else create_finish ai w

/-- The call of `open64` in `archwriter_create`, made when `archfd` is `-1`, and
what follows it. -/
def create_open (E : Env) (ai : Writer) (w : World) (creat : Bool) (st : Option FileType) :
    Ret × Writer × World :=
  if ai.archfd = -1 then
    if w.open_ok ai.volpath = false then (.neg1, ai, w)
    else create_opened E { ai with archfd := 3 } (w.log (.ev_open ai.volpath creat)) st
  else create_opened E ai w st

/-- Function `archwriter_create`. -/
def archwriter_create (E : Env) (ai : Writer) (w : World) : Ret × Writer × World :=
  if ai.volpath = "-" then
    create_finish { ai with archfd := 1, write := some .write_flush } w
  else
    let st := w.stat ai.volpath
    if E.overwrite = false ∧ st = some .regular then (.neg1, ai, w)
    else
      match st with
      | none | some .regular =>
        create_open E { ai with write := some .write_regular, newarch := true,
                                basepath := E.path_force_extension ai.basepath } w true st
      | some .block =>
        create_open E { ai with write := some .write_blocks,
                                devblocksize := w.st_blksize ai.volpath } w false st
      | some .socket =>
        if w.socket_ok = false then (.pos1, { ai with write := some .write_flush, archfd := -1 }, w)
        else if w.connect_ok = false then
          (.pos1, { ai with write := some .write_flush, archfd := 3 }, w)
        else
          create_open E { ai with write := some .write_flush, archfd := 3 }
            (w.log (.ev_connect ai.volpath)) false st
      | some .chardev | some .tape | some .fifo =>
        create_open E { ai with write := some .write_flush } w false st
      | some .other => (.neg1, ai, w)

/-- Function `archwriter_close`.  With more than `devblocksize` bytes pending the
length `devblocksize-pending` handed to `memset` is negative, which is a crash. -/
def archwriter_close (ai : Writer) (w : World) : Ret × Writer × World :=
  if ai.archfd < 0 then (.neg1, ai, w)
  else if ai.cache.length ≠ 0 ∧ ai.devblocksize < ai.cache.length then (.crash, ai, w)
  else
    let pending := ai.cache.length
    let flush :=
      if pending ≠ 0 then
        sys_write w (ai.cache ++ List.replicate (ai.devblocksize - pending) 0)
      else (ai.devblocksize, w)
    if pending ≠ 0 ∧ flush.1 ≠ ai.devblocksize then (.neg1, ai, flush.2)
    else
      let w1 := flush.2.log .ev_fsync
      let w2 :=
        if ai.originaltapeblocksize ≠ -1 ∧ ai.originaltapeblocksize ≠ ai.devblocksize then
          w1.log (.ev_setblk ai.originaltapeblocksize.toNat)
        else w1
      (.success, { ai with archfd := -1, cache := [], cachesize := 0 }, w2.log .ev_close)

/-- Function `archwriter_get_currentpos`. -/
def archwriter_get_currentpos (ai : Writer) : Int := ai.currentpos

/-- Function `archwriter_precache`. -/
def archwriter_precache (E : Env) (ai : Writer) (size : Nat) : Ret × Writer :=
  if ai.cache.length + size ≤ ai.cachesize then (.success, ai)
  else if E.datablocksize = 0 ∨ ai.devblocksize = 0 then (.crash, ai)
  else
    let cachesize := (size / E.datablocksize + 1) * E.datablocksize
    let xmod := cachesize % ai.devblocksize
    let cachesize := cachesize + (if xmod = 0 then 0 else ai.devblocksize - xmod)
    (.success, { ai with cachesize := cachesize })

/-- Function `archwriter_write_blocks`. -/
def archwriter_write_blocks (E : Env) (ai : Writer) (w : World) (data : List Nat) :
    Ret × Writer × World :=
  let p := archwriter_precache E ai data.length
  if p.1 ≠ .success then (p.1.fail .neg1, p.2, w)
  else
    let ai1 := { p.2 with cache := p.2.cache ++ data,
                          currentpos := p.2.currentpos + data.length }
    let xsize := ai1.cache.length
    if ai1.devblocksize ≤ xsize then
      if ai1.devblocksize = 0 then (.crash, ai1, w)
      else
        let pending := xsize % ai1.devblocksize
        let xsize := xsize - pending
        let r := sys_write w (ai1.cache.take xsize)
        if r.1 ≠ xsize then (.neg1, ai1, r.2)
        else (.success, { ai1 with cache := ai1.cache.drop xsize }, r.2)
    else (.success, ai1, w)

/-- Function `archwriter_write_regular`. -/
def archwriter_write_regular (ai : Writer) (w : World) (data : List Nat) :
    Ret × Writer × World :=
  let r := sys_write w data
  if r.1 ≠ data.length then (.neg1, ai, r.2)
  else (.success, { ai with currentpos := ai.currentpos + data.length }, r.2)

/-- Function `archwriter_write_flush`. -/
def archwriter_write_flush (ai : Writer) (w : World) (data : List Nat) :
    Ret × Writer × World :=
  let r := sys_write w data
  if r.1 ≠ data.length then (.neg1, ai, r.2)
  else (.success, { ai with currentpos := ai.currentpos + data.length }, r.2.log .ev_fsync)

/-- Call through the pointer `ai->write` with `size` bytes of `data`. -/
def ai_write (E : Env) (ai : Writer) (w : World) (data : List Nat) : Ret × Writer × World :=
  match ai.write with
  | none => (.crash, ai, w)
  | some .write_regular => archwriter_write_regular ai w data
  | some .write_blocks => archwriter_write_blocks E ai w data
  | some .write_flush => archwriter_write_flush ai w data

/-- Function `archwriter_write_buffer`. -/
def archwriter_write_buffer (E : Env) (ai : Writer) (w : World) (wb : s_writebuf) :
    Ret × Writer × World :=
  if wb.size < 0 then (.neg1, ai, w)
  else if wb.size = 0 then (.success, ai, w)
  else ai_write E ai w (wb.data.take wb.size.toNat)

/-- Function `archwriter_volpath`. -/
def archwriter_volpath (E : Env) (ai : Writer) : Writer :=
  { ai with volpath := E.get_path_to_volume ai.basepath ai.curvol }

/-- Function `archwriter_incvolume`. -/
def archwriter_incvolume (E : Env) (ai : Writer) : Writer :=
  archwriter_volpath E { ai with curvol := ai.curvol + 1 }

/-- Modelled from the spec: `dico_add_u32` of `dico.c` (not under src/) adds a
4-byte little-endian attribute. -/
def dico_add_u32 (E : Env) (d : cdico) (sec key val : Nat) : cdico :=
  d ++ [{ type := E.DICTYPE_U32, section_ := sec, key := key, data := cpu_to_le 4 val }]

/-- Modelled from the spec: `dico_add_string` of `dico.c` (not under src/) adds
the bytes of a string as one attribute. -/
def dico_add_string (E : Env) (d : cdico) (sec key : Nat) (str : List Nat) : cdico :=
  d ++ [{ type := E.DICTYPE_DATA, section_ := sec, key := key, data := str }]

/-- The dictionary built by `archwriter_write_volheader`. -/
def volheader_dico (E : Env) (ai : Writer) : cdico :=
  dico_add_string E
    (dico_add_string E
      (dico_add_u32 E (dico_add_u32 E dico_alloc 0 E.VOLUMEHEADKEY_VOLNUM ai.curvol)
        0 E.VOLUMEHEADKEY_ARCHID ai.archid)
      0 E.VOLUMEHEADKEY_FILEFORMATVER FSA_FILEFORMAT)
    0 E.VOLUMEHEADKEY_PROGVERCREAT E.FSA_VERSION

/-- The dictionary built by `archwriter_write_volfooter`. -/
def volfooter_dico (E : Env) (ai : Writer) (lastvol : Bool) : cdico :=
  dico_add_u32 E
    (dico_add_u32 E (dico_add_u32 E dico_alloc 0 E.VOLUMEFOOTKEY_VOLNUM ai.curvol)
      0 E.VOLUMEFOOTKEY_ARCHID ai.archid)
    0 E.VOLUMEFOOTKEY_LASTVOL (if lastvol then 1 else 0)

/-- Function `archwriter_write_volheader`. -/
def archwriter_write_volheader (E : Env) (ai : Writer) (w : World) : Ret × Writer × World :=
  match E.writebuf_add_header (volheader_dico E ai) E.FSA_MAGIC_VOLH ai.archid
      E.FSA_FILESYSID_NULL with
  | none => (.neg1, ai, w)
  | some bytes =>
    let r := archwriter_write_buffer E ai w { data := bytes, size := bytes.length }
    if r.1 ≠ .success then (r.1.fail .neg1, r.2) else (.success, r.2)

/-- Function `archwriter_write_volfooter`. -/
def archwriter_write_volfooter (E : Env) (ai : Writer) (w : World) (lastvol : Bool) :
    Ret × Writer × World :=
  match E.writebuf_add_header (volfooter_dico E ai lastvol) E.FSA_MAGIC_VOLF ai.archid
      E.FSA_FILESYSID_NULL with
  | none => (.neg1, ai, w)
  | some bytes =>
    let r := archwriter_write_buffer E ai w { data := bytes, size := bytes.length }
    if r.1 ≠ .success then (r.1.fail .neg1, r.2) else (.success, r.2)

/-- Function `archwriter_split_check`. -/
def archwriter_split_check (E : Env) (ai : Writer) (wb : s_writebuf) : Bool :=
  let cursize := archwriter_get_currentpos ai
  if 0 ≤ cursize ∧ (0 < E.splitsize ∧ E.splitsize < cursize + wb.size) then true else false

/-- Function `archwriter_split_if_necessary`.  The return value of
`archwriter_close` is not looked at; only a crash inside it ends the call. -/
def archwriter_split_if_necessary (E : Env) (ai : Writer) (w : World) (wb : s_writebuf) :
    Ret × Writer × World :=
  if archwriter_split_check E ai wb = true then
    let f := archwriter_write_volfooter E ai w false
    if f.1 ≠ .success then (f.1.fail .neg1, f.2)
    else
      let c := archwriter_close f.2.1 f.2.2
      if c.1 = .crash then (.crash, c.2)
      else
        let ai2 := archwriter_incvolume E c.2.1
        let n := archwriter_create E ai2 c.2.2
        if n.1 ≠ .success then (n.1.fail .neg1, n.2)
        else
          let h := archwriter_write_volheader E n.2.1 n.2.2
          if h.1 ≠ .success then (h.1.fail .neg1, h.2) else (.success, h.2)
  else (.success, ai, w)

/-- The scalar fields of a block as handed to `writebuf_add_block`. -/
def blkinfo_scalars (b : s_blockinfo) : List Nat :=
  [b.blkrealsize, b.blkoffset, b.blkarcsum, b.blkcompalgo, b.blkcryptalgo, b.blkarsize,
    b.blkcompsize]

/-- Function `archwriter_dowrite_block`. -/
def archwriter_dowrite_block (E : Env) (ai : Writer) (w : World) (blkinfo : s_blockinfo) :
    Ret × Writer × World :=
  match E.writebuf_add_block blkinfo.blkdata (blkinfo_scalars blkinfo) ai.archid
      blkinfo.blkfsid with
  | none => (.neg1, ai, w)
  | some bytes =>
    let wb : s_writebuf := { data := bytes, size := bytes.length }
    let s := archwriter_split_if_necessary E ai w wb
    if s.1 ≠ .success then (s.1.fail .neg1, s.2)
    else
      let r := archwriter_write_buffer E s.2.1 s.2.2 wb
      if r.1 ≠ .success then (r.1.fail .neg1, r.2) else (.success, r.2)

/-- Function `archwriter_dowrite_header`. -/
def archwriter_dowrite_header (E : Env) (ai : Writer) (w : World) (headinfo : s_headinfo) :
    Ret × Writer × World :=
  match E.writebuf_add_header headinfo.dico headinfo.magic ai.archid headinfo.fsid with
  | none => (.neg1, ai, w)
  | some bytes =>
    let wb : s_writebuf := { data := bytes, size := bytes.length }
    let s := archwriter_split_if_necessary E ai w wb
    if s.1 ≠ .success then (s.1.fail .neg1, s.2)
    else
      let r := archwriter_write_buffer E s.2.1 s.2.2 wb
      if r.1 ≠ .success then (r.1.fail .neg1, r.2) else (.success, r.2)

/-! ## Views of a reader state used in the statements -/

/-- The bytes a reader will hand out next: the unconsumed part of the cache
followed by what the descriptor still holds. -/
def Reader.pending (ai : Reader) : List Nat := ai.cache.drop ai.cacheread ++ ai.input

/-- The bytes of the cache that were already handed out, `[cache, cacheread)`. -/
def Reader.consumed (ai : Reader) : List Nat := ai.cache.take ai.cacheread

/-- The fields of a reader that the cache operations do not touch. -/
def Reader.conf (ai : Reader) :
    ReadFn × SkipFn × Nat × Nat × Nat × List Nat × List Nat × Nat :=
  (ai.read, ai.skip, ai.archid, ai.curvol, ai.filefmtver, ai.filefmt, ai.creatver,
    ai.devblocksize)

/-- A reader on a byte-granular transport (regular file, or a polled descriptor
with the abort flag clear) whose read pointer lies inside the cached bytes and
whose block sizes are positive. -/
def Reader.granular (E : Env) (ai : Reader) : Prop :=
  ai.cacheread ≤ ai.cache.length ∧ 0 < E.datablocksize ∧ 0 < ai.devblocksize ∧
    (ai.read = .read_regular ∨ (ai.read = .read_select ∧ E.abort = false))

instance (E : Env) (ai : Reader) : Decidable (ai.granular E) := by
  unfold Reader.granular; exact inferInstance

/-! ## Frame codec: the encoding of section 4.3 of the specification -/

/-- Encoding of one attribute following the specification: type `u8`, section
`u8`, key `u16` LE, size `u16` LE, then the value bytes. -/
def spec_encode_item (it : DicoItem) : List Nat :=
  [it.type % 256, it.section_ % 256] ++ cpu_to_le 2 it.key ++ cpu_to_le 2 it.data.length ++
    it.data

/-- Encoding of `header-bytes` following the specification: count `u16` LE, then
the attributes in order. -/
def spec_encode_header_bytes (attrs : List DicoItem) : List Nat :=
  cpu_to_le 2 attrs.length ++ (attrs.map spec_encode_item).flatten

/-- Encoding of a dictionary following the specification: `header-length` (`u16`
LE in version 1, `u32` LE in version 2), `header-bytes`, then the Fletcher-32 of
`header-bytes` as `u32` LE. -/
def spec_encode_dico (E : Env) (ver : Nat) (attrs : List DicoItem) : List Nat :=
  cpu_to_le (if ver = 1 then 2 else 4) (spec_encode_header_bytes attrs).length ++
    spec_encode_header_bytes attrs ++ cpu_to_le 4 (E.sum32 (spec_encode_header_bytes attrs))

/-- An attribute whose fields fit their wire types. -/
def DicoItem.fits (it : DicoItem) : Prop :=
  it.type < 256 ∧ it.section_ < 256 ∧ it.key < 65536 ∧ it.data.length ≤ 65535

instance (it : DicoItem) : Decidable it.fits := by
  unfold DicoItem.fits; exact inferInstance

/-! ## Block-header dictionaries -/

/-- The values of the seven block attributes. -/
structure BlockAttrs where
  offset : Nat
  realsize : Nat
  compalgo : Nat
  cryptalgo : Nat
  arsize : Nat
  compsize : Nat
  arcsum : Nat
  deriving DecidableEq, Repr

/-- A block-header dictionary that carries all seven block attributes, with the
values `b`. -/
def carries (E : Env) (d : cdico) (b : BlockAttrs) : Prop :=
  dico_get_u64 d 0 E.BLOCKHEADITEMKEY_BLOCKOFFSET = some b.offset ∧
  dico_get_u32 d 0 E.BLOCKHEADITEMKEY_REALSIZE = some b.realsize ∧
  dico_get_u16 d 0 E.BLOCKHEADITEMKEY_COMPRESSALGO = some b.compalgo ∧
  dico_get_u16 d 0 E.BLOCKHEADITEMKEY_ENCRYPTALGO = some b.cryptalgo ∧
  dico_get_u32 d 0 E.BLOCKHEADITEMKEY_ARSIZE = some b.arsize ∧
  dico_get_u32 d 0 E.BLOCKHEADITEMKEY_COMPSIZE = some b.compsize ∧
  dico_get_u32 d 0 E.BLOCKHEADITEMKEY_ARCSUM = some b.arcsum

instance (E : Env) (d : cdico) (b : BlockAttrs) : Decidable (carries E d b) := by
  unfold carries; exact inferInstance

/-- The block information returned for a block with attributes `b` and payload
buffer `data`. -/
def blkinfo_of (b : BlockAttrs) (data : List Nat) : s_blockinfo :=
  { blkdata := some data, blkrealsize := b.realsize, blkoffset := b.offset,
    blkarcsum := b.arcsum, blkcompalgo := b.compalgo, blkcryptalgo := b.cryptalgo,
    blkarsize := b.arsize, blkcompsize := b.compsize, blkfsid := 0 }

/-- Width in bytes of the `header-length` field for the reader's format
version: 2 in version 1, 4 otherwise. -/
def lenwidth (ai : Reader) : Nat := if ai.filefmtver = 1 then 2 else 4

/-! ## Positions of magics in a byte stream -/

/-- The 4-byte window at offset `q` of `s` is a valid magic. -/
def magic_at (E : Env) (s : List Nat) (q : Nat) : Bool :=
  E.is_magic_valid ((s.drop q).take FSA_SIZEOF_MAGIC)

/-- Offset `p` is the smallest offset of `s` at which a whole 4-byte window is a
valid magic. -/
def first_magic (E : Env) (s : List Nat) (p : Nat) : Prop :=
  p + 4 ≤ s.length ∧ magic_at E s p = true ∧ ∀ q, q < p → magic_at E s q = false

instance (E : Env) (s : List Nat) (p : Nat) : Decidable (first_magic E s p) := by
  unfold first_magic; exact inferInstance

/-- The scan window that tests offset `p` lies inside a stream of `n` bytes:
offset 0 is tested by the first window (4 bytes); an offset `p ≥ 1` is tested by
the `j`-th later window, which starts at `1 + j * (H - 3)` and is `H` bytes long. -/
def window_inside (H n p j : Nat) : Prop :=
  (p = 0 ∧ 4 ≤ n) ∨
    (1 + j * (H - 3) ≤ p ∧ p + 4 ≤ 1 + j * (H - 3) + H ∧ 1 + j * (H - 3) + H ≤ n)

instance (H n p j : Nat) : Decidable (window_inside H n p j) := by
  unfold window_inside; exact inferInstance

/-! ## Records -/

/-- A header record: magic, archive id, filesystem id and attributes. -/
structure Record where
  magic : List Nat
  archid : Nat
  fsid : Nat
  attrs : List DicoItem
  deriving DecidableEq, Repr

/-- Encoding of a header record following section 4.3 of the specification. -/
def spec_encode_record (E : Env) (ver : Nat) (r : Record) : List Nat :=
  r.magic ++ (cpu_to_le 4 r.archid ++ (cpu_to_le 2 r.fsid ++ spec_encode_dico E ver r.attrs))

/-- A record whose fields fit their wire types in format version `ver`. -/
def Record.fits (ver : Nat) (r : Record) : Prop :=
  r.magic.length = 4 ∧ r.archid < 256 ^ 4 ∧ r.fsid < 256 ^ 2 ∧ r.attrs.length ≤ 65535 ∧
    (∀ a ∈ r.attrs, a.fits) ∧
    (spec_encode_header_bytes r.attrs).length < 256 ^ (if ver = 1 then 2 else 4)

instance (ver : Nat) (r : Record) : Decidable (r.fits ver) := by
  unfold Record.fits; exact inferInstance

/-- What `archreader_read_header` returns for a record that decodes. -/
def header_of (r : Record) : HeaderOut :=
  { ret := .success, magic := r.magic, d := some r.attrs, fsid := r.fsid }

/-! ## Volume split: the sequence of the specification -/

/-- The split sequence following the words of the specification: emit a footer
with `lastvol = false`, close the current volume, advance the volume number and
compute the next path, create the next volume, emit a volume header, then emit
the record of the caller. -/
def spec_split_write (E : Env) (ai : Writer) (w : World) (wb : s_writebuf) :
    Ret × Writer × World :=
  let foot := archwriter_write_volfooter E ai w false
  let closed := archwriter_close foot.2.1 foot.2.2
  let next := archwriter_incvolume E closed.2.1
  let created := archwriter_create E next closed.2.2
  let head := archwriter_write_volheader E created.2.1 created.2.2
  archwriter_write_buffer E head.2.1 head.2.2 wb

/-- Every step of the split sequence returns 0. -/
def split_steps_succeed (E : Env) (ai : Writer) (w : World) (wb : s_writebuf) : Prop :=
  let foot := archwriter_write_volfooter E ai w false
  let closed := archwriter_close foot.2.1 foot.2.2
  let next := archwriter_incvolume E closed.2.1
  let created := archwriter_create E next closed.2.2
  let head := archwriter_write_volheader E created.2.1 created.2.2
  foot.1 = .success ∧ closed.1 = .success ∧ created.1 = .success ∧ head.1 = .success ∧
    (archwriter_write_buffer E head.2.1 head.2.2 wb).1 = .success

instance (E : Env) (ai : Writer) (w : World) (wb : s_writebuf) :
    Decidable (split_steps_succeed E ai w wb) := by
  unfold split_steps_succeed; exact inferInstance

/-- The record buffer built from encoded bytes. -/
def writebuf_of (bytes : List Nat) : s_writebuf := { data := bytes, size := bytes.length }

/-! ## Streams of records -/

/-- A record of the stream: a header record, and for a block record its payload;
`battrs` are the block attributes (used only when there is a payload). -/
structure StreamRecord where
  head : Record
  payload : Option (List Nat)
  battrs : BlockAttrs
  deriving DecidableEq, Repr

/-- Encoding of a stream record: the header record, then the payload verbatim. -/
def spec_encode_stream_record (E : Env) (ver : Nat) (r : StreamRecord) : List Nat :=
  spec_encode_record E ver r.head ++ r.payload.getD []

/-- Encoding of a sequence of stream records. -/
def spec_encode_stream (E : Env) (ver : Nat) (rs : List StreamRecord) : List Nat :=
  (rs.map (spec_encode_stream_record E ver)).flatten

/-- A well-formed record for a reader with format version `ver` and session
archive id `archid`: valid magic, fields that fit, an accepted archive id, and for
a block record a header dictionary that carries the block attributes, with ARSIZE
the size of the payload and ARCSUM its Fletcher-32. -/
def StreamRecord.wellformed (E : Env) (ver archid : Nat) (r : StreamRecord) : Prop :=
  E.is_magic_valid r.head.magic = true ∧ r.head.fits ver ∧
    (archid = 0 ∨ r.head.archid = archid) ∧
    (r.payload.isSome = true →
      carries E r.head.attrs r.battrs ∧ r.battrs.realsize ≤ E.FSA_MAX_BLKSIZE ∧
        r.battrs.arsize = (r.payload.getD []).length ∧
        E.sum32 (r.payload.getD []) = r.battrs.arcsum)

instance (E : Env) (ver archid : Nat) (r : StreamRecord) :
    Decidable (r.wellformed E ver archid) := by
  unfold StreamRecord.wellformed; exact inferInstance

/-- The calls of a consumer that reads a sequence of records: one
`archreader_read_header` (with `readvol = false`) per record, followed by one
`archreader_read_block` on the returned dictionary when the record is a block
record (`true` in `kinds`).  The result is the list of returned headers and the
final reader, `none` when a call runs out of fuel. -/
def read_sequence (E : Env) (fuel : Nat) : List Bool → Reader → Option (List HeaderOut × Reader)
  | [], ai => some ([], ai)
  | isblk :: kinds, ai =>
    match archreader_read_header E fuel ai false with
    | none => none
    | some (out, a1) =>
      match read_sequence E fuel kinds
          (if isblk then (archreader_read_block E a1 (out.d.getD []) false).2.2.2 else a1) with
      | none => none
      | some (outs, a3) => some (out :: outs, a3)

/-! ## Sample environment for concrete evaluations -/

/-- A Fletcher checksum with two 16-bit sums, used where a concrete checksum
function is needed; the theorems hold for every checksum function. -/
def fletcher_sums : List Nat → Nat × Nat → Nat × Nat
  | [], s => s
  | b :: bs, s => fletcher_sums bs ((s.1 + b) % 65535, (s.2 + (s.1 + b) % 65535) % 65535)

def fletcher32_sample (buf : List Nat) : Nat :=
  (fletcher_sums buf (0, 0)).1 + 65536 * (fletcher_sums buf (0, 0)).2

/-- A sample set of magic tags: `FsA0`, `FsAE`, `ArCh`, `BlKh`. -/
def sample_magics : List (List Nat) :=
  [[70, 115, 65, 48], [70, 115, 65, 69], [65, 114, 67, 104], [66, 108, 75, 104]]

/-- A sample environment: 64-byte scan window, 256 KiB data blocks, no split. -/
def sampleEnv : Env :=
  { FSA_CACHE_HEADER := 64, FSA_MAX_BLKSIZE := 921600, FSA_FILESYSID_NULL := 65535,
    FSA_TAPE_BLOCK := 512, FSA_MAX_FILEFMTLEN := 32, FSA_MAX_PROGVERLEN := 32,
    datablocksize := 262144, splitsize := 0, overwrite := false,
    abort := false, is_magic_valid := fun m => decide (m ∈ sample_magics),
    fletcher32 := fletcher32_sample,
    BLOCKHEADITEMKEY_BLOCKOFFSET := 2, BLOCKHEADITEMKEY_REALSIZE := 1,
    BLOCKHEADITEMKEY_COMPRESSALGO := 3, BLOCKHEADITEMKEY_ENCRYPTALGO := 4,
    BLOCKHEADITEMKEY_ARSIZE := 5, BLOCKHEADITEMKEY_COMPSIZE := 6,
    BLOCKHEADITEMKEY_ARCSUM := 7,
    VOLUMEHEADKEY_VOLNUM := 1, VOLUMEHEADKEY_ARCHID := 2, VOLUMEHEADKEY_FILEFORMATVER := 3,
    VOLUMEHEADKEY_PROGVERCREAT := 4, VOLUMEFOOTKEY_VOLNUM := 1, VOLUMEFOOTKEY_ARCHID := 2,
    VOLUMEFOOTKEY_LASTVOL := 3,
    FSA_MAGIC_VOLH := [70, 115, 65, 48], FSA_MAGIC_VOLF := [70, 115, 65, 69],
    FSA_VERSION := [48, 46, 54], DICTYPE_U32 := 3, DICTYPE_DATA := 6,
    get_path_to_volume := fun base vol => if vol = 0 then base else base ++ toString vol,
    path_force_extension := fun path => path,
    writebuf_add_header := fun d magic archid fsid =>
      some (magic ++ cpu_to_le 4 archid ++ cpu_to_le 2 fsid ++ cpu_to_le 2 d.length),
    writebuf_add_block := fun data scal archid fsid =>
      some ([66, 108, 75, 104] ++ cpu_to_le 4 archid ++ cpu_to_le 2 fsid ++
        cpu_to_le 2 scal.length ++ data.getD []) }

/-- A reader on a regular file holding `input`, format version `ver`, 512-byte
device blocks, empty cache. -/
def sampleReader (ver : Nat) (input : List Nat) : Reader :=
  { archreader_init input with filefmtver := ver, devblocksize := 512 }

/-- A value of 65535 zero bytes. -/
def big_value : List Nat := List.replicate 65535 0

/-- An attribute with an all-zero value of 65535 bytes. -/
def big_attr : DicoItem :=
  { type := 0, section_ := 0, key := 0, data := big_value }

/-- The payload `hello`. -/
def hello : List Nat := [104, 101, 108, 108, 111]

/-- Attributes of a sample block whose payload is `hello`. -/
def sample_attrs : BlockAttrs :=
  { offset := 4096, realsize := 5, compalgo := 0, cryptalgo := 0, arsize := 5, compsize := 5,
    arcsum := 103219732 }

/-- The block-header dictionary of the sample block. -/
def sample_blkdico : cdico :=
  [{ type := 4, section_ := 0, key := 2, data := [0, 16, 0, 0, 0, 0, 0, 0] },
   { type := 3, section_ := 0, key := 1, data := [5, 0, 0, 0] },
   { type := 2, section_ := 0, key := 3, data := [0, 0] },
   { type := 2, section_ := 0, key := 4, data := [0, 0] },
   { type := 3, section_ := 0, key := 5, data := [5, 0, 0, 0] },
   { type := 3, section_ := 0, key := 6, data := [5, 0, 0, 0] },
   { type := 3, section_ := 0, key := 7, data := [20, 2, 39, 6] }]

/-- The sample reader after `n` bytes of `input` were read into an empty cache. -/
def sampleReaderAfter (ver n : Nat) (input : List Nat) : Reader :=
  { sampleReader ver (input.drop n) with
    cache := input.take n, cacheread := n, cachesize := 262144 }

/-- An empty volume-footer-like record of the sample environment: magic `FsAE`,
archive id 0, filesystem id 65535, an empty dictionary in format version 2. -/
def sample_record : Record :=
  { magic := [70, 115, 65, 69], archid := 0, fsid := 65535, attrs := [] }

/-- One stray byte followed by the 20 bytes of `sample_record`. -/
def short_stream : List Nat := 0 :: spec_encode_record sampleEnv 2 sample_record

/-- A stream of 126 bytes whose only magic starts at offset 62, so that its first
two bytes are the last two bytes of the first 64 bytes. -/
def boundary_stream : List Nat :=
  List.replicate 62 0 ++ [70, 115, 65, 48] ++ List.replicate 60 0

/-- A stream of 128 bytes.  Bytes 0..63: the valid magic `FsAE` followed by
zeros, which the format-version probe rejects.  Bytes 64..127: the valid magic
`FsA0`, then `9 9 9 9`, an archive id and filesystem id of zero, a frame of
length 2 with an empty dictionary and its checksum, and `FsArCh_002` at offset 42
from the magic, which the probe accepts. -/
def stale_stream : List Nat :=
  [70, 115, 65, 69] ++ List.replicate 60 0 ++
    ([70, 115, 65, 48] ++ [9, 9, 9, 9] ++ [0, 0, 0, 0] ++ [0, 0] ++ [2, 0, 0, 0] ++ [0, 0] ++
      [0, 0, 0, 0] ++ List.replicate 18 0 ++ FSA_FILEFORMAT_002 ++ List.replicate 12 0)

/-- The sample environment with a volume size limit of 40 bytes. -/
def splitEnv : Env := { sampleEnv with splitsize := 40 }

/-- A world in which no path exists yet, every call succeeds and nothing has
happened. -/
def sampleWorld : World :=
  { stat := fun _ => none, st_blksize := fun _ => 512, open_ok := fun _ => true,
    socket_ok := true, connect_ok := true, mt_blksize := none, setblk_ok := true,
    accept := [], trace := [] }

/-- A writer on the open regular-file volume 0 of `backup` that holds 30 bytes. -/
def sampleWriter : Writer :=
  { archwriter_init "backup" "backup" with
    archfd := 3, archid := 7, currentpos := 30, write := some .write_regular, newarch := true,
    vollist := ["backup"] }

/-- A header whose encoding in the sample environment has 12 bytes. -/
def sample_headinfo : s_headinfo :=
  { magic := [65, 114, 67, 104], fsid := 1, dico := [] }

/-- A block with payload `hello`, whose encoding in the sample environment has 17
bytes. -/
def sample_blkinfo : s_blockinfo := { blkinfo_of sample_attrs hello with blkfsid := 1 }

/-- Three well-formed records of the sample environment: a main header, a block
record with payload `hello`, and an empty footer-like record. -/
def sample_records : List StreamRecord :=
  [{ head := { magic := [65, 114, 67, 104], archid := 7, fsid := 1, attrs := [] },
     payload := none, battrs := sample_attrs },
   { head := { magic := [66, 108, 75, 104], archid := 7, fsid := 1, attrs := sample_blkdico },
     payload := some hello, battrs := sample_attrs },
   { head := sample_record, payload := none, battrs := sample_attrs }]

/-- The bytes that follow the header of a block record whose payload `hello` was
altered to `payload`: the altered payload, the three sample records, 64 zero bytes. -/
def corrupt_stream (payload : List Nat) : List Nat :=
  payload ++ (spec_encode_stream sampleEnv 2 sample_records ++ List.replicate 64 0)

/-! ## The cache predicate and sequences of calls -/

/-- The lookahead-cache predicate `cache <= cacheread <= cachewrite <=
cache + cachesize`. -/
def Reader.cache_ok (ai : Reader) : Prop :=
  ai.cacheread ≤ ai.cache.length ∧ ai.cache.length ≤ ai.cachesize

instance (ai : Reader) : Decidable ai.cache_ok := by
  unfold Reader.cache_ok; exact inferInstance

/-- A caller that issues `archreader_read_data` for each size of `ns` in turn and
stops at the first call that fails.  The result is the code of the last call, the
byte blocks handed out, and the reader. -/
def read_data_seq (E : Env) : Reader → List Nat → Ret × List (List Nat) × Reader
  | ai, [] => (.success, [], ai)
  | ai, n :: ns =>
    if (archreader_read_data E ai n).1 ≠ .success then
      ((archreader_read_data E ai n).1, [], (archreader_read_data E ai n).2.2)
    else
      ((read_data_seq E (archreader_read_data E ai n).2.2 ns).1,
        (archreader_read_data E ai n).2.1 ::
          (read_data_seq E (archreader_read_data E ai n).2.2 ns).2.1,
        (read_data_seq E (archreader_read_data E ai n).2.2 ns).2.2)

/-- A caller that hands each buffer of `Ds` to `archwriter_write_blocks` in turn
and stops at the first call that fails. -/
def write_blocks_seq (E : Env) : Writer → World → List (List Nat) → Ret × Writer × World
  | ai, w, [] => (.success, ai, w)
  | ai, w, D :: Ds =>
    if (archwriter_write_blocks E ai w D).1 ≠ .success then archwriter_write_blocks E ai w D
    else write_blocks_seq E (archwriter_write_blocks E ai w D).2.1
      (archwriter_write_blocks E ai w D).2.2 Ds

/-- The calls of `write_blocks_seq` followed by `archwriter_close`. -/
def blocks_session (E : Env) (ai : Writer) (w : World) (Ds : List (List Nat)) :
    Ret × Writer × World :=
  if (write_blocks_seq E ai w Ds).1 ≠ .success then write_blocks_seq E ai w Ds
  else archwriter_close (write_blocks_seq E ai w Ds).2.1 (write_blocks_seq E ai w Ds).2.2

/-- The byte strings of the `write` calls of a trace, in order. -/
def writes : List Event → List (List Nat)
  | [] => []
  | .ev_write b :: es => b :: writes es
  | _ :: es => writes es

/-- The sample environment with data blocks of 8 bytes. -/
def tinyEnv : Env := { sampleEnv with datablocksize := 8 }

/-- A reader on a regular file holding `input`, format version 2, 4-byte device
blocks, in the state `archreader_init` leaves the cache in. -/
def tinyReader (input : List Nat) : Reader :=
  { archreader_init input with filefmtver := 2, devblocksize := 4 }

/-- A block-device writer with 4-byte device blocks, as `archwriter_create` leaves
it: open descriptor, no cache buffer yet. -/
def tinyWriter : Writer :=
  { archwriter_init "dev" "dev" with
    archfd := 3, write := some .write_blocks, devblocksize := 4, vollist := ["dev"] }

/-- A volume header of the sample environment as a byte stream: magic `FsA0`,
the archive id `recid` in the frame, the dictionary that
`archwriter_write_volheader` builds for volume 0 of archive 7, then 8 zero bytes.
The format identifier `FsArCh_002` starts at offset 42. -/
def volhead_stream (recid : Nat) : List Nat :=
  spec_encode_record sampleEnv 2
    { magic := [70, 115, 65, 48], archid := recid, fsid := 65535,
      attrs := volheader_dico sampleEnv sampleWriter } ++ List.replicate 8 0

/-- A reader with no session archive id yet, on a stream that starts with the
volume header of archive 7. -/
def volReader : Reader := sampleReader 0 (volhead_stream 7)

/-- A reader whose session archive id is 9, on a stream that starts with a volume
header framed with archive id 9 whose ARCHID attribute is 7. -/
def volReader9 : Reader := { sampleReader 0 (volhead_stream 9) with archid := 9 }

/-- Conditions under which `ai->skip(n)` reaches its end: the read pointer lies
inside the cached bytes, and either the `n` bytes are cached, or the transport
can be advanced: always on a regular file (`lseek64`); on a select-based
transport with the abort flag clear, an allocated cache and `n` bytes ahead; on a
block or tape transport with the abort flag clear, an allocated cache whose size
is a multiple of `devblocksize > 0`, and a device that delivers the bytes missing
in the cache rounded up to whole blocks. -/
def Reader.can_skip (E : Env) (ai : Reader) (n : Nat) : Prop :=
  ai.cacheread ≤ ai.cache.length ∧
    (n ≤ ai.cache.length - ai.cacheread ∨
      ai.skip = .skip_regular ∨
      (ai.skip = .skip_select ∧ E.abort = false ∧ 0 < ai.cachesize ∧ n ≤ ai.pending.length) ∨
      ((ai.skip = .skip_blocks ∨ ai.skip = .skip_st) ∧
        E.abort = false ∧ 0 < ai.cachesize ∧ 0 < ai.devblocksize ∧
          ai.devblocksize ∣ ai.cachesize ∧
          (n - (ai.cache.length - ai.cacheread)) +
              (ai.devblocksize - (n - (ai.cache.length - ai.cacheread)) % ai.devblocksize)
                % ai.devblocksize ≤ ai.input.length))

instance (E : Env) (ai : Reader) (n : Nat) : Decidable (ai.can_skip E n) := by
  unfold Reader.can_skip; exact inferInstance

/-- A reader on a block device with 4-byte blocks, a cache buffer of 12 bytes
holding `cache` (nothing consumed yet), and `input` still on the device. -/
def blockReader (cache input : List Nat) : Reader :=
  { archreader_init input with
    read := .read_blocks, skip := .skip_blocks, filefmtver := 2, devblocksize := 4,
    cache := cache, cachesize := 12 }

/-- A reader on a pipe (select-based transport) with a cache buffer of 8 bytes
holding nothing, and `input` still in the pipe. -/
def pipeReader (input : List Nat) : Reader :=
  { archreader_init input with
    read := .read_select, skip := .skip_select, filefmtver := 2, devblocksize := 4,
    cachesize := 8 }

/-! ## Sequences of records and the volumes they produce -/

/-- A record handed to the writer engine. -/
inductive WriteOp where
  | header (h : s_headinfo)
  | block (b : s_blockinfo)
  deriving DecidableEq, Repr

/-- The call of `archwriter_dowrite_header` or `archwriter_dowrite_block` for a
record. -/
def dowrite (E : Env) (ai : Writer) (w : World) : WriteOp → Ret × Writer × World
  | .header h => archwriter_dowrite_header E ai w h
  | .block b => archwriter_dowrite_block E ai w b

/-- The bytes that `writebuf_add_header` or `writebuf_add_block` serializes for a
record on a writer with archive id `archid`. -/
def WriteOp.encode (E : Env) (archid : Nat) : WriteOp → Option (List Nat)
  | .header h => E.writebuf_add_header h.dico h.magic archid h.fsid
  | .block b => E.writebuf_add_block b.blkdata (blkinfo_scalars b) archid b.blkfsid

/-- A caller that writes the records of `ops` in turn and stops at the first
call that fails. -/
def dowrite_all (E : Env) : Writer → World → List WriteOp → Ret × Writer × World
  | ai, w, [] => (.success, ai, w)
  | ai, w, op :: ops =>
    if (dowrite E ai w op).1 ≠ .success then dowrite E ai w op
    else dowrite_all E (dowrite E ai w op).2.1 (dowrite E ai w op).2.2 ops

/-- Byte lengths of the volumes that a sequence of system calls closes, when the
volume open at the start already holds `acc` bytes: the bytes of the `write`
calls up to each `close`. -/
def closed_volume_sizes : List Event → Nat → List Nat
  | [], _ => []
  | .ev_write b :: es, acc => closed_volume_sizes es (acc + b.length)
  | .ev_close :: es, acc => acc :: closed_volume_sizes es 0
  | .ev_open _ _ :: es, acc => closed_volume_sizes es acc
  | .ev_connect _ :: es, acc => closed_volume_sizes es acc
  | .ev_fsync :: es, acc => closed_volume_sizes es acc
  | .ev_setblk _ :: es, acc => closed_volume_sizes es acc

/-- Bytes held by the volume that is open after a sequence of system calls. -/
def open_volume_size : List Event → Nat → Nat
  | [], acc => acc
  | .ev_write b :: es, acc => open_volume_size es (acc + b.length)
  | .ev_close :: es, _ => open_volume_size es 0
  | .ev_open _ _ :: es, acc => open_volume_size es acc
  | .ev_connect _ :: es, acc => open_volume_size es acc
  | .ev_fsync :: es, acc => open_volume_size es acc
  | .ev_setblk _ :: es, acc => open_volume_size es acc

/-- A writer on an open volume whose writes go straight to the descriptor (the
regular or the flush variant), with no cache buffer. -/
def Writer.bytewise (ai : Writer) : Prop :=
  0 ≤ ai.archfd ∧ ai.cache = [] ∧
    (ai.write = some .write_regular ∨ ai.write = some .write_flush)

instance (ai : Writer) : Decidable ai.bytewise := by
  unfold Writer.bytewise; exact inferInstance

/-- What a writer call `r` made on world `w` leaves behind, when the open volume
held `acc` bytes before the call: the system calls of `r` extend the trace of `w`,
every volume they close has at most `bound` bytes, and when `r` returns 0 the
writer is still of the regular or flush variant, the bytes in the open volume are
at most `currentpos`, and `currentpos + extra` is at most `limit`. -/
def volumes_bounded (w : World) (acc : Nat) (bound limit extra : Int)
    (r : Ret × Writer × World) : Prop :=
  ∃ evs, r.2.2.trace = w.trace ++ evs ∧ r.2.2.stat = w.stat ∧
    (∀ n ∈ closed_volume_sizes evs acc, (n : Int) ≤ bound) ∧
    (r.1 = .success →
      r.2.1.bytewise ∧ (open_volume_size evs acc : Int) ≤ r.2.1.currentpos ∧
        r.2.1.currentpos + extra ≤ limit)

/-- The sample environment with a volume size limit of 5 bytes, less than the 12
bytes of a volume header. -/
def tightEnv : Env := { sampleEnv with splitsize := 5 }

/-- The sample writer on volume 0 that holds only its volume header of 12 bytes. -/
def freshWriter : Writer := { sampleWriter with currentpos := 12 }

/-- Three records: a header of 12 bytes, a block of 17 bytes, a header of 12
bytes. -/
def sample_ops : List WriteOp :=
  [.header sample_headinfo, .block sample_blkinfo, .header sample_headinfo]

/-- Three header records of 12 bytes each. -/
def three_headers : List WriteOp :=
  [.header sample_headinfo, .header sample_headinfo, .header sample_headinfo]

/-! ## Cache growth policy of the specification -/

/-- Smallest multiple of `m` that is at least `x`, for `m > 0`. -/
def round_up (m x : Nat) : Nat := (x + m - 1) / m * m

/-- Capacity following the words of the specification: the smallest multiple of
`datablocksize` that covers the need, rounded up to a multiple of
`devblocksize`. -/
def spec_capacity (datablocksize devblocksize need : Nat) : Nat :=
  round_up devblocksize (round_up datablocksize need)

/-- A reader on a regular file holding `input`, format version 2, 4-byte device
blocks, whose cache buffer of `cachesize` bytes holds `cache`, nothing of it
consumed. -/
def cachedReader (cache : List Nat) (cachesize : Nat) (input : List Nat) : Reader :=
  { tinyReader input with cache := cache, cachesize := cachesize }

/-- A record with archive id `0xC0FFEE` (magic `ArCh`, filesystem id 1, empty
dictionary, format version 2), then a record with archive id `0xDEADBEEF` and
filesystem id 2, then 64 zero bytes. -/
def foreign_stream : List Nat :=
  spec_encode_record sampleEnv 2
      { magic := [65, 114, 67, 104], archid := 12648430, fsid := 1, attrs := [] } ++
    (spec_encode_record sampleEnv 2
      { magic := [65, 114, 67, 104], archid := 3735928559, fsid := 2, attrs := [] } ++
      List.replicate 64 0)

/-- The sample reader of format version 2 in a session whose archive id is
`0xDEADBEEF`. -/
def sessionReader (input : List Nat) : Reader :=
  { sampleReader 2 input with archid := 3735928559 }

/-- A caller that hands each buffer of `Ds` to `archwriter_write_buffer` in turn
and stops at the first call that fails. -/
def write_buffer_seq (E : Env) : Writer → World → List (List Nat) → Ret × Writer × World
  | ai, w, [] => (.success, ai, w)
  | ai, w, D :: Ds =>
    if (archwriter_write_buffer E ai w (writebuf_of D)).1 ≠ .success then
      archwriter_write_buffer E ai w (writebuf_of D)
    else write_buffer_seq E (archwriter_write_buffer E ai w (writebuf_of D)).2.1
      (archwriter_write_buffer E ai w (writebuf_of D)).2.2 Ds

/-! ## Volumes of a writer session -/

/-- A record framed with archive id `archid`: bytes that `writebuf_add_header` or
`writebuf_add_block` returns when it is handed that archive id. -/
def framed (E : Env) (archid : Nat) (bytes : List Nat) : Prop :=
  (∃ d magic fsid, E.writebuf_add_header d magic archid fsid = some bytes) ∨
    (∃ data scal fsid, E.writebuf_add_block data scal archid fsid = some bytes)

/-- The volume header of volume `volnum` of archive `archid` following the
specification: a header record with the volume-header magic, the archive id, the
null filesystem id, and the attributes VOLNUM, ARCHID, FILEFORMATVER and
PROGVERCREAT. -/
def volheader_bytes (E : Env) (archid volnum : Nat) : Option (List Nat) :=
  E.writebuf_add_header
    [{ type := E.DICTYPE_U32, section_ := 0, key := E.VOLUMEHEADKEY_VOLNUM,
       data := cpu_to_le 4 volnum },
     { type := E.DICTYPE_U32, section_ := 0, key := E.VOLUMEHEADKEY_ARCHID,
       data := cpu_to_le 4 archid },
     { type := E.DICTYPE_DATA, section_ := 0, key := E.VOLUMEHEADKEY_FILEFORMATVER,
       data := FSA_FILEFORMAT },
     { type := E.DICTYPE_DATA, section_ := 0, key := E.VOLUMEHEADKEY_PROGVERCREAT,
       data := E.FSA_VERSION }]
    E.FSA_MAGIC_VOLH archid E.FSA_FILESYSID_NULL

/-- The volume footer of volume `volnum` of archive `archid` following the
specification: a header record with the volume-footer magic, the archive id, the
null filesystem id, and the attributes VOLNUM, ARCHID and LASTVOL. -/
def volfooter_bytes (E : Env) (archid volnum : Nat) (lastvol : Bool) : Option (List Nat) :=
  E.writebuf_add_header
    [{ type := E.DICTYPE_U32, section_ := 0, key := E.VOLUMEFOOTKEY_VOLNUM,
       data := cpu_to_le 4 volnum },
     { type := E.DICTYPE_U32, section_ := 0, key := E.VOLUMEFOOTKEY_ARCHID,
       data := cpu_to_le 4 archid },
     { type := E.DICTYPE_U32, section_ := 0, key := E.VOLUMEFOOTKEY_LASTVOL,
       data := cpu_to_le 4 (if lastvol then 1 else 0) }]
    E.FSA_MAGIC_VOLF archid E.FSA_FILESYSID_NULL

/-- The `write` calls that `archwriter_write_buffer` issues for a record on a
writer of the regular or flush variant: one call with the whole record, none for
an empty record. -/
def record_writes (bytes : List Nat) : List (List Nat) :=
  if bytes.length = 0 then [] else [bytes]

/-- The volumes that a sequence of system calls closes, each as the list of the
byte strings of its `write` calls, when the volume open at the start has received
the writes `cur`. -/
def closed_volumes : List Event → List (List Nat) → List (List (List Nat))
  | [], _ => []
  | .ev_write b :: es, cur => closed_volumes es (cur ++ [b])
  | .ev_close :: es, cur => cur :: closed_volumes es []
  | .ev_open _ _ :: es, cur => closed_volumes es cur
  | .ev_connect _ :: es, cur => closed_volumes es cur
  | .ev_fsync :: es, cur => closed_volumes es cur
  | .ev_setblk _ :: es, cur => closed_volumes es cur

/-- The `write` calls received by the volume that is open after a sequence of
system calls. -/
def open_volume : List Event → List (List Nat) → List (List Nat)
  | [], cur => cur
  | .ev_write b :: es, cur => open_volume es (cur ++ [b])
  | .ev_close :: es, _ => open_volume es []
  | .ev_open _ _ :: es, cur => open_volume es cur
  | .ev_connect _ :: es, cur => open_volume es cur
  | .ev_fsync :: es, cur => open_volume es cur
  | .ev_setblk _ :: es, cur => open_volume es cur

/-- The volumes `vs` are numbered `k, k + 1, ...`: the first write of each volume
is the volume header with its number, its last write is the volume footer with
the same number, and `lastvol` is set in the footer of the last volume only. -/
def numbered (E : Env) (archid : Nat) : Nat → List (List (List Nat)) → Prop
  | _, [] => True
  | k, v :: vs =>
    (v.head? = volheader_bytes E archid k ∧ v.head?.isSome = true ∧
      v.getLast? = volfooter_bytes E archid k vs.isEmpty ∧ v.getLast?.isSome = true) ∧
      numbered E archid (k + 1) vs

instance numbered_decidable (E : Env) (archid : Nat) :
    (k : Nat) → (vs : List (List (List Nat))) → Decidable (numbered E archid k vs)
  | _, [] => isTrue trivial
  | k, v :: vs =>
    match numbered_decidable E archid (k + 1) vs with
    | isTrue h =>
      if hv : v.head? = volheader_bytes E archid k ∧ v.head?.isSome = true ∧
          v.getLast? = volfooter_bytes E archid k vs.isEmpty ∧ v.getLast?.isSome = true then
        isTrue ⟨hv, h⟩
      else isFalse (fun hn => hv hn.1)
    | isFalse h => isFalse (fun hn => h hn.2)

/-- What the writes of a run of volumes look like when the run starts on volume
`k` whose writes so far are `cur`: every closed volume consists of the writes it
started with, records framed with `archid`, and the footer of its number with
`lastvol` clear; the next volume starts with the header of the next number; the
open volume consists of the writes it started with and framed records. -/
def chain (E : Env) (archid : Nat) :
    Nat → List (List Nat) → List (List (List Nat)) → List (List Nat) → Prop
  | _, cur, [], o => ∃ t, o = cur ++ t ∧ ∀ b ∈ t, framed E archid b
  | k, cur, c :: cs, o =>
    ∃ t fb hb, (∀ b ∈ t, framed E archid b) ∧
      volfooter_bytes E archid k false = some fb ∧ c = cur ++ t ++ record_writes fb ∧
      volheader_bytes E archid (k + 1) = some hb ∧
      chain E archid (k + 1) (record_writes hb) cs o

/-- Modelled from the spec: the lifecycle of a writer session, `create(volume 0)`,
write the volume header, write the records (with the splits they cause), write
the footer with `lastvol = true`, close.  The caller that performs it is not
under src/.  The session stops at the first call that fails. -/
def session (E : Env) (ai : Writer) (w : World) (ops : List WriteOp) : Ret × Writer × World :=
  let c := archwriter_create E ai w
  if c.1 ≠ .success then c
  else
    let h := archwriter_write_volheader E c.2.1 c.2.2
    if h.1 ≠ .success then h
    else
      let r := dowrite_all E h.2.1 h.2.2 ops
      if r.1 ≠ .success then r
      else
        let f := archwriter_write_volfooter E r.2.1 r.2.2 true
        if f.1 ≠ .success then f else archwriter_close f.2.1 f.2.2

/-- The sample environment with headers serialized as section 4.3 of the
specification prescribes (format version 2) and a volume size limit of 100
bytes. -/
def codecEnv : Env :=
  { sampleEnv with
    splitsize := 100,
    writebuf_add_header := fun d magic archid fsid =>
      some (spec_encode_record sampleEnv 2
        { magic := magic, archid := archid, fsid := fsid, attrs := d }) }

/-- The writer that `archwriter_init` and `archwriter_generate_id` (drawing 7)
leave for the archive `backup`. -/
def initWriter : Writer := archwriter_generate_id (archwriter_init "backup" "backup") 7

/-- A world in which every path is a block device with 4-byte blocks, every call
succeeds and nothing has happened. -/
def blockWorld : World :=
  { sampleWorld with stat := fun _ => some .block, st_blksize := fun _ => 4 }

/-! ## Calls of the raw block read -/

/-- The values of the argument `size` at the calls of `archreader_read_blocks_raw`
made by `archreader_read_blocks(ai, size)`, in order: none when the bytes are
cached or `archreader_precache` fails, else the missing count rounded up to a
multiple of `devblocksize`. -/
def read_blocks_raw_calls (E : Env) (ai : Reader) (size : Nat) : List Nat :=
  let msize := missing ai size
  if msize ≤ 0 then []
  else if ai.devblocksize = 0 then []
  else
    let xmod := msize.toNat % ai.devblocksize
    let msize := if xmod = 0 then msize.toNat else msize.toNat + (ai.devblocksize - xmod)
    if (archreader_precache E ai msize).1 ≠ .success then [] else [msize]

/-- The values of the argument `size` at the calls of `archreader_read_blocks_raw`
made by the loop of `archreader_skip_blocks` (see `skip_chunks`): `cachesize` at
every turn, the turn whose read comes up short included. -/
def skip_chunks_raw_calls (cachesize : Nat) : Nat → List Nat → Nat → List Nat
  | 0, _, _ => []
  | fuel + 1, input, pending =>
    if pending < cachesize then []
    else if (input.take cachesize).length ≠ cachesize then [cachesize]
    else cachesize ::
      skip_chunks_raw_calls cachesize fuel (input.drop cachesize) (pending - cachesize)

/-- The value of the argument `size` at the call of `archreader_read_blocks_raw`
that `archreader_skip_blocks(ai, offset)` makes after its loop, when it makes one:
the rest `pending` left by the loop, rounded up to a multiple of `devblocksize`. -/
def skip_blocks_final_call (E : Env) (ai : Reader) (offset : Nat) : Option Nat :=
  let moffset : Int := (ai.cache.length : Int) - (ai.cacheread : Int)
  if (offset : Int) ≤ moffset then none
  else if E.abort then none
  else
    let pending := ((offset : Int) - moffset).toNat
    if ai.cachesize ≤ pending ∧ (ai.devblocksize = 0 ∨ ai.cachesize % ai.devblocksize ≠ 0) then
      none
    else if ai.cachesize = 0 then none
    else
      match skip_chunks ai.cachesize (pending + 1) ai.input pending ai.cache with
      | none => none
      | some (_, pending, _) =>
        if pending ≠ 0 then
          if ai.devblocksize = 0 then none
          else
            let xmod := pending % ai.devblocksize
            some (if xmod = 0 then pending else pending + (ai.devblocksize - xmod))
        else none

/-- The values of the argument `size` at the calls of `archreader_read_blocks_raw`
made by `archreader_skip_blocks(ai, offset)`, in order: the calls of the loop,
then the call after the loop.  A call whose assertion fails ends the list; when
`cachesize` is 0 the loop does not end and every call has size 0, of which the
list holds one. -/
def skip_blocks_raw_calls (E : Env) (ai : Reader) (offset : Nat) : List Nat :=
  let moffset : Int := (ai.cache.length : Int) - (ai.cacheread : Int)
  (if (offset : Int) ≤ moffset then []
  else if E.abort then []
  else
    let pending := ((offset : Int) - moffset).toNat
    if ai.cachesize ≤ pending ∧ (ai.devblocksize = 0 ∨ ai.cachesize % ai.devblocksize ≠ 0) then
      [ai.cachesize]
    else if ai.cachesize = 0 then [0]
    else skip_chunks_raw_calls ai.cachesize (pending + 1) ai.input pending)
  ++ (skip_blocks_final_call E ai offset).toList

/-! ## Basic facts on the cache operations -/

theorem precache_granular (E : Env) (ai : Reader) (size : Nat) (hg : ai.granular E) :
    ∃ cs, archreader_precache E ai size = (.success, { ai with cachesize := cs }) := by
  obtain ⟨_, hd, hb, _⟩ := hg
  unfold archreader_precache
  by_cases h : ai.cache.length + size ≤ ai.cachesize
  · exact ⟨ai.cachesize, by simp [h]⟩
  · have h1 : ¬ (E.datablocksize = 0 ∨ ai.devblocksize = 0) := by omega
    simp only [h, h1, if_false]
    exact ⟨_, rfl⟩

/-- On a granular reader with at least `n` bytes ahead, the transport read pulls
exactly the missing bytes into the cache. -/
theorem ai_read_granular (E : Env) (ai : Reader) (n : Nat) (hg : ai.granular E)
    (hn : n ≤ ai.pending.length) :
    ∃ cs, ai_read E ai n = (.success,
      { ai with cachesize := cs,
                cache := ai.cache ++ ai.input.take (n - (ai.cache.length - ai.cacheread)),
                input := ai.input.drop (n - (ai.cache.length - ai.cacheread)) }) := by
  have hg0 := hg
  obtain ⟨hwf, hd, hb, hk⟩ := hg
  simp only [Reader.pending, List.length_append, List.length_drop] at hn
  have hsel : E.abort = false → archreader_read_select E ai n = archreader_read_regular E ai n := by
    intro ha
    simp only [archreader_read_select, archreader_read_regular, archreader_read_select_raw, ha]
    rfl
  have hkk : ai_read E ai n = archreader_read_regular E ai n := by
    rcases hk with hk | ⟨hk, ha⟩
    · simp only [ai_read, hk]
    · simp only [ai_read, hk, hsel ha]
  rw [hkk]
  by_cases hm : missing ai n ≤ 0
  · have h0 : n - (ai.cache.length - ai.cacheread) = 0 := by
      unfold missing at hm; omega
    refine ⟨ai.cachesize, ?_⟩
    simp only [archreader_read_regular, hm, h0, if_true, List.take_zero, List.append_nil,
      List.drop_zero]
  · have hmt : (missing ai n).toNat = n - (ai.cache.length - ai.cacheread) := by
      unfold missing at hm ⊢; omega
    obtain ⟨cs, hp⟩ := precache_granular E ai (n - (ai.cache.length - ai.cacheread)) hg0
    have hlen : min (n - (ai.cache.length - ai.cacheread)) ai.input.length
        = n - (ai.cache.length - ai.cacheread) := by omega
    refine ⟨cs, ?_⟩
    simp [archreader_read_regular, hm, hmt, hp, hlen]

theorem take_append_take_sub (A B : List Nat) (n : Nat) :
    (A ++ B.take (n - A.length)).take n = (A ++ B).take n := by
  simp [List.take_append_eq_append_take, List.take_take]

theorem drop_append_take_sub (A B : List Nat) (n : Nat) :
    (A ++ B.take (n - A.length)).drop n ++ B.drop (n - A.length) = (A ++ B).drop n := by
  simp [List.drop_append_eq_append_drop, List.drop_take]

/-- Reading `xs.length` bytes on a granular reader whose pending bytes start with
`xs` hands out `xs` and leaves the rest pending. -/
theorem read_data_granular (E : Env) (ai : Reader) (xs ys : List Nat) (hg : ai.granular E)
    (hp : ai.pending = xs ++ ys) :
    ∃ ai1, archreader_read_data E ai xs.length = (.success, xs, ai1) ∧ ai1.granular E ∧
      ai1.pending = ys ∧ ai1.consumed = ai.consumed ++ xs ∧ ai1.conf = ai.conf ∧
      ai1.cacheread = ai.cacheread + xs.length := by
  by_cases h0 : xs.length = 0
  · have hx : xs = [] := List.length_eq_zero.mp h0
    subst hx
    exact ⟨ai, by simp [archreader_read_data], hg, by simpa using hp, by simp, rfl, rfl⟩
  · have hn : xs.length ≤ ai.pending.length := by rw [hp]; simp
    obtain ⟨cs, hr⟩ := ai_read_granular E ai xs.length hg hn
    obtain ⟨hwf, hd, hb, hk⟩ := hg
    have hn1 : xs.length ≤ ai.cache.length - ai.cacheread + ai.input.length := by
      simpa [Reader.pending] using hn
    have hwf1 : ai.cacheread + xs.length ≤ (ai.cache ++ ai.input.take
        (xs.length - (ai.cache.length - ai.cacheread))).length := by
      rw [List.length_append, List.length_take]; omega
    have hdrop : ai.cache.length - ai.cacheread = (ai.cache.drop ai.cacheread).length := by simp
    have hA : ∀ l : List Nat, (ai.cache ++ l).drop ai.cacheread = ai.cache.drop ai.cacheread ++ l := by
      intro l; rw [List.drop_append_of_le_length hwf]
    have hxs : ((ai.cache ++ ai.input.take (xs.length - (ai.cache.length - ai.cacheread))).drop
        ai.cacheread).take xs.length = xs := by
      rw [hA, hdrop, take_append_take_sub]
      unfold Reader.pending at hp
      rw [hp]; simp
    refine ⟨{ ai with
        cachesize := cs,
        cache := ai.cache ++ ai.input.take (xs.length - (ai.cache.length - ai.cacheread)),
        input := ai.input.drop (xs.length - (ai.cache.length - ai.cacheread)),
        cacheread := ai.cacheread + xs.length }, ?_, ?_, ?_, ?_, ?_, ?_⟩
    · simp only [archreader_read_data, h0, hr, if_false, ne_eq, not_true_eq_false]
      rw [hxs]
    · exact ⟨hwf1, hd, hb, hk⟩
    · show List.drop (ai.cacheread + xs.length) _ ++ _ = ys
      rw [← List.drop_drop, hA, hdrop, drop_append_take_sub]
      unfold Reader.pending at hp
      rw [hp]; simp
    · show List.take (ai.cacheread + xs.length) _ = List.take _ _ ++ xs
      rw [List.take_add, hxs, List.take_append_of_le_length hwf]
    · rfl
    · rfl

/-- Reading more bytes than a granular reader has ahead fails with `-1`. -/
theorem read_data_short (E : Env) (ai : Reader) (n : Nat) (hg : ai.granular E)
    (hn : ai.pending.length < n) :
    (archreader_read_data E ai n).1 = .neg1 ∧ (archreader_read_data E ai n).2.1 = [] := by
  obtain ⟨hwf, hd, hb, hk⟩ := hg
  have hg0 : ai.granular E := ⟨hwf, hd, hb, hk⟩
  simp only [Reader.pending, List.length_append, List.length_drop] at hn
  have hsel : E.abort = false → archreader_read_select E ai n = archreader_read_regular E ai n := by
    intro ha
    simp only [archreader_read_select, archreader_read_regular, archreader_read_select_raw, ha]
    rfl
  have hkk : ai_read E ai n = archreader_read_regular E ai n := by
    rcases hk with hk | ⟨hk, ha⟩
    · simp only [ai_read, hk]
    · simp only [ai_read, hk, hsel ha]
  have hm : ¬ missing ai n ≤ 0 := by unfold missing; omega
  have hmt : (missing ai n).toNat = n - (ai.cache.length - ai.cacheread) := by
    unfold missing at hm ⊢; omega
  obtain ⟨cs, hp⟩ := precache_granular E ai (n - (ai.cache.length - ai.cacheread)) hg0
  have hlen : ¬ min (n - (ai.cache.length - ai.cacheread)) ai.input.length
      = n - (ai.cache.length - ai.cacheread) := by omega
  have hr : (archreader_read_regular E ai n).1 = .neg1 := by
    simp [archreader_read_regular, hm, hmt, hp, hlen]
  have hn0 : n ≠ 0 := by omega
  simp [archreader_read_data, hn0, hkk, hr, Ret.fail]

/-- Unreading at most what was consumed puts those bytes back in front of the
pending bytes and leaves the read pointer at the start of the buffer. -/
theorem unread_granular (E : Env) (ai : Reader) (k : Nat) (hg : ai.granular E)
    (hk : k ≤ ai.cacheread) :
    ∃ ai1, archreader_unread ai k = (.success, ai1) ∧ ai1.granular E ∧
      ai1.pending = ai.consumed.drop (ai.cacheread - k) ++ ai.pending ∧
      ai1.consumed = [] ∧ ai1.conf = ai.conf ∧ ai1.cacheread = 0 := by
  obtain ⟨hwf, hd, hb, hkind⟩ := hg
  have hlt : ¬ ai.cacheread < k := by omega
  have hsplit : ai.cache.drop (ai.cacheread - k)
      = (ai.cache.take ai.cacheread).drop (ai.cacheread - k) ++ ai.cache.drop ai.cacheread := by
    conv_lhs => rw [← List.take_append_drop ai.cacheread ai.cache]
    rw [List.drop_append_of_le_length (by simp; omega)]
  by_cases ho : ai.cacheread - k = 0
  · refine ⟨{ ai with cacheread := ai.cacheread - k }, ?_, ?_, ?_, ?_, rfl, ?_⟩
    · simp [archreader_unread, hlt, ho]
    · exact ⟨by simp [ho], hd, hb, hkind⟩
    · simp only [Reader.pending, Reader.consumed]
      rw [ho, ← List.append_assoc, ← ho, ← hsplit]
    · simp [Reader.consumed, ho]
    · simpa using ho
  · refine ⟨{ ai with cache := ai.cache.drop (ai.cacheread - k), cacheread := 0 }, ?_, ?_, ?_, ?_,
      rfl, rfl⟩
    · simp [archreader_unread, hlt, ho]
    · exact ⟨by simp, hd, hb, hkind⟩
    · simp only [Reader.pending, Reader.consumed, List.drop_zero]
      rw [← List.append_assoc, ← hsplit]
    · simp [Reader.consumed]

/-! ## Facts on reads that hold for every transport -/

theorem Ret.fail_ne_success (r e : Ret) (hr : r ≠ .success) (he : e ≠ .success) :
    r.fail e ≠ .success := by
  unfold Ret.fail
  split
  · exact hr
  · exact he

theorem precache_fields (E : Env) (ai : Reader) (size : Nat) :
    (archreader_precache E ai size).2.cache = ai.cache ∧
      (archreader_precache E ai size).2.cacheread = ai.cacheread ∧
      (archreader_precache E ai size).2.input = ai.input ∧
      (archreader_precache E ai size).2.conf = ai.conf := by
  unfold archreader_precache
  split
  · exact ⟨rfl, rfl, rfl, rfl⟩
  · split
    · exact ⟨rfl, rfl, rfl, rfl⟩
    · exact ⟨rfl, rfl, rfl, rfl⟩

/-- A successful transport read, on any transport, leaves the read pointer and
the consumed bytes alone, makes at least `n` bytes available after the read
pointer, and only moves bytes from the descriptor to the end of the cache. -/
theorem ai_read_success (E : Env) (ai ai1 : Reader) (n : Nat)
    (hwf : ai.cacheread ≤ ai.cache.length) (h : ai_read E ai n = (.success, ai1)) :
    ai1.cacheread = ai.cacheread ∧ ai.cacheread + n ≤ ai1.cache.length ∧
      ai1.pending = ai.pending ∧ ai1.consumed = ai.consumed ∧ ai1.conf = ai.conf := by
  obtain ⟨pc, pr, pi, pf⟩ := precache_fields E ai (missing ai n).toNat
  have key : ∀ (p : Reader) (got : List Nat) (m : Nat), p.cache = ai.cache →
      p.cacheread = ai.cacheread → p.input = ai.input → p.conf = ai.conf →
      got = ai.input.take m → ai.cacheread + n ≤ ai.cache.length + got.length →
      ai1 = { p with input := ai.input.drop m, cache := p.cache ++ got } →
      ai1.cacheread = ai.cacheread ∧ ai.cacheread + n ≤ ai1.cache.length ∧
        ai1.pending = ai.pending ∧ ai1.consumed = ai.consumed ∧ ai1.conf = ai.conf := by
    intro p got m hc hr _ hf hgot hlen h1
    subst h1
    refine ⟨hr, ?_, ?_, ?_, hf⟩
    · simp only [List.length_append, hc]; exact hlen
    · simp only [Reader.pending, hr, hc]
      rw [List.drop_append_of_le_length hwf, hgot, List.append_assoc, List.take_append_drop]
    · simp only [Reader.consumed, hr, hc]
      rw [List.take_append_of_le_length hwf]
  have hnow : missing ai n ≤ 0 → ai.cacheread + n ≤ ai.cache.length := by
    intro hm; unfold missing at hm; omega
  have hmiss : ¬ missing ai n ≤ 0 → (missing ai n).toNat = n - (ai.cache.length - ai.cacheread) := by
    intro hm; unfold missing at hm ⊢; omega
  unfold ai_read at h
  cases hk : ai.read <;> rw [hk] at h <;> simp only at h
  · -- regular file
    unfold archreader_read_regular at h
    by_cases hm : missing ai n ≤ 0
    · simp only [hm, if_true, Prod.mk.injEq, true_and] at h
      subst h
      exact ⟨rfl, hnow hm, rfl, rfl, rfl⟩
    · simp only [hm, if_false] at h
      split at h
      · rename_i hp
        exact absurd (congrArg Prod.fst h) (Ret.fail_ne_success _ _ hp (by decide))
      · split at h
        · simp at h
        · rename_i hl
          simp only [Prod.mk.injEq, true_and] at h
          simp only [ne_eq, not_not, pi] at hl
          refine key _ _ (missing ai n).toNat pc pr pi pf rfl ?_ ?_
          · rw [hl, hmiss hm]; omega
          · rw [← h, pi]
  · -- select
    unfold archreader_read_select at h
    by_cases hm : missing ai n ≤ 0
    · simp only [hm, if_true, Prod.mk.injEq, true_and] at h
      subst h
      exact ⟨rfl, hnow hm, rfl, rfl, rfl⟩
    · simp only [hm, if_false] at h
      split at h
      · rename_i hp
        exact absurd (congrArg Prod.fst h) (Ret.fail_ne_success _ _ hp (by decide))
      · unfold archreader_read_select_raw at h
        by_cases ha : E.abort = true
        · simp [ha] at h
        · simp only [ha, if_false, Bool.false_eq_true] at h
          split at h
          · simp at h
          · rename_i hl
            simp only [Prod.mk.injEq, true_and] at h
            simp only [ne_eq, not_not, pi] at hl
            refine key _ _ (missing ai n).toNat pc pr pi pf rfl ?_ ?_
            · rw [hl, hmiss hm]; omega
            · rw [← h, pi]
  · -- block device
    unfold archreader_read_blocks at h
    by_cases hm : missing ai n ≤ 0
    · simp only [hm, if_true, Prod.mk.injEq, true_and] at h
      subst h
      exact ⟨rfl, hnow hm, rfl, rfl, rfl⟩
    · simp only [hm, if_false] at h
      split at h
      · simp at h
      · generalize (if (missing ai n).toNat % ai.devblocksize = 0 then (missing ai n).toNat
            else (missing ai n).toNat + (ai.devblocksize - (missing ai n).toNat % ai.devblocksize))
          = M at h
        obtain ⟨qc, qr, qi, qf⟩ := precache_fields E ai M
        split at h
        · rename_i hp
          exact absurd (congrArg Prod.fst h) (Ret.fail_ne_success _ _ hp (by decide))
        · unfold archreader_read_blocks_raw at h
          split at h
          · simp at h
          · rename_i hl
            simp only [Prod.mk.injEq, true_and] at h
            simp only [not_lt, qi] at hl
            refine key _ _ M qc qr qi qf rfl ?_ ?_
            · omega
            · rw [← h, qi]

/-- A successful `archreader_read_data`, on any transport, hands out the first
`n` pending bytes and advances past them. -/
theorem read_data_success (E : Env) (ai ai1 : Reader) (P : List Nat) (n : Nat)
    (hwf : ai.cacheread ≤ ai.cache.length)
    (h : archreader_read_data E ai n = (.success, P, ai1)) :
    P.length = n ∧ ai.pending = P ++ ai1.pending ∧ ai1.consumed = ai.consumed ++ P ∧
      ai1.cacheread = ai.cacheread + n ∧ ai1.cacheread ≤ ai1.cache.length ∧
      ai1.conf = ai.conf := by
  unfold archreader_read_data at h
  by_cases h0 : n = 0
  · simp only [h0, if_true, Prod.mk.injEq, true_and] at h
    obtain ⟨hP, h1⟩ := h
    subst hP h1 h0
    simp [hwf]
  · simp only [h0, if_false] at h
    split at h
    · rename_i hp
      exact absurd (congrArg Prod.fst h) (Ret.fail_ne_success _ _ hp (by decide))
    · rename_i hs
      simp only [ne_eq, not_not] at hs
      obtain ⟨hr, hlen, hpend, hcons, hconf⟩ :=
        ai_read_success E ai (ai_read E ai n).2 n hwf (Prod.ext hs rfl)
      simp only [Prod.mk.injEq, true_and] at h
      obtain ⟨hP, h1⟩ := h
      have hlt : (ai_read E ai n).2.cacheread ≤ (ai_read E ai n).2.cache.length := by omega
      have hPl : P.length = n := by
        rw [← hP, List.length_take, List.length_drop]; omega
      subst h1
      refine ⟨hPl, ?_, ?_, ?_, ?_, hconf⟩
      · rw [← hpend]
        simp only [Reader.pending]
        rw [← hP, ← List.append_assoc, ← List.drop_drop, List.take_append_drop]
      · rw [← hcons]
        simp only [Reader.consumed]
        rw [List.take_add, hP]
      · simp only [hr]
      · simp only; omega

/-- Unreading at most what was consumed, on any transport, puts those bytes back
in front of the pending bytes. -/
theorem unread_success (ai : Reader) (k : Nat) (hwf : ai.cacheread ≤ ai.cache.length)
    (hk : k ≤ ai.cacheread) :
    ∃ ai1, archreader_unread ai k = (.success, ai1) ∧
      ai1.pending = ai.consumed.drop (ai.cacheread - k) ++ ai.pending ∧
      ai1.consumed = [] ∧ ai1.conf = ai.conf ∧ ai1.cacheread = 0 ∧
      ai1.cacheread ≤ ai1.cache.length ∧ ai1.input = ai.input ∧
      ai1.cache = ai.cache.drop (ai.cacheread - k) := by
  have hlt : ¬ ai.cacheread < k := by omega
  have hsplit : ai.cache.drop (ai.cacheread - k)
      = (ai.cache.take ai.cacheread).drop (ai.cacheread - k) ++ ai.cache.drop ai.cacheread := by
    conv_lhs => rw [← List.take_append_drop ai.cacheread ai.cache]
    rw [List.drop_append_of_le_length (by simp; omega)]
  by_cases ho : ai.cacheread - k = 0
  · refine ⟨{ ai with cacheread := ai.cacheread - k }, ?_, ?_, ?_, rfl, ?_, ?_, rfl, ?_⟩
    · simp [archreader_unread, hlt, ho]
    · simp only [Reader.pending, Reader.consumed]
      rw [ho, ← List.append_assoc, ← ho, ← hsplit]
    · simp [Reader.consumed, ho]
    · simpa using ho
    · simp [ho]
    · simp [ho]
  · refine ⟨{ ai with cache := ai.cache.drop (ai.cacheread - k), cacheread := 0 }, ?_, ?_, ?_,
      rfl, rfl, Nat.zero_le _, rfl, rfl⟩
    · simp [archreader_unread, hlt, ho]
    · simp only [Reader.pending, Reader.consumed, List.drop_zero]
      rw [← List.append_assoc, ← hsplit]
    · simp [Reader.consumed]

/-! ## Little-endian scalars -/

theorem length_cpu_to_le (w n : Nat) : (cpu_to_le w n).length = w := by
  induction w generalizing n with
  | zero => rfl
  | succ w ih => simp [cpu_to_le, ih]

theorem le_to_cpu_cpu_to_le (w n : Nat) : le_to_cpu (cpu_to_le w n) = n % 256 ^ w := by
  induction w generalizing n with
  | zero => simp [cpu_to_le, le_to_cpu, Nat.mod_one]
  | succ w ih =>
    simp only [cpu_to_le, le_to_cpu, ih, pow_succ]
    rw [Nat.mul_comm (256 ^ w) 256, Nat.mod_mul]

/-! ## Decoding a framed dictionary -/

/-- On a granular reader whose pending bytes are a length field `lenb`, then
`le_to_cpu lenb` header bytes `hb`, then four checksum bytes `cs`,
`archreader_read_dico` consumes exactly these three parts; its result is decided
by the checksum comparison and the attribute loop. -/
theorem read_dico_frame (E : Env) (ai : Reader) (d : cdico) (lenb hb cs rest : List Nat)
    (hg : ai.granular E) (hver : ai.filefmtver = 1 ∨ ai.filefmtver = 2)
    (hp : ai.pending = lenb ++ (hb ++ (cs ++ rest)))
    (hl : lenb.length = if ai.filefmtver = 1 then 2 else 4)
    (hh : hb.length = le_to_cpu lenb) (hc : cs.length = 4) :
    ∃ ai3, ai3.granular E ∧ ai3.pending = rest ∧ ai3.conf = ai.conf ∧
      archreader_read_dico E ai d =
        if E.sum32 hb ≠ le_to_cpu cs then (.minor, ai3, d)
        else if hb.length < 2 then (.crash, ai3, d)
        else ((read_items hb (le_to_cpu (hb.take 2)) 2 d).1, ai3,
          (read_items hb (le_to_cpu (hb.take 2)) 2 d).2) := by
  obtain ⟨ai1, h1, g1, p1, -, c1, -⟩ := read_data_granular E ai lenb _ hg hp
  obtain ⟨ai2, h2, g2, p2, -, c2, -⟩ := read_data_granular E ai1 hb _ g1 p1
  obtain ⟨ai3, h3, g3, p3, -, c3, -⟩ := read_data_granular E ai2 cs _ g2 p2
  refine ⟨ai3, g3, p3, by rw [c3, c2, c1], ?_⟩
  have hv : ¬ (ai.filefmtver ≠ 1 ∧ ai.filefmtver ≠ 2) := by omega
  rw [hl] at h1
  rw [hh] at h2
  rw [hc] at h3
  unfold archreader_read_dico
  simp only [hv, if_false, h1, h2, h3, ne_eq, not_true_eq_false]

theorem le_to_cpu_pair (n : Nat) (h : n < 65536) : le_to_cpu [n % 256, n / 256 % 256] = n := by
  simp only [le_to_cpu]; omega

theorem spec_encode_item_eq (a : DicoItem) (hf : a.fits) :
    spec_encode_item a = [a.type, a.section_, a.key % 256, a.key / 256 % 256,
      a.data.length % 256, a.data.length / 256 % 256] ++ a.data := by
  obtain ⟨h1, h2, -, -⟩ := hf
  simp [spec_encode_item, cpu_to_le, Nat.mod_eq_of_lt h1, Nat.mod_eq_of_lt h2]

/-- The attribute loop decodes the encoding of a list of attributes that starts
at offset `pre.length` of the buffer and appends the attributes in order. -/
theorem read_items_encoded (attrs : List DicoItem) (pre post : List Nat) (d : cdico)
    (hf : ∀ a ∈ attrs, a.fits) :
    read_items (pre ++ ((attrs.map spec_encode_item).flatten ++ post)) attrs.length pre.length d
      = (.success, d ++ attrs) := by
  induction attrs generalizing pre d with
  | nil => simp [read_items]
  | cons a as ih =>
    have hfa : a.fits := hf a (List.mem_cons_self _ _)
    have hfas : ∀ b ∈ as, b.fits := fun b hb => hf b (List.mem_cons_of_mem _ hb)
    obtain ⟨h1, h2, h3, h4⟩ := hfa
    have hbuf : pre ++ (((a :: as).map spec_encode_item).flatten ++ post)
        = pre ++ ([a.type, a.section_, a.key % 256, a.key / 256 % 256,
            a.data.length % 256, a.data.length / 256 % 256] ++
            (a.data ++ ((as.map spec_encode_item).flatten ++ post))) := by
      simp [spec_encode_item_eq a ⟨h1, h2, h3, h4⟩]
    have hnext : pre ++ (((a :: as).map spec_encode_item).flatten ++ post)
        = (pre ++ spec_encode_item a) ++ ((as.map spec_encode_item).flatten ++ post) := by
      simp
    have hlen : (pre ++ spec_encode_item a).length = pre.length + 6 + a.data.length := by
      simp [spec_encode_item_eq a ⟨h1, h2, h3, h4⟩]; omega
    have ih1 := ih (pre ++ spec_encode_item a) (d ++ [a]) hfas
    rw [← hnext, hlen] at ih1
    have hk : le_to_cpu [a.key % 256, a.key / 256 % 256] = a.key := le_to_cpu_pair _ h3
    have hs : le_to_cpu [a.data.length % 256, a.data.length / 256 % 256] = a.data.length :=
      le_to_cpu_pair _ (by omega)
    have hd0 : ∀ (j : Nat) (X : List Nat), (pre ++ X).drop (pre.length + j) = X.drop j := by
      intro j X; simp
    have hd00 : ∀ (X : List Nat), (pre ++ X).drop pre.length = X := by
      intro X; simp
    rw [List.length_cons, read_items]
    rw [hbuf] at ih1 ⊢
    have hnl : ¬ (pre ++ ([a.type, a.section_, a.key % 256, a.key / 256 % 256,
            a.data.length % 256, a.data.length / 256 % 256] ++
            (a.data ++ ((as.map spec_encode_item).flatten ++ post)))).length
              < pre.length + 6 := by
      simp
    simp only [hnl, if_false, hd0, hd00]
    simp only [List.cons_append, List.nil_append, List.drop_succ_cons, List.drop_zero,
      List.take_succ_cons, List.take_zero, List.headD_cons, hk, hs]
    have hnl2 : ¬ (pre ++ (a.type :: a.section_ :: (a.key % 256) :: (a.key / 256 % 256) ::
            (a.data.length % 256) :: (a.data.length / 256 % 256) ::
            (a.data ++ ((as.map spec_encode_item).flatten ++ post)))).length
              < pre.length + 6 + a.data.length := by
      simp; omega
    simp only [hnl2, if_false, dico_add_generic, List.take_left']
    simp only [List.cons_append, List.nil_append] at ih1
    have ha : ({ type := a.type, section_ := a.section_, key := a.key, data := a.data } : DicoItem)
        = a := rfl
    rw [ha, ih1]
    simp

theorem length_spec_encode_header_bytes_ge (attrs : List DicoItem) :
    2 ≤ (spec_encode_header_bytes attrs).length := by
  simp [spec_encode_header_bytes, length_cpu_to_le]

theorem sum32_lt (E : Env) (buf : List Nat) : E.sum32 buf < 256 ^ 4 := by
  have h : E.sum32 buf < 2 ^ 32 := Nat.mod_lt _ (by norm_num)
  norm_num at h ⊢
  exact h

/-- Decoding the encoding of an attribute list whose header bytes fit the length
field. -/
theorem read_dico_encoded (E : Env) (ai : Reader) (d : cdico) (attrs : List DicoItem)
    (rest : List Nat) (hg : ai.granular E) (hver : ai.filefmtver = 1 ∨ ai.filefmtver = 2)
    (hn : attrs.length ≤ 65535) (hf : ∀ a ∈ attrs, a.fits)
    (hfit : (spec_encode_header_bytes attrs).length <
      256 ^ (if ai.filefmtver = 1 then 2 else 4))
    (hp : ai.pending = spec_encode_dico E ai.filefmtver attrs ++ rest) :
    ∃ ai1, archreader_read_dico E ai d = (.success, ai1, d ++ attrs) ∧ ai1.pending = rest ∧
      ai1.conf = ai.conf ∧ ai1.granular E := by
  have hp1 : ai.pending =
      cpu_to_le (if ai.filefmtver = 1 then 2 else 4) (spec_encode_header_bytes attrs).length ++
        (spec_encode_header_bytes attrs ++
          (cpu_to_le 4 (E.sum32 (spec_encode_header_bytes attrs)) ++ rest)) := by
    rw [hp]; simp [spec_encode_dico]
  obtain ⟨ai3, g3, p3, c3, h3⟩ := read_dico_frame E ai d _ _ _ rest hg hver hp1
    (length_cpu_to_le _ _)
    (by rw [le_to_cpu_cpu_to_le, Nat.mod_eq_of_lt hfit])
    (length_cpu_to_le _ _)
  refine ⟨ai3, ?_, p3, c3, g3⟩
  rw [h3]
  have hsum : ¬ E.sum32 (spec_encode_header_bytes attrs) ≠
      le_to_cpu (cpu_to_le 4 (E.sum32 (spec_encode_header_bytes attrs))) := by
    rw [le_to_cpu_cpu_to_le, Nat.mod_eq_of_lt (sum32_lt E _)]; simp
  have h2 : ¬ (spec_encode_header_bytes attrs).length < 2 := by
    have := length_spec_encode_header_bytes_ge attrs; omega
  have hcount : le_to_cpu ((spec_encode_header_bytes attrs).take 2) = attrs.length := by
    unfold spec_encode_header_bytes
    rw [List.take_left' (length_cpu_to_le _ _), le_to_cpu_cpu_to_le]
    exact Nat.mod_eq_of_lt (by omega)
  have hitems := read_items_encoded attrs (cpu_to_le 2 attrs.length) [] d hf
  rw [length_cpu_to_le, List.append_nil] at hitems
  simp only [hsum, h2, if_false, hcount]
  unfold spec_encode_header_bytes
  rw [hitems]

theorem pending_sampleReader (ver : Nat) (input : List Nat) :
    (sampleReader ver input).pending = input := rfl

theorem sampleReader_granular (ver : Nat) (input : List Nat) :
    (sampleReader ver input).granular sampleEnv :=
  ⟨Nat.le_refl _, (by show 0 < 262144; norm_num), (by show 0 < 512; norm_num), Or.inl rfl⟩

/-- Claim C1 (amended): on a byte-granular reader (regular file, or select-based
transport with the abort flag clear; `datablocksize > 0`, `devblocksize > 0`, read
pointer inside the cached bytes) of format version 1 or 2, when `header-bytes` is
short enough for its length field (below 2^16 bytes in version 1, below 2^32 bytes
in version 2), decoding the section 4.3 encoding of an attribute list of at most
65535 attributes, each value of at most 65535 bytes, returns SUCCESS, consumes
exactly the encoded bytes and appends exactly those attributes, in order, to the
dictionary. -/
theorem read_dico_roundtrip (E : Env) (ai : Reader) (d : cdico) (attrs : List DicoItem)
    (rest : List Nat) (hg : ai.granular E) (hver : ai.filefmtver = 1 ∨ ai.filefmtver = 2)
    (hn : attrs.length ≤ 65535) (hf : ∀ a ∈ attrs, a.fits)
    (hfit : (spec_encode_header_bytes attrs).length <
      256 ^ (if ai.filefmtver = 1 then 2 else 4))
    (hp : ai.pending = spec_encode_dico E ai.filefmtver attrs ++ rest) :
    ∃ ai1, archreader_read_dico E ai d = (.success, ai1, d ++ attrs) ∧ ai1.pending = rest ∧
      ai1.conf = ai.conf ∧ ai1.granular E := by
  obtain ⟨ai1, hdec, hrest, hconf, hgran⟩ := read_dico_encoded E ai d attrs rest hg hver hn hf
    hfit hp
  exact ⟨ai1, hdec, hrest, hconf, hgran⟩

/-- A version 1 frame whose only attribute has a value of 65535 bytes is not
decoded: the 16-bit length field holds 65543 modulo 65536, which is 7. -/
theorem read_dico_truncated_v1 (E : Env) (ai : Reader) (d : cdico) (v rest : List Nat)
    (hv : v.length = 65535) (hg : ai.granular E) (hver : ai.filefmtver = 1)
    (hp : ai.pending =
      spec_encode_dico E 1 [{ type := 0, section_ := 0, key := 0, data := v }] ++ rest) :
    (archreader_read_dico E ai d).1 ≠ .success := by
  have hb : spec_encode_header_bytes [{ type := 0, section_ := 0, key := 0, data := v }]
      = [1, 0, 0, 0, 0, 0, 255] ++ ((255 :: v.take 3) ++ v.drop 3) := by
    simp [spec_encode_header_bytes, spec_encode_item, cpu_to_le, hv]
  have hlen : (spec_encode_header_bytes
      [{ type := 0, section_ := 0, key := 0, data := v }]).length = 65543 := by
    rw [hb]; simp [hv]
  have hp1 : ai.pending = [7, 0] ++ ([1, 0, 0, 0, 0, 0, 255] ++ ((255 :: v.take 3) ++
      (v.drop 3 ++ (cpu_to_le 4 (E.sum32 (spec_encode_header_bytes
        [{ type := 0, section_ := 0, key := 0, data := v }])) ++ rest)))) := by
    rw [hp]
    unfold spec_encode_dico
    rw [hlen, hb]
    simp only [cpu_to_le, List.append_assoc, List.cons_append, List.nil_append]
  obtain ⟨ai3, -, -, -, h3⟩ := read_dico_frame E ai d _ _ _ _ hg (Or.inl hver) hp1
    (by simp [hver]) (by simp [le_to_cpu]) (by simp [hv])
  rw [h3]
  by_cases hs : E.sum32 [1, 0, 0, 0, 0, 0, 255] ≠ le_to_cpu (255 :: List.take 3 v)
  · simp [hs]
  · simp only [hs, if_false, read_items, le_to_cpu]
    split <;> simp

/-- Claim C1 (counterexample): in version 1, the encoding of the single attribute
`big_attr` (one attribute, value of 65535 bytes) is within the stated bounds, and
`archreader_read_dico` does not return SUCCESS on it. -/
theorem read_dico_roundtrip_counterexample :
    [big_attr].length ≤ 65535 ∧ (∀ a ∈ [big_attr], a.data.length ≤ 65535) ∧
      (sampleReader 1 (spec_encode_dico sampleEnv 1 [big_attr])).granular sampleEnv ∧
      (sampleReader 1 (spec_encode_dico sampleEnv 1 [big_attr])).pending
        = spec_encode_dico sampleEnv 1 [big_attr] ∧
      (archreader_read_dico sampleEnv
        (sampleReader 1 (spec_encode_dico sampleEnv 1 [big_attr])) []).1 ≠ .success := by
  have hg := sampleReader_granular 1 (spec_encode_dico sampleEnv 1 [big_attr])
  have hp := pending_sampleReader 1 (spec_encode_dico sampleEnv 1 [big_attr])
  refine ⟨?_, ?_, ?_, ?_, ?_⟩
  · rw [List.length_singleton]; norm_num
  · intro a ha
    rw [List.mem_singleton] at ha
    subst ha
    show (List.replicate 65535 0).length ≤ 65535
    rw [List.length_replicate]
  · exact hg
  · exact hp
  · refine read_dico_truncated_v1 sampleEnv _ [] big_value []
      (List.length_replicate _ _) hg rfl ?_
    rw [hp, List.append_nil]
    rfl

/-- Claim C1 (witness): the empty dictionary and a two-attribute dictionary in
version 2 on the sample reader. -/
theorem read_dico_roundtrip_witness :
    ∃ ai1, archreader_read_dico sampleEnv
        (sampleReader 2 (spec_encode_dico sampleEnv 2
          [{ type := 3, section_ := 0, key := 7, data := [1, 2, 3, 4] },
           { type := 6, section_ := 1, key := 300, data := [] }] ++ [9, 9])) []
        = (.success, ai1, [] ++
          [{ type := 3, section_ := 0, key := 7, data := [1, 2, 3, 4] },
           { type := 6, section_ := 1, key := 300, data := [] }]) ∧
      ai1.pending = [9, 9] ∧
      ai1.conf = (sampleReader 2 (spec_encode_dico sampleEnv 2
          [{ type := 3, section_ := 0, key := 7, data := [1, 2, 3, 4] },
           { type := 6, section_ := 1, key := 300, data := [] }] ++ [9, 9])).conf ∧
      ai1.granular sampleEnv :=
  read_dico_roundtrip sampleEnv _ [] _ [9, 9]
    (sampleReader_granular _ _) (Or.inr rfl) (by decide) (by decide) (by decide)
    (pending_sampleReader _ _)

/-! ## Header checksum failures -/

theorem read_items_ne_minor (buffer : List Nat) (count bufpos : Nat) (d : cdico) :
    (read_items buffer count bufpos d).1 ≠ .minor := by
  induction count generalizing bufpos d with
  | zero => simp [read_items]
  | succ n ih =>
    unfold read_items
    split
    · simp
    · simp only [dico_add_generic]
      split
      · simp
      · exact ih _ _

/-- A frame cut short: when the pending bytes of a granular reader end before the
stored checksum does, `archreader_read_dico` returns the fatal error and adds
nothing to the dictionary. -/
theorem read_dico_short (E : Env) (ai : Reader) (d : cdico) (hg : ai.granular E)
    (hver : ai.filefmtver = 1 ∨ ai.filefmtver = 2)
    (hs : ai.pending.length < lenwidth ai + le_to_cpu (ai.pending.take (lenwidth ai)) + 4) :
    (archreader_read_dico E ai d).1 = .fatal ∧ (archreader_read_dico E ai d).2.2 = d := by
  have hv : ¬ (ai.filefmtver ≠ 1 ∧ ai.filefmtver ≠ 2) := by omega
  unfold lenwidth at hs
  unfold archreader_read_dico
  simp only [hv, if_false]
  by_cases h1 : ai.pending.length < (if ai.filefmtver = 1 then 2 else 4)
  · have hsh := (read_data_short E ai _ hg h1).1
    simp [hsh, Ret.fail]
  · have hp1 : ai.pending = ai.pending.take (if ai.filefmtver = 1 then 2 else 4) ++
        ai.pending.drop (if ai.filefmtver = 1 then 2 else 4) := (List.take_append_drop _ _).symm
    have hl1 : (ai.pending.take (if ai.filefmtver = 1 then 2 else 4)).length
        = (if ai.filefmtver = 1 then 2 else 4) := by
      rw [List.length_take]; omega
    obtain ⟨ai1, hr1, g1, p1, -, -, -⟩ := read_data_granular E ai _ _ hg hp1
    rw [hl1] at hr1
    simp only [hr1, ne_eq, not_true_eq_false, if_false]
    generalize hL : le_to_cpu (ai.pending.take (if ai.filefmtver = 1 then 2 else 4)) = L at hs ⊢
    have hlen1 : ai1.pending.length = ai.pending.length - (if ai.filefmtver = 1 then 2 else 4) := by
      rw [p1, List.length_drop]
    by_cases h2 : ai1.pending.length < L
    · have hsh := (read_data_short E ai1 _ g1 h2).1
      simp [hsh, Ret.fail]
    · have hp2 : ai1.pending = ai1.pending.take L ++ ai1.pending.drop L :=
        (List.take_append_drop _ _).symm
      have hl2 : (ai1.pending.take L).length = L := by
        rw [List.length_take]; omega
      obtain ⟨ai2, hr2, g2, p2, -, -, -⟩ := read_data_granular E ai1 _ _ g1 hp2
      rw [hl2] at hr2
      simp only [hr2, ne_eq, not_true_eq_false, if_false]
      have h3 : ai2.pending.length < 4 := by
        rw [p2, List.length_drop]; omega
      have hsh := (read_data_short E ai2 _ g2 h3).1
      simp [hsh, Ret.fail]

theorem Ret.fail_fatal_ne_minor (r : Ret) : r.fail .fatal ≠ .minor := by
  unfold Ret.fail
  split
  · rename_i h
    rcases h with h | h <;> rw [h] <;> decide
  · decide

/-- The stream form of the minor-error condition on a granular reader. -/
theorem read_dico_minor_stream (E : Env) (ai : Reader) (d : cdico) (hg : ai.granular E)
    (hver : ai.filefmtver = 1 ∨ ai.filefmtver = 2) :
    ((archreader_read_dico E ai d).1 = .minor ↔
      (lenwidth ai + le_to_cpu (ai.pending.take (lenwidth ai)) + 4 ≤ ai.pending.length ∧
        E.sum32 ((ai.pending.drop (lenwidth ai)).take
            (le_to_cpu (ai.pending.take (lenwidth ai)))) ≠
          le_to_cpu ((ai.pending.drop
            (lenwidth ai + le_to_cpu (ai.pending.take (lenwidth ai)))).take 4))) ∧
    (ai.pending.length < lenwidth ai + le_to_cpu (ai.pending.take (lenwidth ai)) + 4 →
      (archreader_read_dico E ai d).1 = .fatal) := by
  by_cases hs : ai.pending.length <
      lenwidth ai + le_to_cpu (ai.pending.take (lenwidth ai)) + 4
  · obtain ⟨hf, -⟩ := read_dico_short E ai d hg hver hs
    refine ⟨?_, fun _ => hf⟩
    rw [hf]
    constructor
    · intro h; cases h
    · intro h; omega
  · generalize hw : lenwidth ai = w at hs ⊢
    generalize hL : le_to_cpu (ai.pending.take w) = L at hs ⊢
    have hp : ai.pending = ai.pending.take w ++ ((ai.pending.drop w).take L ++
        (((ai.pending.drop (w + L)).take 4) ++ (ai.pending.drop (w + L)).drop 4)) := by
      rw [List.take_append_drop, ← List.drop_drop, List.take_append_drop, List.take_append_drop]
    have hl1 : (ai.pending.take w).length = if ai.filefmtver = 1 then 2 else 4 := by
      rw [List.length_take, ← hw]; unfold lenwidth at hw ⊢; omega
    have hl2 : ((ai.pending.drop w).take L).length = le_to_cpu (ai.pending.take w) := by
      rw [List.length_take, List.length_drop, hL]; omega
    have hl3 : ((ai.pending.drop (w + L)).take 4).length = 4 := by
      rw [List.length_take, List.length_drop]; omega
    obtain ⟨ai3, -, -, -, h3⟩ := read_dico_frame E ai d _ _ _ _ hg hver hp hl1 hl2 hl3
    rw [h3]
    by_cases hsum : E.sum32 ((ai.pending.drop w).take L) ≠
        le_to_cpu ((ai.pending.drop (w + L)).take 4)
    · simp only [hsum, if_true, true_and, ne_eq, not_false_eq_true, and_true, true_iff]
      exact ⟨by omega, fun h => absurd h hs⟩
    · have hni := read_items_ne_minor ((ai.pending.drop w).take L)
        (le_to_cpu (((ai.pending.drop w).take L).take 2)) 2 d
      simp only [hsum, if_false, and_false, iff_false]
      refine ⟨?_, fun h => absurd h hs⟩
      split
      · simp
      · exact hni

/-- The loops of `archreader_read_header` never give the minor error. -/
theorem scan_loops_ne_minor (E : Env) (readvol : Bool) (fuel : Nat) :
    ∀ (ai : Reader) (readsize unread : Nat) (r : Ret) (a1 : Reader),
      scan_loops E readvol fuel ai readsize unread = some (r, a1) → r ≠ .minor := by
  induction fuel with
  | zero => intro ai readsize unread r a1 h; simp [scan_loops] at h
  | succ fuel ih =>
    intro ai readsize unread r a1 h
    unfold scan_loops at h
    dsimp only at h
    split at h
    · simp only [Option.some.injEq, Prod.mk.injEq] at h
      rw [← h.1]; exact Ret.fail_fatal_ne_minor _
    · split at h
      · split at h
        · simp only [Option.some.injEq, Prod.mk.injEq] at h
          rw [← h.1]; decide
        · exact ih _ _ _ _ _ h
      · split at h
        · simp only [Option.some.injEq, Prod.mk.injEq] at h
          rw [← h.1]; decide
        · split at h
          · split at h
            · simp only [Option.some.injEq, Prod.mk.injEq] at h
              rw [← h.1]; exact Ret.fail_fatal_ne_minor _
            · split at h
              · split at h
                · simp only [Option.some.injEq, Prod.mk.injEq] at h
                  rw [← h.1]; decide
                · exact ih _ _ _ _ _ h
              · split at h
                · simp only [Option.some.injEq, Prod.mk.injEq] at h
                  rw [← h.1]; decide
                · simp only [Option.some.injEq, Prod.mk.injEq] at h
                  rw [← h.1]; decide
          · simp only [Option.some.injEq, Prod.mk.injEq] at h
            rw [← h.1]; decide

/-- The two ways in which `archreader_read_header` returns the minor error: the
archive-id test, or the minor error of `archreader_read_dico`. -/
theorem read_header_minor (E : Env) (fuel : Nat) (ai : Reader) (readvol : Bool)
    (out : HeaderOut) (a : Reader)
    (hh : archreader_read_header E fuel ai readvol = some (out, a)) :
    out.ret = .minor ↔
      (E.abort = false ∧
        ∃ a0, scan_loops E readvol fuel ai FSA_SIZEOF_MAGIC E.FSA_CACHE_HEADER
            = some (.success, a0) ∧
          (archreader_read_data E a0 FSA_SIZEOF_MAGIC).1 = .success ∧
          (archreader_read_data E (archreader_read_data E a0 FSA_SIZEOF_MAGIC).2.2 4).1
            = .success ∧
          ((a0.archid ≠ 0 ∧
              le_to_cpu (archreader_read_data E
                (archreader_read_data E a0 FSA_SIZEOF_MAGIC).2.2 4).2.1 ≠ a0.archid) ∨
            (¬ (a0.archid ≠ 0 ∧
                le_to_cpu (archreader_read_data E
                  (archreader_read_data E a0 FSA_SIZEOF_MAGIC).2.2 4).2.1 ≠ a0.archid) ∧
              (archreader_read_data E (archreader_read_data E
                (archreader_read_data E a0 FSA_SIZEOF_MAGIC).2.2 4).2.2 2).1 = .success ∧
              (archreader_read_dico E (archreader_read_data E (archreader_read_data E
                (archreader_read_data E a0 FSA_SIZEOF_MAGIC).2.2 4).2.2 2).2.2 dico_alloc).1
                = .minor))) := by
  unfold archreader_read_header at hh
  dsimp only at hh
  by_cases ha : E.abort = true
  · rw [if_pos ha] at hh
    simp only [Option.some.injEq, Prod.mk.injEq] at hh
    rw [← hh.1]
    constructor
    · intro h; exact Ret.noConfusion h
    · rintro ⟨h, -⟩; rw [ha] at h; exact Bool.noConfusion h
  · have haf : E.abort = false := by simpa using ha
    rw [if_neg ha] at hh
    cases hs : scan_loops E readvol fuel ai FSA_SIZEOF_MAGIC E.FSA_CACHE_HEADER with
    | none => rw [hs] at hh; exact absurd hh (by simp)
    | some p =>
      obtain ⟨res, ai1⟩ := p
      rw [hs] at hh
      dsimp only at hh
      have hnm := scan_loops_ne_minor E readvol fuel ai _ _ res ai1 hs
      by_cases hres : res = .success
      · subst hres
        simp only [ne_eq, not_true_eq_false, if_false] at hh
        by_cases hm : (archreader_read_data E ai1 FSA_SIZEOF_MAGIC).1 = .success
        · simp only [hm, not_true_eq_false, if_false] at hh
          by_cases hid : (archreader_read_data E
              (archreader_read_data E ai1 FSA_SIZEOF_MAGIC).2.2 4).1 = .success
          · simp only [hid, not_true_eq_false, if_false] at hh
            by_cases hmis : ai1.archid ≠ 0 ∧
                le_to_cpu (archreader_read_data E
                  (archreader_read_data E ai1 FSA_SIZEOF_MAGIC).2.2 4).2.1 ≠ ai1.archid
            · rw [if_pos hmis] at hh
              simp only [Option.some.injEq, Prod.mk.injEq] at hh
              rw [← hh.1]
              exact ⟨fun _ => ⟨haf, ai1, rfl, hm, hid, Or.inl hmis⟩, fun _ => rfl⟩
            · rw [if_neg hmis] at hh
              by_cases hf : (archreader_read_data E (archreader_read_data E
                  (archreader_read_data E ai1 FSA_SIZEOF_MAGIC).2.2 4).2.2 2).1 = .success
              · simp only [hf, ne_eq, not_true_eq_false, if_false, Option.some.injEq,
                  Prod.mk.injEq] at hh
                rw [← hh.1]
                constructor
                · intro h; exact ⟨haf, ai1, rfl, hm, hid, Or.inr ⟨hmis, hf, h⟩⟩
                · rintro ⟨-, a0, h0, -, -, h | ⟨-, -, h⟩⟩
                  · simp only [Option.some.injEq, Prod.mk.injEq, true_and] at h0
                    subst h0; exact absurd h hmis
                  · simp only [Option.some.injEq, Prod.mk.injEq, true_and] at h0
                    subst h0; exact h
              · simp only [hf, ne_eq, not_false_eq_true, if_true, Option.some.injEq,
                  Prod.mk.injEq] at hh
                rw [← hh.1]
                constructor
                · intro h; exact absurd h (Ret.fail_fatal_ne_minor _)
                · rintro ⟨-, a0, h0, -, -, h | ⟨-, h, -⟩⟩
                  · simp only [Option.some.injEq, Prod.mk.injEq, true_and] at h0
                    subst h0; exact absurd h hmis
                  · simp only [Option.some.injEq, Prod.mk.injEq, true_and] at h0
                    subst h0; exact absurd h hf
          · simp only [hid, not_false_eq_true, if_true, Option.some.injEq, Prod.mk.injEq] at hh
            rw [← hh.1]
            constructor
            · intro h; exact absurd h (Ret.fail_fatal_ne_minor _)
            · rintro ⟨-, a0, h0, -, h, -⟩
              simp only [Option.some.injEq, Prod.mk.injEq, true_and] at h0
              subst h0; exact absurd h hid
        · simp only [hm, not_false_eq_true, if_true, Option.some.injEq, Prod.mk.injEq] at hh
          rw [← hh.1]
          constructor
          · intro h; exact absurd h (Ret.fail_fatal_ne_minor _)
          · rintro ⟨-, a0, h0, h, -⟩
            simp only [Option.some.injEq, Prod.mk.injEq, true_and] at h0
            subst h0; exact absurd h hm
      · simp only [ne_eq, hres, not_false_eq_true, if_true, Option.some.injEq,
          Prod.mk.injEq] at hh
        rw [← hh.1]
        constructor
        · intro h; exact absurd h hnm
        · rintro ⟨-, a0, h0, -⟩
          simp only [Option.some.injEq, Prod.mk.injEq] at h0
          exact absurd h0.1 hres

/-- Claim C4 (amended): on every transport, `archreader_read_dico` returns the
minor error exactly when the format version is 1 or 2, the three reads (length
field, header-bytes, stored checksum) succeed and the Fletcher-32 of header-bytes
differs from the stored little-endian checksum; then the dictionary is unchanged;
and when one of the three reads returns -1 the result is the fatal error.  On a
byte-granular reader this means: minor exactly when the pending bytes hold the
whole frame and the checksums differ, fatal when the pending bytes end before the
stored checksum does.  `archreader_read_header` returns the minor error in exactly
two cases, both with the abort flag clear and after its scan, its read of the
magic and its read of the archive id have succeeded: the archive id read differs
from a nonzero session archive id, or that test passes, the filesystem id is read
and `archreader_read_dico` returns the minor error. -/
theorem read_dico_minor_iff (E : Env) (ai : Reader) (d : cdico) (fuel : Nat) (readvol : Bool)
    (out : HeaderOut) (a : Reader) :
    ((archreader_read_dico E ai d).1 = .minor ↔
      ((ai.filefmtver = 1 ∨ ai.filefmtver = 2) ∧
        (archreader_read_data E ai (lenwidth ai)).1 = .success ∧
        (archreader_read_data E (archreader_read_data E ai (lenwidth ai)).2.2
          (le_to_cpu (archreader_read_data E ai (lenwidth ai)).2.1)).1 = .success ∧
        (archreader_read_data E
          (archreader_read_data E (archreader_read_data E ai (lenwidth ai)).2.2
            (le_to_cpu (archreader_read_data E ai (lenwidth ai)).2.1)).2.2 4).1 = .success ∧
        E.sum32 (archreader_read_data E (archreader_read_data E ai (lenwidth ai)).2.2
            (le_to_cpu (archreader_read_data E ai (lenwidth ai)).2.1)).2.1 ≠
          le_to_cpu (archreader_read_data E
            (archreader_read_data E (archreader_read_data E ai (lenwidth ai)).2.2
              (le_to_cpu (archreader_read_data E ai (lenwidth ai)).2.1)).2.2 4).2.1)) ∧
    ((archreader_read_dico E ai d).1 = .minor → (archreader_read_dico E ai d).2.2 = d) ∧
    ((ai.filefmtver = 1 ∨ ai.filefmtver = 2) →
      ((archreader_read_data E ai (lenwidth ai)).1 = .neg1 ∨
        ((archreader_read_data E ai (lenwidth ai)).1 = .success ∧
          (archreader_read_data E (archreader_read_data E ai (lenwidth ai)).2.2
            (le_to_cpu (archreader_read_data E ai (lenwidth ai)).2.1)).1 = .neg1) ∨
        ((archreader_read_data E ai (lenwidth ai)).1 = .success ∧
          (archreader_read_data E (archreader_read_data E ai (lenwidth ai)).2.2
            (le_to_cpu (archreader_read_data E ai (lenwidth ai)).2.1)).1 = .success ∧
          (archreader_read_data E
            (archreader_read_data E (archreader_read_data E ai (lenwidth ai)).2.2
              (le_to_cpu (archreader_read_data E ai (lenwidth ai)).2.1)).2.2 4).1 = .neg1)) →
      (archreader_read_dico E ai d).1 = .fatal) ∧
    (ai.granular E → (ai.filefmtver = 1 ∨ ai.filefmtver = 2) →
      ((archreader_read_dico E ai d).1 = .minor ↔
        (lenwidth ai + le_to_cpu (ai.pending.take (lenwidth ai)) + 4 ≤ ai.pending.length ∧
          E.sum32 ((ai.pending.drop (lenwidth ai)).take
              (le_to_cpu (ai.pending.take (lenwidth ai)))) ≠
            le_to_cpu ((ai.pending.drop
              (lenwidth ai + le_to_cpu (ai.pending.take (lenwidth ai)))).take 4))) ∧
      (ai.pending.length < lenwidth ai + le_to_cpu (ai.pending.take (lenwidth ai)) + 4 →
        (archreader_read_dico E ai d).1 = .fatal)) ∧
    (archreader_read_header E fuel ai readvol = some (out, a) →
      (out.ret = .minor ↔
        (E.abort = false ∧
          ∃ a0, scan_loops E readvol fuel ai FSA_SIZEOF_MAGIC E.FSA_CACHE_HEADER
              = some (.success, a0) ∧
            (archreader_read_data E a0 FSA_SIZEOF_MAGIC).1 = .success ∧
            (archreader_read_data E (archreader_read_data E a0 FSA_SIZEOF_MAGIC).2.2 4).1
              = .success ∧
            ((a0.archid ≠ 0 ∧
                le_to_cpu (archreader_read_data E
                  (archreader_read_data E a0 FSA_SIZEOF_MAGIC).2.2 4).2.1 ≠ a0.archid) ∨
              (¬ (a0.archid ≠ 0 ∧
                  le_to_cpu (archreader_read_data E
                    (archreader_read_data E a0 FSA_SIZEOF_MAGIC).2.2 4).2.1 ≠ a0.archid) ∧
                (archreader_read_data E (archreader_read_data E
                  (archreader_read_data E a0 FSA_SIZEOF_MAGIC).2.2 4).2.2 2).1 = .success ∧
                (archreader_read_dico E (archreader_read_data E (archreader_read_data E
                  (archreader_read_data E a0 FSA_SIZEOF_MAGIC).2.2 4).2.2 2).2.2 dico_alloc).1
                  = .minor))))) := by
  refine ⟨?_, ?_, ?_, fun hg hver => read_dico_minor_stream E ai d hg hver,
    fun hh => read_header_minor E fuel ai readvol out a hh⟩
  · unfold archreader_read_dico lenwidth
    by_cases hv : ai.filefmtver = 1 ∨ ai.filefmtver = 2
    · have hv' : ¬ (ai.filefmtver ≠ 1 ∧ ai.filefmtver ≠ 2) := by omega
      simp only [hv', if_false, hv, true_and]
      generalize archreader_read_data E ai (if ai.filefmtver = 1 then 2 else 4) = r1
      by_cases h1 : r1.1 = .success
      · simp only [h1, ne_eq, not_true_eq_false, if_false, true_and]
        generalize archreader_read_data E r1.2.2 (le_to_cpu r1.2.1) = r2
        by_cases h2 : r2.1 = .success
        · simp only [h2, ne_eq, not_true_eq_false, if_false, true_and]
          generalize archreader_read_data E r2.2.2 4 = r3
          by_cases h3 : r3.1 = .success
          · simp only [h3, ne_eq, not_true_eq_false, if_false, true_and]
            by_cases hsum : E.sum32 r2.2.1 = le_to_cpu r3.2.1
            · simp only [hsum, not_true_eq_false, if_false, iff_false]
              split
              · simp
              · exact read_items_ne_minor _ _ _ _
            · simp [hsum]
          · simp only [h3, ne_eq, not_false_eq_true, if_true, false_and, iff_false]
            exact Ret.fail_fatal_ne_minor _
        · simp only [h2, ne_eq, not_false_eq_true, if_true, false_and, iff_false]
          exact Ret.fail_fatal_ne_minor _
      · simp only [h1, ne_eq, not_false_eq_true, if_true, false_and, iff_false]
        exact Ret.fail_fatal_ne_minor _
    · have hv' : ai.filefmtver ≠ 1 ∧ ai.filefmtver ≠ 2 := by omega
      simp [hv', hv]
  · unfold archreader_read_dico
    by_cases hv : ai.filefmtver ≠ 1 ∧ ai.filefmtver ≠ 2
    · rw [if_pos hv]
      intro _; rfl
    · rw [if_neg hv]
      dsimp only
      generalize archreader_read_data E ai (if ai.filefmtver = 1 then 2 else 4) = r1
      by_cases h1 : r1.1 ≠ .success
      · rw [if_pos h1]
        intro _; rfl
      · rw [if_neg h1]
        generalize archreader_read_data E r1.2.2 (le_to_cpu r1.2.1) = r2
        by_cases h2 : r2.1 ≠ .success
        · rw [if_pos h2]
          intro _; rfl
        · rw [if_neg h2]
          generalize archreader_read_data E r2.2.2 4 = r3
          by_cases h3 : r3.1 ≠ .success
          · rw [if_pos h3]
            intro _; rfl
          · rw [if_neg h3]
            by_cases hsum : E.sum32 r2.2.1 ≠ le_to_cpu r3.2.1
            · rw [if_pos hsum]
              intro _; rfl
            · rw [if_neg hsum]
              split
              · intro h; cases h
              · intro h
                exact absurd h (read_items_ne_minor _ _ _ _)
  · intro hv hfail
    have hv' : ¬ (ai.filefmtver ≠ 1 ∧ ai.filefmtver ≠ 2) := by omega
    unfold archreader_read_dico
    unfold lenwidth at hfail
    simp only [hv', if_false]
    rcases hfail with h1 | ⟨h1, h2⟩ | ⟨h1, h2, h3⟩
    · simp [h1, Ret.fail]
    · simp [h1, h2, Ret.fail]
    · simp [h1, h2, h3, Ret.fail]

set_option maxRecDepth 100000 in
/-- Claim C4 (witness): a version 2 frame of two header bytes whose stored
checksum is wrong gives the minor error with the dictionary unchanged, and the
fatal error when its last byte is missing; `archreader_read_header` passes both
codes on for a record that holds this frame. -/
theorem read_dico_minor_iff_witness :
    (archreader_read_dico sampleEnv (sampleReader 2 [2, 0, 0, 0, 0, 0, 1, 2, 3, 4]) []).1
        = .minor ∧
      (archreader_read_dico sampleEnv (sampleReader 2 [2, 0, 0, 0, 0, 0, 1, 2, 3, 4]) []).2.2
        = [] ∧
      (archreader_read_dico sampleEnv (sampleReader 2 [2, 0, 0, 0, 0, 0, 1, 2, 3]) []).1
        = .fatal ∧
      (archreader_read_header sampleEnv 3
        (sampleReader 2 ([65, 114, 67, 104, 7, 0, 0, 0, 1, 0, 2, 0, 0, 0, 0, 0, 1, 2, 3, 4] ++
          List.replicate 64 0)) false).map Prod.fst
        = some { ret := .minor, magic := [65, 114, 67, 104], d := some [], fsid := 1 } ∧
      (archreader_read_header sampleEnv 3
        (sampleReader 2 [65, 114, 67, 104, 7, 0, 0, 0, 1, 0, 2, 0, 0, 0, 0, 0, 1, 2, 3])
        false).map Prod.fst
        = some { ret := .fatal, magic := [65, 114, 67, 104], d := some [], fsid := 1 } :=
  ⟨((read_dico_minor_iff sampleEnv (sampleReader 2 [2, 0, 0, 0, 0, 0, 1, 2, 3, 4]) [] 0 false
      ⟨.success, [], none, 0⟩ (sampleReader 2 [])).2.2.2.1
      (sampleReader_granular _ _) (Or.inr rfl)).1.2 (by decide),
    (read_dico_minor_iff sampleEnv (sampleReader 2 [2, 0, 0, 0, 0, 0, 1, 2, 3, 4]) [] 0 false
      ⟨.success, [], none, 0⟩ (sampleReader 2 [])).2.1
      (((read_dico_minor_iff sampleEnv (sampleReader 2 [2, 0, 0, 0, 0, 0, 1, 2, 3, 4]) [] 0 false
        ⟨.success, [], none, 0⟩ (sampleReader 2 [])).2.2.2.1
        (sampleReader_granular _ _) (Or.inr rfl)).1.2 (by decide)),
    ((read_dico_minor_iff sampleEnv (sampleReader 2 [2, 0, 0, 0, 0, 0, 1, 2, 3]) [] 0 false
      ⟨.success, [], none, 0⟩ (sampleReader 2 [])).2.2.2.1
      (sampleReader_granular _ _) (Or.inr rfl)).2 (by decide),
    by decide, by decide⟩

set_option maxRecDepth 100000 in
/-- Claim C4 (counterexample): a record with archive id `0xC0FFEE` read in a
session whose archive id is `0xDEADBEEF`.  `archreader_read_header` returns the
minor error with 8 bytes consumed, before the length field is read; the frame of
the record is whole (length 2, header-bytes `0 0`) and its stored checksum equals
the Fletcher-32 of header-bytes, so that `archreader_read_dico` returns SUCCESS on
it and the same call without a session archive id returns SUCCESS. -/
theorem read_dico_minor_iff_counterexample :
    (archreader_read_header sampleEnv 3 (sessionReader foreign_stream) false).map
        (fun x => (x.1.ret, x.2.cacheread)) = some (.minor, 8) ∧
      (foreign_stream.drop 10).take 4 = [2, 0, 0, 0] ∧
      sampleEnv.sum32 ((foreign_stream.drop 14).take 2)
        = le_to_cpu ((foreign_stream.drop 16).take 4) ∧
      (archreader_read_dico sampleEnv (sessionReader (foreign_stream.drop 10)) []).1
        = .success ∧
      (archreader_read_header sampleEnv 3 (sampleReader 2 foreign_stream) false).map
        (fun x => x.1.ret) = some .success := by
  decide

/-! ## Magic scan -/

theorem window_eq (s : List Nat) (r i : Nat) (h : i + 4 ≤ r) :
    ((s.take r).drop i).take 4 = (s.drop i).take 4 := by
  rw [List.drop_take, List.take_take]
  have : min 4 (r - i) = 4 := by omega
  rw [this]

theorem drop_take_append_drop (s : List Nat) (k r : Nat) (h : k ≤ r) (hr : r ≤ s.length) :
    (s.take r).drop k ++ s.drop r = s.drop k := by
  conv_rhs => rw [← List.take_append_drop r s]
  rw [List.drop_append_of_le_length (by rw [List.length_take]; omega)]

theorem consumed_length (E : Env) (ai : Reader) (hg : ai.granular E) :
    ai.consumed.length = ai.cacheread := by
  obtain ⟨hwf, -⟩ := hg
  simp [Reader.consumed, hwf]

/-- One pass of the scan loop over a window of `r` bytes that holds no valid
magic: three bytes are unread and the scan goes on `r - 3` bytes further. -/
theorem scan_pass_none (E : Env) (readvol : Bool) (ai : Reader) (r u fuel : Nat)
    (hg : ai.granular E) (h3 : 3 ≤ r) (hr : r ≤ ai.pending.length)
    (hnone : ∀ i, i + 4 ≤ r → magic_at E ai.pending i = false) :
    ∃ a, scan_loops E readvol (fuel + 1) ai r u = scan_loops E readvol fuel a E.FSA_CACHE_HEADER u ∧
      a.pending = ai.pending.drop (r - 3) ∧ a.granular E ∧ a.conf = ai.conf := by
  have hp : ai.pending = ai.pending.take r ++ ai.pending.drop r :=
    (List.take_append_drop _ _).symm
  have hl : (ai.pending.take r).length = r := by rw [List.length_take]; omega
  obtain ⟨a1, hr1, g1, p1, c1, f1, rd1⟩ := read_data_granular E ai _ _ hg hp
  rw [hl] at hr1 rd1
  have hfind : find_magic E (ai.pending.take r) r = none := by
    unfold find_magic FSA_SIZEOF_MAGIC
    rw [List.find?_range_eq_none]
    intro i hi
    have h4 : i + 4 ≤ r := by omega
    have := hnone i h4
    unfold magic_at FSA_SIZEOF_MAGIC at this
    rw [window_eq _ _ _ h4, this]
    rfl
  obtain ⟨a2, hu, g2, p2, -, c2, -⟩ := unread_granular E a1 3 g1 (by omega)
  refine ⟨a2, ?_, ?_, g2, by rw [c2, f1]⟩
  · rw [scan_loops]
    simp only [hr1, hfind, ne_eq, not_true_eq_false, if_false, FSA_SIZEOF_MAGIC]
    have h31 : (4 : Nat) - 1 = 3 := rfl
    rw [h31, hu]
    simp
  · rw [p2, c1, p1, rd1, ← consumed_length E ai hg]
    have hc : ai.consumed.length + r - 3 = ai.consumed.length + (r - 3) := by omega
    rw [hc, List.drop_append, drop_take_append_drop _ _ _ (by omega) hr]

/-- One pass of the scan loop over a window of `r` bytes whose first valid magic
is at window position `k`: the bytes from the magic on are unread, so the read
position ends on the magic. -/
theorem scan_pass_found (E : Env) (ai : Reader) (r u fuel k : Nat)
    (hg : ai.granular E) (hr : r ≤ ai.pending.length) (hk : k + 4 ≤ r)
    (hm : magic_at E ai.pending k = true)
    (hmin : ∀ i, i < k → magic_at E ai.pending i = false) :
    ∃ a, scan_loops E false (fuel + 1) ai r u = some (.success, a) ∧
      a.pending = ai.pending.drop k ∧ a.granular E ∧ a.conf = ai.conf := by
  have hp : ai.pending = ai.pending.take r ++ ai.pending.drop r :=
    (List.take_append_drop _ _).symm
  have hl : (ai.pending.take r).length = r := by rw [List.length_take]; omega
  obtain ⟨a1, hr1, g1, p1, c1, f1, rd1⟩ := read_data_granular E ai _ _ hg hp
  rw [hl] at hr1 rd1
  have hfind : find_magic E (ai.pending.take r) r = some k := by
    unfold find_magic FSA_SIZEOF_MAGIC
    rw [List.find?_range_eq_some]
    refine ⟨?_, ?_, ?_⟩
    · unfold magic_at FSA_SIZEOF_MAGIC at hm
      rw [window_eq _ _ _ hk, hm]
    · rw [List.mem_range]; omega
    · intro j hj
      have h4 : j + 4 ≤ r := by omega
      have := hmin j hj
      unfold magic_at FSA_SIZEOF_MAGIC at this
      rw [window_eq _ _ _ h4, this]
      rfl
  have hsz : r - (k + 1) + 1 = r - k := by omega
  obtain ⟨a2, hu, g2, p2, -, c2, -⟩ := unread_granular E a1 (r - k) g1 (by omega)
  refine ⟨a2, ?_, ?_, g2, by rw [c2, f1]⟩
  · rw [scan_loops]
    simp only [hr1, hfind, ne_eq, not_true_eq_false, if_false, hsz, hu, Bool.false_eq_true]
  · rw [p2, c1, p1, rd1, ← consumed_length E ai hg]
    have hc : ai.consumed.length + r - (r - k) = ai.consumed.length + k := by omega
    rw [hc, List.drop_append, drop_take_append_drop _ _ _ (by omega) hr]

theorem first_magic_drop (E : Env) (s : List Nat) (p n : Nat) (h : first_magic E s p)
    (hn : n ≤ p) : first_magic E (s.drop n) (p - n) := by
  obtain ⟨h1, h2, h3⟩ := h
  have hma : ∀ q, magic_at E (s.drop n) q = magic_at E s (n + q) := by
    intro q; unfold magic_at; rw [List.drop_drop]
  refine ⟨by rw [List.length_drop]; omega, ?_, ?_⟩
  · rw [hma]
    have : n + (p - n) = p := by omega
    rw [this]; exact h2
  · intro q hq
    rw [hma]
    exact h3 _ (by omega)

/-- The scan with `FSA_CACHE_HEADER`-byte windows: when the first valid magic of
the pending bytes is at offset `p`, tested by the window that starts at
`j * (H - 3)`, and that window lies inside the stream, the scan stops with the
read position at `p`. -/
theorem scan_from (E : Env) (j : Nat) (h4 : 4 ≤ E.FSA_CACHE_HEADER) :
    ∀ (ai : Reader) (p u fuel : Nat), ai.granular E → first_magic E ai.pending p →
      j * (E.FSA_CACHE_HEADER - 3) ≤ p →
      p + 4 ≤ j * (E.FSA_CACHE_HEADER - 3) + E.FSA_CACHE_HEADER →
      j * (E.FSA_CACHE_HEADER - 3) + E.FSA_CACHE_HEADER ≤ ai.pending.length →
      j + 1 ≤ fuel →
      ∃ a, scan_loops E false fuel ai E.FSA_CACHE_HEADER u = some (.success, a) ∧
        a.pending = ai.pending.drop p ∧ a.granular E ∧ a.conf = ai.conf := by
  induction j with
  | zero =>
    intro ai p u fuel hg hf _ hhi hlen hfuel
    obtain ⟨f, rfl⟩ : ∃ f, fuel = f + 1 := ⟨fuel - 1, by omega⟩
    simp only [Nat.zero_mul, Nat.zero_add] at hhi hlen
    exact scan_pass_found E ai _ u f p hg hlen hhi hf.2.1 hf.2.2
  | succ j ih =>
    intro ai p u fuel hg hf hlo hhi hlen hfuel
    obtain ⟨f, rfl⟩ : ∃ f, fuel = f + 1 := ⟨fuel - 1, by omega⟩
    rw [Nat.succ_mul] at hlo hhi hlen
    have hnone : ∀ i, i + 4 ≤ E.FSA_CACHE_HEADER → magic_at E ai.pending i = false :=
      fun i hi => hf.2.2 i (by omega)
    obtain ⟨a, hs, pa, ga, ca⟩ := scan_pass_none E false ai E.FSA_CACHE_HEADER u f hg
      (by omega) (by omega) hnone
    have hf1 := first_magic_drop E ai.pending p (E.FSA_CACHE_HEADER - 3) hf (by omega)
    rw [← pa] at hf1
    obtain ⟨a1, hs1, pa1, ga1, ca1⟩ := ih a (p - (E.FSA_CACHE_HEADER - 3)) u f ga hf1
      (by omega) (by omega) (by rw [pa, List.length_drop]; omega) (by omega)
    refine ⟨a1, by rw [hs, hs1], ?_, ga1, by rw [ca1, ca]⟩
    rw [pa1, pa, List.drop_drop]
    congr 1
    omega

/-- The scan as entered by `archreader_read_header` (first window of 4 bytes,
later windows of `FSA_CACHE_HEADER` bytes): when the first valid magic of the
pending bytes is at offset `p` and the window that tests `p` lies inside the
stream, the scan stops with the read position at `p`. -/
theorem scan_first_magic (E : Env) (ai : Reader) (p j fuel : Nat) (hg : ai.granular E)
    (h4 : 4 ≤ E.FSA_CACHE_HEADER) (hf : first_magic E ai.pending p)
    (hw : window_inside E.FSA_CACHE_HEADER ai.pending.length p j) (hfuel : j + 2 ≤ fuel) :
    ∃ a, scan_loops E false fuel ai FSA_SIZEOF_MAGIC E.FSA_CACHE_HEADER = some (.success, a) ∧
      a.pending = ai.pending.drop p ∧ a.granular E ∧ a.conf = ai.conf := by
  obtain ⟨f, rfl⟩ : ∃ f, fuel = f + 1 := ⟨fuel - 1, by omega⟩
  rcases hw with ⟨hp0, hn⟩ | ⟨hlo, hhi, hlen⟩
  · subst hp0
    exact scan_pass_found E ai 4 _ f 0 hg hn (by omega) hf.2.1 hf.2.2
  · have hnone : ∀ i, i + 4 ≤ 4 → magic_at E ai.pending i = false :=
      fun i hi => hf.2.2 i (by omega)
    obtain ⟨a, hs, pa, ga, ca⟩ := scan_pass_none E false ai 4 E.FSA_CACHE_HEADER f hg
      (by omega) (by omega) hnone
    have hf1 := first_magic_drop E ai.pending p 1 hf (by omega)
    have h41 : (4 : Nat) - 3 = 1 := rfl
    rw [h41] at pa
    rw [← pa] at hf1
    obtain ⟨a1, hs1, pa1, ga1, ca1⟩ := scan_from E j h4 a (p - 1) E.FSA_CACHE_HEADER f ga hf1
      (by omega) (by omega) (by rw [pa, List.length_drop]; omega) (by omega)
    refine ⟨a1, by rw [FSA_SIZEOF_MAGIC, hs, hs1], ?_, ga1, by rw [ca1, ca]⟩
    rw [pa1, pa, List.drop_drop]
    congr 1
    omega

/-! ## Decoding a header once the scan has stopped -/

theorem conf_filefmtver (a b : Reader) (h : a.conf = b.conf) : a.filefmtver = b.filefmtver := by
  have := congrArg (fun c => c.2.2.2.2.1) h
  exact this

theorem conf_archid (a b : Reader) (h : a.conf = b.conf) : a.archid = b.archid := by
  have := congrArg (fun c => c.2.2.1) h
  exact this

/-- After the scan, `archreader_read_header` returns the four bytes at the read
position as the magic, whatever happens afterwards. -/
theorem read_header_magic (E : Env) (ai a0 : Reader) (fuel : Nat) (readvol : Bool)
    (ha : E.abort = false)
    (hscan : scan_loops E readvol fuel ai FSA_SIZEOF_MAGIC E.FSA_CACHE_HEADER = some (.success, a0))
    (hg : a0.granular E) (h4 : 4 ≤ a0.pending.length) :
    ∃ out a, archreader_read_header E fuel ai readvol = some (out, a) ∧
      out.magic = a0.pending.take 4 := by
  have hp : a0.pending = a0.pending.take 4 ++ a0.pending.drop 4 :=
    (List.take_append_drop _ _).symm
  have hl : (a0.pending.take 4).length = 4 := by rw [List.length_take]; omega
  obtain ⟨a1, hr1, -⟩ := read_data_granular E a0 _ _ hg hp
  rw [hl] at hr1
  simp only [FSA_SIZEOF_MAGIC] at hscan
  unfold archreader_read_header
  simp only [ha, FSA_SIZEOF_MAGIC, hscan, Bool.false_eq_true, if_false, ne_eq,
    not_true_eq_false, hr1]
  split
  · exact ⟨_, _, rfl, rfl⟩
  · split
    · exact ⟨_, _, rfl, rfl⟩
    · split
      · exact ⟨_, _, rfl, rfl⟩
      · exact ⟨_, _, rfl, rfl⟩

/-- After the scan has stopped on the first byte of an encoded record whose
archive id is accepted, `archreader_read_header` returns SUCCESS with the magic,
filesystem id and attributes of the record and consumes exactly the record. -/
theorem read_header_decode (E : Env) (ai a0 : Reader) (fuel : Nat) (readvol : Bool)
    (r : Record) (rest : List Nat) (ha : E.abort = false)
    (hscan : scan_loops E readvol fuel ai FSA_SIZEOF_MAGIC E.FSA_CACHE_HEADER = some (.success, a0))
    (hg : a0.granular E) (hver : a0.filefmtver = 1 ∨ a0.filefmtver = 2)
    (hfit : r.fits a0.filefmtver) (hid : a0.archid = 0 ∨ r.archid = a0.archid)
    (hp : a0.pending = spec_encode_record E a0.filefmtver r ++ rest) :
    ∃ a, archreader_read_header E fuel ai readvol = some (header_of r, a) ∧
      a.pending = rest ∧ a.granular E ∧ a.conf = a0.conf := by
  obtain ⟨hm4, hai, hfs, hn, hf, hlen⟩ := hfit
  have hp0 : a0.pending = r.magic ++ (cpu_to_le 4 r.archid ++ (cpu_to_le 2 r.fsid ++
      (spec_encode_dico E a0.filefmtver r.attrs ++ rest))) := by
    rw [hp]; simp [spec_encode_record]
  obtain ⟨a1, hr1, g1, p1, -, c1, -⟩ := read_data_granular E a0 _ _ hg hp0
  obtain ⟨a2, hr2, g2, p2, -, c2, -⟩ := read_data_granular E a1 _ _ g1 p1
  obtain ⟨a3, hr3, g3, p3, -, c3, -⟩ := read_data_granular E a2 _ _ g2 p2
  have hv3 : a3.filefmtver = a0.filefmtver := by
    rw [conf_filefmtver _ _ c3, conf_filefmtver _ _ c2, conf_filefmtver _ _ c1]
  rw [← hv3] at p3 hver hlen
  obtain ⟨a4, hr4, p4, c4, g4⟩ := read_dico_encoded E a3 dico_alloc r.attrs rest g3 hver hn hf
    hlen p3
  rw [hm4] at hr1
  rw [length_cpu_to_le] at hr2 hr3
  have hle4 : le_to_cpu (cpu_to_le 4 r.archid) = r.archid := by
    rw [le_to_cpu_cpu_to_le, Nat.mod_eq_of_lt hai]
  have hle2 : le_to_cpu (cpu_to_le 2 r.fsid) = r.fsid := by
    rw [le_to_cpu_cpu_to_le, Nat.mod_eq_of_lt hfs]
  have hidn : ¬ (a0.archid ≠ 0 ∧ r.archid ≠ a0.archid) := by
    rcases hid with h | h
    · simp [h]
    · simp [h]
  refine ⟨a4, ?_, p4, g4, by rw [c4, c3, c2, c1]⟩
  simp only [FSA_SIZEOF_MAGIC] at hscan
  unfold archreader_read_header
  simp only [ha, FSA_SIZEOF_MAGIC, hscan, Bool.false_eq_true, if_false, ne_eq,
    not_true_eq_false, hr1, hr2, hr3, hr4, hle4, hle2]
  simp only [ne_eq] at hidn
  simp only [hidn, if_false, header_of, dico_alloc, List.nil_append]

/-- Claim C6 (amended): on a byte-granular reader (regular file, or select-based
transport; `datablocksize > 0`, `devblocksize > 0`, read pointer inside the cached
bytes) with `readvol = false`, the abort flag clear and `FSA_CACHE_HEADER ≥ 4`,
when offset `p` is the smallest offset of the pending bytes at which a 4-byte
window is a valid magic and the scan window that tests `p` lies inside the stream
(the 4-byte window at 0, or the `j`-th window of `FSA_CACHE_HEADER` bytes, which
starts at `1 + j * (FSA_CACHE_HEADER - 3)`), the scan loops of
`archreader_read_header` end with the read position exactly at `p`, and the magic
returned by `archreader_read_header` is the four bytes at `p`. -/
theorem read_header_first_magic (E : Env) (ai : Reader) (p j fuel : Nat)
    (hg : ai.granular E) (ha : E.abort = false) (h4 : 4 ≤ E.FSA_CACHE_HEADER)
    (hf : first_magic E ai.pending p)
    (hw : window_inside E.FSA_CACHE_HEADER ai.pending.length p j) (hfuel : j + 2 ≤ fuel) :
    (∃ a0, scan_loops E false fuel ai FSA_SIZEOF_MAGIC E.FSA_CACHE_HEADER = some (.success, a0) ∧
      a0.pending = ai.pending.drop p) ∧
    (∃ out a, archreader_read_header E fuel ai false = some (out, a) ∧
      out.magic = (ai.pending.drop p).take 4) := by
  obtain ⟨a0, hs, pa, ga, -⟩ := scan_first_magic E ai p j fuel hg h4 hf hw hfuel
  refine ⟨⟨a0, hs, pa⟩, ?_⟩
  have hlen : 4 ≤ a0.pending.length := by
    rw [pa, List.length_drop]
    have := hf.1
    omega
  obtain ⟨out, a, hr, hm⟩ := read_header_magic E ai a0 fuel false ha hs ga hlen
  exact ⟨out, a, hr, by rw [hm, pa]⟩

set_option maxRecDepth 100000 in
/-- Claim C6 (witness): a magic whose first two bytes sit at offset
`FSA_CACHE_HEADER - 2 = 62` of a 126-byte stream. -/
theorem read_header_first_magic_witness :
    (∃ a0, scan_loops sampleEnv false 3 (sampleReader 2 boundary_stream) FSA_SIZEOF_MAGIC
        sampleEnv.FSA_CACHE_HEADER = some (.success, a0) ∧
      a0.pending = (sampleReader 2 boundary_stream).pending.drop 62) ∧
    (∃ out a, archreader_read_header sampleEnv 3 (sampleReader 2 boundary_stream) false
        = some (out, a) ∧
      out.magic = ((sampleReader 2 boundary_stream).pending.drop 62).take 4) :=
  read_header_first_magic sampleEnv (sampleReader 2 boundary_stream) 62 1 3
    (sampleReader_granular _ _) rfl (by decide) (by decide) (by decide) (by decide)

/-- Claim C6 (counterexample): in `short_stream` the smallest offset holding a
valid magic is 1, yet `archreader_read_header` returns the fatal error with the
magic left at zero: the second scan window needs 64 bytes from offset 1 and the
stream has 20. -/
theorem read_header_first_magic_counterexample :
    first_magic sampleEnv (sampleReader 2 short_stream).pending 1 ∧
      (archreader_read_header sampleEnv 10 (sampleReader 2 short_stream) false).map Prod.fst
        = some { ret := .fatal, magic := [0, 0, 0, 0], d := none, fsid := 65535 } := by
  decide

set_option maxRecDepth 100000 in
/-- Claim C7 (code at the failing input): on `stale_stream` with `readvol = true`
the probe rejects the candidate at offset 0 and accepts the valid magic `FsA0` at
offset 64, but only `FSA_CACHE_HEADER - 4` probe bytes are unread, and
`archreader_read_header` returns SUCCESS with the magic `9 9 9 9` read at offset
68. -/
theorem read_header_stale_unread :
    magic_at sampleEnv stale_stream 64 = true ∧
      (stale_stream.drop 64).take 4 = [70, 115, 65, 48] ∧
      (archreader_fmt_version (sampleReader 0 []) ((stale_stream.drop 64).take 64)).1 = .success ∧
      (archreader_read_header sampleEnv 10 (sampleReader 0 stale_stream) true).map Prod.fst
        = some { ret := .success, magic := [9, 9, 9, 9], d := some [], fsid := 0 } ∧
      (stale_stream.drop 68).take 4 = [9, 9, 9, 9] := by
  decide

/-! ## Reading a data block -/

/-- With the seven attributes present, REALSIZE in range and the skip flag clear,
`archreader_read_block` is decided by the payload read and the checksum
comparison. -/
theorem read_block_unfold (E : Env) (ai : Reader) (d : cdico) (b : BlockAttrs)
    (hd : carries E d b) (hmax : b.realsize ≤ E.FSA_MAX_BLKSIZE) :
    archreader_read_block E ai d false =
      if (archreader_read_data E ai b.arsize).1 ≠ .success then
        ((archreader_read_data E ai b.arsize).1.fail .neg1, -1, blkinfo_zero,
          (archreader_read_data E ai b.arsize).2.2)
      else if E.sum32 (archreader_read_data E ai b.arsize).2.1 ≠ b.arcsum then
        if (archreader_unread (archreader_read_data E ai b.arsize).2.2 b.arsize).1 ≠ .success then
          (.enomem, 0, blkinfo_of b (archreader_read_data E ai b.arsize).2.1,
            (archreader_unread (archreader_read_data E ai b.arsize).2.2 b.arsize).2)
        else
          (.success, 0, blkinfo_of b (List.replicate b.arsize 0),
            (archreader_unread (archreader_read_data E ai b.arsize).2.2 b.arsize).2)
      else
        (.success, 1, blkinfo_of b (archreader_read_data E ai b.arsize).2.1,
          (archreader_read_data E ai b.arsize).2.2) := by
  obtain ⟨h1, h2, h3, h4, h5, h6, h7⟩ := hd
  have hm : ¬ E.FSA_MAX_BLKSIZE < b.realsize := by omega
  unfold archreader_read_block
  simp only [h1, h2, h3, h4, h5, h6, h7, hm, if_false, Bool.false_eq_true,
    archreader_reset_block, blkinfo_of, ne_eq, not_true_eq_false]

/-- Bytes already in the cache are handed out without a transport read. -/
theorem read_data_cached (E : Env) (ai : Reader) (n : Nat)
    (hn : ai.cacheread + n ≤ ai.cache.length) :
    archreader_read_data E ai n =
      (.success, (ai.cache.drop ai.cacheread).take n, { ai with cacheread := ai.cacheread + n }) := by
  by_cases h0 : n = 0
  · subst h0; simp [archreader_read_data]
  · have hm : missing ai n ≤ 0 := by unfold missing; omega
    have hr : ai_read E ai n = (.success, ai) := by
      unfold ai_read
      cases ai.read <;>
        simp [archreader_read_regular, archreader_read_select, archreader_read_blocks, hm]
    simp [archreader_read_data, h0, hr]

/-- Claim C3: on a payload checksum mismatch `archreader_read_block` returns 0
with `sumok = false`, the returned buffer is ARSIZE zero bytes, the pending bytes
of the reader are those it had before the call (the read position is back on the
first payload byte), and a following read of ARSIZE bytes returns the same
payload `P` without taking any byte from the descriptor. -/
theorem read_block_mismatch (E : Env) (ai ai1 : Reader) (d : cdico) (b : BlockAttrs)
    (P : List Nat) (hd : carries E d b) (hmax : b.realsize ≤ E.FSA_MAX_BLKSIZE)
    (hwf : ai.cacheread ≤ ai.cache.length)
    (hread : archreader_read_data E ai b.arsize = (.success, P, ai1))
    (hsum : E.sum32 P ≠ b.arcsum) :
    (archreader_read_block E ai d false).1 = .success ∧
      (archreader_read_block E ai d false).2.1 = 0 ∧
      (archreader_read_block E ai d false).2.2.1 = blkinfo_of b (List.replicate b.arsize 0) ∧
      (archreader_read_block E ai d false).2.2.2.pending = ai.pending ∧
      (archreader_read_data E (archreader_read_block E ai d false).2.2.2 b.arsize).1 = .success ∧
      (archreader_read_data E (archreader_read_block E ai d false).2.2.2 b.arsize).2.1 = P ∧
      (archreader_read_data E (archreader_read_block E ai d false).2.2.2 b.arsize).2.2.input
        = (archreader_read_block E ai d false).2.2.2.input := by
  obtain ⟨hPl, hpend, hcons, hrd, hwf1, -⟩ := read_data_success E ai ai1 P b.arsize hwf hread
  obtain ⟨u, hu, hup, -, -, hu0, -, -, huc⟩ := unread_success ai1 b.arsize hwf1 (by omega)
  have hcl : ai.consumed.length = ai.cacheread := by
    simp [Reader.consumed, hwf]
  have hdrop : ai1.consumed.drop (ai1.cacheread - b.arsize) = P := by
    rw [hcons, hrd, Nat.add_sub_cancel, ← hcl, List.drop_left]
  have hblock : archreader_read_block E ai d false
      = (.success, 0, blkinfo_of b (List.replicate b.arsize 0), u) := by
    rw [read_block_unfold E ai d b hd hmax, hread]
    simp [hsum, hu]
  have hun : u.cacheread + b.arsize ≤ u.cache.length := by
    rw [hu0, huc, List.length_drop]; omega
  have hP : (u.cache.drop u.cacheread).take b.arsize = P := by
    rw [hu0, List.drop_zero, huc]
    have h1 : ai1.cacheread - b.arsize = ai.cacheread := by omega
    rw [h1, List.take_drop, ← hrd]
    have h2 : ai1.cache.take ai1.cacheread = ai.consumed ++ P := hcons
    rw [h2, ← hcl, List.drop_left]
  rw [hblock]
  refine ⟨rfl, rfl, rfl, ?_, ?_, ?_, ?_⟩
  · show u.pending = ai.pending
    rw [hup, hdrop, hpend]
  · rw [read_data_cached E u b.arsize hun]
  · rw [read_data_cached E u b.arsize hun]
    exact hP
  · rw [read_data_cached E u b.arsize hun]

/-- Claim C3 (witness): the sample block with the last payload byte altered. -/
theorem read_block_mismatch_witness :
    (archreader_read_block sampleEnv (sampleReader 2 [104, 101, 108, 108, 112, 1, 2, 3])
        sample_blkdico false).1 = .success ∧
      (archreader_read_block sampleEnv (sampleReader 2 [104, 101, 108, 108, 112, 1, 2, 3])
        sample_blkdico false).2.1 = 0 ∧
      (archreader_read_block sampleEnv (sampleReader 2 [104, 101, 108, 108, 112, 1, 2, 3])
        sample_blkdico false).2.2.1 = blkinfo_of sample_attrs (List.replicate sample_attrs.arsize 0) ∧
      (archreader_read_block sampleEnv (sampleReader 2 [104, 101, 108, 108, 112, 1, 2, 3])
        sample_blkdico false).2.2.2.pending
        = (sampleReader 2 [104, 101, 108, 108, 112, 1, 2, 3]).pending ∧
      (archreader_read_data sampleEnv
        (archreader_read_block sampleEnv (sampleReader 2 [104, 101, 108, 108, 112, 1, 2, 3])
          sample_blkdico false).2.2.2 sample_attrs.arsize).1 = .success ∧
      (archreader_read_data sampleEnv
        (archreader_read_block sampleEnv (sampleReader 2 [104, 101, 108, 108, 112, 1, 2, 3])
          sample_blkdico false).2.2.2 sample_attrs.arsize).2.1 = [104, 101, 108, 108, 112] ∧
      (archreader_read_data sampleEnv
        (archreader_read_block sampleEnv (sampleReader 2 [104, 101, 108, 108, 112, 1, 2, 3])
          sample_blkdico false).2.2.2 sample_attrs.arsize).2.2.input
        = (archreader_read_block sampleEnv (sampleReader 2 [104, 101, 108, 108, 112, 1, 2, 3])
          sample_blkdico false).2.2.2.input :=
  read_block_mismatch sampleEnv (sampleReader 2 [104, 101, 108, 108, 112, 1, 2, 3])
    (sampleReaderAfter 2 5 [104, 101, 108, 108, 112, 1, 2, 3]) sample_blkdico sample_attrs
    [104, 101, 108, 108, 112] (by decide) (by decide) (by decide) (by decide) (by decide)

/-! ## Reading records one after the other -/

/-- With the abort flag clear, when the first valid magic of the pending bytes is
at offset `p`, the window that tests `p` lies inside the stream and an encoded
record with accepted archive id starts at `p`, `archreader_read_header` returns
SUCCESS with that record and consumes the stream up to the end of the record. -/
theorem read_header_at (E : Env) (ai : Reader) (p j fuel : Nat) (r : Record)
    (rest : List Nat) (hg : ai.granular E) (ha : E.abort = false)
    (h4 : 4 ≤ E.FSA_CACHE_HEADER) (hver : ai.filefmtver = 1 ∨ ai.filefmtver = 2)
    (hf : first_magic E ai.pending p)
    (hw : window_inside E.FSA_CACHE_HEADER ai.pending.length p j) (hfuel : j + 2 ≤ fuel)
    (hfit : r.fits ai.filefmtver) (hid : ai.archid = 0 ∨ r.archid = ai.archid)
    (hp : ai.pending.drop p = spec_encode_record E ai.filefmtver r ++ rest) :
    ∃ a, archreader_read_header E fuel ai false = some (header_of r, a) ∧
      a.pending = rest ∧ a.granular E ∧ a.conf = ai.conf := by
  obtain ⟨a0, hs, pa, ga, ca⟩ := scan_first_magic E ai p j fuel hg h4 hf hw hfuel
  have hv0 : a0.filefmtver = ai.filefmtver := conf_filefmtver _ _ ca
  have hi0 : a0.archid = ai.archid := conf_archid _ _ ca
  obtain ⟨a, hr, pr, gr, cr⟩ := read_header_decode E ai a0 fuel false r rest ha hs ga
    (by rw [hv0]; exact hver) (by rw [hv0]; exact hfit) (by rw [hi0]; exact hid)
    (by rw [pa, hv0, hp])
  exact ⟨a, hr, pr, gr, by rw [cr, ca]⟩

theorem first_magic_zero (E : Env) (s magic rest : List Nat) (hs : s = magic ++ rest)
    (hl : magic.length = 4) (hm : E.is_magic_valid magic = true) : first_magic E s 0 := by
  subst hs
  refine ⟨by simp [hl], ?_, fun q hq => absurd hq (Nat.not_lt_zero q)⟩
  unfold magic_at FSA_SIZEOF_MAGIC
  rw [List.drop_zero, ← hl, List.take_left]
  exact hm

/-- One step of `read_sequence` on a well-formed record that starts at offset `p`
of the pending bytes, `p` being the first offset that holds a valid magic: the
header is returned and the record, payload included, is consumed. -/
theorem read_record_step (E : Env) (ai : Reader) (p j fuel : Nat) (r : StreamRecord)
    (rest : List Nat) (hg : ai.granular E) (ha : E.abort = false)
    (h4 : 4 ≤ E.FSA_CACHE_HEADER) (hver : ai.filefmtver = 1 ∨ ai.filefmtver = 2)
    (hf : first_magic E ai.pending p)
    (hw : window_inside E.FSA_CACHE_HEADER ai.pending.length p j) (hfuel : j + 2 ≤ fuel)
    (hwf : r.wellformed E ai.filefmtver ai.archid)
    (hp : ai.pending.drop p = spec_encode_stream_record E ai.filefmtver r ++ rest) :
    ∃ a1 a2, archreader_read_header E fuel ai false = some (header_of r.head, a1) ∧
      (if r.payload.isSome then
          (archreader_read_block E a1 ((header_of r.head).d.getD []) false).2.2.2 else a1) = a2 ∧
      a2.pending = rest ∧ a2.granular E ∧ a2.conf = ai.conf := by
  obtain ⟨-, hfit, hid, hpay⟩ := hwf
  have hp1 : ai.pending.drop p = spec_encode_record E ai.filefmtver r.head ++
      (r.payload.getD [] ++ rest) := by
    rw [hp, spec_encode_stream_record, List.append_assoc]
  obtain ⟨a1, hr, p1, g1, c1⟩ := read_header_at E ai p j fuel r.head _ hg ha h4 hver hf hw
    hfuel hfit hid hp1
  cases hpl : r.payload with
  | none =>
    refine ⟨a1, a1, hr, by simp, ?_, g1, c1⟩
    rw [p1, hpl]; rfl
  | some P =>
    obtain ⟨hcar, hmax, hsz, hsum⟩ := hpay (by rw [hpl]; rfl)
    rw [hpl] at p1 hsz hsum
    simp only [Option.getD_some] at hsz hsum
    have p1' : a1.pending = P ++ rest := p1
    obtain ⟨a2, hr2, g2, p2, -, c2, -⟩ := read_data_granular E a1 P rest g1 p1'
    rw [← hsz] at hr2
    have hblk : archreader_read_block E a1 r.head.attrs false
        = (.success, 1, blkinfo_of r.battrs P, a2) := by
      rw [read_block_unfold E a1 r.head.attrs r.battrs hcar hmax, hr2]
      simp [hsum]
    refine ⟨a1, a2, hr, ?_, p2, g2, by rw [c2, c1]⟩
    simp only [Option.isSome_some, if_true, header_of, Option.getD_some, hblk]

/-- Reading a stream of well-formed records that starts at the read position:
`read_sequence` returns their headers in order and consumes exactly the records. -/
theorem read_sequence_aligned (E : Env) (fuel : Nat) (ha : E.abort = false)
    (h4 : 4 ≤ E.FSA_CACHE_HEADER) (hfuel : 2 ≤ fuel) :
    ∀ (rs : List StreamRecord) (ai : Reader) (tail : List Nat), ai.granular E →
      (ai.filefmtver = 1 ∨ ai.filefmtver = 2) →
      (∀ r ∈ rs, r.wellformed E ai.filefmtver ai.archid) →
      ai.pending = spec_encode_stream E ai.filefmtver rs ++ tail →
      ∃ a, read_sequence E fuel (rs.map (fun r => r.payload.isSome)) ai
          = some (rs.map (fun r => header_of r.head), a) ∧
        a.pending = tail ∧ a.granular E ∧ a.conf = ai.conf := by
  intro rs
  induction rs with
  | nil =>
    intro ai tail hg _ _ hp
    exact ⟨ai, rfl, by simpa [spec_encode_stream] using hp, hg, rfl⟩
  | cons r rs ih =>
    intro ai tail hg hver hwf hp
    have hwr := hwf r (List.mem_cons_self _ _)
    have hp1 : ai.pending = spec_encode_stream_record E ai.filefmtver r ++
        (spec_encode_stream E ai.filefmtver rs ++ tail) := by
      rw [hp]; simp [spec_encode_stream]
    have hp2 : ai.pending = r.head.magic ++ (cpu_to_le 4 r.head.archid ++ (cpu_to_le 2 r.head.fsid
        ++ (spec_encode_dico E ai.filefmtver r.head.attrs ++ (r.payload.getD [] ++
          (spec_encode_stream E ai.filefmtver rs ++ tail))))) := by
      rw [hp1]; simp [spec_encode_stream_record, spec_encode_record]
    have hf := first_magic_zero E ai.pending _ _ hp2 hwr.2.1.1 hwr.1
    have hw : window_inside E.FSA_CACHE_HEADER ai.pending.length 0 0 :=
      Or.inl ⟨rfl, hf.1⟩
    obtain ⟨a1, a2, hr, hstep, p2, g2, c2⟩ := read_record_step E ai 0 0 fuel r _ hg ha h4 hver
      hf hw hfuel hwr (by rw [List.drop_zero]; exact hp1)
    have hv2 : a2.filefmtver = ai.filefmtver := conf_filefmtver _ _ c2
    have hi2 : a2.archid = ai.archid := conf_archid _ _ c2
    obtain ⟨a3, hseq, p3, g3, c3⟩ := ih a2 tail g2 (by rw [hv2]; exact hver)
      (by rw [hv2, hi2]; exact fun x hx => hwf x (List.mem_cons_of_mem _ hx))
      (by rw [p2, hv2])
    refine ⟨a3, ?_, p3, g3, by rw [c3, c2]⟩
    simp only [List.map_cons, read_sequence, hr]
    simp only [header_of] at hstep
    simp only [header_of, hstep, hseq]

/-- Claim C5 (amended): on a byte-granular reader (regular file, or select-based
transport; `datablocksize > 0`, `devblocksize > 0`, read pointer inside the cached
bytes) of format version 1 or 2, with the abort flag clear and
`FSA_CACHE_HEADER ≥ 4`, let the pending bytes be the altered payload `P` of a block
record (ARSIZE bytes, Fletcher-32 different from ARCSUM, REALSIZE at most
`FSA_MAX_BLKSIZE`), then the encodings of the well-formed records `r :: rs`, then
`tail`.  If no 4-byte window that starts inside `P` is a valid magic and the scan
window that tests the first byte after `P` lies inside the stream, then
`archreader_read_block` returns 0 with
`sumok = false` and a zeroed payload, and the following calls of
`archreader_read_header` (each followed by `archreader_read_block` for a block
record) return SUCCESS with the headers of `r :: rs` in their order and consume
exactly these records. -/
theorem resync_after_corrupt_payload (E : Env) (ai : Reader) (d : cdico) (b : BlockAttrs)
    (P tail : List Nat) (r : StreamRecord) (rs : List StreamRecord) (j fuel : Nat)
    (hg : ai.granular E) (ha : E.abort = false) (h4 : 4 ≤ E.FSA_CACHE_HEADER)
    (hver : ai.filefmtver = 1 ∨ ai.filefmtver = 2)
    (hd : carries E d b) (hmax : b.realsize ≤ E.FSA_MAX_BLKSIZE)
    (hlen : P.length = b.arsize) (hsum : E.sum32 P ≠ b.arcsum)
    (hwf : ∀ x ∈ r :: rs, x.wellformed E ai.filefmtver ai.archid)
    (hp : ai.pending = P ++ (spec_encode_stream E ai.filefmtver (r :: rs) ++ tail))
    (hclean : ∀ q, q < P.length → magic_at E ai.pending q = false)
    (hw : window_inside E.FSA_CACHE_HEADER ai.pending.length P.length j)
    (hfuel : j + 2 ≤ fuel) :
    (archreader_read_block E ai d false).1 = .success ∧
      (archreader_read_block E ai d false).2.1 = 0 ∧
      (archreader_read_block E ai d false).2.2.1 = blkinfo_of b (List.replicate b.arsize 0) ∧
      ∃ a, read_sequence E fuel ((r :: rs).map (fun x => x.payload.isSome))
            (archreader_read_block E ai d false).2.2.2
          = some ((r :: rs).map (fun x => header_of x.head), a) ∧
        a.pending = tail := by
  obtain ⟨ai1, hr1, g1, p1, c1, f1, rd1⟩ := read_data_granular E ai P _ hg hp
  rw [hlen] at hr1 rd1
  obtain ⟨u, hu, gu, pu, -, cu, -⟩ := unread_granular E ai1 b.arsize g1 (by omega)
  have hpu : u.pending = ai.pending := by
    rw [pu, c1, p1, rd1, Nat.add_sub_cancel, ← consumed_length E ai hg, List.drop_left, hp]
  have hblk : archreader_read_block E ai d false
      = (.success, 0, blkinfo_of b (List.replicate b.arsize 0), u) := by
    rw [read_block_unfold E ai d b hd hmax, hr1]
    simp [hsum, hu]
  have hcu : u.conf = ai.conf := by rw [cu, f1]
  have hvu : u.filefmtver = ai.filefmtver := conf_filefmtver _ _ hcu
  have hiu : u.archid = ai.archid := conf_archid _ _ hcu
  have hwr := hwf r (List.mem_cons_self _ _)
  have hdrop : ai.pending.drop P.length = spec_encode_stream_record E ai.filefmtver r ++
      (spec_encode_stream E ai.filefmtver rs ++ tail) := by
    rw [hp, List.drop_left]; simp [spec_encode_stream]
  have hdrop2 : ai.pending.drop P.length = r.head.magic ++ (cpu_to_le 4 r.head.archid ++
      (cpu_to_le 2 r.head.fsid ++ (spec_encode_dico E ai.filefmtver r.head.attrs ++
        (r.payload.getD [] ++ (spec_encode_stream E ai.filefmtver rs ++ tail))))) := by
    rw [hdrop]; simp [spec_encode_stream_record, spec_encode_record]
  have hf0 := first_magic_zero E _ _ _ hdrop2 hwr.2.1.1 hwr.1
  have hf : first_magic E u.pending P.length := by
    rw [hpu]
    refine ⟨?_, ?_, hclean⟩
    · have := hf0.1
      rw [List.length_drop] at this
      omega
    · have := hf0.2.1
      unfold magic_at at this ⊢
      rw [List.drop_drop, Nat.add_zero] at this
      exact this
  obtain ⟨a1, a2, hr, hstep, p2, g2, c2⟩ := read_record_step E u P.length j fuel r _ gu ha h4
    (by rw [hvu]; exact hver) hf (by rw [hpu]; exact hw) hfuel
    (by rw [hvu, hiu]; exact hwr) (by rw [hpu, hvu]; exact hdrop)
  have hv2 : a2.filefmtver = ai.filefmtver := by rw [conf_filefmtver _ _ c2, hvu]
  have hi2 : a2.archid = ai.archid := by rw [conf_archid _ _ c2, hiu]
  obtain ⟨a3, hseq, p3, -, -⟩ := read_sequence_aligned E fuel ha h4 (by omega) rs a2 tail g2
    (by rw [hv2]; exact hver)
    (by rw [hv2, hi2]; exact fun x hx => hwf x (List.mem_cons_of_mem _ hx))
    (by rw [p2, hv2])
  rw [hblk]
  refine ⟨rfl, rfl, rfl, a3, ?_, p3⟩
  simp only [List.map_cons, read_sequence, hr]
  simp only [header_of] at hstep
  simp only [header_of, hstep, hseq]

set_option maxRecDepth 100000 in
/-- Claim C5 (witness): the payload `hello` altered to `hellp`, followed by the
three sample records and 64 zero bytes. -/
theorem resync_after_corrupt_payload_witness :
    (archreader_read_block sampleEnv (sampleReader 2 (corrupt_stream [104, 101, 108, 108, 112]))
        sample_blkdico false).1 = .success ∧
      (archreader_read_block sampleEnv (sampleReader 2 (corrupt_stream [104, 101, 108, 108, 112]))
        sample_blkdico false).2.1 = 0 ∧
      (archreader_read_block sampleEnv (sampleReader 2 (corrupt_stream [104, 101, 108, 108, 112]))
        sample_blkdico false).2.2.1
        = blkinfo_of sample_attrs (List.replicate sample_attrs.arsize 0) ∧
      ∃ a, read_sequence sampleEnv 2 (sample_records.map (fun x => x.payload.isSome))
            (archreader_read_block sampleEnv
              (sampleReader 2 (corrupt_stream [104, 101, 108, 108, 112])) sample_blkdico false).2.2.2
          = some (sample_records.map (fun x => header_of x.head), a) ∧
        a.pending = List.replicate 64 0 :=
  resync_after_corrupt_payload sampleEnv (sampleReader 2 (corrupt_stream [104, 101, 108, 108, 112]))
    sample_blkdico sample_attrs [104, 101, 108, 108, 112] (List.replicate 64 0)
    { head := { magic := [65, 114, 67, 104], archid := 7, fsid := 1, attrs := [] },
      payload := none, battrs := sample_attrs }
    [{ head := { magic := [66, 108, 75, 104], archid := 7, fsid := 1, attrs := sample_blkdico },
       payload := some hello, battrs := sample_attrs },
     { head := sample_record, payload := none, battrs := sample_attrs }]
    0 2 (sampleReader_granular _ _) rfl (by decide) (Or.inr rfl) (by decide) (by decide)
    (by decide) (by decide) (by decide) (pending_sampleReader _ _) (by decide) (by decide)
    (by decide)

set_option maxRecDepth 100000 in
/-- Claim C5 (counterexample): a block record whose payload `hello` (Fletcher-32
equal to ARCSUM) is altered to `FsAEo`, followed by the three well-formed sample
records and 64 zero bytes.  `archreader_read_block` reports `sumok = false`, and
the following `archreader_read_header` stops on the valid magic `FsAE` inside the
payload and returns the fatal error instead of the header of the next record. -/
theorem resync_after_corrupt_payload_counterexample :
    sampleEnv.sum32 hello = sample_attrs.arcsum ∧
      sampleEnv.sum32 [70, 115, 65, 69, 111] ≠ sample_attrs.arcsum ∧
      (∀ x ∈ sample_records, x.wellformed sampleEnv 2 0) ∧
      (archreader_read_block sampleEnv (sampleReader 2 (corrupt_stream [70, 115, 65, 69, 111]))
        sample_blkdico false).2.1 = 0 ∧
      (archreader_read_header sampleEnv 10
        (archreader_read_block sampleEnv (sampleReader 2 (corrupt_stream [70, 115, 65, 69, 111]))
          sample_blkdico false).2.2.2 false).map Prod.fst
        = some { ret := .fatal, magic := [70, 115, 65, 69], d := some [], fsid := 1896 } := by
  decide

/-! ## Writer: what the operations leave unchanged -/

theorem ai_write_keeps (E : Env) (ai : Writer) (w : World) (data : List Nat) :
    (ai_write E ai w data).2.1.curvol = ai.curvol ∧
      (ai_write E ai w data).2.1.archid = ai.archid ∧
      (ai_write E ai w data).2.1.basepath = ai.basepath ∧
      (ai_write E ai w data).2.1.volpath = ai.volpath := by
  unfold ai_write
  cases hw : ai.write with
  | none => exact ⟨rfl, rfl, rfl, rfl⟩
  | some k =>
    cases k
    · simp only [archwriter_write_regular]
      split <;> exact ⟨rfl, rfl, rfl, rfl⟩
    · simp only [archwriter_write_blocks, archwriter_precache]
      repeat' split
      all_goals exact ⟨rfl, rfl, rfl, rfl⟩
    · simp only [archwriter_write_flush]
      split <;> exact ⟨rfl, rfl, rfl, rfl⟩

theorem write_buffer_keeps (E : Env) (ai : Writer) (w : World) (wb : s_writebuf) :
    (archwriter_write_buffer E ai w wb).2.1.curvol = ai.curvol ∧
      (archwriter_write_buffer E ai w wb).2.1.archid = ai.archid ∧
      (archwriter_write_buffer E ai w wb).2.1.basepath = ai.basepath ∧
      (archwriter_write_buffer E ai w wb).2.1.volpath = ai.volpath := by
  unfold archwriter_write_buffer
  split
  · exact ⟨rfl, rfl, rfl, rfl⟩
  · split
    · exact ⟨rfl, rfl, rfl, rfl⟩
    · exact ai_write_keeps E ai w _

theorem write_volfooter_keeps (E : Env) (ai : Writer) (w : World) (lastvol : Bool) :
    (archwriter_write_volfooter E ai w lastvol).2.1.curvol = ai.curvol ∧
      (archwriter_write_volfooter E ai w lastvol).2.1.archid = ai.archid ∧
      (archwriter_write_volfooter E ai w lastvol).2.1.basepath = ai.basepath ∧
      (archwriter_write_volfooter E ai w lastvol).2.1.volpath = ai.volpath := by
  unfold archwriter_write_volfooter
  split
  · exact ⟨rfl, rfl, rfl, rfl⟩
  · dsimp only
    split <;> exact write_buffer_keeps E ai w _

theorem close_keeps (ai : Writer) (w : World) :
    (archwriter_close ai w).2.1.curvol = ai.curvol ∧
      (archwriter_close ai w).2.1.archid = ai.archid ∧
      (archwriter_close ai w).2.1.basepath = ai.basepath ∧
      (archwriter_close ai w).2.1.volpath = ai.volpath := by
  unfold archwriter_close
  dsimp only
  repeat' split
  all_goals exact ⟨rfl, rfl, rfl, rfl⟩

theorem create_tape_keeps (E : Env) (ai : Writer) (w : World) :
    (create_tape E ai w).2.1.curvol = ai.curvol ∧ (create_tape E ai w).2.1.archid = ai.archid ∧
      (create_tape E ai w).2.1.volpath = ai.volpath := by
  unfold create_tape create_finish
  cases w.mt_blksize with
  | none => exact ⟨rfl, rfl, rfl⟩
  | some orig =>
    dsimp only
    split
    · split <;> exact ⟨rfl, rfl, rfl⟩
    · exact ⟨rfl, rfl, rfl⟩

theorem create_opened_keeps (E : Env) (ai : Writer) (w : World) (st : Option FileType) :
    (create_opened E ai w st).2.1.curvol = ai.curvol ∧
      (create_opened E ai w st).2.1.archid = ai.archid ∧
      (create_opened E ai w st).2.1.volpath = ai.volpath := by
  unfold create_opened
  split
  · exact create_tape_keeps E ai w
  · exact ⟨rfl, rfl, rfl⟩

theorem create_open_keeps (E : Env) (ai : Writer) (w : World) (creat : Bool)
    (st : Option FileType) :
    (create_open E ai w creat st).2.1.curvol = ai.curvol ∧
      (create_open E ai w creat st).2.1.archid = ai.archid ∧
      (create_open E ai w creat st).2.1.volpath = ai.volpath := by
  unfold create_open
  split
  · split
    · exact ⟨rfl, rfl, rfl⟩
    · exact create_opened_keeps E _ _ _
  · exact create_opened_keeps E _ _ _

theorem create_keeps (E : Env) (ai : Writer) (w : World) :
    (archwriter_create E ai w).2.1.curvol = ai.curvol ∧
      (archwriter_create E ai w).2.1.archid = ai.archid ∧
      (archwriter_create E ai w).2.1.volpath = ai.volpath := by
  unfold archwriter_create
  split
  · exact ⟨rfl, rfl, rfl⟩
  · dsimp only
    split
    · exact ⟨rfl, rfl, rfl⟩
    · split
      all_goals first
        | exact ⟨rfl, rfl, rfl⟩
        | exact create_open_keeps E _ _ _ _
        | (split
           · exact ⟨rfl, rfl, rfl⟩
           · split
             · exact ⟨rfl, rfl, rfl⟩
             · exact create_open_keeps E _ _ _ _)

/-! ## Volume split -/

theorem split_if_necessary_split (E : Env) (ai : Writer) (w : World) (wb : s_writebuf)
    (hc : archwriter_split_check E ai wb = true) (hs : split_steps_succeed E ai w wb) :
    archwriter_split_if_necessary E ai w wb =
      (.success,
        (archwriter_write_volheader E
          (archwriter_create E
            (archwriter_incvolume E
              (archwriter_close (archwriter_write_volfooter E ai w false).2.1
                (archwriter_write_volfooter E ai w false).2.2).2.1)
            (archwriter_close (archwriter_write_volfooter E ai w false).2.1
              (archwriter_write_volfooter E ai w false).2.2).2.2).2.1
          (archwriter_create E
            (archwriter_incvolume E
              (archwriter_close (archwriter_write_volfooter E ai w false).2.1
                (archwriter_write_volfooter E ai w false).2.2).2.1)
            (archwriter_close (archwriter_write_volfooter E ai w false).2.1
              (archwriter_write_volfooter E ai w false).2.2).2.2).2.2).2) := by
  obtain ⟨h1, h2, h3, h4, -⟩ := hs
  unfold archwriter_split_if_necessary
  simp only [hc, if_true, h1, h2, h3, h4, ne_eq, not_true_eq_false, if_false, reduceCtorEq]

theorem split_if_necessary_nosplit (E : Env) (ai : Writer) (w : World) (wb : s_writebuf)
    (hc : archwriter_split_check E ai wb = false) :
    archwriter_split_if_necessary E ai w wb = (.success, ai, w) := by
  unfold archwriter_split_if_necessary
  simp only [hc, Bool.false_eq_true, if_false]

/-- Claim C10: let `hbytes` and `bbytes` be the records serialized by
`archwriter_dowrite_header` and `archwriter_dowrite_block`.  When the split check
holds and every step returns 0, each of the two functions returns 0 after
performing exactly the sequence of the specification (`spec_split_write`: footer
with `lastvol = false`, close, next volume number and path, create, volume header,
then the whole record); the footer carries the old volume number and
`lastvol = 0`, the writer that creates the new volume has `curvol + 1` and the
path derived from it, and the volume header carries `curvol + 1`.  When the split
check does not hold, each of the two functions only writes its record into the
current volume. -/
theorem dowrite_split_sequence (E : Env) (ai : Writer) (w : World) (headinfo : s_headinfo)
    (blkinfo : s_blockinfo) (hbytes bbytes : List Nat)
    (hh : E.writebuf_add_header headinfo.dico headinfo.magic ai.archid headinfo.fsid
      = some hbytes)
    (hb : E.writebuf_add_block blkinfo.blkdata (blkinfo_scalars blkinfo) ai.archid
      blkinfo.blkfsid = some bbytes) :
    (archwriter_split_check E ai (writebuf_of hbytes) = true →
      split_steps_succeed E ai w (writebuf_of hbytes) →
      archwriter_dowrite_header E ai w headinfo
        = (.success, (spec_split_write E ai w (writebuf_of hbytes)).2)) ∧
    (archwriter_split_check E ai (writebuf_of bbytes) = true →
      split_steps_succeed E ai w (writebuf_of bbytes) →
      archwriter_dowrite_block E ai w blkinfo
        = (.success, (spec_split_write E ai w (writebuf_of bbytes)).2)) ∧
    (archwriter_split_check E ai (writebuf_of hbytes) = false →
      (archwriter_dowrite_header E ai w headinfo).2
          = (archwriter_write_buffer E ai w (writebuf_of hbytes)).2 ∧
        ((archwriter_write_buffer E ai w (writebuf_of hbytes)).1 = .success →
          (archwriter_dowrite_header E ai w headinfo).1 = .success)) ∧
    (archwriter_split_check E ai (writebuf_of bbytes) = false →
      (archwriter_dowrite_block E ai w blkinfo).2
          = (archwriter_write_buffer E ai w (writebuf_of bbytes)).2 ∧
        ((archwriter_write_buffer E ai w (writebuf_of bbytes)).1 = .success →
          (archwriter_dowrite_block E ai w blkinfo).1 = .success)) ∧
    volfooter_dico E ai false =
      [{ type := E.DICTYPE_U32, section_ := 0, key := E.VOLUMEFOOTKEY_VOLNUM,
         data := cpu_to_le 4 ai.curvol },
       { type := E.DICTYPE_U32, section_ := 0, key := E.VOLUMEFOOTKEY_ARCHID,
         data := cpu_to_le 4 ai.archid },
       { type := E.DICTYPE_U32, section_ := 0, key := E.VOLUMEFOOTKEY_LASTVOL,
         data := cpu_to_le 4 0 }] ∧
    (archwriter_incvolume E
        (archwriter_close (archwriter_write_volfooter E ai w false).2.1
          (archwriter_write_volfooter E ai w false).2.2).2.1).curvol = ai.curvol + 1 ∧
    (archwriter_incvolume E
        (archwriter_close (archwriter_write_volfooter E ai w false).2.1
          (archwriter_write_volfooter E ai w false).2.2).2.1).volpath
      = E.get_path_to_volume ai.basepath (ai.curvol + 1) ∧
    (volheader_dico E
        (archwriter_create E
          (archwriter_incvolume E
            (archwriter_close (archwriter_write_volfooter E ai w false).2.1
              (archwriter_write_volfooter E ai w false).2.2).2.1)
          (archwriter_close (archwriter_write_volfooter E ai w false).2.1
            (archwriter_write_volfooter E ai w false).2.2).2.2).2.1).head?
      = some { type := E.DICTYPE_U32, section_ := 0, key := E.VOLUMEHEADKEY_VOLNUM,
               data := cpu_to_le 4 (ai.curvol + 1) } := by
  obtain ⟨f1, f2, f3, f4⟩ := write_volfooter_keeps E ai w false
  obtain ⟨c1, c2, c3, c4⟩ := close_keeps (archwriter_write_volfooter E ai w false).2.1
    (archwriter_write_volfooter E ai w false).2.2
  have hcur : (archwriter_incvolume E
        (archwriter_close (archwriter_write_volfooter E ai w false).2.1
          (archwriter_write_volfooter E ai w false).2.2).2.1).curvol = ai.curvol + 1 := by
    show _ + 1 = _
    rw [c1, f1]
  have hpath : (archwriter_incvolume E
        (archwriter_close (archwriter_write_volfooter E ai w false).2.1
          (archwriter_write_volfooter E ai w false).2.2).2.1).volpath
      = E.get_path_to_volume ai.basepath (ai.curvol + 1) := by
    show E.get_path_to_volume _ (_ + 1) = _
    rw [c1, f1, c3, f3]
  obtain ⟨n1, -, -⟩ := create_keeps E
    (archwriter_incvolume E
      (archwriter_close (archwriter_write_volfooter E ai w false).2.1
        (archwriter_write_volfooter E ai w false).2.2).2.1)
    (archwriter_close (archwriter_write_volfooter E ai w false).2.1
      (archwriter_write_volfooter E ai w false).2.2).2.2
  refine ⟨?_, ?_, ?_, ?_, rfl, hcur, hpath, ?_⟩
  · intro hc hs
    unfold archwriter_dowrite_header
    simp only [hh]
    have hw := hs.2.2.2.2
    have hsp := split_if_necessary_split E ai w (writebuf_of hbytes) hc hs
    unfold writebuf_of at hsp hw
    simp only [hsp, hw, ne_eq, not_true_eq_false, if_false]
    rfl
  · intro hc hs
    unfold archwriter_dowrite_block
    simp only [hb]
    have hw := hs.2.2.2.2
    have hsp := split_if_necessary_split E ai w (writebuf_of bbytes) hc hs
    unfold writebuf_of at hsp hw
    simp only [hsp, hw, ne_eq, not_true_eq_false, if_false]
    rfl
  · intro hc
    unfold archwriter_dowrite_header
    simp only [hh]
    have hsp := split_if_necessary_nosplit E ai w (writebuf_of hbytes) hc
    unfold writebuf_of at hsp ⊢
    simp only [hsp, ne_eq, not_true_eq_false, if_false]
    constructor
    · split <;> rfl
    · intro hw
      simp only [hw, not_true_eq_false, if_false]
  · intro hc
    unfold archwriter_dowrite_block
    simp only [hb]
    have hsp := split_if_necessary_nosplit E ai w (writebuf_of bbytes) hc
    unfold writebuf_of at hsp ⊢
    simp only [hsp, ne_eq, not_true_eq_false, if_false]
    constructor
    · split <;> rfl
    · intro hw
      simp only [hw, not_true_eq_false, if_false]
  · show some _ = some _
    rw [n1, hcur]

/-- Claim C10 (witness): a 12-byte header and a 17-byte block on a regular-file
volume that holds 30 bytes, with a limit of 40 bytes.  The system calls of the
header write are: footer, fsync, close, creation of `backup1`, volume header,
record. -/
theorem dowrite_split_sequence_witness :
    archwriter_dowrite_header splitEnv sampleWriter sampleWorld sample_headinfo
      = (.success, (spec_split_write splitEnv sampleWriter sampleWorld
          (writebuf_of [65, 114, 67, 104, 7, 0, 0, 0, 1, 0, 0, 0])).2) ∧
    archwriter_dowrite_block splitEnv sampleWriter sampleWorld sample_blkinfo
      = (.success, (spec_split_write splitEnv sampleWriter sampleWorld
          (writebuf_of [66, 108, 75, 104, 7, 0, 0, 0, 1, 0, 7, 0, 104, 101, 108, 108, 111])).2) ∧
    (spec_split_write splitEnv sampleWriter sampleWorld
        (writebuf_of [65, 114, 67, 104, 7, 0, 0, 0, 1, 0, 0, 0])).2.2.trace
      = [.ev_write [70, 115, 65, 69, 7, 0, 0, 0, 255, 255, 3, 0], .ev_fsync, .ev_close,
         .ev_open "backup1" true, .ev_write [70, 115, 65, 48, 7, 0, 0, 0, 255, 255, 4, 0],
         .ev_write [65, 114, 67, 104, 7, 0, 0, 0, 1, 0, 0, 0]] ∧
    (archwriter_dowrite_header sampleEnv sampleWriter sampleWorld sample_headinfo).2.2.trace
      = [.ev_write [65, 114, 67, 104, 7, 0, 0, 0, 1, 0, 0, 0]] :=
  ⟨(dowrite_split_sequence splitEnv sampleWriter sampleWorld sample_headinfo sample_blkinfo
      [65, 114, 67, 104, 7, 0, 0, 0, 1, 0, 0, 0]
      [66, 108, 75, 104, 7, 0, 0, 0, 1, 0, 7, 0, 104, 101, 108, 108, 111] rfl rfl).1
      (by decide) (by decide),
    (dowrite_split_sequence splitEnv sampleWriter sampleWorld sample_headinfo sample_blkinfo
      [65, 114, 67, 104, 7, 0, 0, 0, 1, 0, 0, 0]
      [66, 108, 75, 104, 7, 0, 0, 0, 1, 0, 7, 0, 104, 101, 108, 108, 111] rfl rfl).2.1
      (by decide) (by decide),
    by decide, by decide⟩

/-! ## Format-version probe -/

/-- Claim C8: `archreader_fmt_version` returns 0 with `filefmtver = 1` exactly when
the ten bytes at offset 40 are `FsArCh_001` or `FsArCh_00Y`; otherwise it returns
0 with `filefmtver = 2` exactly when the ten bytes at offset 42 are `FsArCh_002`;
otherwise it returns -1 and leaves the reader (so `filefmtver`) unchanged.  No
other field of the reader is ever modified. -/
theorem fmt_version_spec (ai : Reader) (volhead : List Nat) :
    (((volhead.drop 40).take 10 = FSA_FILEFORMAT_001 ∨
        (volhead.drop 40).take 10 = FSA_FILEFORMAT_00Y) ↔
      (archreader_fmt_version ai volhead).1 = .success ∧
        (archreader_fmt_version ai volhead).2 = { ai with filefmtver := 1 }) ∧
    (¬ ((volhead.drop 40).take 10 = FSA_FILEFORMAT_001 ∨
        (volhead.drop 40).take 10 = FSA_FILEFORMAT_00Y) ∧
        (volhead.drop 42).take 10 = FSA_FILEFORMAT_002 ↔
      (archreader_fmt_version ai volhead).1 = .success ∧
        (archreader_fmt_version ai volhead).2 = { ai with filefmtver := 2 } ∧
        ¬ ((volhead.drop 40).take 10 = FSA_FILEFORMAT_001 ∨
          (volhead.drop 40).take 10 = FSA_FILEFORMAT_00Y)) ∧
    (¬ ((volhead.drop 40).take 10 = FSA_FILEFORMAT_001 ∨
        (volhead.drop 40).take 10 = FSA_FILEFORMAT_00Y) ∧
        ¬ (volhead.drop 42).take 10 = FSA_FILEFORMAT_002 ↔
      archreader_fmt_version ai volhead = (.neg1, ai)) := by
  have hl : FSA_FILEFORMAT.length = 10 := rfl
  have h1 : FSA_FILEFORMAT_001.take 10 = FSA_FILEFORMAT_001 := rfl
  have h2 : FSA_FILEFORMAT_00Y.take 10 = FSA_FILEFORMAT_00Y := rfl
  have h3 : FSA_FILEFORMAT_002.take 10 = FSA_FILEFORMAT_002 := rfl
  unfold archreader_fmt_version
  simp only [hl, h1, h2, h3]
  by_cases c40 : (volhead.drop 40).take 10 = FSA_FILEFORMAT_001 ∨
      (volhead.drop 40).take 10 = FSA_FILEFORMAT_00Y
  · simp [c40]
  · by_cases c42 : (volhead.drop 42).take 10 = FSA_FILEFORMAT_002
    · simp [c40, c42]
    · simp [c40, c42]

/-! ## Split check -/

/-- Claim C9: `archwriter_split_check` returns true if and only if
`splitsize > 0`, `currentpos >= 0` and `currentpos + record_size > splitsize`;
with `splitsize = 0` it returns false for every position and record size.  Sizes
are mathematical integers. -/
theorem split_check_iff (E : Env) (ai : Writer) (wb : s_writebuf) :
    (archwriter_split_check E ai wb = true ↔
      0 < E.splitsize ∧ 0 ≤ ai.currentpos ∧ E.splitsize < ai.currentpos + wb.size) ∧
    archwriter_split_check { E with splitsize := 0 } ai wb = false := by
  unfold archwriter_split_check archwriter_get_currentpos
  constructor
  · by_cases h1 : 0 ≤ ai.currentpos <;> by_cases h2 : 0 < E.splitsize <;>
      by_cases h3 : E.splitsize < ai.currentpos + wb.size <;> simp [h1, h2, h3]
  · simp

/-! ## Split boundary -/

theorem write_volheader_keeps (E : Env) (ai : Writer) (w : World) :
    (archwriter_write_volheader E ai w).2.1.curvol = ai.curvol ∧
      (archwriter_write_volheader E ai w).2.1.archid = ai.archid ∧
      (archwriter_write_volheader E ai w).2.1.basepath = ai.basepath ∧
      (archwriter_write_volheader E ai w).2.1.volpath = ai.volpath := by
  unfold archwriter_write_volheader
  split
  · exact ⟨rfl, rfl, rfl, rfl⟩
  · dsimp only
    split <;> exact write_buffer_keeps E ai w _

/-- Claim C11 (amended): with `splitsize = S > 0` and a volume that holds
`currentpos = c >= 0` bytes, a record is placed in the current volume exactly when
`c + size <= S`.  A record that brings the volume to `S` exactly causes no split
(`archwriter_split_if_necessary` returns 0 and touches nothing); one byte more
makes the split check true, and when the steps of the split succeed the writer
ends on volume `curvol + 1`.  On a volume that holds nothing yet these two sizes
are `S` and `S + 1`. -/
theorem split_boundary (E : Env) (ai : Writer) (w : World) (wb : s_writebuf)
    (hS : 0 < E.splitsize) (hpos : 0 ≤ ai.currentpos) :
    (archwriter_split_check E ai wb = false ↔ ai.currentpos + wb.size ≤ E.splitsize) ∧
    (ai.currentpos + wb.size = E.splitsize →
      archwriter_split_check E ai wb = false ∧
        archwriter_split_if_necessary E ai w wb = (.success, ai, w)) ∧
    (ai.currentpos + wb.size = E.splitsize + 1 →
      archwriter_split_check E ai wb = true ∧
        (split_steps_succeed E ai w wb →
          (archwriter_split_if_necessary E ai w wb).1 = .success ∧
            (archwriter_split_if_necessary E ai w wb).2.1.curvol = ai.curvol + 1)) ∧
    (ai.currentpos = 0 → wb.size = E.splitsize →
      archwriter_split_if_necessary E ai w wb = (.success, ai, w)) ∧
    (ai.currentpos = 0 → wb.size = E.splitsize + 1 →
      archwriter_split_check E ai wb = true) := by
  have hchk : archwriter_split_check E ai wb = true ↔ E.splitsize < ai.currentpos + wb.size := by
    unfold archwriter_split_check archwriter_get_currentpos
    by_cases h3 : E.splitsize < ai.currentpos + wb.size <;> simp [hpos, hS, h3]
  have hno : ai.currentpos + wb.size ≤ E.splitsize → archwriter_split_check E ai wb = false := by
    intro h
    cases hc : archwriter_split_check E ai wb
    · rfl
    · exact absurd (hchk.mp hc) (by omega)
  have hyes : E.splitsize < ai.currentpos + wb.size → archwriter_split_check E ai wb = true :=
    hchk.mpr
  refine ⟨?_, ?_, ?_, ?_, ?_⟩
  · constructor
    · intro hf
      by_contra hlt
      have := hyes (by omega)
      rw [hf] at this
      exact absurd this (by decide)
    · exact hno
  · intro h
    exact ⟨hno (by omega), split_if_necessary_nosplit E ai w wb (hno (by omega))⟩
  · intro h
    refine ⟨hyes (by omega), fun hs => ?_⟩
    rw [split_if_necessary_split E ai w wb (hyes (by omega)) hs]
    refine ⟨rfl, ?_⟩
    obtain ⟨f1, -, -, -⟩ := write_volfooter_keeps E ai w false
    obtain ⟨c1, -, -, -⟩ := close_keeps (archwriter_write_volfooter E ai w false).2.1
      (archwriter_write_volfooter E ai w false).2.2
    obtain ⟨n1, -, -⟩ := create_keeps E
      (archwriter_incvolume E
        (archwriter_close (archwriter_write_volfooter E ai w false).2.1
          (archwriter_write_volfooter E ai w false).2.2).2.1)
      (archwriter_close (archwriter_write_volfooter E ai w false).2.1
        (archwriter_write_volfooter E ai w false).2.2).2.2
    obtain ⟨v1, -, -, -⟩ := write_volheader_keeps E
      (archwriter_create E
        (archwriter_incvolume E
          (archwriter_close (archwriter_write_volfooter E ai w false).2.1
            (archwriter_write_volfooter E ai w false).2.2).2.1)
        (archwriter_close (archwriter_write_volfooter E ai w false).2.1
          (archwriter_write_volfooter E ai w false).2.2).2.2).2.1
      (archwriter_create E
        (archwriter_incvolume E
          (archwriter_close (archwriter_write_volfooter E ai w false).2.1
            (archwriter_write_volfooter E ai w false).2.2).2.1)
        (archwriter_close (archwriter_write_volfooter E ai w false).2.1
          (archwriter_write_volfooter E ai w false).2.2).2.2).2.2
    rw [v1, n1]
    show _ + 1 = _
    rw [c1, f1]
  · intro h0 h
    exact split_if_necessary_nosplit E ai w wb (hno (by omega))
  · intro h0 h
    exact hyes (by omega)

/-- Claim C11 (witness): a limit of 40 bytes and a volume that holds 30 bytes; a
record of 10 bytes stays in the volume, a record of 11 bytes is split off. -/
theorem split_boundary_witness :
    0 < splitEnv.splitsize ∧ 0 ≤ sampleWriter.currentpos ∧
      archwriter_split_if_necessary splitEnv sampleWriter sampleWorld
          (writebuf_of (List.replicate 10 0)) = (.success, sampleWriter, sampleWorld) ∧
      archwriter_split_check splitEnv sampleWriter (writebuf_of (List.replicate 11 0)) = true ∧
      (archwriter_split_if_necessary splitEnv sampleWriter sampleWorld
          (writebuf_of (List.replicate 11 0))).2.1.curvol = sampleWriter.curvol + 1 :=
  ⟨by decide, by decide,
    ((split_boundary splitEnv sampleWriter sampleWorld (writebuf_of (List.replicate 10 0))
      (by decide) (by decide)).2.1 (by decide)).2,
    ((split_boundary splitEnv sampleWriter sampleWorld (writebuf_of (List.replicate 11 0))
      (by decide) (by decide)).2.2.1 (by decide)).1,
    (((split_boundary splitEnv sampleWriter sampleWorld (writebuf_of (List.replicate 11 0))
      (by decide) (by decide)).2.2.1 (by decide)).2 (by decide)).2⟩

/-- Claim C11 (counterexample): with a limit of 40 bytes, on a volume that already
holds 30 bytes a record of exactly 40 bytes is not placed in the current volume:
the split check is true and the writer moves to volume 1. -/
theorem split_boundary_counterexample :
    (writebuf_of (List.replicate 40 0)).size = splitEnv.splitsize ∧
      archwriter_split_check splitEnv sampleWriter (writebuf_of (List.replicate 40 0)) = true ∧
      (archwriter_split_if_necessary splitEnv sampleWriter sampleWorld
        (writebuf_of (List.replicate 40 0))).1 = .success ∧
      (archwriter_split_if_necessary splitEnv sampleWriter sampleWorld
        (writebuf_of (List.replicate 40 0))).2.1.curvol = 1 := by
  decide

/-! ## Unread followed by read -/

/-- Claim C15: for every cache state (read pointer inside the cached bytes), every
transport and every `n > 0`, if `archreader_read_data(n)` succeeds and returns
`B`, then `archreader_unread(n)` succeeds and the next `archreader_read_data(n)`
succeeds and returns exactly `B`; neither the unread nor the second read takes a
byte from the descriptor, and the second read leaves the same bytes pending as
the first one. -/
theorem unread_read_roundtrip (E : Env) (ai ai1 : Reader) (B : List Nat) (n : Nat)
    (hwf : ai.cacheread ≤ ai.cache.length) (hn : 0 < n)
    (hread : archreader_read_data E ai n = (.success, B, ai1)) :
    (archreader_unread ai1 n).1 = .success ∧
      (archreader_unread ai1 n).2.input = ai1.input ∧
      (archreader_read_data E (archreader_unread ai1 n).2 n).1 = .success ∧
      (archreader_read_data E (archreader_unread ai1 n).2 n).2.1 = B ∧
      (archreader_read_data E (archreader_unread ai1 n).2 n).2.2.input = ai1.input ∧
      (archreader_read_data E (archreader_unread ai1 n).2 n).2.2.pending = ai1.pending := by
  obtain ⟨hPl, hpend, hcons, hrd, hwf1, -⟩ := read_data_success E ai ai1 B n hwf hread
  obtain ⟨u, hu, hup, -, -, hu0, -, hui, huc⟩ := unread_success ai1 n hwf1 (by omega)
  have hcl : ai.consumed.length = ai.cacheread := by
    simp [Reader.consumed, hwf]
  have h1 : ai1.cacheread - n = ai.cacheread := by omega
  have hun : u.cacheread + n ≤ u.cache.length := by
    rw [hu0, huc, List.length_drop]; omega
  have hB : (u.cache.drop u.cacheread).take n = B := by
    rw [hu0, List.drop_zero, huc, h1, List.take_drop, ← hrd]
    have h2 : ai1.cache.take ai1.cacheread = ai.consumed ++ B := hcons
    rw [h2, ← hcl, List.drop_left]
  rw [hu]
  refine ⟨rfl, hui, ?_, ?_, ?_, ?_⟩
  · rw [read_data_cached E u n hun]
  · rw [read_data_cached E u n hun]
    exact hB
  · rw [read_data_cached E u n hun]
    exact hui
  · rw [read_data_cached E u n hun]
    show List.drop (u.cacheread + n) u.cache ++ u.input = ai1.pending
    rw [hu0, huc, hui, List.drop_drop, Nat.zero_add]
    have h3 : ai1.cacheread - n + n = ai1.cacheread := by omega
    rw [h3]
    rfl

/-- Claim C15 (witness): five bytes read from a regular file, put back and read
again. -/
theorem unread_read_roundtrip_witness :
    (archreader_unread (sampleReaderAfter 2 5 (hello ++ [1, 2, 3])) 5).1 = .success ∧
      (archreader_unread (sampleReaderAfter 2 5 (hello ++ [1, 2, 3])) 5).2.input
        = (sampleReaderAfter 2 5 (hello ++ [1, 2, 3])).input ∧
      (archreader_read_data sampleEnv
        (archreader_unread (sampleReaderAfter 2 5 (hello ++ [1, 2, 3])) 5).2 5).1 = .success ∧
      (archreader_read_data sampleEnv
        (archreader_unread (sampleReaderAfter 2 5 (hello ++ [1, 2, 3])) 5).2 5).2.1 = hello ∧
      (archreader_read_data sampleEnv
        (archreader_unread (sampleReaderAfter 2 5 (hello ++ [1, 2, 3])) 5).2 5).2.2.input
        = (sampleReaderAfter 2 5 (hello ++ [1, 2, 3])).input ∧
      (archreader_read_data sampleEnv
        (archreader_unread (sampleReaderAfter 2 5 (hello ++ [1, 2, 3])) 5).2 5).2.2.pending
        = (sampleReaderAfter 2 5 (hello ++ [1, 2, 3])).pending :=
  unread_read_roundtrip sampleEnv (sampleReader 2 (hello ++ [1, 2, 3]))
    (sampleReaderAfter 2 5 (hello ++ [1, 2, 3])) hello 5 (by decide) (by decide) (by decide)

/-! ## The cache predicate -/

/-- Claim C16 (code defect): `archreader_precache` sizes the new buffer from the
requested `size` alone and not from `cachewrite - cache + size`.  With data blocks
of 8 bytes, reading 4 bytes, unreading 3 and reading 10 leaves 10 bytes in a
buffer of 8: the predicate holds after `archreader_init`, after the first read and
after the unread, the grown buffer has 5 free bytes for a need of 7, and after the
successful second read `cachewrite` lies beyond `cache + cachesize`.  The same
happens with data blocks of 256 KiB when 100 bytes are cached and 262143 more are
needed. -/
theorem precache_overflow :
    (tinyReader (List.range 12)).cache_ok ∧
      (archreader_read_data tinyEnv (tinyReader (List.range 12)) 4).1 = .success ∧
      (archreader_read_data tinyEnv (tinyReader (List.range 12)) 4).2.2.cache_ok ∧
      (archreader_unread
        (archreader_read_data tinyEnv (tinyReader (List.range 12)) 4).2.2 3).1 = .success ∧
      (archreader_unread
        (archreader_read_data tinyEnv (tinyReader (List.range 12)) 4).2.2 3).2.cache_ok ∧
      (archreader_precache tinyEnv (archreader_unread
        (archreader_read_data tinyEnv (tinyReader (List.range 12)) 4).2.2 3).2 7).1 = .success ∧
      (archreader_precache tinyEnv (archreader_unread
        (archreader_read_data tinyEnv (tinyReader (List.range 12)) 4).2.2 3).2 7).2.cachesize
        - (archreader_precache tinyEnv (archreader_unread
        (archreader_read_data tinyEnv (tinyReader (List.range 12)) 4).2.2 3).2 7).2.cache.length
        = 5 ∧
      (archreader_read_data tinyEnv (archreader_unread
        (archreader_read_data tinyEnv (tinyReader (List.range 12)) 4).2.2 3).2 10).1 = .success ∧
      (archreader_read_data tinyEnv (archreader_unread
        (archreader_read_data tinyEnv (tinyReader (List.range 12)) 4).2.2 3).2 10).2.1
        = [1, 2, 3, 4, 5, 6, 7, 8, 9, 10] ∧
      (archreader_read_data tinyEnv (archreader_unread
        (archreader_read_data tinyEnv (tinyReader (List.range 12)) 4).2.2 3).2 10).2.2.cache.length
        = 10 ∧
      (archreader_read_data tinyEnv (archreader_unread
        (archreader_read_data tinyEnv (tinyReader (List.range 12)) 4).2.2 3).2 10).2.2.cachesize
        = 8 ∧
      ¬ (archreader_read_data tinyEnv (archreader_unread
        (archreader_read_data tinyEnv (tinyReader (List.range 12)) 4).2.2 3).2 10).2.2.cache_ok ∧
      (archreader_precache sampleEnv
        { sampleReader 2 [] with cache := List.replicate 100 0, cachesize := 262144 }
        262143).1 = .success ∧
      (archreader_precache sampleEnv
        { sampleReader 2 [] with cache := List.replicate 100 0, cachesize := 262144 }
        262143).2.cachesize = 262144 := by
  decide

/-- Claim C14 (code defect): `archwriter_precache` sizes the new buffer from the
requested `size` alone and not from `cachewrite - cache + size`.  With data blocks
of 8 bytes and device blocks of 4 bytes, after a first buffer of 3 bytes (kept in
a cache of 8 bytes) a second buffer of 7 bytes makes `archwriter_precache` return
0 with a buffer of 8 bytes again, so `archwriter_write_blocks` copies 7 bytes to
offset 3 of an 8-byte buffer.  The same happens with data blocks of 256 KiB and
device blocks of 512 bytes when 100 bytes are pending and 262143 bytes arrive. -/
theorem write_blocks_overflow :
    (archwriter_write_blocks tinyEnv tinyWriter sampleWorld [1, 2, 3]).1 = .success ∧
      (archwriter_write_blocks tinyEnv tinyWriter sampleWorld [1, 2, 3]).2.1.cache = [1, 2, 3] ∧
      (archwriter_write_blocks tinyEnv tinyWriter sampleWorld [1, 2, 3]).2.1.cachesize = 8 ∧
      (archwriter_precache tinyEnv
        (archwriter_write_blocks tinyEnv tinyWriter sampleWorld [1, 2, 3]).2.1 7).1 = .success ∧
      (archwriter_precache tinyEnv
        (archwriter_write_blocks tinyEnv tinyWriter sampleWorld [1, 2, 3]).2.1 7).2.cachesize
        = 8 ∧
      (archwriter_precache tinyEnv
        (archwriter_write_blocks tinyEnv tinyWriter sampleWorld [1, 2, 3]).2.1 7).2.cache.length
        + 7 = 10 ∧
      (archwriter_precache sampleEnv
        { tinyWriter with devblocksize := 512, cache := List.replicate 100 0,
                          cachesize := 262144 } 262143).1 = .success ∧
      (archwriter_precache sampleEnv
        { tinyWriter with devblocksize := 512, cache := List.replicate 100 0,
                          cachesize := 262144 } 262143).2.cachesize = 262144 := by
  decide

/-! ## Reads are first-in first-out -/

theorem read_data_seq_success (E : Env) (ns : List Nat) :
    ∀ ai : Reader, ai.cacheread ≤ ai.cache.length → (read_data_seq E ai ns).1 = .success →
      (read_data_seq E ai ns).2.1.flatten = ai.pending.take ns.sum ∧
        (read_data_seq E ai ns).2.1.map List.length = ns ∧
        (read_data_seq E ai ns).2.2.pending = ai.pending.drop ns.sum ∧
        (read_data_seq E ai ns).2.2.cacheread ≤ (read_data_seq E ai ns).2.2.cache.length := by
  induction ns with
  | nil =>
    intro ai hwf _
    simp [read_data_seq, hwf]
  | cons n ns ih =>
    intro ai hwf hs
    rcases h : archreader_read_data E ai n with ⟨r, P, a1⟩
    simp only [read_data_seq, h] at hs ⊢
    by_cases hr : r = .success
    · subst hr
      obtain ⟨hPl, hpend, -, -, hwf1, -⟩ := read_data_success E ai a1 P n hwf h
      simp only [ne_eq, not_true_eq_false, if_false] at hs ⊢
      obtain ⟨i1, i2, i3, i4⟩ := ih _ hwf1 hs
      subst hPl
      refine ⟨?_, ?_, ?_, i4⟩
      · rw [List.flatten_cons, i1, hpend, List.sum_cons, List.take_append]
      · rw [List.map_cons, i2]
      · rw [i3, hpend, List.sum_cons, List.drop_append]
    · simp only [ne_eq, hr, not_false_eq_true, if_true] at hs

theorem read_data_seq_total (E : Env) (ns : List Nat) :
    ∀ ai : Reader, ai.granular E → ns.sum ≤ ai.pending.length →
      (read_data_seq E ai ns).1 = .success := by
  induction ns with
  | nil => intro ai _ _; rfl
  | cons n ns ih =>
    intro ai hg hsum
    rw [List.sum_cons] at hsum
    have hlen : (ai.pending.take n).length = n := by
      rw [List.length_take]; omega
    obtain ⟨a1, hr, hg1, hp1, -, -, -⟩ := read_data_granular E ai (ai.pending.take n)
      (ai.pending.drop n) hg (List.take_append_drop n ai.pending).symm
    rw [hlen] at hr
    have hl1 : ns.sum ≤ a1.pending.length := by
      rw [hp1, List.length_drop]; omega
    simp only [read_data_seq, hr, ne_eq, not_true_eq_false, if_false]
    exact ih a1 hg1 hl1

/-- Claim C17: for every reader whose read pointer lies inside the cached bytes
(on every transport, in particular the regular and the select-based ones) and
every sequence of successful `archreader_read_data` calls of sizes `n1..nk`, the
concatenation of the returned blocks is the first `n1 + ... + nk` bytes of the
logical stream at the starting position (unconsumed cache bytes, then the bytes
of the descriptor), the i-th block has `ni` bytes, the logical stream afterwards
is the rest, and the read pointer still lies inside the cached bytes.  On a
regular or select-based reader (abort flag clear, positive block sizes) whose
stream holds at least `n1 + ... + nk` bytes all calls do succeed. -/
theorem read_fifo (E : Env) (ai : Reader) (ns : List Nat)
    (hwf : ai.cacheread ≤ ai.cache.length) :
    ((read_data_seq E ai ns).1 = .success →
      (read_data_seq E ai ns).2.1.flatten = ai.pending.take ns.sum ∧
        (read_data_seq E ai ns).2.1.map List.length = ns ∧
        (read_data_seq E ai ns).2.2.pending = ai.pending.drop ns.sum ∧
        (read_data_seq E ai ns).2.2.cacheread ≤ (read_data_seq E ai ns).2.2.cache.length) ∧
    (ai.granular E → ns.sum ≤ ai.pending.length → (read_data_seq E ai ns).1 = .success) :=
  ⟨read_data_seq_success E ns ai hwf, read_data_seq_total E ns ai⟩

/-- Claim C17 (witness): reads of 2, 0 and 3 bytes on a regular file of 8 bytes. -/
theorem read_fifo_witness :
    (read_data_seq sampleEnv (sampleReader 2 [1, 2, 3, 4, 5, 6, 7, 8]) [2, 0, 3]).1 = .success ∧
      (read_data_seq sampleEnv (sampleReader 2 [1, 2, 3, 4, 5, 6, 7, 8]) [2, 0, 3]).2.1
        = [[1, 2], [], [3, 4, 5]] ∧
      (read_data_seq sampleEnv (sampleReader 2 [1, 2, 3, 4, 5, 6, 7, 8]) [2, 0, 3]).2.1.flatten
        = (sampleReader 2 [1, 2, 3, 4, 5, 6, 7, 8]).pending.take [2, 0, 3].sum ∧
      (read_data_seq sampleEnv (sampleReader 2 [1, 2, 3, 4, 5, 6, 7, 8]) [2, 0, 3]).2.2.pending
        = (sampleReader 2 [1, 2, 3, 4, 5, 6, 7, 8]).pending.drop [2, 0, 3].sum :=
  ⟨(read_fifo sampleEnv (sampleReader 2 [1, 2, 3, 4, 5, 6, 7, 8]) [2, 0, 3] (by decide)).2
      (by decide) (by decide),
    by decide,
    ((read_fifo sampleEnv (sampleReader 2 [1, 2, 3, 4, 5, 6, 7, 8]) [2, 0, 3] (by decide)).1
      (by decide)).1,
    ((read_fifo sampleEnv (sampleReader 2 [1, 2, 3, 4, 5, 6, 7, 8]) [2, 0, 3] (by decide)).1
      (by decide)).2.2.1⟩

/-! ## Block writer: sizes of the physical writes -/

theorem writes_append (a b : List Event) : writes (a ++ b) = writes a ++ writes b := by
  induction a with
  | nil => rfl
  | cons e a ih => cases e <;> simp [writes, ih]

theorem sys_write_whole (w : World) (bytes : List Nat) (hacc : w.accept = []) :
    sys_write w bytes = (bytes.length, { w with trace := w.trace ++ [.ev_write bytes] }) := by
  unfold sys_write
  rw [hacc]

theorem wprecache_fields (E : Env) (ai : Writer) (size : Nat) :
    (archwriter_precache E ai size).2.cache = ai.cache ∧
      (archwriter_precache E ai size).2.devblocksize = ai.devblocksize ∧
      (archwriter_precache E ai size).2.archfd = ai.archfd ∧
      (archwriter_precache E ai size).2.currentpos = ai.currentpos ∧
      (0 < E.datablocksize → 0 < ai.devblocksize →
        (archwriter_precache E ai size).1 = .success) := by
  unfold archwriter_precache
  split
  · exact ⟨rfl, rfl, rfl, rfl, fun _ _ => rfl⟩
  · split
    · rename_i h
      exact ⟨rfl, rfl, rfl, rfl, fun h1 h2 => by omega⟩
    · exact ⟨rfl, rfl, rfl, rfl, fun _ _ => rfl⟩

/-- One call of `archwriter_write_blocks` on a device that takes every write
whole: a failing call writes nothing; a successful call issues one write of the
largest multiple of `devblocksize` contained in the cache when the cache holds at
least one block, and none otherwise, and keeps the remainder. -/
theorem write_blocks_step (E : Env) (ai : Writer) (w : World) (D : List Nat)
    (hd : 0 < ai.devblocksize) (hacc : w.accept = []) :
    (archwriter_write_blocks E ai w D).2.1.devblocksize = ai.devblocksize ∧
      (archwriter_write_blocks E ai w D).2.1.archfd = ai.archfd ∧
      (archwriter_write_blocks E ai w D).2.2.accept = [] ∧
      ((archwriter_write_blocks E ai w D).1 ≠ .success →
        (archwriter_write_blocks E ai w D).2.2.trace = w.trace) ∧
      ((archwriter_write_blocks E ai w D).1 = .success →
        (archwriter_write_blocks E ai w D).2.1.cache
            = (ai.cache ++ D).drop (ai.cache.length + D.length
                - (ai.cache.length + D.length) % ai.devblocksize) ∧
          (archwriter_write_blocks E ai w D).2.1.cache.length
            = (ai.cache.length + D.length) % ai.devblocksize ∧
          (archwriter_write_blocks E ai w D).2.2.trace = w.trace ++
            (if ai.devblocksize ≤ ai.cache.length + D.length then
              [.ev_write ((ai.cache ++ D).take (ai.cache.length + D.length
                - (ai.cache.length + D.length) % ai.devblocksize))]
            else [])) ∧
      (0 < E.datablocksize → (archwriter_write_blocks E ai w D).1 = .success) := by
  obtain ⟨pc, pd, pf, -, ps⟩ := wprecache_fields E ai D.length
  have hmod : (ai.cache.length + D.length) % ai.devblocksize ≤ ai.cache.length + D.length :=
    Nat.mod_le _ _
  have hmlt : (ai.cache.length + D.length) % ai.devblocksize < ai.devblocksize :=
    Nat.mod_lt _ hd
  unfold archwriter_write_blocks
  by_cases hp : (archwriter_precache E ai D.length).1 = .success
  · simp only [hp, ne_eq, not_true_eq_false, if_false, pc, pd, List.length_append]
    by_cases hx : ai.devblocksize ≤ ai.cache.length + D.length
    · have hd0 : ai.devblocksize ≠ 0 := by omega
      have hlen : ((ai.cache ++ D).take (ai.cache.length + D.length
          - (ai.cache.length + D.length) % ai.devblocksize)).length
          = ai.cache.length + D.length - (ai.cache.length + D.length) % ai.devblocksize := by
        rw [List.length_take, List.length_append]; omega
      simp only [hx, if_true, hd0, if_false, sys_write_whole w _ hacc, hlen, not_true_eq_false]
      refine ⟨trivial, pf, hacc, fun h => h.elim, fun _ => ⟨trivial, ?_, trivial⟩,
        fun _ => trivial⟩
      rw [List.length_drop, List.length_append]; omega
    · simp only [hx, if_false]
      have hm : (ai.cache.length + D.length) % ai.devblocksize = ai.cache.length + D.length :=
        Nat.mod_eq_of_lt (by omega)
      refine ⟨trivial, pf, hacc, fun _ => trivial, fun _ => ⟨?_, ?_, ?_⟩, fun _ => trivial⟩
      · rw [hm, Nat.sub_self, List.drop_zero]
      · rw [hm, List.length_append]
      · simp
  · simp only [hp, ne_eq, not_false_eq_true, if_true]
    refine ⟨pd, pf, hacc, fun _ => trivial, fun h => ?_, fun h => ?_⟩
    · exact absurd h (Ret.fail_ne_success _ _ hp (by decide))
    · exact absurd (ps h hd) hp

/-- The system calls of `archwriter_close` on a device that takes every write
whole: one write of exactly `devblocksize` bytes (the pending bytes, then zeros)
when a remainder of at most `devblocksize` bytes is pending on an open
descriptor, and no write otherwise. -/
theorem close_writes (ai : Writer) (w : World) (hacc : w.accept = []) :
    ∃ evs, (archwriter_close ai w).2.2.trace = w.trace ++ evs ∧
      writes evs =
        (if 0 ≤ ai.archfd ∧ ai.cache.length ≠ 0 ∧ ai.cache.length ≤ ai.devblocksize then
          [ai.cache ++ List.replicate (ai.devblocksize - ai.cache.length) 0]
        else []) ∧
      (0 ≤ ai.archfd → ai.cache.length ≤ ai.devblocksize →
        (archwriter_close ai w).1 = .success) := by
  unfold archwriter_close
  by_cases h1 : ai.archfd < 0
  · refine ⟨[], ?_, ?_, fun h => absurd h (by omega)⟩
    · simp [h1]
    · have : ¬ 0 ≤ ai.archfd := by omega
      simp [writes, this]
  · have h1p : 0 ≤ ai.archfd := by omega
    by_cases h2 : ai.cache.length ≠ 0 ∧ ai.devblocksize < ai.cache.length
    · refine ⟨[], ?_, ?_, fun _ h => absurd h (by omega)⟩
      · simp [h1, h2]
      · have : ¬ ai.cache.length ≤ ai.devblocksize := by omega
        simp [writes, this]
    · by_cases h3 : ai.cache.length = 0
      · by_cases ht : ai.originaltapeblocksize ≠ -1 ∧
            ai.originaltapeblocksize ≠ (ai.devblocksize : Int)
        · refine ⟨[.ev_fsync, .ev_setblk ai.originaltapeblocksize.toNat, .ev_close], ?_, ?_, ?_⟩
          · simp [h1, h3, ht, World.log]
          · simp [writes, h3]
          · intro _ _; simp [h1, h3]
        · refine ⟨[.ev_fsync, .ev_close], ?_, ?_, ?_⟩
          · simp only [h1, h2, h3, ht, if_false, World.log, ne_eq, not_true_eq_false, false_and]
            simp
          · simp [writes, h3]
          · intro _ _; simp [h1, h3]
      · have h4 : ai.cache.length ≤ ai.devblocksize := by omega
        have h5 : ¬ ai.devblocksize < ai.cache.length := by omega
        have hlen : (ai.cache ++ List.replicate (ai.devblocksize - ai.cache.length) 0).length
            = ai.devblocksize := by
          rw [List.length_append, List.length_replicate]; omega
        by_cases ht : ai.originaltapeblocksize ≠ -1 ∧
            ai.originaltapeblocksize ≠ (ai.devblocksize : Int)
        · refine ⟨[.ev_write (ai.cache ++ List.replicate (ai.devblocksize - ai.cache.length) 0),
            .ev_fsync, .ev_setblk ai.originaltapeblocksize.toNat, .ev_close], ?_, ?_, ?_⟩
          · simp only [h1, h5, h3, ht, if_false, if_true, World.log, ne_eq, not_false_eq_true,
              sys_write_whole w _ hacc, hlen, not_true_eq_false, and_false, and_self]
            simp
          · simp [writes, h1p, h3, h4]
          · intro _ _
            simp only [h1, h5, h3, if_false, if_true, ne_eq, not_false_eq_true,
              sys_write_whole w _ hacc, hlen, not_true_eq_false, and_false]
        · refine ⟨[.ev_write (ai.cache ++ List.replicate (ai.devblocksize - ai.cache.length) 0),
            .ev_fsync, .ev_close], ?_, ?_, ?_⟩
          · simp only [h1, h5, h3, ht, if_false, if_true, World.log, ne_eq, not_false_eq_true,
              sys_write_whole w _ hacc, hlen, not_true_eq_false, and_false]
            simp
          · simp [writes, h1p, h3, h4]
          · intro _ _
            simp only [h1, h5, h3, if_false, if_true, ne_eq, not_false_eq_true,
              sys_write_whole w _ hacc, hlen, not_true_eq_false, and_false]

theorem write_blocks_seq_writes (E : Env) (d : Nat) (hd : 0 < d) (Ds : List (List Nat)) :
    ∀ (ai : Writer) (w : World), ai.devblocksize = d → w.accept = [] →
      (write_blocks_seq E ai w Ds).2.1.devblocksize = d ∧
        (write_blocks_seq E ai w Ds).2.1.archfd = ai.archfd ∧
        (write_blocks_seq E ai w Ds).2.2.accept = [] ∧
        (∃ evs, (write_blocks_seq E ai w Ds).2.2.trace = w.trace ++ evs ∧
          ∀ b ∈ writes evs, 0 < b.length ∧ d ∣ b.length) ∧
        ((write_blocks_seq E ai w Ds).1 = .success → ai.cache.length < d →
          (write_blocks_seq E ai w Ds).2.1.cache.length < d) ∧
        (0 < E.datablocksize → (write_blocks_seq E ai w Ds).1 = .success) := by
  induction Ds with
  | nil =>
    intro ai w hdev hacc
    exact ⟨hdev, rfl, hacc, ⟨[], by simp [write_blocks_seq], by simp [writes]⟩,
      fun _ h => h, fun _ => rfl⟩
  | cons D Ds ih =>
    intro ai w hdev hacc
    have hd1 : 0 < ai.devblocksize := by omega
    obtain ⟨s1, s2, s3, s4, s5, s6⟩ := write_blocks_step E ai w D hd1 hacc
    by_cases hr : (archwriter_write_blocks E ai w D).1 = .success
    · obtain ⟨-, c2, c3⟩ := s5 hr
      obtain ⟨i1, i2, i3, ⟨evs, i4, i5⟩, i6, i7⟩ := ih (archwriter_write_blocks E ai w D).2.1
        (archwriter_write_blocks E ai w D).2.2 (by rw [s1, hdev]) s3
      have hlt : (archwriter_write_blocks E ai w D).2.1.cache.length < d := by
        rw [c2, hdev]; exact Nat.mod_lt _ hd
      simp only [write_blocks_seq, hr, ne_eq, not_true_eq_false, if_false]
      refine ⟨i1, by rw [i2, s2], i3, ?_, fun h _ => i6 h hlt, i7⟩
      rw [i4, c3, List.append_assoc]
      refine ⟨_, rfl, ?_⟩
      intro b hb
      rw [writes_append, List.mem_append] at hb
      rcases hb with hb | hb
      · by_cases hx : ai.devblocksize ≤ ai.cache.length + D.length
        · simp only [hx, if_true, writes, List.mem_singleton] at hb
          subst hb
          have hmod : (ai.cache.length + D.length) % ai.devblocksize
              ≤ ai.cache.length + D.length := Nat.mod_le _ _
          have hmlt : (ai.cache.length + D.length) % ai.devblocksize < ai.devblocksize :=
            Nat.mod_lt _ hd1
          rw [List.length_take, List.length_append,
            Nat.min_eq_left (Nat.sub_le _ _), ← hdev]
          refine ⟨by omega, ?_⟩
          exact (Nat.dvd_sub_mod _)
        · simp [hx, writes] at hb
      · exact i5 b hb
    · simp only [write_blocks_seq, hr, ne_eq, not_false_eq_true, if_true]
      refine ⟨by rw [s1, hdev], s2, s3, ⟨[], by rw [s4 hr, List.append_nil], by simp [writes]⟩,
        fun h => h.elim, fun h => absurd (s6 h) hr⟩

/-- Claim C13: on a block or tape writer with `devblocksize = d > 0` whose device
takes every write whole, for every sequence of `archwriter_write_blocks` calls
followed by `archwriter_close`, every `write` issued has a length that is a
positive multiple of `d`.  A successful `archwriter_write_blocks` issues one write
of the largest multiple of `d` contained in the cache when the cache holds at
least `d` bytes and none otherwise; `archwriter_close` writes exactly `d` bytes
(the remainder, then zeros) when a remainder is pending and nothing otherwise.
With a positive `datablocksize`, an open descriptor and a remainder below `d` at
the start, every call of the sequence returns 0. -/
theorem block_writes_multiple (E : Env) (ai : Writer) (w : World) (Ds : List (List Nat))
    (d : Nat) (hd : 0 < d) (hdev : ai.devblocksize = d) (hacc : w.accept = []) :
    (∃ evs, (blocks_session E ai w Ds).2.2.trace = w.trace ++ evs ∧
      ∀ b ∈ writes evs, 0 < b.length ∧ d ∣ b.length) ∧
    (∀ D, (archwriter_write_blocks E ai w D).1 = .success →
      (archwriter_write_blocks E ai w D).2.2.trace = w.trace ++
        (if d ≤ ai.cache.length + D.length then
          [.ev_write ((ai.cache ++ D).take (ai.cache.length + D.length
            - (ai.cache.length + D.length) % d))]
        else [])) ∧
    (∃ evs, (archwriter_close ai w).2.2.trace = w.trace ++ evs ∧
      writes evs =
        (if 0 ≤ ai.archfd ∧ ai.cache.length ≠ 0 ∧ ai.cache.length ≤ d then
          [ai.cache ++ List.replicate (d - ai.cache.length) 0]
        else [])) ∧
    (0 < E.datablocksize → 0 ≤ ai.archfd → ai.cache.length < d →
      (blocks_session E ai w Ds).1 = .success) := by
  obtain ⟨q1, q2, q3, ⟨evs, q4, q5⟩, q6, q7⟩ := write_blocks_seq_writes E d hd Ds ai w hdev hacc
  obtain ⟨evc, c1, c2, c3⟩ := close_writes (write_blocks_seq E ai w Ds).2.1
    (write_blocks_seq E ai w Ds).2.2 q3
  refine ⟨?_, ?_, ?_, ?_⟩
  · unfold blocks_session
    by_cases hs : (write_blocks_seq E ai w Ds).1 = .success
    · simp only [hs, ne_eq, not_true_eq_false, if_false]
      rw [c1, q4, List.append_assoc]
      refine ⟨_, rfl, ?_⟩
      intro b hb
      rw [writes_append, List.mem_append] at hb
      rcases hb with hb | hb
      · exact q5 b hb
      · rw [c2] at hb
        split at hb
        · rename_i hc
          rw [List.mem_singleton] at hb
          subst hb
          rw [List.length_append, List.length_replicate, q1]
          have := hc.2.2
          rw [q1] at this
          have h2 : (write_blocks_seq E ai w Ds).2.1.cache.length
              + (d - (write_blocks_seq E ai w Ds).2.1.cache.length) = d := by omega
          rw [h2]
          exact ⟨hd, dvd_refl d⟩
        · simp at hb
    · simp only [hs, ne_eq, not_false_eq_true, if_true]
      exact ⟨evs, q4, q5⟩
  · intro D hD
    have hd1 : 0 < ai.devblocksize := by omega
    obtain ⟨-, -, -, -, s5, -⟩ := write_blocks_step E ai w D hd1 hacc
    rw [(s5 hD).2.2, hdev]
  · obtain ⟨e, e1, e2, -⟩ := close_writes ai w hacc
    exact ⟨e, e1, by rw [e2, hdev]⟩
  · intro hdb hfd hlt
    unfold blocks_session
    simp only [q7 hdb, ne_eq, not_true_eq_false, if_false]
    have := q6 (q7 hdb) hlt
    exact c3 (by rw [q2]; exact hfd) (by rw [q1]; omega)

set_option maxRecDepth 100000 in
/-- Claim C13 (witness): device blocks of 4 bytes and buffers of 3, 6 and 1 bytes:
one write of 8 bytes, and at close one write of 4 bytes, the remainder `9 10`
padded with zeros. -/
theorem block_writes_multiple_witness :
    (∃ evs, (blocks_session sampleEnv tinyWriter sampleWorld
        [[1, 2, 3], [4, 5, 6, 7, 8, 9], [10]]).2.2.trace = sampleWorld.trace ++ evs ∧
      ∀ b ∈ writes evs, 0 < b.length ∧ 4 ∣ b.length) ∧
    writes (blocks_session sampleEnv tinyWriter sampleWorld
        [[1, 2, 3], [4, 5, 6, 7, 8, 9], [10]]).2.2.trace
      = [[1, 2, 3, 4, 5, 6, 7, 8], [9, 10, 0, 0]] ∧
    (blocks_session sampleEnv tinyWriter sampleWorld
        [[1, 2, 3], [4, 5, 6, 7, 8, 9], [10]]).1 = .success ∧
    (writes (blocks_session sampleEnv { tinyWriter with devblocksize := 512 } sampleWorld
        [List.replicate 200 1, List.replicate 900 2, List.replicate 50 3]).2.2.trace).map
      List.length = [1024, 512] :=
  ⟨(block_writes_multiple sampleEnv tinyWriter sampleWorld [[1, 2, 3], [4, 5, 6, 7, 8, 9], [10]]
      4 (by decide) (by decide) (by decide)).1,
    by decide,
    (block_writes_multiple sampleEnv tinyWriter sampleWorld [[1, 2, 3], [4, 5, 6, 7, 8, 9], [10]]
      4 (by decide) (by decide) (by decide)).2.2.2 (by decide) (by decide) (by decide),
    by decide⟩

/-! ## What the read operations leave unchanged, whatever they return -/

theorem ai_read_conf (E : Env) (ai : Reader) (n : Nat) : (ai_read E ai n).2.conf = ai.conf := by
  unfold ai_read
  cases hk : ai.read <;> simp only
  · unfold archreader_read_regular
    dsimp only
    repeat' split
    all_goals first
      | rfl
      | exact (precache_fields E ai _).2.2.2
  · unfold archreader_read_select
    dsimp only
    repeat' split
    all_goals first
      | rfl
      | exact (precache_fields E ai _).2.2.2
  · unfold archreader_read_blocks
    dsimp only
    repeat' split
    all_goals first
      | rfl
      | exact (precache_fields E ai _).2.2.2

theorem read_data_conf (E : Env) (ai : Reader) (n : Nat) :
    (archreader_read_data E ai n).2.2.conf = ai.conf := by
  unfold archreader_read_data
  split
  · rfl
  · dsimp only
    split
    · exact ai_read_conf E ai n
    · exact ai_read_conf E ai n

theorem unread_conf (ai : Reader) (k : Nat) : (archreader_unread ai k).2.conf = ai.conf := by
  unfold archreader_unread
  dsimp only
  repeat' split
  all_goals rfl

theorem read_dico_conf (E : Env) (ai : Reader) (d : cdico) :
    (archreader_read_dico E ai d).2.1.conf = ai.conf := by
  unfold archreader_read_dico
  dsimp only
  generalize (if ai.filefmtver = 1 then 2 else 4) = wd
  have h1 := read_data_conf E ai wd
  have h2 := read_data_conf E (archreader_read_data E ai wd).2.2
    (le_to_cpu (archreader_read_data E ai wd).2.1)
  have h3 := read_data_conf E
    (archreader_read_data E (archreader_read_data E ai wd).2.2
      (le_to_cpu (archreader_read_data E ai wd).2.1)).2.2 4
  repeat' split
  all_goals first
    | rfl
    | exact h1
    | exact h2.trans h1
    | exact h3.trans (h2.trans h1)

theorem fmt_version_archid (ai : Reader) (volhead : List Nat) :
    (archreader_fmt_version ai volhead).2.archid = ai.archid := by
  unfold archreader_fmt_version
  dsimp only
  repeat' split
  all_goals rfl

theorem scan_loops_archid (E : Env) (readvol : Bool) (fuel : Nat) :
    ∀ (ai : Reader) (readsize unread : Nat) (r : Ret) (a1 : Reader),
      scan_loops E readvol fuel ai readsize unread = some (r, a1) → a1.archid = ai.archid := by
  induction fuel with
  | zero => intro ai readsize unread r a1 h; simp [scan_loops] at h
  | succ fuel ih =>
    intro ai readsize unread r a1 h
    have e1 := conf_archid _ _ (read_data_conf E ai readsize)
    unfold scan_loops at h
    dsimp only at h
    split at h
    · simp only [Option.some.injEq, Prod.mk.injEq] at h
      rw [← h.2]; exact e1
    · split at h
      · have e2 := conf_archid _ _
          (unread_conf (archreader_read_data E ai readsize).2.2 (FSA_SIZEOF_MAGIC - 1))
        split at h
        · simp only [Option.some.injEq, Prod.mk.injEq] at h
          rw [← h.2]; exact e2.trans e1
        · exact (ih _ _ _ _ _ h).trans (e2.trans e1)
      · rename_i k hk
        have e2 := conf_archid _ _
          (unread_conf (archreader_read_data E ai readsize).2.2 (readsize - (k + 1) + 1))
        split at h
        · simp only [Option.some.injEq, Prod.mk.injEq] at h
          rw [← h.2]; exact e2.trans e1
        · split at h
          · have e3 := conf_archid _ _ (read_data_conf E
              (archreader_unread (archreader_read_data E ai readsize).2.2
                (readsize - (k + 1) + 1)).2 E.FSA_CACHE_HEADER)
            split at h
            · simp only [Option.some.injEq, Prod.mk.injEq] at h
              rw [← h.2]; exact e3.trans (e2.trans e1)
            · have e4 := fmt_version_archid
                (archreader_read_data E
                  (archreader_unread (archreader_read_data E ai readsize).2.2
                    (readsize - (k + 1) + 1)).2 E.FSA_CACHE_HEADER).2.2
                (archreader_read_data E
                  (archreader_unread (archreader_read_data E ai readsize).2.2
                    (readsize - (k + 1) + 1)).2 E.FSA_CACHE_HEADER).2.1
              split at h
              · have e5 := conf_archid _ _ (unread_conf
                  (archreader_fmt_version
                    (archreader_read_data E
                      (archreader_unread (archreader_read_data E ai readsize).2.2
                        (readsize - (k + 1) + 1)).2 E.FSA_CACHE_HEADER).2.2
                    (archreader_read_data E
                      (archreader_unread (archreader_read_data E ai readsize).2.2
                        (readsize - (k + 1) + 1)).2 E.FSA_CACHE_HEADER).2.1).2
                  (E.FSA_CACHE_HEADER - FSA_SIZEOF_MAGIC))
                split at h
                · simp only [Option.some.injEq, Prod.mk.injEq] at h
                  rw [← h.2]; exact e5.trans (e4.trans (e3.trans (e2.trans e1)))
                · exact (ih _ _ _ _ _ h).trans (e5.trans (e4.trans (e3.trans (e2.trans e1))))
              · have e5 := conf_archid _ _ (unread_conf
                  (archreader_fmt_version
                    (archreader_read_data E
                      (archreader_unread (archreader_read_data E ai readsize).2.2
                        (readsize - (k + 1) + 1)).2 E.FSA_CACHE_HEADER).2.2
                    (archreader_read_data E
                      (archreader_unread (archreader_read_data E ai readsize).2.2
                        (readsize - (k + 1) + 1)).2 E.FSA_CACHE_HEADER).2.1).2
                  unread)
                split at h
                · simp only [Option.some.injEq, Prod.mk.injEq] at h
                  rw [← h.2]; exact e5.trans (e4.trans (e3.trans (e2.trans e1)))
                · simp only [Option.some.injEq, Prod.mk.injEq] at h
                  rw [← h.2]; exact e5.trans (e4.trans (e3.trans (e2.trans e1)))
          · simp only [Option.some.injEq, Prod.mk.injEq] at h
            rw [← h.2]; exact e2.trans e1

theorem read_header_archid (E : Env) (fuel : Nat) (ai a1 : Reader) (readvol : Bool)
    (h : HeaderOut) (hh : archreader_read_header E fuel ai readvol = some (h, a1)) :
    a1.archid = ai.archid := by
  unfold archreader_read_header at hh
  dsimp only at hh
  split at hh
  · simp only [Option.some.injEq, Prod.mk.injEq] at hh
    rw [← hh.2]
  · split at hh
    · simp at hh
    · rename_i res ai1 hs
      have e0 := scan_loops_archid E readvol fuel ai _ _ res ai1 hs
      have e1 := conf_archid _ _ (read_data_conf E ai1 FSA_SIZEOF_MAGIC)
      have e2 := conf_archid _ _
        (read_data_conf E (archreader_read_data E ai1 FSA_SIZEOF_MAGIC).2.2 4)
      have e3 := conf_archid _ _
        (read_data_conf E
          (archreader_read_data E (archreader_read_data E ai1 FSA_SIZEOF_MAGIC).2.2 4).2.2 2)
      have e4 := conf_archid _ _
        (read_dico_conf E
          (archreader_read_data E
            (archreader_read_data E
              (archreader_read_data E ai1 FSA_SIZEOF_MAGIC).2.2 4).2.2 2).2.2 dico_alloc)
      split at hh
      · simp only [Option.some.injEq, Prod.mk.injEq] at hh
        rw [← hh.2]; exact e0
      · split at hh
        · simp only [Option.some.injEq, Prod.mk.injEq] at hh
          rw [← hh.2]; exact e1.trans e0
        · split at hh
          · simp only [Option.some.injEq, Prod.mk.injEq] at hh
            rw [← hh.2]; exact e2.trans (e1.trans e0)
          · split at hh
            · simp only [Option.some.injEq, Prod.mk.injEq] at hh
              rw [← hh.2]; exact e2.trans (e1.trans e0)
            · split at hh
              · simp only [Option.some.injEq, Prod.mk.injEq] at hh
                rw [← hh.2]; exact e3.trans (e2.trans (e1.trans e0))
              · simp only [Option.some.injEq, Prod.mk.injEq] at hh
                rw [← hh.2]; exact e4.trans (e3.trans (e2.trans (e1.trans e0)))

/-! ## Volume header: archive id -/

/-- Claim C20: let `h` be the record that `archreader_read_header` (with
`readvol = true`) hands to `archreader_read_volheader`.  The call returns a
result.  If it returns 0 then the record decoded, its magic is the volume-header
magic, and its ARCHID attribute equals the session archid after the call, which
is the adopted value when the session archid was 0 and the unchanged value
otherwise.  With the session archid unset, a decoded volume header with ARCHID
attribute `readid` leaves the session archid equal to `readid`.  With the session
archid set and an ARCHID attribute that differs from it, the call returns -1
(unless reading the header crashed) and the session archid is unchanged. -/
theorem read_volheader_archid (E : Env) (fuel : Nat) (ai ai1 : Reader) (h : HeaderOut)
    (hh : archreader_read_header E fuel ai true = some (h, ai1)) :
    (∃ r ai2, archreader_read_volheader E fuel ai = some (r, ai2)) ∧
    (∀ ai2, archreader_read_volheader E fuel ai = some (.success, ai2) →
      h.ret = .success ∧ strncmp_eq h.magic E.FSA_MAGIC_VOLH FSA_SIZEOF_MAGIC = true ∧
        dico_get_u32 (h.d.getD []) 0 E.VOLUMEHEADKEY_ARCHID = some ai2.archid ∧
        (ai.archid ≠ 0 → ai2.archid = ai.archid)) ∧
    (∀ readid, ai.archid = 0 → h.ret = .success →
      strncmp_eq h.magic E.FSA_MAGIC_VOLH FSA_SIZEOF_MAGIC = true →
      dico_get_u32 (h.d.getD []) 0 E.VOLUMEHEADKEY_ARCHID = some readid →
      ∃ r ai2, archreader_read_volheader E fuel ai = some (r, ai2) ∧ ai2.archid = readid) ∧
    (∀ readid, ai.archid ≠ 0 →
      dico_get_u32 (h.d.getD []) 0 E.VOLUMEHEADKEY_ARCHID = some readid → readid ≠ ai.archid →
      ∃ r, archreader_read_volheader E fuel ai = some (r, ai1) ∧ ai1.archid = ai.archid ∧
        (h.ret ≠ .crash → h.ret ≠ .hang → r = .neg1)) := by
  have ha := read_header_archid E fuel ai ai1 true h hh
  have hfail : h.ret ≠ .crash → h.ret ≠ .hang → h.ret.fail .neg1 = .neg1 := by
    intro h1 h2; simp [Ret.fail, h1, h2]
  have key : ∀ (P : Ret → Reader → Prop),
      (h.ret ≠ .success → P (h.ret.fail .neg1) ai1) →
      (h.ret = .success → strncmp_eq h.magic E.FSA_MAGIC_VOLH FSA_SIZEOF_MAGIC = false →
        P .neg1 ai1) →
      (h.ret = .success → strncmp_eq h.magic E.FSA_MAGIC_VOLH FSA_SIZEOF_MAGIC = true →
        dico_get_u32 (h.d.getD []) 0 E.VOLUMEHEADKEY_ARCHID = none → P .neg1 ai1) →
      (∀ readid, h.ret = .success →
        strncmp_eq h.magic E.FSA_MAGIC_VOLH FSA_SIZEOF_MAGIC = true →
        dico_get_u32 (h.d.getD []) 0 E.VOLUMEHEADKEY_ARCHID = some readid →
        ai1.archid ≠ 0 → readid ≠ ai1.archid → P .neg1 ai1) →
      (∀ readid r a2, h.ret = .success →
        strncmp_eq h.magic E.FSA_MAGIC_VOLH FSA_SIZEOF_MAGIC = true →
        dico_get_u32 (h.d.getD []) 0 E.VOLUMEHEADKEY_ARCHID = some readid →
        (ai1.archid = 0 ∨ readid = ai1.archid) → a2.archid = readid → P r a2) →
      ∃ r a2, archreader_read_volheader E fuel ai = some (r, a2) ∧ P r a2 := by
    intro P p1 p2 p3 p4 p5
    unfold archreader_read_volheader
    rw [hh]
    dsimp only
    by_cases c1 : h.ret = .success
    · by_cases c2 : strncmp_eq h.magic E.FSA_MAGIC_VOLH FSA_SIZEOF_MAGIC = true
      · cases c3 : dico_get_u32 (h.d.getD []) 0 E.VOLUMEHEADKEY_ARCHID with
        | none =>
          simp only [c1, c2, ne_eq, not_true_eq_false, if_false, Bool.true_eq_false]
          exact ⟨_, _, rfl, p3 c1 c2 c3⟩
        | some readid =>
          by_cases c4 : ai1.archid ≠ 0 ∧ readid ≠ ai1.archid
          · simp only [c1, c2, c4, ne_eq, not_true_eq_false, if_false, Bool.true_eq_false,
              not_false_eq_true, and_self, if_true]
            exact ⟨_, _, rfl, p4 readid c1 c2 c3 c4.1 c4.2⟩
          · have c5 : ai1.archid = 0 ∨ readid = ai1.archid := by
              by_cases z : ai1.archid = 0
              · exact Or.inl z
              · right; by_contra hne; exact c4 ⟨z, hne⟩
            have hid : (if ai1.archid = 0 then { ai1 with archid := readid } else ai1).archid
                = readid := by
              split
              · rfl
              · rename_i z
                rcases c5 with c5 | c5
                · exact absurd c5 z
                · exact c5.symm
            simp only [c1, c2, ne_eq, not_true_eq_false, if_false, Bool.true_eq_false]
            rw [if_neg (by simpa using c4)]
            generalize (if ai1.archid = 0 then { ai1 with archid := readid } else ai1) = a2
              at hid ⊢
            repeat' split
            all_goals exact ⟨_, _, rfl, p5 readid _ _ c1 c2 c3 c5 hid⟩
      · have c2f : strncmp_eq h.magic E.FSA_MAGIC_VOLH FSA_SIZEOF_MAGIC = false := by
          simpa using c2
        simp only [c1, c2f, ne_eq, not_true_eq_false, if_false, if_true]
        exact ⟨_, _, rfl, p2 c1 c2f⟩
    · simp only [c1, ne_eq, not_false_eq_true, if_true]
      exact ⟨_, _, rfl, p1 c1⟩
  refine ⟨?_, ?_, ?_, ?_⟩
  · obtain ⟨r, a2, e, -⟩ := key (fun _ _ => True) (fun _ => trivial) (fun _ _ => trivial)
      (fun _ _ _ => trivial) (fun _ _ _ _ _ _ => trivial) (fun _ _ _ _ _ _ _ _ => trivial)
    exact ⟨r, a2, e⟩
  · intro ai2 hs
    obtain ⟨r, a2, e, hP⟩ := key
      (fun r a2 => r = .success →
        h.ret = .success ∧ strncmp_eq h.magic E.FSA_MAGIC_VOLH FSA_SIZEOF_MAGIC = true ∧
          dico_get_u32 (h.d.getD []) 0 E.VOLUMEHEADKEY_ARCHID = some a2.archid ∧
          (ai.archid ≠ 0 → a2.archid = ai.archid))
      (fun c1 hr => absurd hr (Ret.fail_ne_success _ _ c1 (by decide)))
      (fun _ _ hr => absurd hr (by decide))
      (fun _ _ _ hr => absurd hr (by decide))
      (fun _ _ _ _ _ _ hr => absurd hr (by decide))
      (fun readid r a2 c1 c2 c3 c5 hid _ => ⟨c1, c2, by rw [hid]; exact c3, fun hz => by
        rw [hid]
        rcases c5 with c5 | c5
        · exact absurd (ha ▸ c5) hz
        · rw [c5, ha]⟩)
    rw [hs] at e
    simp only [Option.some.injEq, Prod.mk.injEq] at e
    obtain ⟨e1, e2⟩ := e
    subst e1 e2
    exact hP rfl
  · intro readid hz c1 c2 c3
    obtain ⟨r, a2, e, hP⟩ := key (fun _ a2 => a2.archid = readid)
      (fun hc => absurd c1 hc)
      (fun _ hc => by rw [c2] at hc; exact absurd hc (by decide))
      (fun _ _ hc => by rw [c3] at hc; exact Option.noConfusion hc)
      (fun rid _ _ _ hz1 _ => absurd (ha.trans hz) hz1)
      (fun rid r a2 _ _ c3a _ hid => by
        rw [c3] at c3a
        simp only [Option.some.injEq] at c3a
        rw [hid, c3a])
    exact ⟨r, a2, e, hP⟩
  · intro readid hz c3 hne
    obtain ⟨r, a2, e, hP⟩ := key
      (fun r a2 => a2 = ai1 ∧ (h.ret ≠ .crash → h.ret ≠ .hang → r = .neg1))
      (fun _ => ⟨rfl, hfail⟩)
      (fun _ _ => ⟨rfl, fun _ _ => rfl⟩)
      (fun _ _ _ => ⟨rfl, fun _ _ => rfl⟩)
      (fun _ _ _ _ _ _ => ⟨rfl, fun _ _ => rfl⟩)
      (fun rid r a2 _ _ c3a c5 _ => by
        rw [c3] at c3a
        simp only [Option.some.injEq] at c3a
        subst c3a
        rcases c5 with c5 | c5
        · exact absurd (ha ▸ c5) hz
        · exact absurd (c5.trans ha) hne)
    obtain ⟨e1, e2⟩ := hP
    subst e1
    exact ⟨r, e, ha, e2⟩

set_option maxRecDepth 100000 in
/-- Claim C20 (witness): the volume header of archive 7 read with no session
archive id is accepted and the session archive id becomes 7; a volume header whose
ARCHID attribute is 7 read with session archive id 9 is refused with -1 and the
session archive id stays 9. -/
theorem read_volheader_archid_witness :
    (archreader_read_volheader sampleEnv 3 volReader).map (fun x => (x.1, x.2.archid))
        = some (.success, 7) ∧
      (archreader_read_volheader sampleEnv 3 volReader9).map (fun x => (x.1, x.2.archid))
        = some (.neg1, 9) ∧
      (∃ r ai2, archreader_read_volheader sampleEnv 3 volReader = some (r, ai2) ∧
        ai2.archid = 7) ∧
      (∃ r ai2, archreader_read_volheader sampleEnv 3 volReader9 = some (r, ai2) ∧
        ai2.archid = volReader9.archid ∧ r = .neg1) :=
  ⟨by decide, by decide,
    (read_volheader_archid sampleEnv 3 volReader
      ((archreader_read_header sampleEnv 3 volReader true).get (by decide)).2
      ((archreader_read_header sampleEnv 3 volReader true).get (by decide)).1
      (Option.some_get (by decide)).symm).2.2.1 7 (by decide) (by decide) (by decide)
      (by decide),
    (fun ⟨r, e, ha, hr⟩ => ⟨r, _, e, ha, hr (by decide) (by decide)⟩)
      ((read_volheader_archid sampleEnv 3 volReader9
        ((archreader_read_header sampleEnv 3 volReader9 true).get (by decide)).2
        ((archreader_read_header sampleEnv 3 volReader9 true).get (by decide)).1
        (Option.some_get (by decide)).symm).2.2.2 7 (by decide) (by decide) (by decide))⟩

/-! ## Skipping -/

theorem skip_cached (E : Env) (ai : Reader) (n : Nat)
    (hwf : ai.cacheread ≤ ai.cache.length) (hn : n ≤ ai.cache.length - ai.cacheread) :
    ai_skip E ai n = (.success, { ai with cacheread := ai.cacheread + n }) := by
  have hm : (n : Int) ≤ (ai.cache.length : Int) - (ai.cacheread : Int) := by omega
  unfold ai_skip
  split <;>
    simp [archreader_skip_regular, archreader_skip_select, archreader_skip_blocks,
      archreader_skip_st, hm]

theorem pending_advance (ai : Reader) (n : Nat) (hn : n ≤ ai.cache.length - ai.cacheread) :
    ({ ai with cacheread := ai.cacheread + n } : Reader).pending = ai.pending.drop n := by
  simp only [Reader.pending]
  rw [List.drop_append_of_le_length (by rw [List.length_drop]; exact hn), List.drop_drop]

theorem pending_far (ai : Reader) (n : Nat) (hn : ai.cache.length - ai.cacheread ≤ n) :
    ai.pending.drop n = ai.input.drop (n - (ai.cache.length - ai.cacheread)) := by
  simp only [Reader.pending]
  rw [List.drop_append_eq_append_drop, List.length_drop,
    List.drop_eq_nil_of_le (by rw [List.length_drop]; exact hn), List.nil_append]

theorem skip_chunks_spec (cs : Nat) (hcs : 0 < cs) :
    ∀ (fuel : Nat) (input : List Nat) (pending : Nat) (cache : List Nat),
      pending < fuel → pending - pending % cs ≤ input.length →
      ∃ cache1, skip_chunks cs fuel input pending cache
        = some (input.drop (pending - pending % cs), pending % cs, cache1) := by
  intro fuel
  induction fuel with
  | zero => intro input pending cache h; omega
  | succ fuel ih =>
    intro input pending cache hf hlen
    unfold skip_chunks
    by_cases h : pending < cs
    · have hm : pending % cs = pending := Nat.mod_eq_of_lt h
      refine ⟨cache, ?_⟩
      simp only [h, if_true, hm, Nat.sub_self, List.drop_zero]
    · have hle : cs ≤ pending := by omega
      have hmod : pending % cs = (pending - cs) % cs := Nat.mod_eq_sub_mod hle
      have h1 : cs * (pending / cs) + pending % cs = pending := Nat.div_add_mod _ _
      have h2 : cs ≤ cs * (pending / cs) := Nat.le_mul_of_pos_right _ (Nat.div_pos hle hcs)
      have h3 : (pending - cs) % cs ≤ pending - cs := Nat.mod_le _ _
      have htake : (input.take cs).length = cs := by
        rw [List.length_take]; omega
      obtain ⟨c1, hc1⟩ := ih (input.drop cs) (pending - cs)
        (overwrite (input.take cs) cache) (by omega) (by rw [List.length_drop]; omega)
      refine ⟨c1, ?_⟩
      simp only [h, if_false, htake, ne_eq, not_true_eq_false]
      rw [hc1, List.drop_drop, ← hmod]
      have h4 : cs + (pending - cs - pending % cs) = pending - pending % cs := by omega
      rw [h4]

theorem skip_regular_far (ai : Reader) (n : Nat)
    (hn : ai.cache.length - ai.cacheread < n) (hwf : ai.cacheread ≤ ai.cache.length) :
    archreader_skip_regular ai n = (.success,
      { ai with input := ai.input.drop (n - (ai.cache.length - ai.cacheread)),
                cache := [], cacheread := 0 }) := by
  have hm : ¬ (n : Int) ≤ (ai.cache.length : Int) - (ai.cacheread : Int) := by omega
  have ht : ((n : Int) - ((ai.cache.length : Int) - (ai.cacheread : Int))).toNat
      = n - (ai.cache.length - ai.cacheread) := by omega
  simp only [archreader_skip_regular, hm, if_false, ht]

theorem skip_select_far (E : Env) (ai : Reader) (n : Nat)
    (hwf : ai.cacheread ≤ ai.cache.length) (hn : ai.cache.length - ai.cacheread < n)
    (ha : E.abort = false) (hcs : 0 < ai.cachesize) (hlen : n ≤ ai.pending.length) :
    archreader_skip_select E ai n = (.success,
      { ai with input := ai.input.drop (n - (ai.cache.length - ai.cacheread)),
                cache := [], cacheread := 0 }) := by
  have hm : ¬ (n : Int) ≤ (ai.cache.length : Int) - (ai.cacheread : Int) := by omega
  have ht : ((n : Int) - ((ai.cache.length : Int) - (ai.cacheread : Int))).toNat
      = n - (ai.cache.length - ai.cacheread) := by omega
  have hcs0 : ai.cachesize ≠ 0 := by omega
  simp only [Reader.pending, List.length_append, List.length_drop] at hlen
  generalize hP : n - (ai.cache.length - ai.cacheread) = P at ht
  have hPl : P ≤ ai.input.length := by omega
  have hmodle : P % ai.cachesize ≤ P := Nat.mod_le _ _
  obtain ⟨c1, hc1⟩ := skip_chunks_spec ai.cachesize hcs (P + 1) ai.input P ai.cache
    (by omega) (by omega)
  have hrest : ((ai.input.drop (P - P % ai.cachesize)).take (P % ai.cachesize)).length
      = P % ai.cachesize := by
    rw [List.length_take, List.length_drop]; omega
  simp only [archreader_skip_select, hm, if_false, ha, Bool.false_eq_true, hcs0, ht, hc1, hrest,
    ne_eq, not_true_eq_false, and_false]
  rw [List.drop_drop]
  have h4 : P - P % ai.cachesize + P % ai.cachesize = P := by omega
  rw [h4]

theorem skip_blocks_far (E : Env) (ai : Reader) (n : Nat)
    (hwf : ai.cacheread ≤ ai.cache.length) (hn : ai.cache.length - ai.cacheread < n)
    (ha : E.abort = false) (hcs : 0 < ai.cachesize) (hd : 0 < ai.devblocksize)
    (hdvd : ai.devblocksize ∣ ai.cachesize)
    (hlen : (n - (ai.cache.length - ai.cacheread)) +
      (ai.devblocksize - (n - (ai.cache.length - ai.cacheread)) % ai.devblocksize)
        % ai.devblocksize ≤ ai.input.length) :
    ∃ a1, archreader_skip_blocks E ai n = (.success, a1) ∧
      a1.pending = ai.input.drop (n - (ai.cache.length - ai.cacheread)) ∧
      a1.cacheread ≤ a1.cache.length ∧ a1.conf = ai.conf := by
  have hm : ¬ (n : Int) ≤ (ai.cache.length : Int) - (ai.cacheread : Int) := by omega
  have ht : ((n : Int) - ((ai.cache.length : Int) - (ai.cacheread : Int))).toNat
      = n - (ai.cache.length - ai.cacheread) := by omega
  have hcs0 : ai.cachesize ≠ 0 := by omega
  have hd0 : ai.devblocksize ≠ 0 := by omega
  have hcm : ai.cachesize % ai.devblocksize = 0 := Nat.mod_eq_zero_of_dvd hdvd
  generalize hP : n - (ai.cache.length - ai.cacheread) = P at ht hlen
  have hRd : P % ai.cachesize % ai.devblocksize = P % ai.devblocksize :=
    Nat.mod_mod_of_dvd P hdvd
  have hmodle : P % ai.cachesize ≤ P := Nat.mod_le _ _
  have hpadle : (ai.devblocksize - P % ai.devblocksize) % ai.devblocksize
      ≤ ai.devblocksize - P % ai.devblocksize := Nat.mod_le _ _
  have hmlt : P % ai.devblocksize < ai.devblocksize := Nat.mod_lt _ hd
  obtain ⟨c1, hc1⟩ := skip_chunks_spec ai.cachesize hcs (P + 1) ai.input P ai.cache
    (by omega) (by omega)
  have hcr : ¬ (ai.cachesize ≤ P ∧ (ai.devblocksize = 0 ∨ ai.cachesize % ai.devblocksize ≠ 0)) := by
    rintro ⟨-, h | h⟩
    · exact hd0 h
    · exact h hcm
  simp only [archreader_skip_blocks, hm, if_false, ha, Bool.false_eq_true, ht, hcr, hcs0, hc1]
  by_cases hR : P % ai.cachesize = 0
  · simp only [hR, ne_eq, not_true_eq_false, if_false]
    refine ⟨_, rfl, ?_, Nat.le_refl _, rfl⟩
    show ([] : List Nat).drop 0 ++ ai.input.drop (P - 0) = _
    simp
  · simp only [hR, ne_eq, not_false_eq_true, if_true, hd0, if_false, hRd,
      archreader_read_blocks_raw]
    by_cases hx : P % ai.devblocksize = 0
    · have hpad : (ai.devblocksize - P % ai.devblocksize) % ai.devblocksize = 0 := by
        rw [hx, Nat.sub_zero, Nat.mod_self]
      have hl : ¬ ((ai.input.drop (P - P % ai.cachesize)).take (P % ai.cachesize)).length
          < P % ai.cachesize := by
        rw [List.length_take, List.length_drop]; omega
      simp only [hx, if_true, hl, if_false]
      refine ⟨_, rfl, ?_, ?_, rfl⟩
      · show List.drop (P % ai.cachesize)
            (List.take (P % ai.cachesize) (ai.input.drop (P - P % ai.cachesize)))
            ++ List.drop (P % ai.cachesize) (ai.input.drop (P - P % ai.cachesize)) = _
        rw [drop_take_append_drop _ _ _ (Nat.le_refl _)
          (by rw [List.length_drop]; omega), List.drop_drop]
        congr 1; omega
      · show P % ai.cachesize
          ≤ (List.take (P % ai.cachesize) (ai.input.drop (P - P % ai.cachesize))).length
        rw [List.length_take, List.length_drop]; omega
    · have hpad : (ai.devblocksize - P % ai.devblocksize) % ai.devblocksize
          = ai.devblocksize - P % ai.devblocksize := Nat.mod_eq_of_lt (by omega)
      have hl : ¬ ((ai.input.drop (P - P % ai.cachesize)).take
          (P % ai.cachesize + (ai.devblocksize - P % ai.devblocksize))).length
          < P % ai.cachesize + (ai.devblocksize - P % ai.devblocksize) := by
        rw [List.length_take, List.length_drop]; omega
      simp only [hx, if_false, hl]
      refine ⟨_, rfl, ?_, ?_, rfl⟩
      · show List.drop (P % ai.cachesize)
            (List.take (P % ai.cachesize + (ai.devblocksize - P % ai.devblocksize))
              (ai.input.drop (P - P % ai.cachesize)))
            ++ List.drop (P % ai.cachesize + (ai.devblocksize - P % ai.devblocksize))
              (ai.input.drop (P - P % ai.cachesize)) = _
        rw [drop_take_append_drop _ _ _ (Nat.le_add_right _ _)
          (by rw [List.length_drop]; omega), List.drop_drop]
        congr 1; omega
      · show P % ai.cachesize
          ≤ (List.take (P % ai.cachesize + (ai.devblocksize - P % ai.devblocksize))
              (ai.input.drop (P - P % ai.cachesize))).length
        rw [List.length_take, List.length_drop]; omega

/-- Under the conditions of `can_skip`, `ai->skip(n)` returns 0 and advances the
logical stream by exactly `n` bytes. -/
theorem ai_skip_advance (E : Env) (ai : Reader) (n : Nat) (h : ai.can_skip E n) :
    ∃ a1, ai_skip E ai n = (.success, a1) ∧ a1.pending = ai.pending.drop n ∧
      a1.cacheread ≤ a1.cache.length ∧ a1.conf = ai.conf := by
  obtain ⟨hwf, hc⟩ := h
  by_cases hn : n ≤ ai.cache.length - ai.cacheread
  · refine ⟨_, skip_cached E ai n hwf hn, pending_advance ai n hn, ?_, rfl⟩
    show ai.cacheread + n ≤ ai.cache.length
    omega
  · have hfar : ai.cache.length - ai.cacheread < n := by omega
    have hpf := pending_far ai n (by omega)
    rcases hc with hc | hk | ⟨hk, ha, hcs, hlen⟩ | ⟨hk, ha, hcs, hd, hdvd, hlen⟩
    · exact absurd hc hn
    · refine ⟨{ ai with input := ai.input.drop (n - (ai.cache.length - ai.cacheread)),
                        cache := [], cacheread := 0 }, ?_, ?_, Nat.le_refl _, rfl⟩
      · have e : ai_skip E ai n = archreader_skip_regular ai n := by
          unfold ai_skip; rw [hk]
        rw [e]
        exact skip_regular_far ai n hfar hwf
      · rw [hpf]; rfl
    · refine ⟨{ ai with input := ai.input.drop (n - (ai.cache.length - ai.cacheread)),
                        cache := [], cacheread := 0 }, ?_, ?_, Nat.le_refl _, rfl⟩
      · have e : ai_skip E ai n = archreader_skip_select E ai n := by
          unfold ai_skip; rw [hk]
        rw [e]
        exact skip_select_far E ai n hwf hfar ha hcs hlen
      · rw [hpf]; rfl
    · obtain ⟨a1, e1, e2, e3, e4⟩ := skip_blocks_far E ai n hwf hfar ha hcs hd hdvd hlen
      refine ⟨a1, ?_, by rw [hpf]; exact e2, e3, e4⟩
      have e : ai_skip E ai n = archreader_skip_blocks E ai n := by
        unfold ai_skip
        rcases hk with hk | hk <;> rw [hk]
        rfl
      rw [e]
      exact e1

/-- Claim C18 (amended): under the conditions of `can_skip` (the `n` bytes are
cached; or a regular file; or a select-based transport with the abort flag clear,
an allocated cache and `n` bytes ahead; or a block or tape transport with the
abort flag clear, an allocated cache that is a multiple of `devblocksize`, and a
device that delivers the missing bytes rounded up to whole blocks) the skip of `n`
bytes returns 0 and advances the logical stream by exactly `n` bytes, as a
successful read of `n` bytes does.  Hence whenever `read_data(n)` and
`read_data(m)` succeed and the `read_data(m)` after the skip succeeds, the two
return the same `m` bytes and leave the same bytes pending; on a regular or
select-based reader with `n + m` bytes ahead all these reads do succeed and return
the `m` bytes that follow the first `n`.  When `n` bytes are cached the skip only
advances `cacheread` by `n`. -/
theorem skip_read_equiv (E : Env) (ai : Reader) (n m : Nat) (h : ai.can_skip E n) :
    (ai_skip E ai n).1 = .success ∧
    (ai_skip E ai n).2.pending = ai.pending.drop n ∧
    (ai_skip E ai n).2.cacheread ≤ (ai_skip E ai n).2.cache.length ∧
    (∀ A B B1 a1 a2 s2, archreader_read_data E ai n = (.success, A, a1) →
      archreader_read_data E a1 m = (.success, B, a2) →
      archreader_read_data E (ai_skip E ai n).2 m = (.success, B1, s2) →
      B1 = B ∧ s2.pending = a2.pending) ∧
    (ai.granular E → n + m ≤ ai.pending.length →
      (archreader_read_data E (ai_skip E ai n).2 m).1 = .success ∧
        (archreader_read_data E (ai_skip E ai n).2 m).2.1 = (ai.pending.drop n).take m ∧
        (archreader_read_data E ai n).1 = .success ∧
        (archreader_read_data E (archreader_read_data E ai n).2.2 m).1 = .success ∧
        (archreader_read_data E (archreader_read_data E ai n).2.2 m).2.1
          = (ai.pending.drop n).take m) ∧
    (n ≤ ai.cache.length - ai.cacheread →
      ai_skip E ai n = (.success, { ai with cacheread := ai.cacheread + n })) := by
  obtain ⟨s, hs, hsp, hswf, hsc⟩ := ai_skip_advance E ai n h
  have hwf := h.1
  rw [hs]
  refine ⟨rfl, hsp, hswf, ?_, ?_, fun hn => skip_cached E ai n hwf hn ▸ hs.symm ▸ rfl⟩
  · intro A B B1 a1 a2 s2 r1 r2 r3
    obtain ⟨hAl, hAp, -, -, hwf1, -⟩ := read_data_success E ai a1 A n hwf r1
    obtain ⟨hBl, hBp, -, -, -, -⟩ := read_data_success E a1 a2 B m hwf1 r2
    obtain ⟨hB1l, hB1p, -, -, -, -⟩ := read_data_success E s s2 B1 m hswf r3
    have ha1 : a1.pending = ai.pending.drop n := by
      rw [hAp, ← hAl, List.drop_left]
    have heq : B1 ++ s2.pending = B ++ a2.pending := by
      rw [← hB1p, ← hBp, ha1]; exact hsp
    exact List.append_inj heq (by rw [hB1l, hBl])
  · intro hg hlen
    obtain ⟨-, hdb, hdev, hkind⟩ := hg
    have hg0 : ai.granular E := ⟨hwf, hdb, hdev, hkind⟩
    have hsdev : s.devblocksize = ai.devblocksize := congrArg (fun c => c.2.2.2.2.2.2.2) hsc
    have hsread : s.read = ai.read := congrArg (fun c => c.1) hsc
    have hsg : s.granular E := ⟨hswf, hdb, by rw [hsdev]; exact hdev, by rw [hsread]; exact hkind⟩
    have hl1 : (s.pending.take m).length = m := by
      rw [List.length_take, hsp, List.length_drop]; omega
    obtain ⟨s1, hr, -, -, -, -, -⟩ := read_data_granular E s (s.pending.take m)
      (s.pending.drop m) hsg (List.take_append_drop m s.pending).symm
    rw [hl1] at hr
    have hl2 : (ai.pending.take n).length = n := by
      rw [List.length_take]; omega
    obtain ⟨a1, hr1, hg1, hp1, -, -, -⟩ := read_data_granular E ai (ai.pending.take n)
      (ai.pending.drop n) hg0 (List.take_append_drop n ai.pending).symm
    rw [hl2] at hr1
    have hl3 : (a1.pending.take m).length = m := by
      rw [List.length_take, hp1, List.length_drop]; omega
    obtain ⟨a2, hr2, -, -, -, -, -⟩ := read_data_granular E a1 (a1.pending.take m)
      (a1.pending.drop m) hg1 (List.take_append_drop m a1.pending).symm
    rw [hl3] at hr2
    rw [hr, hr1, hr2]
    exact ⟨rfl, by rw [hsp], rfl, rfl, by rw [hp1]⟩

/-- Claim C18 (witness): on a pipe holding the bytes 1..8, skipping 3 bytes and
reading 2 returns `4 5`, as reading 3 bytes and then 2 does; on a block device
with 5 cached bytes the skip of 6 bytes advances the logical stream by 6. -/
theorem skip_read_equiv_witness :
    (ai_skip sampleEnv (pipeReader [1, 2, 3, 4, 5, 6, 7, 8]) 3).1 = .success ∧
      (archreader_read_data sampleEnv
        (ai_skip sampleEnv (pipeReader [1, 2, 3, 4, 5, 6, 7, 8]) 3).2 2).2.1 = [4, 5] ∧
      (archreader_read_data sampleEnv
        (archreader_read_data sampleEnv (pipeReader [1, 2, 3, 4, 5, 6, 7, 8]) 3).2.2 2).2.1
        = [4, 5] ∧
      (ai_skip sampleEnv (blockReader [9, 9, 9, 9, 9] (List.range 16)) 6).2.pending
        = (blockReader [9, 9, 9, 9, 9] (List.range 16)).pending.drop 6 :=
  ⟨(skip_read_equiv sampleEnv (pipeReader [1, 2, 3, 4, 5, 6, 7, 8]) 3 2 (by decide)).1,
    ((skip_read_equiv sampleEnv (pipeReader [1, 2, 3, 4, 5, 6, 7, 8]) 3 2
      (by decide)).2.2.2.2.1 (by decide) (by decide)).2.1,
    ((skip_read_equiv sampleEnv (pipeReader [1, 2, 3, 4, 5, 6, 7, 8]) 3 2
      (by decide)).2.2.2.2.1 (by decide) (by decide)).2.2.2.2,
    (skip_read_equiv sampleEnv (blockReader [9, 9, 9, 9, 9] (List.range 16)) 6 1
      (by decide)).2.1⟩

/-- Claim C18 (counterexample): `archreader_skip_blocks` on a block device with
4-byte blocks and an allocated cache.  With exactly `n + m = 2 + 1` bytes on the
device the skip of 2 bytes fails (the rounded-up block comes up short) while
reading 2 bytes and then 1 byte succeeds and returns `3`.  With 5 bytes cached and
16 bytes on the device the skip of 6 bytes followed by a read of 1 byte returns
`1`, while `archreader_read_data(6)` fails. -/
theorem skip_read_equiv_counterexample :
    2 + 1 ≤ (blockReader [] [1, 2, 3]).pending.length ∧
      0 < (blockReader [] [1, 2, 3]).cachesize ∧
      (ai_skip sampleEnv (blockReader [] [1, 2, 3]) 2).1 = .neg1 ∧
      (archreader_read_data sampleEnv (blockReader [] [1, 2, 3]) 2).1 = .success ∧
      (archreader_read_data sampleEnv
        (archreader_read_data sampleEnv (blockReader [] [1, 2, 3]) 2).2.2 1).1 = .success ∧
      (archreader_read_data sampleEnv
        (archreader_read_data sampleEnv (blockReader [] [1, 2, 3]) 2).2.2 1).2.1 = [3] ∧
      6 + 1 ≤ (blockReader [9, 9, 9, 9, 9] (List.range 16)).pending.length ∧
      (ai_skip sampleEnv (blockReader [9, 9, 9, 9, 9] (List.range 16)) 6).1 = .success ∧
      (archreader_read_data sampleEnv
        (ai_skip sampleEnv (blockReader [9, 9, 9, 9, 9] (List.range 16)) 6).2 1).1 = .success ∧
      (archreader_read_data sampleEnv
        (ai_skip sampleEnv (blockReader [9, 9, 9, 9, 9] (List.range 16)) 6).2 1).2.1 = [1] ∧
      (archreader_read_data sampleEnv (blockReader [9, 9, 9, 9, 9] (List.range 16)) 6).1
        = .neg1 := by
  decide

/-! ## Skipping a data block -/

/-- Claim C19 (amended): with the skip flag set and a block-header dictionary
carrying the seven block attributes with REALSIZE at most `FSA_MAX_BLKSIZE`,
`archreader_read_block` calls `ai->skip(ARSIZE)` and nothing else: `sumok` is left
at -1, `out_blkinfo` is all zero, and the reader is the one the skip leaves.  When
the skip can reach its end (conditions of `can_skip`) the call returns 0 and the
logical read position has advanced by exactly ARSIZE bytes.  When the skip returns
a negative code the call returns -1. -/
theorem read_block_skip (E : Env) (ai : Reader) (d : cdico) (b : BlockAttrs)
    (hd : carries E d b) (hmax : b.realsize ≤ E.FSA_MAX_BLKSIZE) :
    (archreader_read_block E ai d true).2.1 = -1 ∧
    (archreader_read_block E ai d true).2.2.1 = blkinfo_zero ∧
    (archreader_read_block E ai d true).2.2.2 = (ai_skip E ai b.arsize).2 ∧
    (ai.can_skip E b.arsize →
      (archreader_read_block E ai d true).1 = .success ∧
        (archreader_read_block E ai d true).2.2.2.pending = ai.pending.drop b.arsize) ∧
    ((ai_skip E ai b.arsize).1.negative = true →
      (archreader_read_block E ai d true).1 = .neg1) := by
  obtain ⟨h1, h2, h3, h4, h5, h6, h7⟩ := hd
  have hm : ¬ E.FSA_MAX_BLKSIZE < b.realsize := by omega
  have hu : archreader_read_block E ai d true =
      if (ai_skip E ai b.arsize).1.negative ∨ (ai_skip E ai b.arsize).1 = .crash
          ∨ (ai_skip E ai b.arsize).1 = .hang then
        ((ai_skip E ai b.arsize).1.fail .neg1, -1, blkinfo_zero, (ai_skip E ai b.arsize).2)
      else (.success, -1, blkinfo_zero, (ai_skip E ai b.arsize).2) := by
    unfold archreader_read_block
    simp only [h1, h2, h3, h4, h5, h6, h7, hm, if_false, if_true]
  rw [hu]
  refine ⟨by split <;> rfl, by split <;> rfl, by split <;> rfl, ?_, ?_⟩
  · intro hc
    obtain ⟨s, hs, hsp, -, -⟩ := ai_skip_advance E ai b.arsize hc
    rw [hs]
    refine ⟨by simp [Ret.negative], ?_⟩
    simp only [Ret.negative]
    split <;> exact hsp
  · intro hneg
    cases hs : (ai_skip E ai b.arsize).1 <;> rw [hs] at hneg <;>
      first
        | exact absurd hneg (by decide)
        | simp [Ret.negative, Ret.fail]

/-- Claim C19 (witness): on a pipe holding 7 bytes the sample block of 5 bytes is
skipped: the call returns 0 with `sumok = -1`, a zeroed block, and two bytes
left. -/
theorem read_block_skip_witness :
    (archreader_read_block sampleEnv (pipeReader [104, 1, 2, 3, 4, 5, 6]) sample_blkdico
        true).1 = .success ∧
      (archreader_read_block sampleEnv (pipeReader [104, 1, 2, 3, 4, 5, 6]) sample_blkdico
        true).2.1 = -1 ∧
      (archreader_read_block sampleEnv (pipeReader [104, 1, 2, 3, 4, 5, 6]) sample_blkdico
        true).2.2.1 = blkinfo_zero ∧
      (archreader_read_block sampleEnv (pipeReader [104, 1, 2, 3, 4, 5, 6]) sample_blkdico
        true).2.2.2.pending = (pipeReader [104, 1, 2, 3, 4, 5, 6]).pending.drop sample_attrs.arsize ∧
      (archreader_read_block sampleEnv (pipeReader [104, 1, 2, 3, 4, 5, 6]) sample_blkdico
        true).2.2.2.pending = [5, 6] :=
  ⟨((read_block_skip sampleEnv (pipeReader [104, 1, 2, 3, 4, 5, 6]) sample_blkdico sample_attrs
      (by decide) (by decide)).2.2.2.1 (by decide)).1,
    (read_block_skip sampleEnv (pipeReader [104, 1, 2, 3, 4, 5, 6]) sample_blkdico sample_attrs
      (by decide) (by decide)).1,
    (read_block_skip sampleEnv (pipeReader [104, 1, 2, 3, 4, 5, 6]) sample_blkdico sample_attrs
      (by decide) (by decide)).2.1,
    ((read_block_skip sampleEnv (pipeReader [104, 1, 2, 3, 4, 5, 6]) sample_blkdico sample_attrs
      (by decide) (by decide)).2.2.2.1 (by decide)).2,
    by decide⟩

/-- Claim C19 (counterexample): on a pipe that ends after one byte, with an
allocated cache and the abort flag clear, the sample block (all seven attributes,
REALSIZE 5, ARSIZE 5) read with the skip flag set is not skipped: the call
returns -1. -/
theorem read_block_skip_counterexample :
    carries sampleEnv sample_blkdico sample_attrs ∧
      sample_attrs.realsize ≤ sampleEnv.FSA_MAX_BLKSIZE ∧
      (archreader_read_block sampleEnv (pipeReader [104]) sample_blkdico true).1 = .neg1 := by
  decide

/-! ## Sizes of the volumes closed by a split -/

theorem closed_volume_sizes_append (a b : List Event) (acc : Nat) :
    closed_volume_sizes (a ++ b) acc
      = closed_volume_sizes a acc ++ closed_volume_sizes b (open_volume_size a acc) := by
  induction a generalizing acc with
  | nil => rfl
  | cons e a ih => cases e <;> simp [closed_volume_sizes, open_volume_size, ih]

theorem open_volume_size_append (a b : List Event) (acc : Nat) :
    open_volume_size (a ++ b) acc = open_volume_size b (open_volume_size a acc) := by
  induction a generalizing acc with
  | nil => rfl
  | cons e a ih => cases e <;> simp [open_volume_size, ih]

theorem sys_write_trace (w : World) (bytes : List Nat) :
    ∃ pre, (sys_write w bytes).2.trace = w.trace ++ [.ev_write pre] ∧
      (sys_write w bytes).2.stat = w.stat ∧ pre.length ≤ bytes.length ∧
      ((sys_write w bytes).1 = bytes.length → pre = bytes) := by
  unfold sys_write
  cases h : w.accept with
  | nil => exact ⟨bytes, rfl, rfl, Nat.le_refl _, fun _ => rfl⟩
  | cons c cs =>
    refine ⟨bytes.take (min c bytes.length), rfl, rfl, ?_, ?_⟩
    · rw [List.length_take]; omega
    · intro hk
      simp only at hk
      rw [hk, List.take_length]

/-- One `archwriter_write_buffer` call on a writer of the regular or flush
variant: it closes no volume, adds at most the record to the open volume, and on
success adds exactly the record and advances `currentpos` by its size. -/
theorem write_buffer_bytewise (E : Env) (ai : Writer) (w : World) (bytes : List Nat)
    (hb : ai.bytewise) (acc : Nat) :
    ∃ evs, (archwriter_write_buffer E ai w (writebuf_of bytes)).2.2.trace = w.trace ++ evs ∧
      (archwriter_write_buffer E ai w (writebuf_of bytes)).2.2.stat = w.stat ∧
      closed_volume_sizes evs acc = [] ∧
      (archwriter_write_buffer E ai w (writebuf_of bytes)).2.1.bytewise ∧
      ((archwriter_write_buffer E ai w (writebuf_of bytes)).1 = .success →
        open_volume_size evs acc = acc + bytes.length ∧
          (archwriter_write_buffer E ai w (writebuf_of bytes)).2.1.currentpos
            = ai.currentpos + bytes.length) := by
  obtain ⟨hfd, hc, hw⟩ := hb
  have hwb : archwriter_write_buffer E ai w (writebuf_of bytes)
      = if bytes.length = 0 then (.success, ai, w) else ai_write E ai w bytes := by
    unfold archwriter_write_buffer writebuf_of
    have h0 : ¬ ((bytes.length : Int) < 0) := by omega
    by_cases hz : bytes.length = 0
    · simp [hz]
    · have hz1 : ¬ (bytes.length : Int) = 0 := by omega
      simp only [h0, hz, hz1, if_false, Int.toNat_ofNat, List.take_length]
  rw [hwb]
  by_cases hz : bytes.length = 0
  · rw [if_pos hz]
    refine ⟨[], (List.append_nil _).symm, rfl, rfl, ⟨hfd, hc, hw⟩, fun _ => ⟨?_, ?_⟩⟩
    · rw [hz]; rfl
    · show ai.currentpos = _
      rw [hz]; simp
  · rw [if_neg hz]
    obtain ⟨pre, t1, t2, t3, t4⟩ := sys_write_trace w bytes
    rcases hw with hw | hw
    · have e : ai_write E ai w bytes = archwriter_write_regular ai w bytes := by
        unfold ai_write; rw [hw]
      rw [e]
      unfold archwriter_write_regular
      dsimp only
      split
      · exact ⟨[.ev_write pre], t1, t2, rfl, ⟨hfd, hc, Or.inl hw⟩,
          fun h => Ret.noConfusion h⟩
      · rename_i hk
        have hk1 : (sys_write w bytes).1 = bytes.length := by
          by_contra hne; exact hk hne
        refine ⟨[.ev_write pre], t1, t2, rfl, ⟨hfd, hc, Or.inl hw⟩, fun _ => ⟨?_, rfl⟩⟩
        rw [t4 hk1]; rfl
    · have e : ai_write E ai w bytes = archwriter_write_flush ai w bytes := by
        unfold ai_write; rw [hw]
      rw [e]
      unfold archwriter_write_flush
      dsimp only
      split
      · exact ⟨[.ev_write pre], t1, t2, rfl, ⟨hfd, hc, Or.inr hw⟩,
          fun h => Ret.noConfusion h⟩
      · rename_i hk
        have hk1 : (sys_write w bytes).1 = bytes.length := by
          by_contra hne; exact hk hne
        refine ⟨[.ev_write pre, .ev_fsync], ?_, t2, rfl, ⟨hfd, hc, Or.inr hw⟩,
          fun _ => ⟨?_, rfl⟩⟩
        · show (sys_write w bytes).2.trace ++ [.ev_fsync] = _
          rw [t1, List.append_assoc]; rfl
        · rw [t4 hk1]; rfl

theorem create_open_bytewise (E : Env) (a : Writer) (w : World) (creat : Bool)
    (st : Option FileType) (hfd : a.archfd = -1 ∨ 0 ≤ a.archfd) (hc : a.cache = [])
    (hw : a.write = some .write_regular ∨ a.write = some .write_flush)
    (hst : st ≠ some .tape) :
    ∃ evs, (create_open E a w creat st).2.2.trace = w.trace ++ evs ∧
      (create_open E a w creat st).2.2.stat = w.stat ∧
      (∀ acc, closed_volume_sizes evs acc = [] ∧ open_volume_size evs acc = acc) ∧
      ((create_open E a w creat st).1 = .success →
        (create_open E a w creat st).2.1.bytewise ∧
          (create_open E a w creat st).2.1.currentpos = 0) := by
  unfold create_open create_opened create_finish
  simp only [hst, if_false]
  by_cases h1 : a.archfd = -1
  · rw [if_pos h1]
    by_cases ho : w.open_ok a.volpath = false
    · rw [if_pos ho]
      exact ⟨[], (List.append_nil _).symm, rfl, fun _ => ⟨rfl, rfl⟩, fun h => Ret.noConfusion h⟩
    · rw [if_neg ho]
      exact ⟨[.ev_open a.volpath creat], rfl, rfl, fun _ => ⟨rfl, rfl⟩,
        fun _ => ⟨⟨show (0 : Int) ≤ 3 by decide, hc, hw⟩, rfl⟩⟩
  · rw [if_neg h1]
    have h2 : 0 ≤ a.archfd := by
      rcases hfd with h | h
      · exact absurd h h1
      · exact h
    exact ⟨[], (List.append_nil _).symm, rfl, fun _ => ⟨rfl, rfl⟩,
      fun _ => ⟨⟨h2, hc, hw⟩, rfl⟩⟩

/-- Function `archwriter_create` for a path that is neither a block device nor a tape,
called with the descriptor closed: it writes nothing and closes nothing, and on
success the writer is of the regular or flush variant with `currentpos = 0`. -/
theorem create_bytewise (E : Env) (ai : Writer) (w : World) (hfd : ai.archfd = -1)
    (hc : ai.cache = [])
    (hst : w.stat ai.volpath ≠ some .block ∧ w.stat ai.volpath ≠ some .tape) :
    ∃ evs, (archwriter_create E ai w).2.2.trace = w.trace ++ evs ∧
      (archwriter_create E ai w).2.2.stat = w.stat ∧
      (∀ acc, closed_volume_sizes evs acc = [] ∧ open_volume_size evs acc = acc) ∧
      ((archwriter_create E ai w).1 = .success →
        (archwriter_create E ai w).2.1.bytewise ∧
          (archwriter_create E ai w).2.1.currentpos = 0) := by
  have hnone : ∀ r : Ret, r ≠ .success →
      ∃ evs, ((r, ai, w) : Ret × Writer × World).2.2.trace = w.trace ++ evs ∧
        ((r, ai, w) : Ret × Writer × World).2.2.stat = w.stat ∧
        (∀ acc, closed_volume_sizes evs acc = [] ∧ open_volume_size evs acc = acc) ∧
        (((r, ai, w) : Ret × Writer × World).1 = .success →
          ((r, ai, w) : Ret × Writer × World).2.1.bytewise ∧
            ((r, ai, w) : Ret × Writer × World).2.1.currentpos = 0) :=
    fun r hr => ⟨[], (List.append_nil _).symm, rfl, fun _ => ⟨rfl, rfl⟩, fun h => absurd h hr⟩
  unfold archwriter_create
  by_cases hv : ai.volpath = "-"
  · rw [if_pos hv]
    unfold create_finish
    exact ⟨[], (List.append_nil _).symm, rfl, fun _ => ⟨rfl, rfl⟩,
      fun _ => ⟨⟨show (0 : Int) ≤ 1 by decide, hc, Or.inr rfl⟩, rfl⟩⟩
  · rw [if_neg hv]
    dsimp only
    split
    · exact hnone _ (by decide)
    · cases hs : w.stat ai.volpath with
      | none =>
        exact create_open_bytewise E _ w true none (Or.inl hfd) hc (Or.inl rfl) (by decide)
      | some ft =>
        cases ft with
        | regular =>
          exact create_open_bytewise E _ w true _ (Or.inl hfd) hc (Or.inl rfl) (by decide)
        | block => exact absurd hs hst.1
        | tape => exact absurd hs hst.2
        | socket =>
          dsimp only
          split
          · exact ⟨[], (List.append_nil _).symm, rfl, fun _ => ⟨rfl, rfl⟩,
              fun h => Ret.noConfusion h⟩
          · split
            · exact ⟨[], (List.append_nil _).symm, rfl, fun _ => ⟨rfl, rfl⟩,
                fun h => Ret.noConfusion h⟩
            · obtain ⟨evs, e1, e2, e3, e4⟩ := create_open_bytewise E
                { ai with write := some .write_flush, archfd := 3 }
                (w.log (.ev_connect ai.volpath)) false (some .socket)
                (Or.inr (show (0 : Int) ≤ 3 by decide)) hc (Or.inr rfl) (by decide)
              refine ⟨.ev_connect ai.volpath :: evs, ?_, e2, ?_, e4⟩
              · rw [e1]
                show (w.trace ++ [.ev_connect ai.volpath]) ++ evs = _
                rw [List.append_assoc]; rfl
              · intro acc
                exact ⟨(e3 acc).1, (e3 acc).2⟩
        | chardev =>
          exact create_open_bytewise E _ w false _ (Or.inl hfd) hc (Or.inr rfl) (by decide)
        | fifo =>
          exact create_open_bytewise E _ w false _ (Or.inl hfd) hc (Or.inr rfl) (by decide)
        | other => exact hnone _ (by decide)

theorem close_bytewise (ai : Writer) (w : World) (hb : ai.bytewise) (acc : Nat) :
    ∃ evs, (archwriter_close ai w).2.2.trace = w.trace ++ evs ∧
      (archwriter_close ai w).2.2.stat = w.stat ∧
      closed_volume_sizes evs acc = [acc] ∧ open_volume_size evs acc = 0 ∧
      (archwriter_close ai w).1 = .success ∧ (archwriter_close ai w).2.1.archfd = -1 ∧
      (archwriter_close ai w).2.1.cache = [] := by
  obtain ⟨hfd, hc, -⟩ := hb
  have h1 : ¬ ai.archfd < 0 := by omega
  unfold archwriter_close
  simp only [h1, hc, List.length_nil, ne_eq, not_true_eq_false, false_and, if_false]
  split
  · refine ⟨[.ev_fsync, .ev_setblk ai.originaltapeblocksize.toNat, .ev_close], ?_⟩
    simp [World.log, closed_volume_sizes, open_volume_size]
  · refine ⟨[.ev_fsync, .ev_close], ?_⟩
    simp [World.log, closed_volume_sizes, open_volume_size]

theorem wrap_fail (r : Ret × Writer × World) :
    (if r.1 ≠ .success then (r.1.fail .neg1, r.2) else (.success, r.2)).2 = r.2 ∧
      ((if r.1 ≠ .success then (r.1.fail .neg1, r.2) else (Ret.success, r.2)).1 = .success
        → r.1 = .success) := by
  by_cases h : r.1 = .success
  · simp [h]
  · simp only [ne_eq, h, not_false_eq_true, if_true, true_and]
    intro hs
    exact absurd hs (Ret.fail_ne_success _ _ h (by decide))

/-- Writing a volume header or footer (`enc` is what `writebuf_add_header`
returns for it, `r` the result of the call) on a writer of the regular or flush
variant: no volume is closed, and on success the `k <= K` bytes of the record are
added to the open volume and to `currentpos`. -/
theorem emit_bytewise (E : Env) (ai : Writer) (w : World) (enc : Option (List Nat))
    (hb : ai.bytewise) (acc K : Nat) (r : Ret × Writer × World)
    (hr : r = match enc with
      | none => (Ret.neg1, ai, w)
      | some bytes =>
        if (archwriter_write_buffer E ai w { data := bytes, size := bytes.length }).1
            ≠ .success then
          ((archwriter_write_buffer E ai w { data := bytes, size := bytes.length }).1.fail .neg1,
            (archwriter_write_buffer E ai w { data := bytes, size := bytes.length }).2)
        else
          (.success, (archwriter_write_buffer E ai w { data := bytes, size := bytes.length }).2))
    (hK : ∀ bs, enc = some bs → bs.length ≤ K) :
    ∃ evs k, r.2.2.trace = w.trace ++ evs ∧ r.2.2.stat = w.stat ∧
      closed_volume_sizes evs acc = [] ∧ r.2.1.bytewise ∧ k ≤ K ∧
      (r.1 = .success →
        open_volume_size evs acc = acc + k ∧ r.2.1.currentpos = ai.currentpos + k) := by
  cases enc with
  | none =>
    subst hr
    exact ⟨[], 0, (List.append_nil _).symm, rfl, rfl, hb, Nat.zero_le _,
      fun h => Ret.noConfusion h⟩
  | some bytes =>
    obtain ⟨evs, t1, t2, t3, t4, t5⟩ := write_buffer_bytewise E ai w bytes hb acc
    obtain ⟨w1, w2⟩ := wrap_fail (archwriter_write_buffer E ai w (writebuf_of bytes))
    have hr2 : r.2 = (archwriter_write_buffer E ai w (writebuf_of bytes)).2 := by
      rw [hr]; exact w1
    have hr1 : r.1 = .success →
        (archwriter_write_buffer E ai w (writebuf_of bytes)).1 = .success := by
      rw [hr]; exact w2
    rw [hr2]
    exact ⟨evs, bytes.length, t1, t2, t3, t4, hK bytes rfl, fun hs => t5 (hr1 hs)⟩

theorem write_volheader_bytewise (E : Env) (ai : Writer) (w : World) (hb : ai.bytewise)
    (acc K : Nat)
    (hK : ∀ bs, E.writebuf_add_header (volheader_dico E ai) E.FSA_MAGIC_VOLH ai.archid
      E.FSA_FILESYSID_NULL = some bs → bs.length ≤ K) :
    ∃ evs k, (archwriter_write_volheader E ai w).2.2.trace = w.trace ++ evs ∧
      (archwriter_write_volheader E ai w).2.2.stat = w.stat ∧
      closed_volume_sizes evs acc = [] ∧ (archwriter_write_volheader E ai w).2.1.bytewise ∧
      k ≤ K ∧
      ((archwriter_write_volheader E ai w).1 = .success →
        open_volume_size evs acc = acc + k ∧
          (archwriter_write_volheader E ai w).2.1.currentpos = ai.currentpos + k) :=
  emit_bytewise E ai w _ hb acc K _ rfl hK

theorem write_volfooter_bytewise (E : Env) (ai : Writer) (w : World) (lastvol : Bool)
    (hb : ai.bytewise) (acc K : Nat)
    (hK : ∀ bs, E.writebuf_add_header (volfooter_dico E ai lastvol) E.FSA_MAGIC_VOLF ai.archid
      E.FSA_FILESYSID_NULL = some bs → bs.length ≤ K) :
    ∃ evs k, (archwriter_write_volfooter E ai w lastvol).2.2.trace = w.trace ++ evs ∧
      (archwriter_write_volfooter E ai w lastvol).2.2.stat = w.stat ∧
      closed_volume_sizes evs acc = [] ∧
      (archwriter_write_volfooter E ai w lastvol).2.1.bytewise ∧ k ≤ K ∧
      ((archwriter_write_volfooter E ai w lastvol).1 = .success →
        open_volume_size evs acc = acc + k ∧
          (archwriter_write_volfooter E ai w lastvol).2.1.currentpos = ai.currentpos + k) :=
  emit_bytewise E ai w _ hb acc K _ rfl hK

/-- Function `archwriter_split_if_necessary` on a writer of the regular or flush variant,
for a record of at most `M` bytes, when a volume header never exceeds
`splitsize`, a footer never exceeds `F` bytes and no volume is a block device or
a tape: a volume closed by the call has at most `splitsize + M + F` bytes, and
after a successful call the record still fits below `splitsize + M`. -/
theorem split_bounded (E : Env) (ai : Writer) (w : World) (bytes : List Nat)
    (hb : ai.bytewise) (acc M F : Nat) (hS : 0 < E.splitsize)
    (hacc : (acc : Int) ≤ ai.currentpos) (hpos : ai.currentpos ≤ E.splitsize + M)
    (hlen : bytes.length ≤ M)
    (hH : ∀ (a : Writer) bs, E.writebuf_add_header (volheader_dico E a) E.FSA_MAGIC_VOLH
      a.archid E.FSA_FILESYSID_NULL = some bs → (bs.length : Int) ≤ E.splitsize)
    (hF : ∀ (a : Writer) bs, E.writebuf_add_header (volfooter_dico E a false) E.FSA_MAGIC_VOLF
      a.archid E.FSA_FILESYSID_NULL = some bs → bs.length ≤ F)
    (hst : ∀ p, w.stat p ≠ some .block ∧ w.stat p ≠ some .tape) :
    volumes_bounded w acc (E.splitsize + M + F) (E.splitsize + M) bytes.length
      (archwriter_split_if_necessary E ai w (writebuf_of bytes)) := by
  unfold volumes_bounded archwriter_split_if_necessary
  by_cases hc : archwriter_split_check E ai (writebuf_of bytes) = true
  · rw [if_pos hc]
    dsimp only
    obtain ⟨evs1, k1, t1, s1, c1, b1, hk1, p1⟩ :=
      write_volfooter_bytewise E ai w false hb acc F (hF ai)
    by_cases hf : (archwriter_write_volfooter E ai w false).1 = .success
    · rw [if_neg (not_not.mpr hf)]
      obtain ⟨o1, q1⟩ := p1 hf
      obtain ⟨evs2, t2, s2, c2, o2, r2, fd2, ca2⟩ :=
        close_bytewise (archwriter_write_volfooter E ai w false).2.1
          (archwriter_write_volfooter E ai w false).2.2 b1 (open_volume_size evs1 acc)
      have hcr : ¬ (archwriter_close (archwriter_write_volfooter E ai w false).2.1
          (archwriter_write_volfooter E ai w false).2.2).1 = .crash := by
        rw [r2]; decide
      rw [if_neg hcr]
      obtain ⟨evs3, t3, s3, q3, b3⟩ := create_bytewise E
        (archwriter_incvolume E
          (archwriter_close (archwriter_write_volfooter E ai w false).2.1
            (archwriter_write_volfooter E ai w false).2.2).2.1)
        (archwriter_close (archwriter_write_volfooter E ai w false).2.1
          (archwriter_write_volfooter E ai w false).2.2).2.2 fd2 ca2
        (by rw [s2, s1]; exact hst _)
      have hbound : ((acc + k1 : Nat) : Int) ≤ E.splitsize + M + F := by omega
      by_cases hn : (archwriter_create E
          (archwriter_incvolume E
            (archwriter_close (archwriter_write_volfooter E ai w false).2.1
              (archwriter_write_volfooter E ai w false).2.2).2.1)
          (archwriter_close (archwriter_write_volfooter E ai w false).2.1
            (archwriter_write_volfooter E ai w false).2.2).2.2).1 = .success
      · rw [if_neg (not_not.mpr hn)]
        obtain ⟨b3a, cp3⟩ := b3 hn
        obtain ⟨evs4, k4, t4, s4, c4, b4, hk4, p4⟩ := write_volheader_bytewise E _ _ b3a 0
          E.splitsize.toNat (fun bs h => by have := hH _ bs h; omega)
        obtain ⟨w1, w2⟩ := wrap_fail (archwriter_write_volheader E
          (archwriter_create E
            (archwriter_incvolume E
              (archwriter_close (archwriter_write_volfooter E ai w false).2.1
                (archwriter_write_volfooter E ai w false).2.2).2.1)
            (archwriter_close (archwriter_write_volfooter E ai w false).2.1
              (archwriter_write_volfooter E ai w false).2.2).2.2).2.1
          (archwriter_create E
            (archwriter_incvolume E
              (archwriter_close (archwriter_write_volfooter E ai w false).2.1
                (archwriter_write_volfooter E ai w false).2.2).2.1)
            (archwriter_close (archwriter_write_volfooter E ai w false).2.1
              (archwriter_write_volfooter E ai w false).2.2).2.2).2.2)
        rw [w1]
        refine ⟨evs1 ++ (evs2 ++ (evs3 ++ evs4)), ?_, ?_, ?_, ?_⟩
        · rw [t4, t3, t2, t1]; simp only [List.append_assoc]
        · rw [s4, s3, s2, s1]
        · intro n hn1
          rw [closed_volume_sizes_append, c1, closed_volume_sizes_append, c2, o2,
            closed_volume_sizes_append, (q3 0).1, (q3 0).2, c4, o1] at hn1
          simp only [List.nil_append, List.append_nil, List.mem_singleton] at hn1
          rw [hn1]; exact hbound
        · intro hs
          obtain ⟨o4, q4⟩ := p4 (w2 hs)
          refine ⟨b4, ?_, ?_⟩
          · rw [open_volume_size_append, open_volume_size_append, open_volume_size_append, o2,
              (q3 0).2, o4, q4, cp3]
            omega
          · rw [q4, cp3]; omega
      · rw [if_pos hn]
        refine ⟨evs1 ++ (evs2 ++ evs3), ?_, ?_, ?_, ?_⟩
        · rw [t3, t2, t1]; simp only [List.append_assoc]
        · rw [s3, s2, s1]
        · intro n hn1
          rw [closed_volume_sizes_append, c1, closed_volume_sizes_append, c2, o2,
            (q3 0).1, o1] at hn1
          simp only [List.nil_append, List.append_nil, List.mem_singleton] at hn1
          rw [hn1]; exact hbound
        · intro hs
          exact absurd hs (Ret.fail_ne_success _ _ hn (by decide))
    · rw [if_pos hf]
      refine ⟨evs1, t1, s1, ?_, fun hs => absurd hs (Ret.fail_ne_success _ _ hf (by decide))⟩
      rw [c1]; intro n hn1; simp at hn1
  · rw [if_neg hc]
    refine ⟨[], (List.append_nil _).symm, rfl, ?_, fun _ => ⟨hb, hacc, ?_⟩⟩
    · intro n hn1; simp [closed_volume_sizes] at hn1
    · have hno : ¬ (0 ≤ ai.currentpos ∧ (0 < E.splitsize ∧
          E.splitsize < ai.currentpos + (bytes.length : Int))) := by
        intro h
        apply hc
        unfold archwriter_split_check archwriter_get_currentpos writebuf_of
        simp [h]
      show ai.currentpos + (bytes.length : Int) ≤ E.splitsize + M
      by_cases h1 : E.splitsize < ai.currentpos + (bytes.length : Int)
      · exact absurd ⟨by omega, hS, h1⟩ hno
      · omega

/-- Writing one record (`enc` is its serialization, `r` the result of
`archwriter_dowrite_header` or `archwriter_dowrite_block`). -/
theorem record_bounded (E : Env) (ai : Writer) (w : World) (enc : Option (List Nat))
    (hb : ai.bytewise) (acc M F : Nat) (hS : 0 < E.splitsize)
    (hacc : (acc : Int) ≤ ai.currentpos) (hpos : ai.currentpos ≤ E.splitsize + M)
    (r : Ret × Writer × World)
    (hr : r = match enc with
      | none => (Ret.neg1, ai, w)
      | some bytes =>
        if (archwriter_split_if_necessary E ai w { data := bytes, size := bytes.length }).1
            ≠ .success then
          ((archwriter_split_if_necessary E ai w
              { data := bytes, size := bytes.length }).1.fail .neg1,
            (archwriter_split_if_necessary E ai w { data := bytes, size := bytes.length }).2)
        else
          if (archwriter_write_buffer E
              (archwriter_split_if_necessary E ai w { data := bytes, size := bytes.length }).2.1
              (archwriter_split_if_necessary E ai w { data := bytes, size := bytes.length }).2.2
              { data := bytes, size := bytes.length }).1 ≠ .success then
            ((archwriter_write_buffer E
              (archwriter_split_if_necessary E ai w { data := bytes, size := bytes.length }).2.1
              (archwriter_split_if_necessary E ai w { data := bytes, size := bytes.length }).2.2
              { data := bytes, size := bytes.length }).1.fail .neg1,
              (archwriter_write_buffer E
              (archwriter_split_if_necessary E ai w { data := bytes, size := bytes.length }).2.1
              (archwriter_split_if_necessary E ai w { data := bytes, size := bytes.length }).2.2
              { data := bytes, size := bytes.length }).2)
          else
            (.success, (archwriter_write_buffer E
              (archwriter_split_if_necessary E ai w { data := bytes, size := bytes.length }).2.1
              (archwriter_split_if_necessary E ai w { data := bytes, size := bytes.length }).2.2
              { data := bytes, size := bytes.length }).2))
    (hM : ∀ bs, enc = some bs → bs.length ≤ M)
    (hH : ∀ (a : Writer) bs, E.writebuf_add_header (volheader_dico E a) E.FSA_MAGIC_VOLH
      a.archid E.FSA_FILESYSID_NULL = some bs → (bs.length : Int) ≤ E.splitsize)
    (hF : ∀ (a : Writer) bs, E.writebuf_add_header (volfooter_dico E a false) E.FSA_MAGIC_VOLF
      a.archid E.FSA_FILESYSID_NULL = some bs → bs.length ≤ F)
    (hst : ∀ p, w.stat p ≠ some .block ∧ w.stat p ≠ some .tape) :
    volumes_bounded w acc (E.splitsize + M + F) (E.splitsize + M) 0 r := by
  cases enc with
  | none =>
    subst hr
    exact ⟨[], (List.append_nil _).symm, rfl, fun n hn => by simp [closed_volume_sizes] at hn,
      fun h => Ret.noConfusion h⟩
  | some bytes =>
    obtain ⟨evs1, t1, s1, c1, p1⟩ := split_bounded E ai w bytes hb acc M F hS hacc hpos
      (hM bytes rfl) hH hF hst
    have hwb : ({ data := bytes, size := bytes.length } : s_writebuf) = writebuf_of bytes := rfl
    simp only [hwb] at hr
    by_cases hs : (archwriter_split_if_necessary E ai w (writebuf_of bytes)).1 = .success
    · rw [if_neg (not_not.mpr hs)] at hr
      obtain ⟨b1, o1, q1⟩ := p1 hs
      obtain ⟨evs2, t2, s2, c2, b2, p2⟩ := write_buffer_bytewise E
        (archwriter_split_if_necessary E ai w (writebuf_of bytes)).2.1
        (archwriter_split_if_necessary E ai w (writebuf_of bytes)).2.2 bytes b1
        (open_volume_size evs1 acc)
      obtain ⟨w1, w2⟩ := wrap_fail (archwriter_write_buffer E
        (archwriter_split_if_necessary E ai w (writebuf_of bytes)).2.1
        (archwriter_split_if_necessary E ai w (writebuf_of bytes)).2.2 (writebuf_of bytes))
      have hr2 : r.2 = (archwriter_write_buffer E
          (archwriter_split_if_necessary E ai w (writebuf_of bytes)).2.1
          (archwriter_split_if_necessary E ai w (writebuf_of bytes)).2.2
          (writebuf_of bytes)).2 := by
        rw [hr]; exact w1
      have hr1 : r.1 = .success → (archwriter_write_buffer E
          (archwriter_split_if_necessary E ai w (writebuf_of bytes)).2.1
          (archwriter_split_if_necessary E ai w (writebuf_of bytes)).2.2
          (writebuf_of bytes)).1 = .success := by
        rw [hr]; exact w2
      refine ⟨evs1 ++ evs2, ?_, ?_, ?_, ?_⟩
      · rw [hr2, t2, t1, List.append_assoc]
      · rw [hr2, s2, s1]
      · intro n hn
        rw [closed_volume_sizes_append, c2, List.append_nil] at hn
        exact c1 n hn
      · intro hsucc
        obtain ⟨o2, q2⟩ := p2 (hr1 hsucc)
        rw [hr2]
        refine ⟨b2, ?_, ?_⟩
        · rw [open_volume_size_append, o2, q2]; omega
        · rw [q2]; omega
    · rw [if_pos hs] at hr
      subst hr
      exact ⟨evs1, t1, s1, c1, fun h => absurd h (Ret.fail_ne_success _ _ hs (by decide))⟩

theorem dowrite_bounded (E : Env) (ai : Writer) (w : World) (op : WriteOp)
    (hb : ai.bytewise) (acc M F : Nat) (hS : 0 < E.splitsize)
    (hacc : (acc : Int) ≤ ai.currentpos) (hpos : ai.currentpos ≤ E.splitsize + M)
    (hM : ∀ archid bs, op.encode E archid = some bs → bs.length ≤ M)
    (hH : ∀ (a : Writer) bs, E.writebuf_add_header (volheader_dico E a) E.FSA_MAGIC_VOLH
      a.archid E.FSA_FILESYSID_NULL = some bs → (bs.length : Int) ≤ E.splitsize)
    (hF : ∀ (a : Writer) bs, E.writebuf_add_header (volfooter_dico E a false) E.FSA_MAGIC_VOLF
      a.archid E.FSA_FILESYSID_NULL = some bs → bs.length ≤ F)
    (hst : ∀ p, w.stat p ≠ some .block ∧ w.stat p ≠ some .tape) :
    volumes_bounded w acc (E.splitsize + M + F) (E.splitsize + M) 0 (dowrite E ai w op) := by
  cases op with
  | header h =>
    exact record_bounded E ai w _ hb acc M F hS hacc hpos _ rfl (hM ai.archid) hH hF hst
  | block b =>
    exact record_bounded E ai w _ hb acc M F hS hacc hpos _ rfl (hM ai.archid) hH hF hst

theorem dowrite_all_bounded (E : Env) (M F : Nat) (hS : 0 < E.splitsize)
    (hH : ∀ (a : Writer) bs, E.writebuf_add_header (volheader_dico E a) E.FSA_MAGIC_VOLH
      a.archid E.FSA_FILESYSID_NULL = some bs → (bs.length : Int) ≤ E.splitsize)
    (hF : ∀ (a : Writer) bs, E.writebuf_add_header (volfooter_dico E a false) E.FSA_MAGIC_VOLF
      a.archid E.FSA_FILESYSID_NULL = some bs → bs.length ≤ F)
    (ops : List WriteOp) :
    ∀ (ai : Writer) (w : World) (acc : Nat), ai.bytewise → (acc : Int) ≤ ai.currentpos →
      ai.currentpos ≤ E.splitsize + M →
      (∀ p, w.stat p ≠ some .block ∧ w.stat p ≠ some .tape) →
      (∀ op ∈ ops, ∀ archid bs, op.encode E archid = some bs → bs.length ≤ M) →
      volumes_bounded w acc (E.splitsize + M + F) (E.splitsize + M) 0
        (dowrite_all E ai w ops) := by
  induction ops with
  | nil =>
    intro ai w acc hb hacc hpos _ _
    exact ⟨[], (List.append_nil _).symm, rfl, fun n hn => by simp [closed_volume_sizes] at hn,
      fun _ => ⟨hb, hacc, by simpa using hpos⟩⟩
  | cons op ops ih =>
    intro ai w acc hb hacc hpos hst hM
    obtain ⟨evs1, t1, s1, c1, p1⟩ := dowrite_bounded E ai w op hb acc M F hS hacc hpos
      (hM op (List.mem_cons_self _ _)) hH hF hst
    by_cases hs : (dowrite E ai w op).1 = .success
    · obtain ⟨b1, o1, q1⟩ := p1 hs
      obtain ⟨evs2, t2, s2, c2, p2⟩ := ih (dowrite E ai w op).2.1 (dowrite E ai w op).2.2
        (open_volume_size evs1 acc) b1 o1 (by simpa using q1) (by rw [s1]; exact hst)
        (fun o ho => hM o (List.mem_cons_of_mem _ ho))
      simp only [dowrite_all, hs, ne_eq, not_true_eq_false, if_false]
      refine ⟨evs1 ++ evs2, ?_, ?_, ?_, ?_⟩
      · rw [t2, t1, List.append_assoc]
      · rw [s2, s1]
      · intro n hn
        rw [closed_volume_sizes_append, List.mem_append] at hn
        rcases hn with hn | hn
        · exact c1 n hn
        · exact c2 n hn
      · intro hsucc
        obtain ⟨b2, o2, q2⟩ := p2 hsucc
        exact ⟨b2, by rw [open_volume_size_append]; exact o2, q2⟩
    · simp only [dowrite_all, hs, ne_eq, not_false_eq_true, if_true]
      exact ⟨evs1, t1, s1, c1, fun h => absurd h hs⟩

/-- Claim C12 (amended): let `splitsize = S > 0` be at least the size of every
volume header, let every volume footer have at most `F` bytes and every record of
the sequence at most `M` bytes, and let no volume be a block device or a tape (so
that every volume is written through the regular or the flush variant).  Starting
from an open volume that holds `currentpos <= S + M` bytes, for every sequence of
records written through `archwriter_dowrite_header` / `archwriter_dowrite_block`,
every volume closed by a split holds at most `S + M + F` bytes. -/
theorem split_volume_bound (E : Env) (ai : Writer) (w : World) (ops : List WriteOp)
    (M F : Nat) (hS : 0 < E.splitsize) (hb : ai.bytewise) (hp0 : 0 ≤ ai.currentpos)
    (hpos : ai.currentpos ≤ E.splitsize + M)
    (hst : ∀ p, w.stat p ≠ some .block ∧ w.stat p ≠ some .tape)
    (hH : ∀ (a : Writer) bs, E.writebuf_add_header (volheader_dico E a) E.FSA_MAGIC_VOLH
      a.archid E.FSA_FILESYSID_NULL = some bs → (bs.length : Int) ≤ E.splitsize)
    (hF : ∀ (a : Writer) bs, E.writebuf_add_header (volfooter_dico E a false) E.FSA_MAGIC_VOLF
      a.archid E.FSA_FILESYSID_NULL = some bs → bs.length ≤ F)
    (hM : ∀ op ∈ ops, ∀ archid bs, op.encode E archid = some bs → bs.length ≤ M) :
    ∃ evs, (dowrite_all E ai w ops).2.2.trace = w.trace ++ evs ∧
      ∀ n ∈ closed_volume_sizes evs ai.currentpos.toNat, (n : Int) ≤ E.splitsize + M + F := by
  obtain ⟨evs, t, -, c, -⟩ := dowrite_all_bounded E M F hS hH hF ops ai w ai.currentpos.toNat hb
    (by omega) hpos hst hM
  exact ⟨evs, t, c⟩

/-- Claim C12 (witness): a limit of 40 bytes, volume headers and footers of 12
bytes, records of 12, 17 and 12 bytes written to a regular-file volume that holds
30 bytes: the three volumes closed by the splits hold 42, 36 and 41 bytes, at most
40 + 17 + 12. -/
theorem split_volume_bound_witness :
    closed_volume_sizes (dowrite_all splitEnv sampleWriter sampleWorld sample_ops).2.2.trace 30
        = [42, 36, 41] ∧
      ∃ evs, (dowrite_all splitEnv sampleWriter sampleWorld sample_ops).2.2.trace
          = sampleWorld.trace ++ evs ∧
        ∀ n ∈ closed_volume_sizes evs sampleWriter.currentpos.toNat,
          (n : Int) ≤ splitEnv.splitsize + (17 : Nat) + (12 : Nat) :=
  ⟨by decide,
    split_volume_bound splitEnv sampleWriter sampleWorld sample_ops 17 12 (by decide) (by decide)
      (by decide) (by decide)
      (by intro p; constructor <;> simp [sampleWorld])
      (by
        intro a bs h
        simp only [splitEnv, sampleEnv, Option.some.injEq] at h
        subst h
        simp only [List.length_append, length_cpu_to_le, List.length_cons, List.length_nil]
        decide)
      (by
        intro a bs h
        simp only [splitEnv, sampleEnv, Option.some.injEq] at h
        subst h
        simp [length_cpu_to_le])
      (by
        intro op hop archid bs h
        simp only [sample_ops, List.mem_cons, List.mem_singleton, List.not_mem_nil, or_false]
          at hop
        rcases hop with rfl | rfl | rfl <;>
          simp only [WriteOp.encode, splitEnv, sampleEnv, Option.some.injEq] at h <;>
          subst h <;>
          simp [length_cpu_to_le, sample_headinfo, sample_blkinfo, blkinfo_of, blkinfo_scalars,
            hello])⟩

/-- Claim C12 (counterexample): a limit of 5 bytes with volume headers, footers
and records of 12 bytes each.  Starting from volume 0 that holds its volume
header, three header records are written; the volumes closed by the splits hold
24, 36 and 36 bytes, and 36 exceeds 5 + 12 + 12. -/
theorem split_volume_bound_counterexample :
    0 < tightEnv.splitsize ∧
      (dowrite_all tightEnv freshWriter sampleWorld three_headers).1 = .success ∧
      three_headers.map (fun op => (op.encode tightEnv 7).map List.length)
        = [some 12, some 12, some 12] ∧
      (tightEnv.writebuf_add_header (volfooter_dico tightEnv freshWriter false)
        tightEnv.FSA_MAGIC_VOLF 7 tightEnv.FSA_FILESYSID_NULL).map List.length = some 12 ∧
      closed_volume_sizes
        (dowrite_all tightEnv freshWriter sampleWorld three_headers).2.2.trace 12
        = [24, 36, 36] ∧
      ¬ ((36 : Int) ≤ tightEnv.splitsize + 12 + 12) := by
  decide

/-! ## Unread: the contract -/

/-- Claim C27: for every `n` and every reader whose read pointer lies inside the
cached bytes, `archreader_unread(n)` fails if and only if `n > cacheread - cache`;
a failing call returns -1 and leaves the whole reader unchanged.  A successful
call leaves the read position at the cache base, and the unconsumed bytes
`[cacheread, cachewrite)` are then the `n` bytes consumed last, in order, followed
by the bytes that were unconsumed before; the descriptor, the capacity and the
other fields are untouched. -/
theorem unread_contract (ai : Reader) (n : Nat) (hwf : ai.cacheread ≤ ai.cache.length) :
    ((archreader_unread ai n).1 ≠ .success ↔ ai.cacheread < n) ∧
    (ai.cacheread < n → archreader_unread ai n = (.neg1, ai)) ∧
    (n ≤ ai.cacheread →
      (archreader_unread ai n).1 = .success ∧
        (archreader_unread ai n).2.cacheread = 0 ∧
        (archreader_unread ai n).2.cache.drop (archreader_unread ai n).2.cacheread
          = (ai.cache.take ai.cacheread).drop (ai.cacheread - n) ++ ai.cache.drop ai.cacheread ∧
        ((ai.cache.take ai.cacheread).drop (ai.cacheread - n)).length = n ∧
        (archreader_unread ai n).2.input = ai.input ∧
        (archreader_unread ai n).2.cachesize = ai.cachesize ∧
        (archreader_unread ai n).2.conf = ai.conf) := by
  refine ⟨?_, ?_, ?_⟩
  · unfold archreader_unread
    by_cases h : ai.cacheread < n
    · simp [h]
    · simp only [h, if_false, iff_false, ne_eq, not_not]
      split <;> rfl
  · intro h
    simp [archreader_unread, h]
  · intro h
    obtain ⟨u, hu, hp, -, hc, h0, -, hi, hcache⟩ := unread_success ai n hwf h
    rw [hu]
    refine ⟨rfl, h0, ?_, ?_, hi, ?_, hc⟩
    · have := hp
      simp only [Reader.pending, Reader.consumed, hi] at this
      rw [← List.append_assoc] at this
      exact List.append_cancel_right this
    · rw [List.length_drop, List.length_take]; omega
    · have hcs : (archreader_unread ai n).2.cachesize = ai.cachesize := by
        unfold archreader_unread
        dsimp only
        repeat' split
        all_goals rfl
      rw [hu] at hcs
      exact hcs

/-- Claim C27 (witness): a cache that holds `1 2 3 4 5 6` with four bytes
consumed.  Unreading five bytes fails and changes nothing; unreading three bytes
leaves `2 3 4 5 6` unconsumed with the read position at the cache base. -/
theorem unread_contract_witness :
    archreader_unread { cachedReader [1, 2, 3, 4, 5, 6] 8 [7, 8] with cacheread := 4 } 5
        = (.neg1, { cachedReader [1, 2, 3, 4, 5, 6] 8 [7, 8] with cacheread := 4 }) ∧
      (archreader_unread { cachedReader [1, 2, 3, 4, 5, 6] 8 [7, 8] with cacheread := 4 } 3).1
        = .success ∧
      (archreader_unread { cachedReader [1, 2, 3, 4, 5, 6] 8 [7, 8] with cacheread := 4 } 3).2.cacheread
        = 0 ∧
      (archreader_unread { cachedReader [1, 2, 3, 4, 5, 6] 8 [7, 8] with cacheread := 4 } 3).2.cache
        = [2, 3, 4] ++ [5, 6] :=
  ⟨(unread_contract { cachedReader [1, 2, 3, 4, 5, 6] 8 [7, 8] with cacheread := 4 } 5
      (by decide)).2.1 (by decide),
    ((unread_contract { cachedReader [1, 2, 3, 4, 5, 6] 8 [7, 8] with cacheread := 4 } 3
      (by decide)).2.2 (by decide)).1,
    ((unread_contract { cachedReader [1, 2, 3, 4, 5, 6] 8 [7, 8] with cacheread := 4 } 3
      (by decide)).2.2 (by decide)).2.1,
    by decide⟩

/-! ## Growth policy of the caches -/

theorem round_up_spec (m x : Nat) (hm : 0 < m) :
    m ∣ round_up m x ∧ x ≤ round_up m x ∧ ∀ y, m ∣ y → x ≤ y → round_up m x ≤ y := by
  unfold round_up
  refine ⟨Dvd.intro_left _ rfl, ?_, ?_⟩
  · have h1 := Nat.div_add_mod (x + m - 1) m
    have h2 := Nat.mod_lt (x + m - 1) hm
    have h3 : (x + m - 1) / m * m = m * ((x + m - 1) / m) := Nat.mul_comm _ _
    omega
  · rintro y ⟨k, rfl⟩ hxy
    have h1 : (x + m - 1) / m ≤ k := by
      apply Nat.le_of_lt_succ
      rw [Nat.div_lt_iff_lt_mul hm]
      show x + m - 1 < (k + 1) * m
      have : (k + 1) * m = m * k + m := by ring
      omega
    calc (x + m - 1) / m * m ≤ k * m := Nat.mul_le_mul_right _ h1
      _ = m * k := Nat.mul_comm _ _

theorem round_up_code (d x : Nat) (hd : 0 < d) :
    x + (if x % d = 0 then 0 else d - x % d) = round_up d x := by
  unfold round_up
  have h1 := Nat.div_add_mod x d
  have h2 := Nat.mod_lt x hd
  by_cases h : x % d = 0
  · rw [if_pos h]
    have h3 : (x + d - 1) / d = x / d := by
      apply Nat.div_eq_of_lt_le
      · have : x / d * d = d * (x / d) := Nat.mul_comm _ _
        omega
      · have : (x / d + 1) * d = d * (x / d) + d := by ring
        omega
    rw [h3]
    have : x / d * d = d * (x / d) := Nat.mul_comm _ _
    omega
  · rw [if_neg h]
    have h3 : (x + d - 1) / d = x / d + 1 := by
      apply Nat.div_eq_of_lt_le
      · have : (x / d + 1) * d = d * (x / d) + d := by ring
        omega
      · have : (x / d + 1 + 1) * d = d * (x / d) + d + d := by ring
        omega
    rw [h3]
    have : (x / d + 1) * d = d * (x / d) + d := by ring
    omega

theorem next_multiple (m x : Nat) (hm : 0 < m) : (x / m + 1) * m = round_up m (x + 1) := by
  unfold round_up
  have h : x + 1 + m - 1 = x + m := by omega
  rw [h, Nat.add_div_right _ hm]

theorem reader_precache_grow (E : Env) (ai : Reader) (size : Nat) (hdb : 0 < E.datablocksize)
    (hd : 0 < ai.devblocksize) (hg : ai.cachesize < ai.cache.length + size) :
    archreader_precache E ai size = (.success,
      { ai with cachesize := spec_capacity E.datablocksize ai.devblocksize (size + 1) }) := by
  unfold archreader_precache spec_capacity
  have h1 : ¬ ai.cache.length + size ≤ ai.cachesize := by omega
  have h2 : ¬ (E.datablocksize = 0 ∨ ai.devblocksize = 0) := by omega
  simp only [h1, h2, if_false]
  rw [round_up_code _ _ hd, next_multiple _ _ hdb]

theorem writer_precache_grow (E : Env) (ai : Writer) (size : Nat) (hdb : 0 < E.datablocksize)
    (hd : 0 < ai.devblocksize) (hg : ai.cachesize < ai.cache.length + size) :
    archwriter_precache E ai size = (.success,
      { ai with cachesize := spec_capacity E.datablocksize ai.devblocksize (size + 1) }) := by
  unfold archwriter_precache spec_capacity
  have h1 : ¬ ai.cache.length + size ≤ ai.cachesize := by omega
  have h2 : ¬ (E.datablocksize = 0 ∨ ai.devblocksize = 0) := by omega
  simp only [h1, h2, if_false]
  rw [round_up_code _ _ hd, next_multiple _ _ hdb]

theorem round_up_succ (m x : Nat) (hm : 0 < m) (h : ¬ m ∣ x) :
    round_up m (x + 1) = round_up m x := by
  obtain ⟨a1, a2, a3⟩ := round_up_spec m x hm
  obtain ⟨b1, b2, b3⟩ := round_up_spec m (x + 1) hm
  have hne : round_up m x ≠ x := fun e => h (e ▸ a1)
  apply Nat.le_antisymm
  · exact b3 _ a1 (by omega)
  · exact a3 _ b1 (by omega)

/-- Claim C28 (amended): with `datablocksize > 0` and `devblocksize > 0`, whenever
`archreader_precache` or `archwriter_precache` enlarges a buffer that holds no
bytes (`cachewrite = cache`) for a request of `size` bytes, the call returns 0 and
the new capacity is `(size / datablocksize + 1) * datablocksize` rounded up to a
multiple of `devblocksize`: the smallest multiple of `datablocksize` that is
strictly greater than `size` (the policy of the specification applied to
`size + 1`), rounded up.  The capacity is a multiple of `devblocksize` and exceeds
`size`; it coincides with the policy of the specification applied to `size` when
`datablocksize` does not divide `size`. -/
theorem precache_capacity (E : Env) (ai : Reader) (aw : Writer) (size : Nat)
    (hdb : 0 < E.datablocksize) :
    (0 < ai.devblocksize → ai.cache = [] → ai.cachesize < size →
      (archreader_precache E ai size).1 = .success ∧
        (archreader_precache E ai size).2.cachesize
          = spec_capacity E.datablocksize ai.devblocksize (size + 1) ∧
        (archreader_precache E ai size).2.cachesize
          = round_up ai.devblocksize ((size / E.datablocksize + 1) * E.datablocksize) ∧
        (¬ E.datablocksize ∣ size →
          (archreader_precache E ai size).2.cachesize
            = spec_capacity E.datablocksize ai.devblocksize size)) ∧
    (0 < aw.devblocksize → aw.cache = [] → aw.cachesize < size →
      (archwriter_precache E aw size).1 = .success ∧
        (archwriter_precache E aw size).2.cachesize
          = spec_capacity E.datablocksize aw.devblocksize (size + 1) ∧
        (archwriter_precache E aw size).2.cachesize
          = round_up aw.devblocksize ((size / E.datablocksize + 1) * E.datablocksize) ∧
        (¬ E.datablocksize ∣ size →
          (archwriter_precache E aw size).2.cachesize
            = spec_capacity E.datablocksize aw.devblocksize size)) ∧
    (∀ d, 0 < d →
      d ∣ spec_capacity E.datablocksize d (size + 1) ∧
        size < spec_capacity E.datablocksize d (size + 1) ∧
        E.datablocksize ∣ (size / E.datablocksize + 1) * E.datablocksize ∧
        size < (size / E.datablocksize + 1) * E.datablocksize ∧
        (∀ y, E.datablocksize ∣ y → size < y → (size / E.datablocksize + 1) * E.datablocksize ≤ y) ∧
        (∀ y, d ∣ y → (size / E.datablocksize + 1) * E.datablocksize ≤ y →
          spec_capacity E.datablocksize d (size + 1) ≤ y)) := by
  refine ⟨?_, ?_, ?_⟩
  · intro hd hc hg
    rw [reader_precache_grow E ai size hdb hd (by rw [hc, List.length_nil]; omega)]
    refine ⟨rfl, rfl, ?_, ?_⟩
    · show spec_capacity _ _ _ = _
      unfold spec_capacity
      rw [next_multiple _ _ hdb]
    · intro hnd
      show spec_capacity _ _ _ = _
      unfold spec_capacity
      rw [round_up_succ _ _ hdb hnd]
  · intro hd hc hg
    rw [writer_precache_grow E aw size hdb hd (by rw [hc, List.length_nil]; omega)]
    refine ⟨rfl, rfl, ?_, ?_⟩
    · show spec_capacity _ _ _ = _
      unfold spec_capacity
      rw [next_multiple _ _ hdb]
    · intro hnd
      show spec_capacity _ _ _ = _
      unfold spec_capacity
      rw [round_up_succ _ _ hdb hnd]
  · intro d hd
    obtain ⟨a1, a2, a3⟩ := round_up_spec E.datablocksize (size + 1) hdb
    obtain ⟨b1, b2, b3⟩ := round_up_spec d (round_up E.datablocksize (size + 1)) hd
    rw [next_multiple _ _ hdb]
    unfold spec_capacity
    exact ⟨b1, by omega, a1, by omega, fun y hy hs => a3 y hy (by omega), b3⟩

/-- Claim C28 (witness): data blocks of 8 bytes and device blocks of 4 bytes,
empty buffers; a request of 5 bytes on a reader gives a capacity of 8 and a
request of 9 bytes on a writer gives 16, as the policy of the specification does
for these sizes. -/
theorem precache_capacity_witness :
    (archreader_precache tinyEnv (tinyReader []) 5).2.cachesize
        = spec_capacity tinyEnv.datablocksize (tinyReader []).devblocksize 5 ∧
      (archwriter_precache tinyEnv tinyWriter 9).2.cachesize
        = spec_capacity tinyEnv.datablocksize tinyWriter.devblocksize 9 ∧
      spec_capacity 8 4 5 = 8 ∧ spec_capacity 8 4 9 = 16 :=
  ⟨((precache_capacity tinyEnv (tinyReader []) tinyWriter 5 (by decide)).1
      (by decide) (by decide) (by decide)).2.2.2 (by decide),
    ((precache_capacity tinyEnv (tinyReader []) tinyWriter 9 (by decide)).2.1
      (by decide) (by decide) (by decide)).2.2.2 (by decide),
    by decide, by decide⟩

/-- Claim C28 (counterexample): with data blocks of 8 bytes, device blocks of
4 bytes and empty buffers, a request of exactly 8 bytes makes both caches grow to
16 bytes, while the smallest multiple of 8 that covers 8 bytes, rounded up to a
multiple of 4, is 8; with data blocks of 256 KiB and device blocks of 512 bytes a
request of 262144 bytes gives 524288 instead of 262144. -/
theorem precache_capacity_counterexample :
    (tinyReader []).cache = [] ∧ tinyWriter.cache = [] ∧
      (archreader_precache tinyEnv (tinyReader []) 8).1 = .success ∧
      (archreader_precache tinyEnv (tinyReader []) 8).2.cachesize = 16 ∧
      (archwriter_precache tinyEnv tinyWriter 8).1 = .success ∧
      (archwriter_precache tinyEnv tinyWriter 8).2.cachesize = 16 ∧
      spec_capacity 8 4 8 = 8 ∧
      (archreader_precache sampleEnv (sampleReader 2 []) 262144).2.cachesize = 524288 ∧
      spec_capacity 262144 512 262144 = 262144 := by
  decide

/-! ## Capacity of the reader cache over a sequence of calls -/

/-- Claim C29 (code defect): `archreader_precache` computes the new capacity from
the requested `size` alone, so a reallocation can make the buffer smaller than
before and smaller than the bytes it holds.  With data blocks of 8 bytes, reading
13 bytes gives a capacity of 16; after unreading them, reading 17 bytes asks for
4 more bytes, and `archreader_precache` returns 0 with a capacity of 8 while 13
bytes are buffered: `cachesize` has decreased from 16 to 8 and the 13 buffered
bytes are copied into the buffer of 8. -/
theorem precache_shrinks :
    (tinyReader (List.range 20)).cache_ok ∧
      (archreader_read_data tinyEnv (tinyReader (List.range 20)) 13).1 = .success ∧
      (archreader_read_data tinyEnv (tinyReader (List.range 20)) 13).2.2.cachesize = 16 ∧
      (archreader_read_data tinyEnv (tinyReader (List.range 20)) 13).2.2.cache_ok ∧
      (archreader_unread
        (archreader_read_data tinyEnv (tinyReader (List.range 20)) 13).2.2 13).1 = .success ∧
      (archreader_unread
        (archreader_read_data tinyEnv (tinyReader (List.range 20)) 13).2.2 13).2.cache_ok ∧
      (archreader_unread
        (archreader_read_data tinyEnv (tinyReader (List.range 20)) 13).2.2 13).2.cachesize = 16 ∧
      (archreader_precache tinyEnv (archreader_unread
        (archreader_read_data tinyEnv (tinyReader (List.range 20)) 13).2.2 13).2 4).1 = .success ∧
      (archreader_precache tinyEnv (archreader_unread
        (archreader_read_data tinyEnv (tinyReader (List.range 20)) 13).2.2 13).2 4).2.cachesize = 8 ∧
      (archreader_precache tinyEnv (archreader_unread
        (archreader_read_data tinyEnv (tinyReader (List.range 20)) 13).2.2 13).2 4).2.cache.length
        = 13 ∧
      (archreader_read_data tinyEnv (archreader_unread
        (archreader_read_data tinyEnv (tinyReader (List.range 20)) 13).2.2 13).2 17).1 = .success ∧
      (archreader_read_data tinyEnv (archreader_unread
        (archreader_read_data tinyEnv (tinyReader (List.range 20)) 13).2.2 13).2 17).2.2.cachesize
        = 8 ∧
      ¬ (archreader_read_data tinyEnv (archreader_unread
        (archreader_read_data tinyEnv (tinyReader (List.range 20)) 13).2.2 13).2 17).2.2.cache_ok := by
  decide

/-! ## Decoding a dictionary: accesses to the header buffer -/

/-- Claim C30 (code defect): `archreader_read_dico` does not compare any offset
with the header length.  In each of these frames the stored checksum verifies and
the decoder reads outside the `L` header bytes (the outcome `crash` of the
embedding): `L = 0` (the count is read from an empty buffer, in format version 2
and 1), `L = 1` (the count needs two bytes), `L = 2` with a count of 1 (the
attribute starts at offset 2), and `L = 8` with one attribute that declares a
value of 100 bytes.  A frame with `L = 2` and a count of 0 decodes. -/
theorem read_dico_out_of_bounds :
    (archreader_read_dico sampleEnv (sampleReader 2 [0, 0, 0, 0, 0, 0, 0, 0]) []).1 = .crash ∧
      sampleEnv.sum32 [] = le_to_cpu [0, 0, 0, 0] ∧
      (archreader_read_dico sampleEnv (sampleReader 2 [1, 0, 0, 0, 7, 7, 0, 7, 0]) []).1 = .crash ∧
      sampleEnv.sum32 [7] = le_to_cpu [7, 0, 7, 0] ∧
      (archreader_read_dico sampleEnv (sampleReader 2 [2, 0, 0, 0, 1, 0, 1, 0, 2, 0]) []).1
        = .crash ∧
      sampleEnv.sum32 [1, 0] = le_to_cpu [1, 0, 2, 0] ∧
      (archreader_read_dico sampleEnv
        (sampleReader 2 [8, 0, 0, 0, 1, 0, 0, 0, 0, 0, 100, 0, 101, 0, 208, 0]) []).1 = .crash ∧
      sampleEnv.sum32 [1, 0, 0, 0, 0, 0, 100, 0] = le_to_cpu [101, 0, 208, 0] ∧
      (archreader_read_dico sampleEnv (sampleReader 1 [0, 0, 0, 0, 0, 0]) []).1 = .crash ∧
      (archreader_read_dico sampleEnv (sampleReader 2 [2, 0, 0, 0, 0, 0, 0, 0, 0, 0]) []).1
        = .success := by
  decide

/-! ## Volume header: volume number -/

theorem conf_curvol (a b : Reader) (h : a.conf = b.conf) : a.curvol = b.curvol := by
  have := congrArg (fun c => c.2.2.2.1) h
  exact this

theorem fmt_version_curvol (ai : Reader) (volhead : List Nat) :
    (archreader_fmt_version ai volhead).2.curvol = ai.curvol := by
  unfold archreader_fmt_version
  dsimp only
  repeat' split
  all_goals rfl

theorem scan_loops_curvol (E : Env) (readvol : Bool) (fuel : Nat) :
    ∀ (ai : Reader) (readsize unread : Nat) (r : Ret) (a1 : Reader),
      scan_loops E readvol fuel ai readsize unread = some (r, a1) → a1.curvol = ai.curvol := by
  induction fuel with
  | zero => intro ai readsize unread r a1 h; simp [scan_loops] at h
  | succ fuel ih =>
    intro ai readsize unread r a1 h
    have e1 := conf_curvol _ _ (read_data_conf E ai readsize)
    unfold scan_loops at h
    dsimp only at h
    split at h
    · simp only [Option.some.injEq, Prod.mk.injEq] at h
      rw [← h.2]; exact e1
    · split at h
      · have e2 := conf_curvol _ _
          (unread_conf (archreader_read_data E ai readsize).2.2 (FSA_SIZEOF_MAGIC - 1))
        split at h
        · simp only [Option.some.injEq, Prod.mk.injEq] at h
          rw [← h.2]; exact e2.trans e1
        · exact (ih _ _ _ _ _ h).trans (e2.trans e1)
      · rename_i k hk
        have e2 := conf_curvol _ _
          (unread_conf (archreader_read_data E ai readsize).2.2 (readsize - (k + 1) + 1))
        split at h
        · simp only [Option.some.injEq, Prod.mk.injEq] at h
          rw [← h.2]; exact e2.trans e1
        · split at h
          · have e3 := conf_curvol _ _ (read_data_conf E
              (archreader_unread (archreader_read_data E ai readsize).2.2
                (readsize - (k + 1) + 1)).2 E.FSA_CACHE_HEADER)
            split at h
            · simp only [Option.some.injEq, Prod.mk.injEq] at h
              rw [← h.2]; exact e3.trans (e2.trans e1)
            · have e4 := fmt_version_curvol
                (archreader_read_data E
                  (archreader_unread (archreader_read_data E ai readsize).2.2
                    (readsize - (k + 1) + 1)).2 E.FSA_CACHE_HEADER).2.2
                (archreader_read_data E
                  (archreader_unread (archreader_read_data E ai readsize).2.2
                    (readsize - (k + 1) + 1)).2 E.FSA_CACHE_HEADER).2.1
              split at h
              · have e5 := conf_curvol _ _ (unread_conf
                  (archreader_fmt_version
                    (archreader_read_data E
                      (archreader_unread (archreader_read_data E ai readsize).2.2
                        (readsize - (k + 1) + 1)).2 E.FSA_CACHE_HEADER).2.2
                    (archreader_read_data E
                      (archreader_unread (archreader_read_data E ai readsize).2.2
                        (readsize - (k + 1) + 1)).2 E.FSA_CACHE_HEADER).2.1).2
                  (E.FSA_CACHE_HEADER - FSA_SIZEOF_MAGIC))
                split at h
                · simp only [Option.some.injEq, Prod.mk.injEq] at h
                  rw [← h.2]; exact e5.trans (e4.trans (e3.trans (e2.trans e1)))
                · exact (ih _ _ _ _ _ h).trans (e5.trans (e4.trans (e3.trans (e2.trans e1))))
              · have e5 := conf_curvol _ _ (unread_conf
                  (archreader_fmt_version
                    (archreader_read_data E
                      (archreader_unread (archreader_read_data E ai readsize).2.2
                        (readsize - (k + 1) + 1)).2 E.FSA_CACHE_HEADER).2.2
                    (archreader_read_data E
                      (archreader_unread (archreader_read_data E ai readsize).2.2
                        (readsize - (k + 1) + 1)).2 E.FSA_CACHE_HEADER).2.1).2
                  unread)
                split at h
                · simp only [Option.some.injEq, Prod.mk.injEq] at h
                  rw [← h.2]; exact e5.trans (e4.trans (e3.trans (e2.trans e1)))
                · simp only [Option.some.injEq, Prod.mk.injEq] at h
                  rw [← h.2]; exact e5.trans (e4.trans (e3.trans (e2.trans e1)))
          · simp only [Option.some.injEq, Prod.mk.injEq] at h
            rw [← h.2]; exact e2.trans e1

theorem read_header_curvol (E : Env) (fuel : Nat) (ai a1 : Reader) (readvol : Bool)
    (h : HeaderOut) (hh : archreader_read_header E fuel ai readvol = some (h, a1)) :
    a1.curvol = ai.curvol := by
  unfold archreader_read_header at hh
  dsimp only at hh
  split at hh
  · simp only [Option.some.injEq, Prod.mk.injEq] at hh
    rw [← hh.2]
  · split at hh
    · simp at hh
    · rename_i res ai1 hs
      have e0 := scan_loops_curvol E readvol fuel ai _ _ res ai1 hs
      have e1 := conf_curvol _ _ (read_data_conf E ai1 FSA_SIZEOF_MAGIC)
      have e2 := conf_curvol _ _
        (read_data_conf E (archreader_read_data E ai1 FSA_SIZEOF_MAGIC).2.2 4)
      have e3 := conf_curvol _ _
        (read_data_conf E
          (archreader_read_data E (archreader_read_data E ai1 FSA_SIZEOF_MAGIC).2.2 4).2.2 2)
      have e4 := conf_curvol _ _
        (read_dico_conf E
          (archreader_read_data E
            (archreader_read_data E
              (archreader_read_data E ai1 FSA_SIZEOF_MAGIC).2.2 4).2.2 2).2.2 dico_alloc)
      split at hh
      · simp only [Option.some.injEq, Prod.mk.injEq] at hh
        rw [← hh.2]; exact e0
      · split at hh
        · simp only [Option.some.injEq, Prod.mk.injEq] at hh
          rw [← hh.2]; exact e1.trans e0
        · split at hh
          · simp only [Option.some.injEq, Prod.mk.injEq] at hh
            rw [← hh.2]; exact e2.trans (e1.trans e0)
          · split at hh
            · simp only [Option.some.injEq, Prod.mk.injEq] at hh
              rw [← hh.2]; exact e2.trans (e1.trans e0)
            · split at hh
              · simp only [Option.some.injEq, Prod.mk.injEq] at hh
                rw [← hh.2]; exact e3.trans (e2.trans (e1.trans e0))
              · simp only [Option.some.injEq, Prod.mk.injEq] at hh
                rw [← hh.2]; exact e4.trans (e3.trans (e2.trans (e1.trans e0)))

/-- A successful `strncmp` against a constant of `n` bytes none of which is NUL
means that the first `n` bytes are those of the constant. -/
theorem strncmp_eq_take (a V : List Nat) (n : Nat) (h : strncmp_eq a V n = true)
    (hl : V.length = n) (hz : 0 ∉ V) : a.take n = V := by
  unfold strncmp_eq cstr at h
  have hV : V.take n = V := by rw [← hl]; simp
  have hVc : V.takeWhile (fun b => b != 0) = V := by
    rw [List.takeWhile_eq_self_iff]
    intro b hb
    have : b ≠ 0 := fun e => hz (e ▸ hb)
    simpa using this
  rw [hV, hVc] at h
  have h1 : (a.take n).takeWhile (fun b => b != 0) = V := by simpa using h
  have hp : (a.take n).takeWhile (fun b => b != 0) <+: a.take n := List.takeWhile_prefix _
  rw [h1] at hp
  have hlen : (a.take n).length ≤ V.length := by rw [hl, List.length_take]; omega
  exact (hp.eq_of_length_le hlen).symm

/-- Claim C21: let `h` be the record that `archreader_read_header` (with
`readvol = true`) hands to `archreader_read_volheader`.  The call returns a
result.  Whenever the VOLNUM attribute of `h` is missing, is not a `u32`, or
differs from the reader's `curvol`, the call returns -1, whatever the magic and
the other attributes are (a crash inside `archreader_read_header` apart).  If the
call returns 0 then the record decoded, its VOLNUM attribute equals `curvol`, the
`strncmp` of its magic with the volume-header magic is 0 (so the four magic bytes
are those of the volume-header magic, a constant of four non-NUL bytes), and
`curvol` is unchanged. -/
theorem read_volheader_volnum (E : Env) (fuel : Nat) (ai ai1 : Reader) (h : HeaderOut)
    (hh : archreader_read_header E fuel ai true = some (h, ai1)) :
    (∃ r ai2, archreader_read_volheader E fuel ai = some (r, ai2)) ∧
    (dico_get_u32 (h.d.getD []) 0 E.VOLUMEHEADKEY_VOLNUM ≠ some ai.curvol →
      h.ret ≠ .crash → h.ret ≠ .hang →
      ∃ ai2, archreader_read_volheader E fuel ai = some (.neg1, ai2)) ∧
    (∀ ai2, archreader_read_volheader E fuel ai = some (.success, ai2) →
      h.ret = .success ∧
        dico_get_u32 (h.d.getD []) 0 E.VOLUMEHEADKEY_VOLNUM = some ai.curvol ∧
        strncmp_eq h.magic E.FSA_MAGIC_VOLH FSA_SIZEOF_MAGIC = true ∧
        (E.FSA_MAGIC_VOLH.length = FSA_SIZEOF_MAGIC → 0 ∉ E.FSA_MAGIC_VOLH →
          h.magic.take FSA_SIZEOF_MAGIC = E.FSA_MAGIC_VOLH) ∧
        ai2.curvol = ai.curvol) := by
  have hc := read_header_curvol E fuel ai ai1 true h hh
  have hfail : h.ret ≠ .crash → h.ret ≠ .hang → h.ret.fail .neg1 = .neg1 := by
    intro h1 h2; simp [Ret.fail, h1, h2]
  have key : ∀ (P : Ret → Reader → Prop),
      (h.ret ≠ .success → P (h.ret.fail .neg1) ai1) →
      (∀ a2 : Reader, a2.curvol = ai1.curvol → P .neg1 a2) →
      (∀ a2 : Reader, h.ret = .success →
        strncmp_eq h.magic E.FSA_MAGIC_VOLH FSA_SIZEOF_MAGIC = true →
        dico_get_u32 (h.d.getD []) 0 E.VOLUMEHEADKEY_VOLNUM = some ai1.curvol →
        a2.curvol = ai1.curvol → P .success a2) →
      ∃ r a2, archreader_read_volheader E fuel ai = some (r, a2) ∧ P r a2 := by
    intro P p1 p2 p3
    unfold archreader_read_volheader
    rw [hh]
    dsimp only
    by_cases c1 : h.ret = .success
    · by_cases c2 : strncmp_eq h.magic E.FSA_MAGIC_VOLH FSA_SIZEOF_MAGIC = true
      · cases c3 : dico_get_u32 (h.d.getD []) 0 E.VOLUMEHEADKEY_ARCHID with
        | none =>
          simp only [c1, c2, ne_eq, not_true_eq_false, if_false, Bool.true_eq_false]
          exact ⟨_, _, rfl, p2 _ rfl⟩
        | some readid =>
          by_cases c4 : ai1.archid ≠ 0 ∧ readid ≠ ai1.archid
          · simp only [c1, c2, c4, ne_eq, not_true_eq_false, if_false, Bool.true_eq_false,
              not_false_eq_true, and_self, if_true]
            exact ⟨_, _, rfl, p2 _ rfl⟩
          · have hcur : (if ai1.archid = 0 then { ai1 with archid := readid } else ai1).curvol
                = ai1.curvol := by
              split <;> rfl
            simp only [c1, c2, ne_eq, not_true_eq_false, if_false, Bool.true_eq_false]
            rw [if_neg (by simpa using c4)]
            generalize (if ai1.archid = 0 then { ai1 with archid := readid } else ai1) = a2
              at hcur ⊢
            cases c5 : dico_get_u32 (h.d.getD []) 0 E.VOLUMEHEADKEY_VOLNUM with
            | none => exact ⟨_, _, rfl, p2 _ hcur⟩
            | some volnum =>
              dsimp only
              by_cases c6 : volnum = a2.curvol
              · rw [if_neg (not_not.mpr c6)]
                have hv : dico_get_u32 (h.d.getD []) 0 E.VOLUMEHEADKEY_VOLNUM = some ai1.curvol := by
                  rw [c5, c6, hcur]
                repeat' split
                all_goals first
                  | exact ⟨_, _, rfl, p2 _ hcur⟩
                  | exact ⟨_, _, rfl, p3 _ c1 c2 hv hcur⟩
              · rw [if_pos c6]
                exact ⟨_, _, rfl, p2 _ hcur⟩
      · have c2f : strncmp_eq h.magic E.FSA_MAGIC_VOLH FSA_SIZEOF_MAGIC = false := by
          simpa using c2
        simp only [c1, c2f, ne_eq, not_true_eq_false, if_false, if_true]
        exact ⟨_, _, rfl, p2 _ rfl⟩
    · simp only [c1, ne_eq, not_false_eq_true, if_true]
      exact ⟨_, _, rfl, p1 c1⟩
  refine ⟨?_, ?_, ?_⟩
  · obtain ⟨r, a2, e, -⟩ := key (fun _ _ => True) (fun _ => trivial) (fun _ _ => trivial)
      (fun _ _ _ _ _ => trivial)
    exact ⟨r, a2, e⟩
  · intro hne h1 h2
    obtain ⟨r, a2, e, hP⟩ := key (fun r _ => r = .neg1) (fun _ => hfail h1 h2)
      (fun _ _ => rfl) (fun _ _ _ hv _ => absurd (hc ▸ hv) hne)
    subst hP
    exact ⟨a2, e⟩
  · intro ai2 hs
    obtain ⟨r, a2, e, hP⟩ := key
      (fun r a2 => r = .success →
        h.ret = .success ∧
          dico_get_u32 (h.d.getD []) 0 E.VOLUMEHEADKEY_VOLNUM = some ai.curvol ∧
          strncmp_eq h.magic E.FSA_MAGIC_VOLH FSA_SIZEOF_MAGIC = true ∧
          (E.FSA_MAGIC_VOLH.length = FSA_SIZEOF_MAGIC → 0 ∉ E.FSA_MAGIC_VOLH →
            h.magic.take FSA_SIZEOF_MAGIC = E.FSA_MAGIC_VOLH) ∧
          a2.curvol = ai.curvol)
      (fun c1 hr => absurd hr (Ret.fail_ne_success _ _ c1 (by decide)))
      (fun _ _ hr => absurd hr (by decide))
      (fun a2 c1 c2 hv hcur _ =>
        ⟨c1, hc ▸ hv, c2, fun hl hz => strncmp_eq_take _ _ _ c2 hl hz, hcur.trans hc⟩)
    rw [hs] at e
    simp only [Option.some.injEq, Prod.mk.injEq] at e
    obtain ⟨e1, e2⟩ := e
    subst e1 e2
    exact hP rfl

set_option maxRecDepth 100000 in
/-- Claim C21 (witness): the volume header of volume 0 is accepted by a reader
with `curvol = 0` and refused with -1 by a reader with `curvol = 1`. -/
theorem read_volheader_volnum_witness :
    (archreader_read_volheader sampleEnv 3 volReader).map Prod.fst = some .success ∧
      (∃ ai2, archreader_read_volheader sampleEnv 3 { volReader with curvol := 1 }
        = some (.neg1, ai2)) ∧
      dico_get_u32
        (((archreader_read_header sampleEnv 3 volReader true).get (by decide)).1.d.getD []) 0
        sampleEnv.VOLUMEHEADKEY_VOLNUM = some volReader.curvol ∧
      ((archreader_read_header sampleEnv 3 volReader true).get (by decide)).1.magic.take
        FSA_SIZEOF_MAGIC = sampleEnv.FSA_MAGIC_VOLH :=
  ⟨by decide,
    (read_volheader_volnum sampleEnv 3 { volReader with curvol := 1 }
      ((archreader_read_header sampleEnv 3 { volReader with curvol := 1 } true).get
        (by decide)).2
      ((archreader_read_header sampleEnv 3 { volReader with curvol := 1 } true).get
        (by decide)).1
      (Option.some_get (by decide)).symm).2.1 (by decide) (by decide) (by decide),
    ((read_volheader_volnum sampleEnv 3 volReader
      ((archreader_read_header sampleEnv 3 volReader true).get (by decide)).2
      ((archreader_read_header sampleEnv 3 volReader true).get (by decide)).1
      (Option.some_get (by decide)).symm).2.2
      ((archreader_read_volheader sampleEnv 3 volReader).get (by decide)).2
      (by decide)).2.1,
    ((read_volheader_volnum sampleEnv 3 volReader
      ((archreader_read_header sampleEnv 3 volReader true).get (by decide)).2
      ((archreader_read_header sampleEnv 3 volReader true).get (by decide)).1
      (Option.some_get (by decide)).symm).2.2
      ((archreader_read_volheader sampleEnv 3 volReader).get (by decide)).2
      (by decide)).2.2.2.1 (by decide) (by decide)⟩

/-! ## Record header: archive id -/

/-- Claim C22: let the scan of `archreader_read_header` stop at a valid magic
(abort flag clear), let the four magic bytes be read, and let the four bytes `idb`
of the archive id be read, leaving the reader `a2`.  If the session archid is
nonzero and differs from the little-endian value of `idb`, the call returns the
minor error with the magic, an empty dictionary and the null filesystem id, and
the reader is `a2`: nothing after the archive id has been read.  If the session
archid is 0 or equals the value of `idb`, the call goes on to read the
filesystem id and the dictionary: it returns the code of the failed filesystem-id
read (never the minor error) or the code, filesystem id and dictionary of
`archreader_read_dico`; a minor error is then the minor error of
`archreader_read_dico`. -/
theorem read_header_archid_check (E : Env) (fuel : Nat) (ai a0 a1 a2 : Reader) (readvol : Bool)
    (magic idb : List Nat) (ha : E.abort = false)
    (hscan : scan_loops E readvol fuel ai FSA_SIZEOF_MAGIC E.FSA_CACHE_HEADER = some (.success, a0))
    (hm : archreader_read_data E a0 FSA_SIZEOF_MAGIC = (.success, magic, a1))
    (hid : archreader_read_data E a1 4 = (.success, idb, a2)) :
    (ai.archid ≠ 0 ∧ le_to_cpu idb ≠ ai.archid →
      archreader_read_header E fuel ai readvol
        = some ({ ret := .minor, magic := magic, d := some [], fsid := E.FSA_FILESYSID_NULL },
            a2)) ∧
    (ai.archid = 0 ∨ le_to_cpu idb = ai.archid →
      ∃ out a3, archreader_read_header E fuel ai readvol = some (out, a3) ∧ out.magic = magic ∧
        ((archreader_read_data E a2 2).1 ≠ .success →
          out.ret = (archreader_read_data E a2 2).1.fail .fatal ∧
            out.fsid = E.FSA_FILESYSID_NULL ∧ out.d = some [] ∧
            a3 = (archreader_read_data E a2 2).2.2) ∧
        ((archreader_read_data E a2 2).1 = .success →
          out.ret = (archreader_read_dico E (archreader_read_data E a2 2).2.2 []).1 ∧
            out.fsid = le_to_cpu (archreader_read_data E a2 2).2.1 ∧
            out.d = some (archreader_read_dico E (archreader_read_data E a2 2).2.2 []).2.2 ∧
            a3 = (archreader_read_dico E (archreader_read_data E a2 2).2.2 []).2.1) ∧
        (out.ret = .minor →
          (archreader_read_data E a2 2).1 = .success ∧
            (archreader_read_dico E (archreader_read_data E a2 2).2.2 []).1 = .minor)) := by
  have e0 := scan_loops_archid E readvol fuel ai _ _ _ a0 hscan
  have hunf : archreader_read_header E fuel ai readvol
      = if a0.archid ≠ 0 ∧ le_to_cpu idb ≠ a0.archid then
          some ({ ret := .minor, magic := magic, d := some [], fsid := E.FSA_FILESYSID_NULL }, a2)
        else if (archreader_read_data E a2 2).1 ≠ .success then
          some ({ ret := (archreader_read_data E a2 2).1.fail .fatal, magic := magic,
                  d := some [], fsid := E.FSA_FILESYSID_NULL }, (archreader_read_data E a2 2).2.2)
        else
          some ({ ret := (archreader_read_dico E (archreader_read_data E a2 2).2.2 []).1,
                  magic := magic,
                  d := some (archreader_read_dico E (archreader_read_data E a2 2).2.2 []).2.2,
                  fsid := le_to_cpu (archreader_read_data E a2 2).2.1 },
                (archreader_read_dico E (archreader_read_data E a2 2).2.2 []).2.1) := by
    unfold archreader_read_header
    simp only [ha, hscan, hm, hid, Bool.false_eq_true, if_false, ne_eq, not_true_eq_false,
      dico_alloc]
  rw [hunf, e0]
  refine ⟨fun hmis => by rw [if_pos hmis], fun hok => ?_⟩
  have hno : ¬ (ai.archid ≠ 0 ∧ le_to_cpu idb ≠ ai.archid) := by
    rintro ⟨h1, h2⟩
    rcases hok with h | h
    · exact h1 h
    · exact h2 h
  rw [if_neg hno]
  by_cases hf : (archreader_read_data E a2 2).1 = .success
  · rw [if_neg (not_not.mpr hf)]
    exact ⟨_, _, rfl, rfl, fun h => absurd hf h, fun _ => ⟨rfl, rfl, rfl, rfl⟩,
      fun h => ⟨hf, h⟩⟩
  · rw [if_pos hf]
    exact ⟨_, _, rfl, rfl, fun _ => ⟨rfl, rfl, rfl, rfl⟩, fun h => absurd h hf,
      fun h => absurd h (Ret.fail_fatal_ne_minor _)⟩


set_option maxRecDepth 100000 in
/-- Claim C22 (witness): a record with archive id `0xC0FFEE` in a session whose
archive id is `0xDEADBEEF`.  The call returns the minor error with the read
position right after the archive id (8 bytes consumed), and the next call returns
the following record, whose archive id is that of the session.  With no session
archive id the same record is decoded. -/
theorem read_header_archid_check_witness :
    archreader_read_header sampleEnv 3 (sessionReader foreign_stream) false
        = some ({ ret := .minor, magic := [65, 114, 67, 104], d := some [], fsid := 65535 },
            { sessionReader (foreign_stream.drop 8) with
              cache := foreign_stream.take 8, cacheread := 8, cachesize := 262144 }) ∧
      ((archreader_read_header sampleEnv 3 (sessionReader foreign_stream) false).bind
          (fun x => archreader_read_header sampleEnv 3 x.2 false)).map Prod.fst
        = some { ret := .success, magic := [65, 114, 67, 104], d := some [], fsid := 2 } ∧
      (archreader_read_header sampleEnv 3 (sampleReader 2 foreign_stream) false).map Prod.fst
        = some { ret := .success, magic := [65, 114, 67, 104], d := some [], fsid := 1 } :=
  ⟨(read_header_archid_check sampleEnv 3 (sessionReader foreign_stream)
      { sessionReader (foreign_stream.drop 4) with
        cache := foreign_stream.take 4, cachesize := 262144 }
      { sessionReader (foreign_stream.drop 4) with
        cache := foreign_stream.take 4, cacheread := 4, cachesize := 262144 }
      { sessionReader (foreign_stream.drop 8) with
        cache := foreign_stream.take 8, cacheread := 8, cachesize := 262144 }
      false [65, 114, 67, 104] [238, 255, 192, 0] rfl (by decide) (by decide) (by decide)).1
      (by decide),
    by decide, by decide⟩

/-! ## The position in the current volume -/

theorem create_tape_resets (E : Env) (ai : Writer) (w : World) :
    (create_tape E ai w).1 = .success → (create_tape E ai w).2.1.currentpos = 0 := by
  unfold create_tape create_finish
  cases w.mt_blksize with
  | none => intro h; exact Ret.noConfusion h
  | some orig =>
    dsimp only
    split
    · split
      · intro _; rfl
      · intro h; exact Ret.noConfusion h
    · intro _; rfl

theorem create_open_resets (E : Env) (ai : Writer) (w : World) (creat : Bool)
    (st : Option FileType) :
    (create_open E ai w creat st).1 = .success →
      (create_open E ai w creat st).2.1.currentpos = 0 := by
  unfold create_open create_opened
  split
  · split
    · intro h; exact Ret.noConfusion h
    · split
      · exact create_tape_resets E _ _
      · intro _; rfl
  · split
    · exact create_tape_resets E _ _
    · intro _; rfl

theorem create_resets (E : Env) (ai : Writer) (w : World) :
    (archwriter_create E ai w).1 = .success →
      (archwriter_create E ai w).2.1.currentpos = 0 := by
  unfold archwriter_create
  split
  · intro _; rfl
  · dsimp only
    split
    · intro h; exact Ret.noConfusion h
    · split
      all_goals first
        | exact create_open_resets E _ _ _ _
        | (intro h; exact Ret.noConfusion h)
        | (split
           · intro h; exact Ret.noConfusion h
           · split
             · intro h; exact Ret.noConfusion h
             · exact create_open_resets E _ _ _ _)

theorem ai_write_currentpos (E : Env) (ai : Writer) (w : World) (data : List Nat) :
    (ai_write E ai w data).1 = .success →
      (ai_write E ai w data).2.1.currentpos = ai.currentpos + data.length := by
  unfold ai_write
  cases hw : ai.write with
  | none => intro h; exact Ret.noConfusion h
  | some k =>
    cases k with
    | write_regular =>
      simp only [archwriter_write_regular]
      split
      · intro h; exact Ret.noConfusion h
      · intro _; rfl
    | write_flush =>
      simp only [archwriter_write_flush]
      split
      · intro h; exact Ret.noConfusion h
      · intro _; rfl
    | write_blocks =>
      obtain ⟨-, -, -, pp, -⟩ := wprecache_fields E ai data.length
      simp only [archwriter_write_blocks]
      split
      · rename_i hk
        intro h
        exact absurd h (Ret.fail_ne_success _ _ hk (by decide))
      · split
        · split
          · intro h; exact Ret.noConfusion h
          · split
            · intro h; exact Ret.noConfusion h
            · intro _
              show (archwriter_precache E ai data.length).2.currentpos + _ = _
              rw [pp]
        · intro _
          show (archwriter_precache E ai data.length).2.currentpos + _ = _
          rw [pp]

theorem ai_write_failed (E : Env) (ai : Writer) (w : World) (data : List Nat)
    (hw : ai.write = some .write_regular ∨ ai.write = some .write_flush) :
    (ai_write E ai w data).1 ≠ .success →
      (ai_write E ai w data).1 = .neg1 ∧ (ai_write E ai w data).2.1 = ai := by
  have e : ai_write E ai w data = archwriter_write_regular ai w data ∨
      ai_write E ai w data = archwriter_write_flush ai w data := by
    unfold ai_write
    rcases hw with hw | hw
    · left; rw [hw]
    · right; rw [hw]
  rcases e with e | e
  · rw [e]
    unfold archwriter_write_regular
    dsimp only
    split
    · intro _; exact ⟨rfl, rfl⟩
    · intro h; exact absurd rfl h
  · rw [e]
    unfold archwriter_write_flush
    dsimp only
    split
    · intro _; exact ⟨rfl, rfl⟩
    · intro h; exact absurd rfl h

theorem write_buffer_of (E : Env) (ai : Writer) (w : World) (bytes : List Nat) :
    archwriter_write_buffer E ai w (writebuf_of bytes)
      = if bytes.length = 0 then (.success, ai, w) else ai_write E ai w bytes := by
  unfold archwriter_write_buffer writebuf_of
  have h0 : ¬ ((bytes.length : Int) < 0) := by omega
  by_cases hz : bytes.length = 0
  · simp [hz]
  · have hz1 : ¬ (bytes.length : Int) = 0 := by omega
    simp only [h0, hz, hz1, if_false, Int.toNat_ofNat, List.take_length]

theorem write_buffer_currentpos (E : Env) (ai : Writer) (w : World) (data : List Nat)
    (h : (archwriter_write_buffer E ai w (writebuf_of data)).1 = .success) :
    (archwriter_write_buffer E ai w (writebuf_of data)).2.1.currentpos
      = ai.currentpos + data.length := by
  rw [write_buffer_of] at h ⊢
  by_cases hz : data.length = 0
  · rw [if_pos hz]
    show ai.currentpos = _
    rw [hz]; simp
  · rw [if_neg hz] at h ⊢
    exact ai_write_currentpos E ai w data h

theorem write_buffer_seq_currentpos (E : Env) (Ds : List (List Nat)) :
    ∀ (ai : Writer) (w : World), (write_buffer_seq E ai w Ds).1 = .success →
      (write_buffer_seq E ai w Ds).2.1.currentpos
        = ai.currentpos + ((Ds.map List.length).sum : Nat) := by
  induction Ds with
  | nil => intro ai w _; simp [write_buffer_seq]
  | cons D Ds ih =>
    intro ai w h
    unfold write_buffer_seq at h ⊢
    by_cases hs : (archwriter_write_buffer E ai w (writebuf_of D)).1 = .success
    · rw [if_neg (not_not.mpr hs)] at h ⊢
      rw [ih _ _ h, write_buffer_currentpos E ai w D hs]
      simp only [List.map_cons, List.sum_cons, Nat.cast_add]
      omega
    · rw [if_pos hs] at h
      exact absurd h hs

/-- Claim C25: `archwriter_create` that returns 0 leaves `currentpos = 0`.  A
write of `n` bytes through `ai->write` that returns 0 went through one of the
three variants (regular, blocks, flush) and has increased `currentpos` by exactly
`n`; through the blocks variant this holds also when the bytes stay in the cache
and no `write` is issued.  A write through the regular or flush variant that fails
returns -1 and leaves the writer, hence `currentpos`, unchanged.  The same
increase holds through `archwriter_write_buffer`, so after a successful create and
any sequence of successful writes `currentpos` is the number of bytes handed to
the volume.  Positions are mathematical integers. -/
theorem currentpos_logical (E : Env) (ai : Writer) (w : World) (data : List Nat)
    (Ds : List (List Nat)) :
    ((archwriter_create E ai w).1 = .success → (archwriter_create E ai w).2.1.currentpos = 0) ∧
    ((ai_write E ai w data).1 = .success →
      (ai.write = some .write_regular ∨ ai.write = some .write_blocks ∨
        ai.write = some .write_flush) ∧
      (ai_write E ai w data).2.1.currentpos = ai.currentpos + data.length) ∧
    (ai.write = some .write_blocks → (ai_write E ai w data).1 = .success →
      ai.cache.length + data.length < ai.devblocksize →
      (ai_write E ai w data).2.1.currentpos = ai.currentpos + data.length ∧
        (ai_write E ai w data).2.2.trace = w.trace) ∧
    (ai.write = some .write_regular ∨ ai.write = some .write_flush →
      (ai_write E ai w data).1 ≠ .success →
      (ai_write E ai w data).1 = .neg1 ∧ (ai_write E ai w data).2.1 = ai ∧
        (ai_write E ai w data).2.1.currentpos = ai.currentpos) ∧
    ((archwriter_write_buffer E ai w (writebuf_of data)).1 = .success →
      (archwriter_write_buffer E ai w (writebuf_of data)).2.1.currentpos
        = ai.currentpos + data.length) ∧
    ((archwriter_create E ai w).1 = .success →
      (write_buffer_seq E (archwriter_create E ai w).2.1 (archwriter_create E ai w).2.2 Ds).1
        = .success →
      (write_buffer_seq E (archwriter_create E ai w).2.1 (archwriter_create E ai w).2.2
        Ds).2.1.currentpos = ((Ds.map List.length).sum : Nat)) := by
  refine ⟨create_resets E ai w, fun h => ⟨?_, ai_write_currentpos E ai w data h⟩, ?_, ?_,
    write_buffer_currentpos E ai w data, ?_⟩
  · cases hw : ai.write with
    | none =>
      have e : ai_write E ai w data = (.crash, ai, w) := by
        unfold ai_write; rw [hw]
      rw [e] at h
      exact Ret.noConfusion h
    | some k => cases k <;> simp
  · intro hw h hlt
    refine ⟨ai_write_currentpos E ai w data h, ?_⟩
    obtain ⟨pc, pd, -, -, -⟩ := wprecache_fields E ai data.length
    have e : ai_write E ai w data = archwriter_write_blocks E ai w data := by
      unfold ai_write; rw [hw]
    rw [e] at h ⊢
    unfold archwriter_write_blocks at h ⊢
    dsimp only at h ⊢
    split
    · rfl
    · have hx : ¬ (archwriter_precache E ai data.length).2.devblocksize
          ≤ ((archwriter_precache E ai data.length).2.cache ++ data).length := by
        rw [pd, pc, List.length_append]; omega
      rw [if_neg hx]
  · intro hw h
    obtain ⟨h1, h2⟩ := ai_write_failed E ai w data hw h
    exact ⟨h1, h2, by rw [h2]⟩
  · intro hc hs
    rw [write_buffer_seq_currentpos E Ds _ _ hs, create_resets E ai w hc]
    simp


/-- Claim C25 (witness): creating the regular file `backup` and writing 5 and 3
bytes leaves `currentpos = 8`; 3 bytes written to a block device with 4-byte
blocks advance `currentpos` by 3 with no `write` issued; a write of 5 bytes of
which the descriptor takes 2 fails and leaves `currentpos = 30`. -/
theorem currentpos_logical_witness :
    (archwriter_create sampleEnv (archwriter_init "backup" "backup") sampleWorld).2.1.currentpos
        = 0 ∧
      (write_buffer_seq sampleEnv
        (archwriter_create sampleEnv (archwriter_init "backup" "backup") sampleWorld).2.1
        (archwriter_create sampleEnv (archwriter_init "backup" "backup") sampleWorld).2.2
        [hello, [1, 2, 3]]).2.1.currentpos
        = ((([hello, [1, 2, 3]].map List.length).sum : Nat) : Int) ∧
      ((ai_write tinyEnv tinyWriter sampleWorld [1, 2, 3]).2.1.currentpos
          = tinyWriter.currentpos + (([1, 2, 3] : List Nat).length : Int) ∧
        (ai_write tinyEnv tinyWriter sampleWorld [1, 2, 3]).2.2.trace = sampleWorld.trace) ∧
      ((ai_write sampleEnv sampleWriter { sampleWorld with accept := [2] } hello).1 = .neg1 ∧
        (ai_write sampleEnv sampleWriter { sampleWorld with accept := [2] } hello).2.1
          = sampleWriter ∧
        (ai_write sampleEnv sampleWriter { sampleWorld with accept := [2] } hello).2.1.currentpos
          = sampleWriter.currentpos) ∧
      sampleWriter.currentpos = 30 :=
  ⟨(currentpos_logical sampleEnv (archwriter_init "backup" "backup") sampleWorld []
      [hello, [1, 2, 3]]).1 (by decide),
    (currentpos_logical sampleEnv (archwriter_init "backup" "backup") sampleWorld []
      [hello, [1, 2, 3]]).2.2.2.2.2 (by decide) (by decide),
    (currentpos_logical tinyEnv tinyWriter sampleWorld [1, 2, 3] []).2.2.1 (by decide)
      (by decide) (by decide),
    (currentpos_logical sampleEnv sampleWriter { sampleWorld with accept := [2] } hello
      []).2.2.2.1 (by decide) (by decide),
    by decide⟩

/-! ## Errors of the writer are not remembered -/

theorem ai_write_accepted (E : Env) (ai : Writer) (w : World) (data : List Nat)
    (hw : ai.write = some .write_regular ∨ ai.write = some .write_flush)
    (hacc : w.accept = []) : (ai_write E ai w data).1 = .success := by
  unfold ai_write
  rcases hw with hw | hw
  · rw [hw]
    simp [archwriter_write_regular, sys_write_whole w data hacc]
  · rw [hw]
    simp [archwriter_write_flush, sys_write_whole w data hacc]

/-- Writing one serialized record (`enc` is what the serializer returns, `r` the
result of the call) on a writer of the regular or flush variant: a failure is -1
and leaves the writer unchanged; on a transport that takes every write whole the
call returns 0 exactly when the record was serialized. -/
theorem emit_transient (E : Env) (ai : Writer) (wd : World) (enc : Option (List Nat))
    (r : Ret × Writer × World)
    (hr : r = match enc with
      | none => (Ret.neg1, ai, wd)
      | some bytes =>
        if (archwriter_write_buffer E ai wd { data := bytes, size := bytes.length }).1
            ≠ .success then
          ((archwriter_write_buffer E ai wd { data := bytes, size := bytes.length }).1.fail .neg1,
            (archwriter_write_buffer E ai wd { data := bytes, size := bytes.length }).2)
        else
          (.success, (archwriter_write_buffer E ai wd { data := bytes, size := bytes.length }).2))
    (hw : ai.write = some .write_regular ∨ ai.write = some .write_flush) :
    (r.1 ≠ .success → r.1 = .neg1 ∧ r.2.1 = ai) ∧
      (wd.accept = [] → (r.1 = .success ↔ enc.isSome = true)) := by
  cases enc with
  | none =>
    subst hr
    exact ⟨fun _ => ⟨rfl, rfl⟩, fun _ => by simp⟩
  | some bytes =>
    have hwb : ({ data := bytes, size := bytes.length } : s_writebuf) = writebuf_of bytes := rfl
    simp only [hwb, write_buffer_of] at hr
    by_cases hz : bytes.length = 0
    · simp only [hz, if_true, ne_eq, not_true_eq_false, if_false] at hr
      subst hr
      exact ⟨fun h => absurd rfl h, fun _ => by simp⟩
    · simp only [hz, if_false] at hr
      by_cases hs : (ai_write E ai wd bytes).1 = .success
      · rw [if_neg (not_not.mpr hs)] at hr
        subst hr
        exact ⟨fun h => absurd rfl h, fun _ => by simp⟩
      · rw [if_pos hs] at hr
        obtain ⟨f1, f2⟩ := ai_write_failed E ai wd bytes hw hs
        subst hr
        refine ⟨fun _ => ⟨?_, f2⟩, fun hacc => absurd (ai_write_accepted E ai wd bytes hw hacc) hs⟩
        show (ai_write E ai wd bytes).1.fail .neg1 = .neg1
        rw [f1]; rfl

theorem split_check_unlimited (E : Env) (ai : Writer) (wb : s_writebuf) (hS : E.splitsize = 0) :
    archwriter_split_check E ai wb = false := by
  unfold archwriter_split_check
  simp [hS]

/-- Claim C26 (amended): the writer keeps no error state.  On a writer of the
regular or flush variant with no split limit, each of `archwriter_write_volheader`,
`archwriter_write_volfooter`, `archwriter_dowrite_header` and
`archwriter_dowrite_block` that fails returns -1 and leaves the writer record as
it was before the call; and on a transport that takes every write whole (`w2`)
each of the four operations returns 0 exactly when its record is serialized.  So
after an error a later write operation returns 0 as soon as the transport accepts
its bytes. -/
theorem write_error_transient (E : Env) (ai : Writer) (w w2 : World) (lastvol : Bool)
    (headinfo : s_headinfo) (blkinfo : s_blockinfo)
    (hw : ai.write = some .write_regular ∨ ai.write = some .write_flush)
    (hS : E.splitsize = 0) (h2 : w2.accept = []) :
    ((archwriter_write_volheader E ai w).1 ≠ .success →
      (archwriter_write_volheader E ai w).1 = .neg1 ∧
        (archwriter_write_volheader E ai w).2.1 = ai) ∧
    ((archwriter_write_volfooter E ai w lastvol).1 ≠ .success →
      (archwriter_write_volfooter E ai w lastvol).1 = .neg1 ∧
        (archwriter_write_volfooter E ai w lastvol).2.1 = ai) ∧
    ((archwriter_dowrite_header E ai w headinfo).1 ≠ .success →
      (archwriter_dowrite_header E ai w headinfo).1 = .neg1 ∧
        (archwriter_dowrite_header E ai w headinfo).2.1 = ai) ∧
    ((archwriter_dowrite_block E ai w blkinfo).1 ≠ .success →
      (archwriter_dowrite_block E ai w blkinfo).1 = .neg1 ∧
        (archwriter_dowrite_block E ai w blkinfo).2.1 = ai) ∧
    ((archwriter_write_volheader E ai w2).1 = .success ↔
      (E.writebuf_add_header (volheader_dico E ai) E.FSA_MAGIC_VOLH ai.archid
        E.FSA_FILESYSID_NULL).isSome = true) ∧
    ((archwriter_write_volfooter E ai w2 lastvol).1 = .success ↔
      (E.writebuf_add_header (volfooter_dico E ai lastvol) E.FSA_MAGIC_VOLF ai.archid
        E.FSA_FILESYSID_NULL).isSome = true) ∧
    ((archwriter_dowrite_header E ai w2 headinfo).1 = .success ↔
      (E.writebuf_add_header headinfo.dico headinfo.magic ai.archid headinfo.fsid).isSome
        = true) ∧
    ((archwriter_dowrite_block E ai w2 blkinfo).1 = .success ↔
      (E.writebuf_add_block blkinfo.blkdata (blkinfo_scalars blkinfo) ai.archid
        blkinfo.blkfsid).isSome = true) := by
  have hh : ∀ wd : World, archwriter_dowrite_header E ai wd headinfo
      = match E.writebuf_add_header headinfo.dico headinfo.magic ai.archid headinfo.fsid with
        | none => (Ret.neg1, ai, wd)
        | some bytes =>
          if (archwriter_write_buffer E ai wd { data := bytes, size := bytes.length }).1
              ≠ .success then
            ((archwriter_write_buffer E ai wd { data := bytes, size := bytes.length }).1.fail
                .neg1,
              (archwriter_write_buffer E ai wd { data := bytes, size := bytes.length }).2)
          else
            (.success,
              (archwriter_write_buffer E ai wd { data := bytes, size := bytes.length }).2) := by
    intro wd
    unfold archwriter_dowrite_header
    cases E.writebuf_add_header headinfo.dico headinfo.magic ai.archid headinfo.fsid with
    | none => rfl
    | some bytes =>
      dsimp only
      rw [split_if_necessary_nosplit E ai wd _ (split_check_unlimited E ai _ hS)]
      simp only [ne_eq, not_true_eq_false, if_false]
  have hb : ∀ wd : World, archwriter_dowrite_block E ai wd blkinfo
      = match E.writebuf_add_block blkinfo.blkdata (blkinfo_scalars blkinfo) ai.archid
          blkinfo.blkfsid with
        | none => (Ret.neg1, ai, wd)
        | some bytes =>
          if (archwriter_write_buffer E ai wd { data := bytes, size := bytes.length }).1
              ≠ .success then
            ((archwriter_write_buffer E ai wd { data := bytes, size := bytes.length }).1.fail
                .neg1,
              (archwriter_write_buffer E ai wd { data := bytes, size := bytes.length }).2)
          else
            (.success,
              (archwriter_write_buffer E ai wd { data := bytes, size := bytes.length }).2) := by
    intro wd
    unfold archwriter_dowrite_block
    cases E.writebuf_add_block blkinfo.blkdata (blkinfo_scalars blkinfo) ai.archid
        blkinfo.blkfsid with
    | none => rfl
    | some bytes =>
      dsimp only
      rw [split_if_necessary_nosplit E ai wd _ (split_check_unlimited E ai _ hS)]
      simp only [ne_eq, not_true_eq_false, if_false]
  exact ⟨(emit_transient E ai w _ _ rfl hw).1, (emit_transient E ai w _ _ rfl hw).1,
    (emit_transient E ai w _ _ (hh w) hw).1, (emit_transient E ai w _ _ (hb w) hw).1,
    (emit_transient E ai w2 _ _ rfl hw).2 h2, (emit_transient E ai w2 _ _ rfl hw).2 h2,
    (emit_transient E ai w2 _ _ (hh w2) hw).2 h2, (emit_transient E ai w2 _ _ (hb w2) hw).2 h2⟩

/-- Claim C26 (witness): on a regular-file volume a header record whose `write`
takes 0 bytes fails with -1 and leaves the writer unchanged; on a transport that
accepts the bytes the same operation returns 0. -/
theorem write_error_transient_witness :
    ((archwriter_dowrite_header sampleEnv sampleWriter { sampleWorld with accept := [0] }
          sample_headinfo).1 = .neg1 ∧
        (archwriter_dowrite_header sampleEnv sampleWriter { sampleWorld with accept := [0] }
          sample_headinfo).2.1 = sampleWriter) ∧
      (archwriter_dowrite_header sampleEnv sampleWriter sampleWorld sample_headinfo).1
        = .success :=
  ⟨(write_error_transient sampleEnv sampleWriter { sampleWorld with accept := [0] } sampleWorld
      false sample_headinfo sample_blkinfo (by decide) (by decide) (by decide)).2.2.1
      (by decide),
    (write_error_transient sampleEnv sampleWriter { sampleWorld with accept := [0] } sampleWorld
      false sample_headinfo sample_blkinfo (by decide) (by decide) (by decide)).2.2.2.2.2.2.1.mpr
      (by decide)⟩

/-- Claim C26 (counterexample): a header record is written to a regular-file
volume and the `write` takes 0 bytes: the operation returns -1.  On the writer and
the transport it leaves behind, `archwriter_dowrite_header`,
`archwriter_dowrite_block`, `archwriter_write_volheader` and
`archwriter_write_volfooter` all return 0.  The same on a block device: a failed
flush in `archwriter_write_blocks` is followed by a successful
`archwriter_write_volfooter`. -/
theorem write_error_transient_counterexample :
    (archwriter_dowrite_header sampleEnv sampleWriter { sampleWorld with accept := [0] }
        sample_headinfo).1 = .neg1 ∧
      (archwriter_dowrite_header sampleEnv
        (archwriter_dowrite_header sampleEnv sampleWriter { sampleWorld with accept := [0] }
          sample_headinfo).2.1
        (archwriter_dowrite_header sampleEnv sampleWriter { sampleWorld with accept := [0] }
          sample_headinfo).2.2 sample_headinfo).1 = .success ∧
      (archwriter_dowrite_block sampleEnv
        (archwriter_dowrite_header sampleEnv sampleWriter { sampleWorld with accept := [0] }
          sample_headinfo).2.1
        (archwriter_dowrite_header sampleEnv sampleWriter { sampleWorld with accept := [0] }
          sample_headinfo).2.2 sample_blkinfo).1 = .success ∧
      (archwriter_write_volheader sampleEnv
        (archwriter_dowrite_header sampleEnv sampleWriter { sampleWorld with accept := [0] }
          sample_headinfo).2.1
        (archwriter_dowrite_header sampleEnv sampleWriter { sampleWorld with accept := [0] }
          sample_headinfo).2.2).1 = .success ∧
      (archwriter_write_volfooter sampleEnv
        (archwriter_dowrite_header sampleEnv sampleWriter { sampleWorld with accept := [0] }
          sample_headinfo).2.1
        (archwriter_dowrite_header sampleEnv sampleWriter { sampleWorld with accept := [0] }
          sample_headinfo).2.2 true).1 = .success ∧
      (archwriter_write_blocks tinyEnv tinyWriter { sampleWorld with accept := [0] }
        [1, 2, 3, 4, 5]).1 = .neg1 ∧
      (archwriter_write_volfooter tinyEnv
        (archwriter_write_blocks tinyEnv tinyWriter { sampleWorld with accept := [0] }
          [1, 2, 3, 4, 5]).2.1
        (archwriter_write_blocks tinyEnv tinyWriter { sampleWorld with accept := [0] }
          [1, 2, 3, 4, 5]).2.2 true).1 = .success := by
  decide

/-! ## Volumes of a writer session: what the system calls show -/

theorem closed_volumes_append (a b : List Event) (cur : List (List Nat)) :
    closed_volumes (a ++ b) cur
      = closed_volumes a cur ++ closed_volumes b (open_volume a cur) := by
  induction a generalizing cur with
  | nil => rfl
  | cons e a ih => cases e <;> simp [closed_volumes, open_volume, ih]

theorem open_volume_append (a b : List Event) (cur : List (List Nat)) :
    open_volume (a ++ b) cur = open_volume b (open_volume a cur) := by
  induction a generalizing cur with
  | nil => rfl
  | cons e a ih => cases e <;> simp [open_volume, ih]

theorem volumes_writes (evs : List Event) (cur : List (List Nat)) :
    (closed_volumes evs cur).flatten ++ open_volume evs cur = cur ++ writes evs := by
  induction evs generalizing cur with
  | nil => simp [closed_volumes, open_volume, writes]
  | cons e evs ih =>
    cases e <;> simp [closed_volumes, open_volume, writes, ih]

theorem volheader_bytes_eq (E : Env) (a : Writer) :
    E.writebuf_add_header (volheader_dico E a) E.FSA_MAGIC_VOLH a.archid E.FSA_FILESYSID_NULL
      = volheader_bytes E a.archid a.curvol := rfl

theorem volfooter_bytes_eq (E : Env) (a : Writer) (lastvol : Bool) :
    E.writebuf_add_header (volfooter_dico E a lastvol) E.FSA_MAGIC_VOLF a.archid
        E.FSA_FILESYSID_NULL
      = volfooter_bytes E a.archid a.curvol lastvol := rfl

/-- One `archwriter_write_buffer` call that returns 0 on a writer of the regular
or flush variant: the record is written to the open volume by one `write` (none
for an empty record) and no volume is closed. -/
theorem write_buffer_volumes (E : Env) (ai : Writer) (w : World) (bytes : List Nat)
    (hb : ai.bytewise)
    (hs : (archwriter_write_buffer E ai w (writebuf_of bytes)).1 = .success) :
    ∃ evs, (archwriter_write_buffer E ai w (writebuf_of bytes)).2.2.trace = w.trace ++ evs ∧
      (archwriter_write_buffer E ai w (writebuf_of bytes)).2.2.stat = w.stat ∧
      (archwriter_write_buffer E ai w (writebuf_of bytes)).2.1.bytewise ∧
      ∀ cur, closed_volumes evs cur = [] ∧
        open_volume evs cur = cur ++ record_writes bytes := by
  obtain ⟨hfd, hc, hw⟩ := hb
  rw [write_buffer_of] at hs ⊢
  unfold record_writes
  by_cases hz : bytes.length = 0
  · rw [if_pos hz]
    exact ⟨[], (List.append_nil _).symm, rfl, ⟨hfd, hc, hw⟩,
      fun cur => ⟨rfl, by simp [hz, open_volume]⟩⟩
  · rw [if_neg hz] at hs ⊢
    simp only [hz, if_false]
    obtain ⟨pre, t1, t2, t3, t4⟩ := sys_write_trace w bytes
    rcases hw with hw | hw
    · have e : ai_write E ai w bytes = archwriter_write_regular ai w bytes := by
        unfold ai_write; rw [hw]
      rw [e] at hs ⊢
      unfold archwriter_write_regular at hs ⊢
      dsimp only at hs ⊢
      by_cases hk : (sys_write w bytes).1 = bytes.length
      · rw [if_neg (not_not.mpr hk)]
        refine ⟨[.ev_write pre], t1, t2, ⟨hfd, hc, Or.inl hw⟩, fun cur => ⟨rfl, ?_⟩⟩
        rw [t4 hk]; rfl
      · rw [if_pos hk] at hs
        exact Ret.noConfusion hs
    · have e : ai_write E ai w bytes = archwriter_write_flush ai w bytes := by
        unfold ai_write; rw [hw]
      rw [e] at hs ⊢
      unfold archwriter_write_flush at hs ⊢
      dsimp only at hs ⊢
      by_cases hk : (sys_write w bytes).1 = bytes.length
      · rw [if_neg (not_not.mpr hk)]
        refine ⟨[.ev_write pre, .ev_fsync], ?_, t2, ⟨hfd, hc, Or.inr hw⟩, fun cur => ⟨rfl, ?_⟩⟩
        · show (sys_write w bytes).2.trace ++ [.ev_fsync] = _
          rw [t1, List.append_assoc]; rfl
        · rw [t4 hk]; rfl
      · rw [if_pos hk] at hs
        exact Ret.noConfusion hs

theorem create_open_volumes (E : Env) (a : Writer) (w : World) (creat : Bool)
    (st : Option FileType) (hfd : a.archfd = -1 ∨ 0 ≤ a.archfd) (hc : a.cache = [])
    (hw : a.write = some .write_regular ∨ a.write = some .write_flush)
    (hst : st ≠ some .tape) :
    ∃ evs, (create_open E a w creat st).2.2.trace = w.trace ++ evs ∧
      (create_open E a w creat st).2.2.stat = w.stat ∧
      (∀ cur, closed_volumes evs cur = [] ∧ open_volume evs cur = cur) ∧
      ((create_open E a w creat st).1 = .success →
        (create_open E a w creat st).2.1.bytewise) := by
  unfold create_open create_opened create_finish
  simp only [hst, if_false]
  by_cases h1 : a.archfd = -1
  · rw [if_pos h1]
    by_cases ho : w.open_ok a.volpath = false
    · rw [if_pos ho]
      exact ⟨[], (List.append_nil _).symm, rfl, fun _ => ⟨rfl, rfl⟩, fun h => Ret.noConfusion h⟩
    · rw [if_neg ho]
      exact ⟨[.ev_open a.volpath creat], rfl, rfl, fun _ => ⟨rfl, rfl⟩,
        fun _ => ⟨show (0 : Int) ≤ 3 by decide, hc, hw⟩⟩
  · rw [if_neg h1]
    have h2 : 0 ≤ a.archfd := by
      rcases hfd with h | h
      · exact absurd h h1
      · exact h
    exact ⟨[], (List.append_nil _).symm, rfl, fun _ => ⟨rfl, rfl⟩, fun _ => ⟨h2, hc, hw⟩⟩

/-- Function `archwriter_create` for a path that is neither a block device nor a
tape, called with the descriptor closed: it writes nothing and closes nothing,
and on success the writer is of the regular or flush variant. -/
theorem create_volumes (E : Env) (ai : Writer) (w : World) (hfd : ai.archfd = -1)
    (hc : ai.cache = [])
    (hst : w.stat ai.volpath ≠ some .block ∧ w.stat ai.volpath ≠ some .tape) :
    ∃ evs, (archwriter_create E ai w).2.2.trace = w.trace ++ evs ∧
      (archwriter_create E ai w).2.2.stat = w.stat ∧
      (∀ cur, closed_volumes evs cur = [] ∧ open_volume evs cur = cur) ∧
      ((archwriter_create E ai w).1 = .success → (archwriter_create E ai w).2.1.bytewise) := by
  have hnone : ∀ r : Ret, r ≠ .success →
      ∃ evs, ((r, ai, w) : Ret × Writer × World).2.2.trace = w.trace ++ evs ∧
        ((r, ai, w) : Ret × Writer × World).2.2.stat = w.stat ∧
        (∀ cur, closed_volumes evs cur = [] ∧ open_volume evs cur = cur) ∧
        (((r, ai, w) : Ret × Writer × World).1 = .success →
          ((r, ai, w) : Ret × Writer × World).2.1.bytewise) :=
    fun r hr => ⟨[], (List.append_nil _).symm, rfl, fun _ => ⟨rfl, rfl⟩, fun h => absurd h hr⟩
  unfold archwriter_create
  by_cases hv : ai.volpath = "-"
  · rw [if_pos hv]
    unfold create_finish
    exact ⟨[], (List.append_nil _).symm, rfl, fun _ => ⟨rfl, rfl⟩,
      fun _ => ⟨show (0 : Int) ≤ 1 by decide, hc, Or.inr rfl⟩⟩
  · rw [if_neg hv]
    dsimp only
    split
    · exact hnone _ (by decide)
    · cases hs : w.stat ai.volpath with
      | none =>
        exact create_open_volumes E _ w true none (Or.inl hfd) hc (Or.inl rfl) (by decide)
      | some ft =>
        cases ft with
        | regular =>
          exact create_open_volumes E _ w true _ (Or.inl hfd) hc (Or.inl rfl) (by decide)
        | block => exact absurd hs hst.1
        | tape => exact absurd hs hst.2
        | socket =>
          dsimp only
          split
          · exact ⟨[], (List.append_nil _).symm, rfl, fun _ => ⟨rfl, rfl⟩,
              fun h => Ret.noConfusion h⟩
          · split
            · exact ⟨[], (List.append_nil _).symm, rfl, fun _ => ⟨rfl, rfl⟩,
                fun h => Ret.noConfusion h⟩
            · obtain ⟨evs, e1, e2, e3, e4⟩ := create_open_volumes E
                { ai with write := some .write_flush, archfd := 3 }
                (w.log (.ev_connect ai.volpath)) false (some .socket)
                (Or.inr (show (0 : Int) ≤ 3 by decide)) hc (Or.inr rfl) (by decide)
              refine ⟨.ev_connect ai.volpath :: evs, ?_, e2, ?_, e4⟩
              · rw [e1]
                show (w.trace ++ [.ev_connect ai.volpath]) ++ evs = _
                rw [List.append_assoc]; rfl
              · intro cur
                exact ⟨(e3 cur).1, (e3 cur).2⟩
        | chardev =>
          exact create_open_volumes E _ w false _ (Or.inl hfd) hc (Or.inr rfl) (by decide)
        | fifo =>
          exact create_open_volumes E _ w false _ (Or.inl hfd) hc (Or.inr rfl) (by decide)
        | other => exact hnone _ (by decide)

theorem close_volumes (ai : Writer) (w : World) (hb : ai.bytewise) :
    ∃ evs, (archwriter_close ai w).2.2.trace = w.trace ++ evs ∧
      (archwriter_close ai w).2.2.stat = w.stat ∧
      (∀ cur, closed_volumes evs cur = [cur] ∧ open_volume evs cur = []) ∧
      (archwriter_close ai w).1 = .success ∧ (archwriter_close ai w).2.1.archfd = -1 ∧
      (archwriter_close ai w).2.1.cache = [] := by
  obtain ⟨hfd, hc, -⟩ := hb
  have h1 : ¬ ai.archfd < 0 := by omega
  unfold archwriter_close
  simp only [h1, hc, List.length_nil, ne_eq, not_true_eq_false, false_and, if_false]
  split
  · refine ⟨[.ev_fsync, .ev_setblk ai.originaltapeblocksize.toNat, .ev_close], ?_⟩
    simp [World.log, closed_volumes, open_volume]
  · refine ⟨[.ev_fsync, .ev_close], ?_⟩
    simp [World.log, closed_volumes, open_volume]

/-- Writing a volume header or footer (`enc` is what `writebuf_add_header`
returns for it, `r` the result of the call) that returns 0 on a writer of the
regular or flush variant: the record was serialized and is written to the open
volume. -/
theorem emit_volumes (E : Env) (ai : Writer) (w : World) (enc : Option (List Nat))
    (r : Ret × Writer × World)
    (hr : r = match enc with
      | none => (Ret.neg1, ai, w)
      | some bytes =>
        if (archwriter_write_buffer E ai w { data := bytes, size := bytes.length }).1
            ≠ .success then
          ((archwriter_write_buffer E ai w { data := bytes, size := bytes.length }).1.fail .neg1,
            (archwriter_write_buffer E ai w { data := bytes, size := bytes.length }).2)
        else
          (.success, (archwriter_write_buffer E ai w { data := bytes, size := bytes.length }).2))
    (hb : ai.bytewise) (hs : r.1 = .success) :
    ∃ evs bytes, enc = some bytes ∧ r.2.2.trace = w.trace ++ evs ∧ r.2.2.stat = w.stat ∧
      r.2.1.bytewise ∧ r.2.1.curvol = ai.curvol ∧ r.2.1.archid = ai.archid ∧
      r.2.1.basepath = ai.basepath ∧
      ∀ cur, closed_volumes evs cur = [] ∧
        open_volume evs cur = cur ++ record_writes bytes := by
  cases enc with
  | none =>
    subst hr
    exact Ret.noConfusion hs
  | some bytes =>
    obtain ⟨w1, w2⟩ := wrap_fail (archwriter_write_buffer E ai w (writebuf_of bytes))
    have hr2 : r.2 = (archwriter_write_buffer E ai w (writebuf_of bytes)).2 := by
      rw [hr]; exact w1
    have hr1 : (archwriter_write_buffer E ai w (writebuf_of bytes)).1 = .success := by
      apply w2
      rw [hr] at hs
      exact hs
    obtain ⟨evs, t1, t2, t3, t4⟩ := write_buffer_volumes E ai w bytes hb hr1
    obtain ⟨k1, k2, k3, -⟩ := write_buffer_keeps E ai w (writebuf_of bytes)
    rw [hr2]
    exact ⟨evs, bytes, rfl, t1, t2, t3, k1, k2, k3, t4⟩

/-- Function `archwriter_split_if_necessary` that returns 0 on a writer of the
regular or flush variant, when no volume is a block device or a tape: either the
split check is false and nothing happens, or the footer of the current volume
number with `lastvol` clear is the last write of the current volume, the volume
is closed, and the header of the next volume number is the first write of the new
volume. -/
theorem split_volumes (E : Env) (ai : Writer) (w : World) (bytes : List Nat)
    (hb : ai.bytewise) (hst : ∀ p, w.stat p ≠ some .block ∧ w.stat p ≠ some .tape)
    (hs : (archwriter_split_if_necessary E ai w (writebuf_of bytes)).1 = .success) :
    ∃ evs, (archwriter_split_if_necessary E ai w (writebuf_of bytes)).2.2.trace
        = w.trace ++ evs ∧
      (archwriter_split_if_necessary E ai w (writebuf_of bytes)).2.2.stat = w.stat ∧
      (archwriter_split_if_necessary E ai w (writebuf_of bytes)).2.1.bytewise ∧
      (archwriter_split_if_necessary E ai w (writebuf_of bytes)).2.1.archid = ai.archid ∧
      ((archwriter_split_check E ai (writebuf_of bytes) = false ∧
          (archwriter_split_if_necessary E ai w (writebuf_of bytes)).2.1.curvol = ai.curvol ∧
          ∀ cur, closed_volumes evs cur = [] ∧ open_volume evs cur = cur) ∨
        (archwriter_split_check E ai (writebuf_of bytes) = true ∧
          (archwriter_split_if_necessary E ai w (writebuf_of bytes)).2.1.curvol
            = ai.curvol + 1 ∧
          ∃ fb hd, volfooter_bytes E ai.archid ai.curvol false = some fb ∧
            volheader_bytes E ai.archid (ai.curvol + 1) = some hd ∧
            ∀ cur, closed_volumes evs cur = [cur ++ record_writes fb] ∧
              open_volume evs cur = record_writes hd)) := by
  by_cases hc : archwriter_split_check E ai (writebuf_of bytes) = true
  · unfold archwriter_split_if_necessary at hs ⊢
    rw [if_pos hc] at hs ⊢
    dsimp only at hs ⊢
    obtain ⟨f, hf⟩ : ∃ f, f = archwriter_write_volfooter E ai w false := ⟨_, rfl⟩
    rw [← hf] at hs ⊢
    by_cases hfs : f.1 = .success
    · rw [if_neg (not_not.mpr hfs)] at hs ⊢
      obtain ⟨evs1, fb, e1, t1, s1, b1, cv1, id1, bp1, v1⟩ :=
        emit_volumes E ai w _ f hf hb hfs
      rw [volfooter_bytes_eq] at e1
      obtain ⟨c, hcd⟩ : ∃ c, c = archwriter_close f.2.1 f.2.2 := ⟨_, rfl⟩
      rw [← hcd] at hs ⊢
      obtain ⟨evs2, t2, s2, v2, r2, fd2, ca2⟩ := close_volumes f.2.1 f.2.2 b1
      rw [← hcd] at t2 s2 r2 fd2 ca2
      obtain ⟨k1, k2, k3, -⟩ := close_keeps f.2.1 f.2.2
      rw [← hcd] at k1 k2 k3
      have hcr : ¬ c.1 = .crash := by rw [r2]; decide
      rw [if_neg hcr] at hs ⊢
      obtain ⟨n, hn⟩ : ∃ n, n = archwriter_create E (archwriter_incvolume E c.2.1) c.2.2 :=
        ⟨_, rfl⟩
      rw [← hn] at hs ⊢
      obtain ⟨evs3, t3, s3, v3, b3⟩ := create_volumes E (archwriter_incvolume E c.2.1) c.2.2
        fd2 ca2 (by rw [s2, s1]; exact hst _)
      obtain ⟨n1, n2, -⟩ := create_keeps E (archwriter_incvolume E c.2.1) c.2.2
      rw [← hn] at t3 s3 b3 n1 n2
      by_cases hns : n.1 = .success
      · rw [if_neg (not_not.mpr hns)] at hs ⊢
        obtain ⟨h, hh⟩ : ∃ h, h = archwriter_write_volheader E n.2.1 n.2.2 := ⟨_, rfl⟩
        rw [← hh] at hs ⊢
        obtain ⟨w1, w2⟩ := wrap_fail h
        rw [w1]
        have hhs : h.1 = .success := w2 hs
        obtain ⟨evs4, hd, e4, t4, s4, b4, cv4, id4, -, v4⟩ :=
          emit_volumes E n.2.1 n.2.2 _ h hh (b3 hns) hhs
        rw [volheader_bytes_eq] at e4
        have hcur : n.2.1.curvol = ai.curvol + 1 := by
          rw [n1]
          show c.2.1.curvol + 1 = _
          rw [k1, cv1]
        have hid : n.2.1.archid = ai.archid := by
          rw [n2]
          show c.2.1.archid = _
          rw [k2, id1]
        rw [hcur, hid] at e4
        refine ⟨evs1 ++ (evs2 ++ (evs3 ++ evs4)), ?_, ?_, b4, ?_, Or.inr ⟨hc, ?_, fb, hd, e1, e4,
          fun cur => ⟨?_, ?_⟩⟩⟩
        · rw [t4, t3, t2, t1]; simp only [List.append_assoc]
        · rw [s4, s3, s2, s1]
        · rw [id4, hid]
        · rw [cv4, hcur]
        · rw [closed_volumes_append, (v1 cur).1, (v1 cur).2, closed_volumes_append,
            (v2 _).1, (v2 _).2, closed_volumes_append, (v3 _).1, (v3 _).2, (v4 _).1]
          simp
        · rw [open_volume_append, (v1 cur).2, open_volume_append, (v2 _).2,
            open_volume_append, (v3 _).2, (v4 _).2]
          simp
      · rw [if_pos hns] at hs
        exact absurd hs (Ret.fail_ne_success _ _ hns (by decide))
    · rw [if_pos hfs] at hs
      exact absurd hs (Ret.fail_ne_success _ _ hfs (by decide))
  · have hcf : archwriter_split_check E ai (writebuf_of bytes) = false := by
      simpa using hc
    rw [split_if_necessary_nosplit E ai w _ hcf]
    exact ⟨[], (List.append_nil _).symm, rfl, hb, rfl, Or.inl ⟨hcf, rfl, fun _ => ⟨rfl, rfl⟩⟩⟩

/-- Writing one record (`enc` is its serialization, `r` the result of
`archwriter_dowrite_header` or `archwriter_dowrite_block`) that returns 0 on a
writer of the regular or flush variant: the record is written to the current
volume, or to a new volume after the footer of the current one and the header of
the next one. -/
theorem record_volumes (E : Env) (ai : Writer) (w : World) (enc : Option (List Nat))
    (r : Ret × Writer × World)
    (hr : r = match enc with
      | none => (Ret.neg1, ai, w)
      | some bytes =>
        if (archwriter_split_if_necessary E ai w { data := bytes, size := bytes.length }).1
            ≠ .success then
          ((archwriter_split_if_necessary E ai w
              { data := bytes, size := bytes.length }).1.fail .neg1,
            (archwriter_split_if_necessary E ai w { data := bytes, size := bytes.length }).2)
        else
          if (archwriter_write_buffer E
              (archwriter_split_if_necessary E ai w { data := bytes, size := bytes.length }).2.1
              (archwriter_split_if_necessary E ai w { data := bytes, size := bytes.length }).2.2
              { data := bytes, size := bytes.length }).1 ≠ .success then
            ((archwriter_write_buffer E
              (archwriter_split_if_necessary E ai w { data := bytes, size := bytes.length }).2.1
              (archwriter_split_if_necessary E ai w { data := bytes, size := bytes.length }).2.2
              { data := bytes, size := bytes.length }).1.fail .neg1,
              (archwriter_write_buffer E
              (archwriter_split_if_necessary E ai w { data := bytes, size := bytes.length }).2.1
              (archwriter_split_if_necessary E ai w { data := bytes, size := bytes.length }).2.2
              { data := bytes, size := bytes.length }).2)
          else
            (.success, (archwriter_write_buffer E
              (archwriter_split_if_necessary E ai w { data := bytes, size := bytes.length }).2.1
              (archwriter_split_if_necessary E ai w { data := bytes, size := bytes.length }).2.2
              { data := bytes, size := bytes.length }).2))
    (hb : ai.bytewise) (hst : ∀ p, w.stat p ≠ some .block ∧ w.stat p ≠ some .tape)
    (hs : r.1 = .success) :
    ∃ evs bytes, enc = some bytes ∧ r.2.2.trace = w.trace ++ evs ∧ r.2.2.stat = w.stat ∧
      r.2.1.bytewise ∧ r.2.1.archid = ai.archid ∧
      ((r.2.1.curvol = ai.curvol ∧
          ∀ cur, closed_volumes evs cur = [] ∧
            open_volume evs cur = cur ++ record_writes bytes) ∨
        (r.2.1.curvol = ai.curvol + 1 ∧
          ∃ fb hd, volfooter_bytes E ai.archid ai.curvol false = some fb ∧
            volheader_bytes E ai.archid (ai.curvol + 1) = some hd ∧
            ∀ cur, closed_volumes evs cur = [cur ++ record_writes fb] ∧
              open_volume evs cur = record_writes hd ++ record_writes bytes)) := by
  cases enc with
  | none =>
    subst hr
    exact Ret.noConfusion hs
  | some bytes =>
    have hwb : ({ data := bytes, size := bytes.length } : s_writebuf) = writebuf_of bytes := rfl
    simp only [hwb] at hr
    obtain ⟨sp, hsp⟩ : ∃ sp, sp = archwriter_split_if_necessary E ai w (writebuf_of bytes) :=
      ⟨_, rfl⟩
    rw [← hsp] at hr
    by_cases hss : sp.1 = .success
    · rw [if_neg (not_not.mpr hss)] at hr
      obtain ⟨evs1, t1, s1, b1, id1, v1⟩ := split_volumes E ai w bytes hb hst (hsp ▸ hss)
      rw [← hsp] at t1 s1 b1 id1 v1
      obtain ⟨w1, w2⟩ := wrap_fail (archwriter_write_buffer E sp.2.1 sp.2.2 (writebuf_of bytes))
      have hr2 : r.2 = (archwriter_write_buffer E sp.2.1 sp.2.2 (writebuf_of bytes)).2 := by
        rw [hr]; exact w1
      have hr1 : (archwriter_write_buffer E sp.2.1 sp.2.2 (writebuf_of bytes)).1 = .success := by
        apply w2
        rw [hr] at hs
        exact hs
      obtain ⟨evs2, t2, s2, b2, v2⟩ := write_buffer_volumes E sp.2.1 sp.2.2 bytes b1 hr1
      obtain ⟨k1, k2, -, -⟩ := write_buffer_keeps E sp.2.1 sp.2.2 (writebuf_of bytes)
      rw [hr2]
      refine ⟨evs1 ++ evs2, bytes, rfl, ?_, ?_, b2, ?_, ?_⟩
      · rw [t2, t1, List.append_assoc]
      · rw [s2, s1]
      · rw [k2, id1]
      · rcases v1 with ⟨-, c1, v1⟩ | ⟨-, c1, fb, hd, e1, e2, v1⟩
        · refine Or.inl ⟨by rw [k1, c1], fun cur => ⟨?_, ?_⟩⟩
          · rw [closed_volumes_append, (v1 cur).1, (v1 cur).2, (v2 cur).1]; rfl
          · rw [open_volume_append, (v1 cur).2, (v2 cur).2]
        · refine Or.inr ⟨by rw [k1, c1], fb, hd, e1, e2, fun cur => ⟨?_, ?_⟩⟩
          · rw [closed_volumes_append, (v1 cur).1, (v1 cur).2, (v2 _).1]; rfl
          · rw [open_volume_append, (v1 cur).2, (v2 _).2]
    · rw [if_pos hss] at hr
      rw [hr] at hs
      exact absurd hs (Ret.fail_ne_success _ _ hss (by decide))

theorem dowrite_volumes (E : Env) (ai : Writer) (w : World) (op : WriteOp)
    (hb : ai.bytewise) (hst : ∀ p, w.stat p ≠ some .block ∧ w.stat p ≠ some .tape)
    (hs : (dowrite E ai w op).1 = .success) :
    ∃ evs bytes, op.encode E ai.archid = some bytes ∧
      (dowrite E ai w op).2.2.trace = w.trace ++ evs ∧ (dowrite E ai w op).2.2.stat = w.stat ∧
      (dowrite E ai w op).2.1.bytewise ∧ (dowrite E ai w op).2.1.archid = ai.archid ∧
      (((dowrite E ai w op).2.1.curvol = ai.curvol ∧
          ∀ cur, closed_volumes evs cur = [] ∧
            open_volume evs cur = cur ++ record_writes bytes) ∨
        ((dowrite E ai w op).2.1.curvol = ai.curvol + 1 ∧
          ∃ fb hd, volfooter_bytes E ai.archid ai.curvol false = some fb ∧
            volheader_bytes E ai.archid (ai.curvol + 1) = some hd ∧
            ∀ cur, closed_volumes evs cur = [cur ++ record_writes fb] ∧
              open_volume evs cur = record_writes hd ++ record_writes bytes)) := by
  cases op with
  | header h => exact record_volumes E ai w _ _ rfl hb hst hs
  | block b => exact record_volumes E ai w _ _ rfl hb hst hs

theorem encode_framed (E : Env) (archid : Nat) (op : WriteOp) (bytes : List Nat)
    (h : op.encode E archid = some bytes) : framed E archid bytes := by
  cases op with
  | header hd => exact Or.inl ⟨_, _, _, h⟩
  | block b => exact Or.inr ⟨_, _, _, h⟩

theorem mem_record_writes (bytes b : List Nat) (h : b ∈ record_writes bytes) : b = bytes := by
  unfold record_writes at h
  split at h
  · simp at h
  · simpa using h

theorem chain_prefix (E : Env) (archid k : Nat) (cur t0 : List (List Nat))
    (cs : List (List (List Nat))) (o : List (List Nat))
    (h0 : ∀ b ∈ t0, framed E archid b) (h : chain E archid k (cur ++ t0) cs o) :
    chain E archid k cur cs o := by
  cases cs with
  | nil =>
    obtain ⟨t, ho, ht⟩ := h
    refine ⟨t0 ++ t, by rw [ho, List.append_assoc], ?_⟩
    intro b hb
    rcases List.mem_append.mp hb with hb | hb
    · exact h0 b hb
    · exact ht b hb
  | cons c cs =>
    obtain ⟨t, fb, hd, ht, hf, hc, hh, hrest⟩ := h
    refine ⟨t0 ++ t, fb, hd, ?_, hf, by rw [hc]; simp only [List.append_assoc], hh, hrest⟩
    intro b hb
    rcases List.mem_append.mp hb with hb | hb
    · exact h0 b hb
    · exact ht b hb

/-- The writes of a sequence of records that are all written with success, on a
writer of the regular or flush variant. -/
theorem dowrite_all_chain (E : Env) (ops : List WriteOp) :
    ∀ (ai : Writer) (w : World), ai.bytewise →
      (∀ p, w.stat p ≠ some .block ∧ w.stat p ≠ some .tape) →
      (dowrite_all E ai w ops).1 = .success →
      ∃ evs, (dowrite_all E ai w ops).2.2.trace = w.trace ++ evs ∧
        (dowrite_all E ai w ops).2.2.stat = w.stat ∧
        (dowrite_all E ai w ops).2.1.bytewise ∧
        (dowrite_all E ai w ops).2.1.archid = ai.archid ∧
        ∀ cur, (dowrite_all E ai w ops).2.1.curvol
            = ai.curvol + (closed_volumes evs cur).length ∧
          chain E ai.archid ai.curvol cur (closed_volumes evs cur) (open_volume evs cur) := by
  induction ops with
  | nil =>
    intro ai w hb _ _
    exact ⟨[], (List.append_nil _).symm, rfl, hb, rfl,
      fun cur => ⟨rfl, [], (List.append_nil _).symm, fun _ h => absurd h (List.not_mem_nil _)⟩⟩
  | cons op ops ih =>
    intro ai w hb hst hs
    by_cases h1 : (dowrite E ai w op).1 = .success
    · simp only [dowrite_all, h1, ne_eq, not_true_eq_false, if_false] at hs ⊢
      obtain ⟨evs1, bytes, e1, t1, s1, b1, id1, v1⟩ := dowrite_volumes E ai w op hb hst h1
      obtain ⟨evs2, t2, s2, b2, id2, v2⟩ := ih (dowrite E ai w op).2.1 (dowrite E ai w op).2.2
        b1 (by rw [s1]; exact hst) hs
      have hfr : ∀ b ∈ record_writes bytes, framed E ai.archid b := by
        intro b hb1
        rw [mem_record_writes _ _ hb1]
        exact encode_framed E _ op _ e1
      refine ⟨evs1 ++ evs2, ?_, ?_, b2, ?_, fun cur => ?_⟩
      · rw [t2, t1, List.append_assoc]
      · rw [s2, s1]
      · rw [id2, id1]
      · rw [closed_volumes_append, open_volume_append]
        rcases v1 with ⟨c1, v1⟩ | ⟨c1, fb, hd, f1, f2, v1⟩
        · rw [(v1 cur).1, (v1 cur).2, List.nil_append]
          obtain ⟨q1, q2⟩ := v2 (cur ++ record_writes bytes)
          rw [c1, id1] at q2
          rw [c1] at q1
          exact ⟨q1, chain_prefix E _ _ _ _ _ _ hfr q2⟩
        · rw [(v1 cur).1, (v1 cur).2]
          obtain ⟨q1, q2⟩ := v2 (record_writes hd ++ record_writes bytes)
          rw [c1, id1] at q2
          rw [c1] at q1
          refine ⟨?_, [], fb, hd, fun _ h => absurd h (List.not_mem_nil _), f1, by simp, f2,
            chain_prefix E _ _ _ _ _ _ hfr q2⟩
          rw [q1]
          simp only [List.singleton_append, List.length_cons]
          omega
    · simp only [dowrite_all, h1, ne_eq, not_false_eq_true, if_true] at hs

/-- A session that returns 0, started with the descriptor closed and no cache
buffer, when no volume is a block device or a tape: the volumes closed are those
of a chain that starts with the header of the first volume number, the last one
ending with the footer that has `lastvol` set. -/
theorem session_chain (E : Env) (ai : Writer) (w : World) (ops : List WriteOp)
    (hfd : ai.archfd = -1) (hc : ai.cache = [])
    (hst : ∀ p, w.stat p ≠ some .block ∧ w.stat p ≠ some .tape)
    (hs : (session E ai w ops).1 = .success) :
    ∃ evs cs o hb0 fbl, (session E ai w ops).2.2.trace = w.trace ++ evs ∧
      volheader_bytes E ai.archid ai.curvol = some hb0 ∧
      chain E ai.archid ai.curvol (record_writes hb0) cs o ∧
      volfooter_bytes E ai.archid (ai.curvol + cs.length) true = some fbl ∧
      closed_volumes evs [] = cs ++ [o ++ record_writes fbl] ∧ open_volume evs [] = [] ∧
      (session E ai w ops).2.1.curvol = ai.curvol + cs.length ∧
      (session E ai w ops).2.1.archid = ai.archid := by
  unfold session at hs ⊢
  dsimp only at hs ⊢
  obtain ⟨c, hcd⟩ : ∃ c, c = archwriter_create E ai w := ⟨_, rfl⟩
  rw [← hcd] at hs ⊢
  by_cases hcs : c.1 = .success
  swap
  · rw [if_pos hcs] at hs
    exact absurd hs hcs
  rw [if_neg (not_not.mpr hcs)] at hs ⊢
  obtain ⟨evs1, t1, s1, v1, b1⟩ := create_volumes E ai w hfd hc (hst _)
  obtain ⟨n1, n2, -⟩ := create_keeps E ai w
  rw [← hcd] at t1 s1 b1 n1 n2
  obtain ⟨h, hh⟩ : ∃ h, h = archwriter_write_volheader E c.2.1 c.2.2 := ⟨_, rfl⟩
  rw [← hh] at hs ⊢
  by_cases hhs : h.1 = .success
  swap
  · rw [if_pos hhs] at hs
    exact absurd hs hhs
  rw [if_neg (not_not.mpr hhs)] at hs ⊢
  obtain ⟨evs2, hb0, e2, t2, s2, b2, cv2, id2, -, v2⟩ :=
    emit_volumes E c.2.1 c.2.2 _ h hh (b1 hcs) hhs
  rw [volheader_bytes_eq, n1, n2] at e2
  obtain ⟨r, hrd⟩ : ∃ r, r = dowrite_all E h.2.1 h.2.2 ops := ⟨_, rfl⟩
  rw [← hrd] at hs ⊢
  by_cases hrs : r.1 = .success
  swap
  · rw [if_pos hrs] at hs
    exact absurd hs hrs
  rw [if_neg (not_not.mpr hrs)] at hs ⊢
  obtain ⟨evs3, t3, s3, b3, id3, v3⟩ := dowrite_all_chain E ops h.2.1 h.2.2 b2
    (by rw [s2, s1]; exact hst) (hrd ▸ hrs)
  rw [← hrd] at t3 s3 b3 id3 v3
  obtain ⟨f, hf⟩ : ∃ f, f = archwriter_write_volfooter E r.2.1 r.2.2 true := ⟨_, rfl⟩
  rw [← hf] at hs ⊢
  by_cases hfs : f.1 = .success
  swap
  · rw [if_pos hfs] at hs
    exact absurd hs hfs
  rw [if_neg (not_not.mpr hfs)] at hs ⊢
  obtain ⟨evs4, fbl, e4, t4, s4, b4, cv4, id4, -, v4⟩ :=
    emit_volumes E r.2.1 r.2.2 _ f hf b3 hfs
  obtain ⟨evs5, t5, s5, v5, r5, -, -⟩ := close_volumes f.2.1 f.2.2 b4
  obtain ⟨k1, k2, -, -⟩ := close_keeps f.2.1 f.2.2
  obtain ⟨q1, q2⟩ := v3 (record_writes hb0)
  have ha : h.2.1.archid = ai.archid := by rw [id2, n2]
  have hv : h.2.1.curvol = ai.curvol := by rw [cv2, n1]
  rw [ha, hv] at q2
  rw [hv] at q1
  rw [volfooter_bytes_eq, id3, ha, q1] at e4
  refine ⟨evs1 ++ (evs2 ++ (evs3 ++ (evs4 ++ evs5))), closed_volumes evs3 (record_writes hb0),
    open_volume evs3 (record_writes hb0), hb0, fbl, ?_, e2, q2, e4, ?_, ?_, ?_, ?_⟩
  · rw [t5, t4, t3, t2, t1]; simp only [List.append_assoc]
  · rw [closed_volumes_append, (v1 _).1, (v1 _).2, closed_volumes_append, (v2 _).1, (v2 _).2,
      closed_volumes_append, closed_volumes_append, (v4 _).1, (v4 _).2, (v5 _).1]
    simp
  · rw [open_volume_append, (v1 _).2, open_volume_append, (v2 _).2, open_volume_append,
      open_volume_append, (v4 _).2, (v5 _).2]
  · rw [k1, cv4, q1]
  · rw [k2, id4, id3, ha]

theorem header_framed (E : Env) (archid k : Nat) (bs : List Nat)
    (h : volheader_bytes E archid k = some bs) : framed E archid bs :=
  Or.inl ⟨_, _, _, h⟩

theorem footer_framed (E : Env) (archid k : Nat) (lastvol : Bool) (bs : List Nat)
    (h : volfooter_bytes E archid k lastvol = some bs) : framed E archid bs :=
  Or.inl ⟨_, _, _, h⟩

theorem chain_framed (E : Env) (archid : Nat) (cs : List (List (List Nat))) :
    ∀ (k : Nat) (cur o : List (List Nat)), chain E archid k cur cs o →
      (∀ b ∈ cur, framed E archid b) →
      (∀ v ∈ cs, ∀ b ∈ v, framed E archid b) ∧ ∀ b ∈ o, framed E archid b := by
  induction cs with
  | nil =>
    intro k cur o h hcur
    obtain ⟨t, ho, ht⟩ := h
    refine ⟨fun v hv => absurd hv (List.not_mem_nil _), fun b hb => ?_⟩
    rw [ho] at hb
    rcases List.mem_append.mp hb with hb | hb
    · exact hcur b hb
    · exact ht b hb
  | cons c cs ih =>
    intro k cur o h hcur
    obtain ⟨t, fb, hd, ht, hf, hc, hh, hrest⟩ := h
    obtain ⟨i1, i2⟩ := ih (k + 1) (record_writes hd) o hrest
      (fun b hb => by rw [mem_record_writes _ _ hb]; exact header_framed E _ _ _ hh)
    refine ⟨fun v hv b hb => ?_, i2⟩
    rcases List.mem_cons.mp hv with hv | hv
    · rw [hv, hc] at hb
      rcases List.mem_append.mp hb with hb | hb
      · rcases List.mem_append.mp hb with hb | hb
        · exact hcur b hb
        · exact ht b hb
      · rw [mem_record_writes _ _ hb]; exact footer_framed E _ _ _ _ hf
    · exact i1 v hv b hb

theorem record_writes_ne (bytes : List Nat) (h : bytes ≠ []) : record_writes bytes = [bytes] := by
  unfold record_writes
  have : bytes.length ≠ 0 := fun e => h (List.length_eq_zero.mp e)
  rw [if_neg this]

theorem chain_numbered (E : Env) (archid : Nat)
    (hne : ∀ d m fs bs, E.writebuf_add_header d m archid fs = some bs → bs ≠ [])
    (cs : List (List (List Nat))) :
    ∀ (k : Nat) (cur o : List (List Nat)) (fbl : List Nat), chain E archid k cur cs o →
      cur.head? = volheader_bytes E archid k → cur.head?.isSome = true →
      volfooter_bytes E archid (k + cs.length) true = some fbl →
      numbered E archid k (cs ++ [o ++ [fbl]]) := by
  induction cs with
  | nil =>
    intro k cur o fbl h h1 h2 hf
    obtain ⟨t, ho, -⟩ := h
    have hcn : cur ≠ [] := by
      intro e; rw [e] at h2; simp at h2
    simp only [List.length_nil, Nat.add_zero] at hf
    simp only [List.nil_append, numbered, List.isEmpty_nil, and_true]
    rw [ho, List.append_assoc, List.head?_append_of_ne_nil _ hcn, hf]
    refine ⟨h1, h2, ?_, ?_⟩
    · rw [← List.append_assoc, List.getLast?_append]; simp
    · rw [← List.append_assoc, List.getLast?_append]; simp
  | cons c cs ih =>
    intro k cur o fbl h h1 h2 hf
    obtain ⟨t, fb, hd, -, hfb, hc, hh, hrest⟩ := h
    have hcn : cur ≠ [] := by
      intro e; rw [e] at h2; simp at h2
    rw [record_writes_ne fb (hne _ _ _ _ hfb)] at hc
    rw [record_writes_ne hd (hne _ _ _ _ hh)] at hrest
    have hf1 : volfooter_bytes E archid (k + 1 + cs.length) true = some fbl := by
      rw [← hf]; congr 1; simp only [List.length_cons]; omega
    have hrec := ih (k + 1) [hd] o fbl hrest (by simpa using hh.symm) (by simp) hf1
    have hemp : (List.append cs [o ++ [fbl]]).isEmpty = false := by
      cases cs <;> rfl
    simp only [List.cons_append, numbered]
    rw [hemp]
    refine ⟨⟨?_, ?_, ?_, ?_⟩, hrec⟩
    · rw [hc, List.append_assoc, List.head?_append_of_ne_nil _ hcn]; exact h1
    · rw [hc, List.append_assoc, List.head?_append_of_ne_nil _ hcn]; exact h2
    · rw [hc, List.getLast?_append, hfb]; simp
    · rw [hc, List.getLast?_append]; simp

/-- Function `archwriter_split_if_necessary` on any writer: the archive id is
unchanged, and a call that returns 0 has advanced the volume number by one when
the split check held and has left it alone otherwise. -/
theorem split_keeps (E : Env) (ai : Writer) (w : World) (wb : s_writebuf) :
    (archwriter_split_if_necessary E ai w wb).2.1.archid = ai.archid ∧
      ((archwriter_split_if_necessary E ai w wb).1 = .success →
        (archwriter_split_if_necessary E ai w wb).2.1.curvol
          = ai.curvol + (if archwriter_split_check E ai wb = true then 1 else 0)) := by
  by_cases hc : archwriter_split_check E ai wb = true
  · unfold archwriter_split_if_necessary
    rw [if_pos hc]
    dsimp only
    obtain ⟨f, hf⟩ : ∃ f, f = archwriter_write_volfooter E ai w false := ⟨_, rfl⟩
    obtain ⟨f1, f2, -, -⟩ := write_volfooter_keeps E ai w false
    rw [← hf] at f1 f2 ⊢
    obtain ⟨c, hcd⟩ : ∃ c, c = archwriter_close f.2.1 f.2.2 := ⟨_, rfl⟩
    obtain ⟨c1, c2, -, -⟩ := close_keeps f.2.1 f.2.2
    rw [← hcd] at c1 c2 ⊢
    obtain ⟨n, hn⟩ : ∃ n, n = archwriter_create E (archwriter_incvolume E c.2.1) c.2.2 :=
      ⟨_, rfl⟩
    obtain ⟨n1, n2, -⟩ := create_keeps E (archwriter_incvolume E c.2.1) c.2.2
    rw [← hn] at n1 n2 ⊢
    obtain ⟨h, hh⟩ : ∃ h, h = archwriter_write_volheader E n.2.1 n.2.2 := ⟨_, rfl⟩
    obtain ⟨h1, h2, -, -⟩ := write_volheader_keeps E n.2.1 n.2.2
    rw [← hh] at h1 h2 ⊢
    have nid : n.2.1.archid = ai.archid := by
      rw [n2]; show c.2.1.archid = _; rw [c2, f2]
    have ncv : n.2.1.curvol = ai.curvol + 1 := by
      rw [n1]; show c.2.1.curvol + 1 = _; rw [c1, f1]
    by_cases hfs : f.1 = .success
    · rw [if_neg (not_not.mpr hfs)]
      by_cases hcr : c.1 = .crash
      · rw [if_pos hcr]
        exact ⟨by rw [c2, f2], fun hs => Ret.noConfusion hs⟩
      · rw [if_neg hcr]
        by_cases hns : n.1 = .success
        · rw [if_neg (not_not.mpr hns)]
          obtain ⟨w1, w2⟩ := wrap_fail h
          rw [w1]
          exact ⟨by rw [h2, nid], fun _ => by rw [h1, ncv, if_pos hc]⟩
        · rw [if_pos hns]
          exact ⟨nid, fun hs => absurd hs (Ret.fail_ne_success _ _ hns (by decide))⟩
    · rw [if_pos hfs]
      exact ⟨f2, fun hs => absurd hs (Ret.fail_ne_success _ _ hfs (by decide))⟩
  · have hcf : archwriter_split_check E ai wb = false := by simpa using hc
    rw [split_if_necessary_nosplit E ai w wb hcf]
    simp [hcf]

/-- Writing one record on any writer (`enc` is its serialization, `r` the result
of `archwriter_dowrite_header` or `archwriter_dowrite_block`): the archive id is
unchanged. -/
theorem record_keeps (E : Env) (ai : Writer) (w : World) (enc : Option (List Nat))
    (r : Ret × Writer × World)
    (hr : r = match enc with
      | none => (Ret.neg1, ai, w)
      | some bytes =>
        if (archwriter_split_if_necessary E ai w { data := bytes, size := bytes.length }).1
            ≠ .success then
          ((archwriter_split_if_necessary E ai w
              { data := bytes, size := bytes.length }).1.fail .neg1,
            (archwriter_split_if_necessary E ai w { data := bytes, size := bytes.length }).2)
        else
          if (archwriter_write_buffer E
              (archwriter_split_if_necessary E ai w { data := bytes, size := bytes.length }).2.1
              (archwriter_split_if_necessary E ai w { data := bytes, size := bytes.length }).2.2
              { data := bytes, size := bytes.length }).1 ≠ .success then
            ((archwriter_write_buffer E
              (archwriter_split_if_necessary E ai w { data := bytes, size := bytes.length }).2.1
              (archwriter_split_if_necessary E ai w { data := bytes, size := bytes.length }).2.2
              { data := bytes, size := bytes.length }).1.fail .neg1,
              (archwriter_write_buffer E
              (archwriter_split_if_necessary E ai w { data := bytes, size := bytes.length }).2.1
              (archwriter_split_if_necessary E ai w { data := bytes, size := bytes.length }).2.2
              { data := bytes, size := bytes.length }).2)
          else
            (.success, (archwriter_write_buffer E
              (archwriter_split_if_necessary E ai w { data := bytes, size := bytes.length }).2.1
              (archwriter_split_if_necessary E ai w { data := bytes, size := bytes.length }).2.2
              { data := bytes, size := bytes.length }).2)) :
    r.2.1.archid = ai.archid := by
  cases enc with
  | none => subst hr; rfl
  | some bytes =>
    obtain ⟨s1, -⟩ := split_keeps E ai w { data := bytes, size := bytes.length }
    obtain ⟨-, k2, -, -⟩ := write_buffer_keeps E
      (archwriter_split_if_necessary E ai w { data := bytes, size := bytes.length }).2.1
      (archwriter_split_if_necessary E ai w { data := bytes, size := bytes.length }).2.2
      { data := bytes, size := bytes.length }
    dsimp only at hr
    split at hr
    · rw [hr]; exact s1
    · obtain ⟨w1, -⟩ := wrap_fail (archwriter_write_buffer E
        (archwriter_split_if_necessary E ai w { data := bytes, size := bytes.length }).2.1
        (archwriter_split_if_necessary E ai w { data := bytes, size := bytes.length }).2.2
        { data := bytes, size := bytes.length })
      have hr2 : r.2 = (archwriter_write_buffer E
          (archwriter_split_if_necessary E ai w { data := bytes, size := bytes.length }).2.1
          (archwriter_split_if_necessary E ai w { data := bytes, size := bytes.length }).2.2
          { data := bytes, size := bytes.length }).2 := by
        rw [hr]; exact w1
      rw [hr2, k2, s1]

theorem dowrite_keeps (E : Env) (ai : Writer) (w : World) (op : WriteOp) :
    (dowrite E ai w op).2.1.archid = ai.archid := by
  cases op with
  | header h => exact record_keeps E ai w _ _ rfl
  | block b => exact record_keeps E ai w _ _ rfl

theorem dowrite_all_keeps (E : Env) (ops : List WriteOp) :
    ∀ (ai : Writer) (w : World), (dowrite_all E ai w ops).2.1.archid = ai.archid := by
  induction ops with
  | nil => intro ai w; rfl
  | cons op ops ih =>
    intro ai w
    unfold dowrite_all
    split
    · exact dowrite_keeps E ai w op
    · rw [ih, dowrite_keeps]

theorem volnum_of_header (E : Env) (ai : Writer) :
    dico_get_u32 (volheader_dico E ai) 0 E.VOLUMEHEADKEY_VOLNUM = some (ai.curvol % 256 ^ 4) := by
  simp [volheader_dico, dico_add_string, dico_add_u32, dico_alloc, dico_get_u32,
    dico_get_scalar, dico_get_data, List.find?, length_cpu_to_le, le_to_cpu_cpu_to_le]

theorem volnum_of_footer (E : Env) (ai : Writer) (lastvol : Bool) :
    dico_get_u32 (volfooter_dico E ai lastvol) 0 E.VOLUMEFOOTKEY_VOLNUM
      = some (ai.curvol % 256 ^ 4) := by
  simp [volfooter_dico, dico_add_u32, dico_alloc, dico_get_u32,
    dico_get_scalar, dico_get_data, List.find?, length_cpu_to_le, le_to_cpu_cpu_to_le]

/-- Claim C23: the volume number `curvol` is 0 after `archwriter_init`, is
increased by exactly one by `archwriter_incvolume`, and is left unchanged by
`archwriter_generate_id`, `archwriter_create`, `archwriter_close`,
`archwriter_write_buffer`, `archwriter_write_volheader` and
`archwriter_write_volfooter`; an `archwriter_split_if_necessary` that returns 0 has
added one when the split check held and nothing otherwise.  The volume header and
the volume footer that the writer serializes are those of the current volume
number, and their VOLNUM attribute reads back as `curvol` (as a `u32`).  For a
session (create, volume header, records, footer with `lastvol`, close) that
returns 0, started on volume 0 with the descriptor closed, whose volumes are not
block devices or tapes and whose headers are never empty: the system calls close
`curvol + 1` volumes, and the `k`-th of them (from 0) starts with the volume
header of number `k` and ends with the volume footer of number `k`, with
`lastvol` set in the last one only. -/
theorem volume_numbers (E : Env) (ai : Writer) (w : World) (ops : List WriteOp)
    (wb : s_writebuf) (lastvol : Bool) (basepath volpath : String) (id : Nat) :
    (archwriter_init basepath volpath).curvol = 0 ∧
    (archwriter_generate_id ai id).curvol = ai.curvol ∧
    (archwriter_incvolume E ai).curvol = ai.curvol + 1 ∧
    (archwriter_create E ai w).2.1.curvol = ai.curvol ∧
    (archwriter_close ai w).2.1.curvol = ai.curvol ∧
    (archwriter_write_buffer E ai w wb).2.1.curvol = ai.curvol ∧
    (archwriter_write_volheader E ai w).2.1.curvol = ai.curvol ∧
    (archwriter_write_volfooter E ai w lastvol).2.1.curvol = ai.curvol ∧
    ((archwriter_split_if_necessary E ai w wb).1 = .success →
      (archwriter_split_if_necessary E ai w wb).2.1.curvol
        = ai.curvol + (if archwriter_split_check E ai wb = true then 1 else 0)) ∧
    E.writebuf_add_header (volheader_dico E ai) E.FSA_MAGIC_VOLH ai.archid E.FSA_FILESYSID_NULL
      = volheader_bytes E ai.archid ai.curvol ∧
    E.writebuf_add_header (volfooter_dico E ai lastvol) E.FSA_MAGIC_VOLF ai.archid
        E.FSA_FILESYSID_NULL
      = volfooter_bytes E ai.archid ai.curvol lastvol ∧
    dico_get_u32 (volheader_dico E ai) 0 E.VOLUMEHEADKEY_VOLNUM = some (ai.curvol % 256 ^ 4) ∧
    dico_get_u32 (volfooter_dico E ai lastvol) 0 E.VOLUMEFOOTKEY_VOLNUM
      = some (ai.curvol % 256 ^ 4) ∧
    (ai.archfd = -1 → ai.cache = [] → ai.curvol = 0 →
      (∀ p, w.stat p ≠ some .block ∧ w.stat p ≠ some .tape) →
      (∀ d m fs bs, E.writebuf_add_header d m ai.archid fs = some bs → bs ≠ []) →
      (session E ai w ops).1 = .success →
      ∃ evs, (session E ai w ops).2.2.trace = w.trace ++ evs ∧ open_volume evs [] = [] ∧
        (closed_volumes evs []).length = (session E ai w ops).2.1.curvol + 1 ∧
        numbered E ai.archid 0 (closed_volumes evs [])) := by
  refine ⟨rfl, rfl, rfl, (create_keeps E ai w).1, (close_keeps ai w).1,
    (write_buffer_keeps E ai w wb).1, (write_volheader_keeps E ai w).1,
    (write_volfooter_keeps E ai w lastvol).1, (split_keeps E ai w wb).2, rfl, rfl,
    volnum_of_header E ai, volnum_of_footer E ai lastvol, ?_⟩
  intro hfd hc h0 hst hne hs
  obtain ⟨evs, cs, o, hb0, fbl, t, e1, ch, e2, cv, ov, cu, -⟩ :=
    session_chain E ai w ops hfd hc hst hs
  rw [h0] at e1 ch e2 cu
  rw [record_writes_ne hb0 (hne _ _ _ _ e1)] at ch
  rw [record_writes_ne fbl (hne _ _ _ _ e2)] at cv
  refine ⟨evs, t, ov, ?_, ?_⟩
  · rw [cv, cu]; simp
  · rw [cv]
    exact chain_numbered E ai.archid hne cs 0 [hb0] o fbl ch (by simpa using e1.symm) (by simp)
      e2

/-- Claim C24: `archid` is left unchanged by `archwriter_create`,
`archwriter_close`, `archwriter_incvolume`, the three write variants,
`archwriter_write_buffer`, `archwriter_write_volheader`,
`archwriter_write_volfooter`, `archwriter_split_if_necessary`,
`archwriter_dowrite_header`, `archwriter_dowrite_block`, a sequence of records and
a whole session, whatever they return.  The record that `archwriter_write_volheader`,
`archwriter_write_volfooter`, `archwriter_dowrite_header` and
`archwriter_dowrite_block` hand to `archwriter_write_buffer` is the one that was
serialized with the `archid` of the writer.  On volumes that are not block devices
or tapes, every `write` issued by a sequence of records that returns 0, and by a
session that returns 0, across all the volumes it creates, is a record framed with
the `archid` the writer had at the start. -/
theorem archid_constant (E : Env) (ai : Writer) (w : World) (ops : List WriteOp)
    (wb : s_writebuf) (data : List Nat) (lastvol : Bool) (headinfo : s_headinfo)
    (blkinfo : s_blockinfo) :
    (archwriter_create E ai w).2.1.archid = ai.archid ∧
    (archwriter_close ai w).2.1.archid = ai.archid ∧
    (archwriter_incvolume E ai).archid = ai.archid ∧
    (ai_write E ai w data).2.1.archid = ai.archid ∧
    (archwriter_write_buffer E ai w wb).2.1.archid = ai.archid ∧
    (archwriter_write_volheader E ai w).2.1.archid = ai.archid ∧
    (archwriter_write_volfooter E ai w lastvol).2.1.archid = ai.archid ∧
    (archwriter_split_if_necessary E ai w wb).2.1.archid = ai.archid ∧
    (archwriter_dowrite_header E ai w headinfo).2.1.archid = ai.archid ∧
    (archwriter_dowrite_block E ai w blkinfo).2.1.archid = ai.archid ∧
    (dowrite_all E ai w ops).2.1.archid = ai.archid ∧
    (session E ai w ops).2.1.archid = ai.archid ∧
    (∀ bytes, E.writebuf_add_header (volheader_dico E ai) E.FSA_MAGIC_VOLH ai.archid
        E.FSA_FILESYSID_NULL = some bytes →
      (archwriter_write_volheader E ai w).2
        = (archwriter_write_buffer E ai w (writebuf_of bytes)).2) ∧
    (∀ bytes, E.writebuf_add_header (volfooter_dico E ai lastvol) E.FSA_MAGIC_VOLF ai.archid
        E.FSA_FILESYSID_NULL = some bytes →
      (archwriter_write_volfooter E ai w lastvol).2
        = (archwriter_write_buffer E ai w (writebuf_of bytes)).2) ∧
    (∀ bytes, E.writebuf_add_header headinfo.dico headinfo.magic ai.archid headinfo.fsid
        = some bytes →
      (archwriter_split_if_necessary E ai w (writebuf_of bytes)).1 = .success →
      (archwriter_dowrite_header E ai w headinfo).2
        = (archwriter_write_buffer E
            (archwriter_split_if_necessary E ai w (writebuf_of bytes)).2.1
            (archwriter_split_if_necessary E ai w (writebuf_of bytes)).2.2
            (writebuf_of bytes)).2) ∧
    (∀ bytes, E.writebuf_add_block blkinfo.blkdata (blkinfo_scalars blkinfo) ai.archid
        blkinfo.blkfsid = some bytes →
      (archwriter_split_if_necessary E ai w (writebuf_of bytes)).1 = .success →
      (archwriter_dowrite_block E ai w blkinfo).2
        = (archwriter_write_buffer E
            (archwriter_split_if_necessary E ai w (writebuf_of bytes)).2.1
            (archwriter_split_if_necessary E ai w (writebuf_of bytes)).2.2
            (writebuf_of bytes)).2) ∧
    (ai.bytewise → (∀ p, w.stat p ≠ some .block ∧ w.stat p ≠ some .tape) →
      (dowrite_all E ai w ops).1 = .success →
      ∃ evs, (dowrite_all E ai w ops).2.2.trace = w.trace ++ evs ∧
        ∀ b ∈ writes evs, framed E ai.archid b) ∧
    (ai.archfd = -1 → ai.cache = [] →
      (∀ p, w.stat p ≠ some .block ∧ w.stat p ≠ some .tape) →
      (session E ai w ops).1 = .success →
      ∃ evs, (session E ai w ops).2.2.trace = w.trace ++ evs ∧
        ∀ b ∈ writes evs, framed E ai.archid b) := by
  have hsess : (session E ai w ops).2.1.archid = ai.archid := by
    unfold session
    dsimp only
    obtain ⟨-, n2, -⟩ := create_keeps E ai w
    obtain ⟨-, h2, -, -⟩ := write_volheader_keeps E (archwriter_create E ai w).2.1
      (archwriter_create E ai w).2.2
    have r2 := dowrite_all_keeps E ops
      (archwriter_write_volheader E (archwriter_create E ai w).2.1
        (archwriter_create E ai w).2.2).2.1
      (archwriter_write_volheader E (archwriter_create E ai w).2.1
        (archwriter_create E ai w).2.2).2.2
    split
    · exact n2
    · split
      · rw [h2, n2]
      · split
        · rw [r2, h2, n2]
        · split
          · rw [(write_volfooter_keeps E _ _ true).2.1, r2, h2, n2]
          · rw [(close_keeps _ _).2.1, (write_volfooter_keeps E _ _ true).2.1, r2, h2, n2]
  refine ⟨(create_keeps E ai w).2.1, (close_keeps ai w).2.1, rfl, (ai_write_keeps E ai w data).2.1,
    (write_buffer_keeps E ai w wb).2.1, (write_volheader_keeps E ai w).2.1,
    (write_volfooter_keeps E ai w lastvol).2.1, (split_keeps E ai w wb).1,
    record_keeps E ai w _ _ rfl, record_keeps E ai w _ _ rfl, dowrite_all_keeps E ops ai w,
    hsess, ?_, ?_, ?_, ?_, ?_, ?_⟩
  · intro bytes h
    unfold archwriter_write_volheader
    simp only [h]
    exact (wrap_fail _).1
  · intro bytes h
    unfold archwriter_write_volfooter
    simp only [h]
    exact (wrap_fail _).1
  · intro bytes h hs
    unfold archwriter_dowrite_header
    simp only [h]
    unfold writebuf_of at hs ⊢
    rw [if_neg (not_not.mpr hs)]
    exact (wrap_fail _).1
  · intro bytes h hs
    unfold archwriter_dowrite_block
    simp only [h]
    unfold writebuf_of at hs ⊢
    rw [if_neg (not_not.mpr hs)]
    exact (wrap_fail _).1
  · intro hb hst hs
    obtain ⟨evs, t, -, -, -, v⟩ := dowrite_all_chain E ops ai w hb hst hs
    refine ⟨evs, t, fun b hb1 => ?_⟩
    obtain ⟨-, ch⟩ := v []
    obtain ⟨f1, f2⟩ := chain_framed E ai.archid _ _ _ _ ch
      (fun _ h => absurd h (List.not_mem_nil _))
    have hw := volumes_writes evs []
    rw [List.nil_append] at hw
    rw [← hw] at hb1
    rcases List.mem_append.mp hb1 with hb1 | hb1
    · obtain ⟨v1, hv1, hb2⟩ := List.mem_flatten.mp hb1
      exact f1 v1 hv1 b hb2
    · exact f2 b hb1
  · intro hfd hc hst hs
    obtain ⟨evs, cs, o, hb0, fbl, t, e1, ch, e2, cv, ov, -, -⟩ :=
      session_chain E ai w ops hfd hc hst hs
    refine ⟨evs, t, fun b hb1 => ?_⟩
    obtain ⟨f1, f2⟩ := chain_framed E ai.archid _ _ _ _ ch
      (fun b hb => by rw [mem_record_writes _ _ hb]; exact header_framed E _ _ _ e1)
    have hw := volumes_writes evs []
    rw [List.nil_append, cv, ov, List.append_nil] at hw
    rw [← hw] at hb1
    obtain ⟨v1, hv1, hb2⟩ := List.mem_flatten.mp hb1
    rcases List.mem_append.mp hv1 with hv1 | hv1
    · exact f1 v1 hv1 b hb2
    · rw [List.mem_singleton.mp hv1] at hb2
      rcases List.mem_append.mp hb2 with hb2 | hb2
      · exact f2 b hb2
      · rw [mem_record_writes _ _ hb2]; exact footer_framed E _ _ _ _ e2

set_option maxRecDepth 100000 in
/-- Claim C23 (witness): a session of three header records of 20 bytes with a
volume size limit of 100 bytes and headers serialized as the specification
prescribes.  Three volumes are closed, each with a volume header of 65 bytes, one
record and a volume footer of 50 bytes; the VOLNUM values stored in the headers
and the footers are 0, 1 and 2. -/
theorem volume_numbers_witness :
    (session codecEnv initWriter sampleWorld three_headers).1 = .success ∧
      (session codecEnv initWriter sampleWorld three_headers).2.1.curvol = 2 ∧
      (closed_volumes (session codecEnv initWriter sampleWorld three_headers).2.2.trace []).map
          (fun v => v.map List.length) = [[65, 20, 50], [65, 20, 50], [65, 20, 50]] ∧
      (closed_volumes (session codecEnv initWriter sampleWorld three_headers).2.2.trace []).map
          (fun v => (v.head?.map (fun b => (b.drop 22).take 4),
            v.getLast?.map (fun b => (b.drop 22).take 4)))
        = [(some [0, 0, 0, 0], some [0, 0, 0, 0]), (some [1, 0, 0, 0], some [1, 0, 0, 0]),
           (some [2, 0, 0, 0], some [2, 0, 0, 0])] ∧
      ∃ evs, (session codecEnv initWriter sampleWorld three_headers).2.2.trace
          = sampleWorld.trace ++ evs ∧ open_volume evs [] = [] ∧
        (closed_volumes evs []).length
          = (session codecEnv initWriter sampleWorld three_headers).2.1.curvol + 1 ∧
        numbered codecEnv initWriter.archid 0 (closed_volumes evs []) :=
  ⟨by decide, by decide, by decide, by decide,
    (volume_numbers codecEnv initWriter sampleWorld three_headers (writebuf_of []) false
      "backup" "backup" 7).2.2.2.2.2.2.2.2.2.2.2.2.2 (by decide) (by decide) (by decide)
      (by intro p; constructor <;> simp [sampleWorld])
      (by
        intro d m fs bs h
        simp only [codecEnv, Option.some.injEq] at h
        subst h
        simp [spec_encode_record, cpu_to_le])
      (by decide)⟩

set_option maxRecDepth 100000 in
/-- Claim C24 (witness): a session with archive id 7 that writes a header, a
block and a header record over three volumes: the nine `write` calls (volume
headers, records, volume footers) all carry the archive id 7 in bytes 4 to 7. -/
theorem archid_constant_witness :
    (session codecEnv initWriter sampleWorld sample_ops).1 = .success ∧
      (session codecEnv initWriter sampleWorld sample_ops).2.1.archid = 7 ∧
      (writes (session codecEnv initWriter sampleWorld sample_ops).2.2.trace).map
          (fun b => (b.drop 4).take 4) = List.replicate 9 [7, 0, 0, 0] ∧
      ∃ evs, (session codecEnv initWriter sampleWorld sample_ops).2.2.trace
          = sampleWorld.trace ++ evs ∧
        ∀ b ∈ writes evs, framed codecEnv initWriter.archid b :=
  ⟨by decide, by decide, by decide,
    (archid_constant codecEnv initWriter sampleWorld sample_ops (writebuf_of []) [] false
      sample_headinfo sample_blkinfo).2.2.2.2.2.2.2.2.2.2.2.2.2.2.2.2.2 (by decide) (by decide)
      (by intro p; constructor <;> simp [sampleWorld])
      (by decide)⟩

/-! ## Reads on a block device -/

theorem precache_ok (E : Env) (ai : Reader) (size : Nat) (hdb : 0 < E.datablocksize)
    (hd : 0 < ai.devblocksize) :
    ∃ cs, archreader_precache E ai size = (.success, { ai with cachesize := cs }) := by
  unfold archreader_precache
  by_cases h : ai.cache.length + size ≤ ai.cachesize
  · exact ⟨ai.cachesize, by simp [h]⟩
  · have h1 : ¬ (E.datablocksize = 0 ∨ ai.devblocksize = 0) := by omega
    simp only [h, h1, if_false]
    exact ⟨_, rfl⟩

/-- What `archreader_read_blocks` does when bytes are missing and the device
delivers the whole rounded request of `M` bytes: the `M` bytes leave the device,
and they are appended to the cache only when `size ≤ M`. -/
theorem read_blocks_delivered (E : Env) (ai : Reader) (n : Nat)
    (hdb : 0 < E.datablocksize) (hd : 0 < ai.devblocksize)
    (hwf : ai.cacheread ≤ ai.cache.length) (hmiss : ai.cache.length - ai.cacheread < n)
    (hdev : round_up ai.devblocksize (n - (ai.cache.length - ai.cacheread)) ≤ ai.input.length) :
    ∃ cs, archreader_read_blocks E ai n =
      if round_up ai.devblocksize (n - (ai.cache.length - ai.cacheread)) < n then
        (.neg1,
          { ai with
            cachesize := cs,
            input := ai.input.drop
              (round_up ai.devblocksize (n - (ai.cache.length - ai.cacheread))) })
      else
        (.success,
          { ai with
            cachesize := cs,
            input := ai.input.drop
              (round_up ai.devblocksize (n - (ai.cache.length - ai.cacheread))),
            cache := ai.cache ++ ai.input.take
              (round_up ai.devblocksize (n - (ai.cache.length - ai.cacheread))) }) := by
  have hm : ¬ missing ai n ≤ 0 := by unfold missing; omega
  have hmt : (missing ai n).toNat = n - (ai.cache.length - ai.cacheread) := by
    unfold missing at hm ⊢; omega
  have hd0 : ai.devblocksize ≠ 0 := by omega
  generalize hm0 : n - (ai.cache.length - ai.cacheread) = m at hmt hdev
  have hM : (if m % ai.devblocksize = 0 then m else m + (ai.devblocksize - m % ai.devblocksize))
      = round_up ai.devblocksize m := by
    rw [← round_up_code _ _ hd]
    split <;> simp
  obtain ⟨cs, hp⟩ := precache_ok E ai (round_up ai.devblocksize m) hdb hd
  refine ⟨cs, ?_⟩
  have hl : (ai.input.take (round_up ai.devblocksize m)).length = round_up ai.devblocksize m := by
    rw [List.length_take]; omega
  unfold archreader_read_blocks
  simp only [hm, if_false, hd0, hmt, hM, hp, archreader_read_blocks_raw, hl, ne_eq,
    not_true_eq_false]


/-- Claim C31 (code defect): on the block reader with `devblocksize = d > 0`
(and `datablocksize > 0`), when fewer than `n` bytes are cached and the device
delivers the whole request of `M` bytes (the missing count
`n - (cachewrite - cacheread)` rounded up to a multiple of `d`),
`archreader_read_blocks(n)` compares the `M` bytes obtained with `n` and not with
the missing count: it returns 0 exactly when `n ≤ M`.  When `M < n` it returns
`-1` although `cachewrite - cacheread + M ≥ n` bytes are at hand, the `M` bytes have
left the device without entering the cache, and `archreader_read_data(n)` returns
`-1` with no bytes.  When `n ≤ M` (always so when nothing is cached)
`archreader_read_data(n)` hands out the next `n` bytes. -/
theorem read_blocks_whole_request (E : Env) (ai : Reader) (n : Nat)
    (hk : ai.read = .read_blocks) (hdb : 0 < E.datablocksize) (hd : 0 < ai.devblocksize)
    (hwf : ai.cacheread ≤ ai.cache.length) (hmiss : ai.cache.length - ai.cacheread < n)
    (hdev : round_up ai.devblocksize (n - (ai.cache.length - ai.cacheread)) ≤ ai.input.length) :
    ((archreader_read_blocks E ai n).1 = .success ↔
      n ≤ round_up ai.devblocksize (n - (ai.cache.length - ai.cacheread))) ∧
    (round_up ai.devblocksize (n - (ai.cache.length - ai.cacheread)) < n →
      n ≤ ai.cache.length - ai.cacheread
        + round_up ai.devblocksize (n - (ai.cache.length - ai.cacheread)) ∧
      (archreader_read_blocks E ai n).1 = .neg1 ∧
      (archreader_read_blocks E ai n).2.cache = ai.cache ∧
      (archreader_read_blocks E ai n).2.input = ai.input.drop
        (round_up ai.devblocksize (n - (ai.cache.length - ai.cacheread))) ∧
      (archreader_read_data E ai n).1 = .neg1 ∧ (archreader_read_data E ai n).2.1 = []) ∧
    (n ≤ round_up ai.devblocksize (n - (ai.cache.length - ai.cacheread)) →
      n ≤ (archreader_read_blocks E ai n).2.cache.length
        - (archreader_read_blocks E ai n).2.cacheread ∧
      (archreader_read_data E ai n).1 = .success ∧
      (archreader_read_data E ai n).2.1 = ai.pending.take n) ∧
    (ai.cache.length = ai.cacheread →
      n ≤ round_up ai.devblocksize (n - (ai.cache.length - ai.cacheread))) := by
  obtain ⟨cs, hr⟩ := read_blocks_delivered E ai n hdb hd hwf hmiss hdev
  obtain ⟨-, hge, -⟩ := round_up_spec ai.devblocksize (n - (ai.cache.length - ai.cacheread)) hd
  have hn0 : n ≠ 0 := by omega
  have hai : ai_read E ai n = archreader_read_blocks E ai n := by
    unfold ai_read; rw [hk]
  generalize round_up ai.devblocksize (n - (ai.cache.length - ai.cacheread)) = M at hr hge hdev
  refine ⟨?_, ?_, ?_, ?_⟩
  · by_cases h : M < n
    · rw [hr, if_pos h]
      constructor
      · intro h1; exact Ret.noConfusion h1
      · intro h1; omega
    · rw [hr, if_neg h]
      exact ⟨fun _ => by omega, fun _ => rfl⟩
  · intro h
    have hrd : archreader_read_data E ai n = (.neg1, [], (archreader_read_blocks E ai n).2) := by
      unfold archreader_read_data
      simp only [hn0, if_false, hai]
      rw [hr, if_pos h]
      rfl
    rw [hrd, hr, if_pos h]
    exact ⟨by omega, rfl, rfl, rfl, rfl, rfl⟩
  · intro h
    have hlt : ¬ M < n := by omega
    have hrd : archreader_read_data E ai n = (.success,
        ((ai.cache ++ ai.input.take M).drop ai.cacheread).take n,
        { (archreader_read_blocks E ai n).2 with
          cacheread := (archreader_read_blocks E ai n).2.cacheread + n }) := by
      unfold archreader_read_data
      simp only [hn0, if_false, hai]
      rw [hr, if_neg hlt]
      rfl
    rw [hrd, hr, if_neg hlt]
    refine ⟨?_, rfl, ?_⟩
    · show n ≤ (ai.cache ++ ai.input.take M).length - ai.cacheread
      rw [List.length_append, List.length_take]; omega
    · show ((ai.cache ++ ai.input.take M).drop ai.cacheread).take n = ai.pending.take n
      unfold Reader.pending
      rw [List.drop_append_of_le_length hwf]
      rw [List.take_append_eq_append_take, List.take_append_eq_append_take, List.take_take]
      congr 2
      rw [List.length_drop]; omega
  · intro h; omega

set_option maxRecDepth 100000 in
/-- Claim C31 (failing input): block device with 4-byte blocks holding the bytes
0..15, cache buffer of 12 bytes with nothing cached.  `archreader_read_data(2)`
reads one block and returns `0 1`; two bytes stay cached.
`archreader_read_data(6)` then misses 4 bytes, reads one block of 4 bytes
(`4 5 6 7`), finds `4 < 6` and returns `-1`: the six bytes asked for were at hand,
and the block just read is lost to the stream.  With 512-byte blocks the
same happens for a read of 600 bytes after a read of 2 bytes. -/
theorem read_blocks_whole_request_witness :
    (archreader_read_data tinyEnv (blockReader [] (List.range 16)) 2).1 = .success ∧
      (archreader_read_data tinyEnv (blockReader [] (List.range 16)) 2).2.1 = [0, 1] ∧
      (archreader_read_data tinyEnv (blockReader [] (List.range 16)) 2).2.2.pending
        = (List.range 16).drop 2 ∧
      round_up 4 (6 - 2) = 4 ∧
      (archreader_read_data tinyEnv
        (archreader_read_data tinyEnv (blockReader [] (List.range 16)) 2).2.2 6).1 = .neg1 ∧
      (archreader_read_data tinyEnv
        (archreader_read_data tinyEnv (blockReader [] (List.range 16)) 2).2.2 6).2.2.pending
        = [2, 3] ++ (List.range 16).drop 8 ∧
      (archreader_read_data tinyEnv
        (archreader_read_data tinyEnv
          { blockReader [] (List.replicate 1024 7) with devblocksize := 512 } 2).2.2 600).1
        = .neg1 :=
  ⟨by decide, by decide, by decide, by decide,
    ((read_blocks_whole_request tinyEnv
      (archreader_read_data tinyEnv (blockReader [] (List.range 16)) 2).2.2 6
      (by decide) (by decide) (by decide) (by decide) (by decide) (by decide)).2.1
        (by decide)).2.2.2.2.1,
    by decide, by decide⟩

/-! ## Remainder of the block writer -/

theorem create_tape_cache (E : Env) (ai : Writer) (w : World) :
    (create_tape E ai w).2.1.cache = ai.cache ∧
      (create_tape E ai w).2.1.cachesize = ai.cachesize := by
  unfold create_tape create_finish
  cases w.mt_blksize with
  | none => exact ⟨rfl, rfl⟩
  | some orig =>
    dsimp only
    split
    · split <;> exact ⟨rfl, rfl⟩
    · exact ⟨rfl, rfl⟩

theorem create_opened_cache (E : Env) (ai : Writer) (w : World) (st : Option FileType) :
    (create_opened E ai w st).2.1.cache = ai.cache ∧
      (create_opened E ai w st).2.1.cachesize = ai.cachesize := by
  unfold create_opened
  split
  · exact create_tape_cache E ai w
  · exact ⟨rfl, rfl⟩

theorem create_open_cache (E : Env) (ai : Writer) (w : World) (creat : Bool)
    (st : Option FileType) :
    (create_open E ai w creat st).2.1.cache = ai.cache ∧
      (create_open E ai w creat st).2.1.cachesize = ai.cachesize := by
  unfold create_open
  split
  · split
    · exact ⟨rfl, rfl⟩
    · exact create_opened_cache E _ _ _
  · exact create_opened_cache E _ _ _

/-- Function `archwriter_create` does not touch the cache buffer. -/
theorem create_cache (E : Env) (ai : Writer) (w : World) :
    (archwriter_create E ai w).2.1.cache = ai.cache ∧
      (archwriter_create E ai w).2.1.cachesize = ai.cachesize := by
  unfold archwriter_create
  split
  · exact ⟨rfl, rfl⟩
  · dsimp only
    split
    · exact ⟨rfl, rfl⟩
    · split
      all_goals first
        | exact ⟨rfl, rfl⟩
        | exact create_open_cache E _ _ _ _
        | (split
           · exact ⟨rfl, rfl⟩
           · split
             · exact ⟨rfl, rfl⟩
             · exact create_open_cache E _ _ _ _)

/-- A successful `archwriter_close` releases the cache buffer. -/
theorem close_cache (ai : Writer) (w : World) (h : (archwriter_close ai w).1 = .success) :
    (archwriter_close ai w).2.1.cache = [] ∧ (archwriter_close ai w).2.1.cachesize = 0 := by
  unfold archwriter_close at h ⊢
  by_cases h1 : ai.archfd < 0
  · rw [if_pos h1] at h; exact Ret.noConfusion h
  · by_cases h2 : ai.cache.length ≠ 0 ∧ ai.devblocksize < ai.cache.length
    · rw [if_neg h1, if_pos h2] at h; exact Ret.noConfusion h
    · simp only [h1, h2, if_false] at h ⊢
      generalize (if ai.cache.length ≠ 0 then
        sys_write w (ai.cache ++ List.replicate (ai.devblocksize - ai.cache.length) 0)
        else (ai.devblocksize, w)) = fl at h ⊢
      by_cases h3 : ai.cache.length ≠ 0 ∧ fl.1 ≠ ai.devblocksize
      · rw [if_pos h3] at h; exact Ret.noConfusion h
      · rw [if_neg h3]
        exact ⟨rfl, rfl⟩

/-- The capacity after `archwriter_precache`: unchanged, or a positive multiple
of `devblocksize` when the buffer is enlarged. -/
theorem wprecache_cachesize (E : Env) (ai : Writer) (size : Nat) :
    ((archwriter_precache E ai size).2.cachesize = ai.cachesize ∧
        ((archwriter_precache E ai size).1 = .success → ai.cache.length + size ≤ ai.cachesize)) ∨
      ((archwriter_precache E ai size).1 = .success ∧ 0 < ai.devblocksize ∧
        0 < (archwriter_precache E ai size).2.cachesize ∧
        (archwriter_precache E ai size).2.cachesize % ai.devblocksize = 0) := by
  by_cases h : ai.cache.length + size ≤ ai.cachesize
  · left
    simp [archwriter_precache, h]
  · by_cases h1 : E.datablocksize = 0 ∨ ai.devblocksize = 0
    · left
      simp [archwriter_precache, h, h1]
    · right
      have hdb : 0 < E.datablocksize := by omega
      have hd : 0 < ai.devblocksize := by omega
      rw [writer_precache_grow E ai size hdb hd (by omega)]
      obtain ⟨a1, a2, -⟩ := round_up_spec ai.devblocksize
        (round_up E.datablocksize (size + 1)) hd
      obtain ⟨-, b2, -⟩ := round_up_spec E.datablocksize (size + 1) hdb
      refine ⟨rfl, hd, ?_, ?_⟩
      · show 0 < spec_capacity _ _ _
        unfold spec_capacity; omega
      · show spec_capacity _ _ _ % _ = 0
        unfold spec_capacity
        exact Nat.mod_eq_zero_of_dvd a1

/-- One call of `archwriter_write_blocks`, on any device: the block size is kept,
a capacity that is a multiple of `devblocksize` stays one, and after a successful
call fewer than `devblocksize` bytes are pending, inside the buffer. -/
theorem write_blocks_remainder (E : Env) (ai : Writer) (w : World) (D : List Nat) :
    (archwriter_write_blocks E ai w D).2.1.devblocksize = ai.devblocksize ∧
      (ai.cachesize % ai.devblocksize = 0 →
        (archwriter_write_blocks E ai w D).2.1.cachesize % ai.devblocksize = 0) ∧
      ((archwriter_write_blocks E ai w D).1 = .success →
        0 < ai.devblocksize ∧
        (archwriter_write_blocks E ai w D).2.1.cache.length
          = (ai.cache.length + D.length) % ai.devblocksize ∧
        (archwriter_write_blocks E ai w D).2.1.cache.length < ai.devblocksize ∧
        (ai.cachesize % ai.devblocksize = 0 →
          (archwriter_write_blocks E ai w D).2.1.cache = [] ∨
            ai.devblocksize ≤ (archwriter_write_blocks E ai w D).2.1.cachesize)) := by
  obtain ⟨pc, pd, -, -, -⟩ := wprecache_fields E ai D.length
  have hcs := wprecache_cachesize E ai D.length
  have hmult : ai.cachesize % ai.devblocksize = 0 →
      (archwriter_precache E ai D.length).2.cachesize % ai.devblocksize = 0 := by
    intro h0
    rcases hcs with ⟨h1, -⟩ | ⟨-, -, -, h1⟩
    · rw [h1]; exact h0
    · exact h1
  have hbig : (archwriter_precache E ai D.length).1 = .success →
      ai.cachesize % ai.devblocksize = 0 → 0 < ai.devblocksize → 0 < ai.cache.length + D.length →
      ai.devblocksize ≤ (archwriter_precache E ai D.length).2.cachesize := by
    intro hs h0 hd hpos
    have hm := hmult h0
    have hposc : 0 < (archwriter_precache E ai D.length).2.cachesize := by
      rcases hcs with ⟨h1, h2⟩ | ⟨-, -, h1, -⟩
      · have := h2 hs; omega
      · exact h1
    exact Nat.le_of_dvd hposc (Nat.dvd_of_mod_eq_zero hm)
  unfold archwriter_write_blocks
  generalize archwriter_precache E ai D.length = p at pc pd hmult hbig
  dsimp only
  by_cases hp : p.1 = .success
  · simp only [hp, ne_eq, not_true_eq_false, if_false, pc, pd, List.length_append]
    by_cases hx : ai.devblocksize ≤ ai.cache.length + D.length
    · simp only [hx, if_true]
      by_cases hd0 : ai.devblocksize = 0
      · simp only [hd0, if_true]
        rw [hd0] at hmult
        exact ⟨trivial, hmult, fun h => Ret.noConfusion h⟩
      · have hd : 0 < ai.devblocksize := by omega
        have hmlt : (ai.cache.length + D.length) % ai.devblocksize < ai.devblocksize :=
          Nat.mod_lt _ hd
        have hmle : (ai.cache.length + D.length) % ai.devblocksize ≤ ai.cache.length + D.length :=
          Nat.mod_le _ _
        simp only [hd0, if_false]
        split
        · exact ⟨rfl, hmult, fun h => Ret.noConfusion h⟩
        · refine ⟨rfl, hmult, fun _ => ⟨hd, ?_, ?_, fun h0 => Or.inr (hbig hp h0 hd (by omega))⟩⟩
          · show (List.drop _ (ai.cache ++ D)).length = _
            rw [List.length_drop, List.length_append]; omega
          · show (List.drop _ (ai.cache ++ D)).length < _
            rw [List.length_drop, List.length_append]; omega
    · simp only [hx, if_false]
      have hd : 0 < ai.devblocksize := by omega
      have hm : (ai.cache.length + D.length) % ai.devblocksize = ai.cache.length + D.length :=
        Nat.mod_eq_of_lt (by omega)
      refine ⟨trivial, hmult, fun _ => ⟨hd, ?_, ?_, fun h0 => ?_⟩⟩
      · show (ai.cache ++ D).length = _
        rw [hm, List.length_append]
      · show (ai.cache ++ D).length < _
        rw [List.length_append]; omega
      · by_cases he : ai.cache.length + D.length = 0
        · left
          show ai.cache ++ D = []
          apply List.eq_nil_of_length_eq_zero
          rw [List.length_append]; exact he
        · exact Or.inr (hbig hp h0 hd (by omega))
  · simp only [hp, ne_eq, not_false_eq_true, if_true]
    exact ⟨pd, hmult, fun h => absurd h (Ret.fail_ne_success _ _ hp (by decide))⟩


/-- A sequence of `archwriter_write_blocks` calls keeps the remainder invariant. -/
theorem write_blocks_seq_remainder (E : Env) (Ds : List (List Nat)) :
    ∀ (ai : Writer) (w : World),
      (write_blocks_seq E ai w Ds).2.1.devblocksize = ai.devblocksize ∧
        (ai.cachesize % ai.devblocksize = 0 →
          (write_blocks_seq E ai w Ds).2.1.cachesize % ai.devblocksize = 0) ∧
        ((write_blocks_seq E ai w Ds).1 = .success → ai.cache.length < ai.devblocksize →
          ai.cachesize % ai.devblocksize = 0 → (ai.cache = [] ∨ ai.devblocksize ≤ ai.cachesize) →
          (write_blocks_seq E ai w Ds).2.1.cache.length < ai.devblocksize ∧
            ((write_blocks_seq E ai w Ds).2.1.cache = [] ∨
              ai.devblocksize ≤ (write_blocks_seq E ai w Ds).2.1.cachesize)) := by
  induction Ds with
  | nil =>
    intro ai w
    exact ⟨rfl, fun h => h, fun _ h1 _ h3 => ⟨h1, h3⟩⟩
  | cons D Ds ih =>
    intro ai w
    obtain ⟨s1, s2, s3⟩ := write_blocks_remainder E ai w D
    by_cases hr : (archwriter_write_blocks E ai w D).1 = .success
    · obtain ⟨i1, i2, i3⟩ := ih (archwriter_write_blocks E ai w D).2.1
        (archwriter_write_blocks E ai w D).2.2
      rw [s1] at i1 i2 i3
      obtain ⟨-, -, c3, c4⟩ := s3 hr
      simp only [write_blocks_seq, hr, ne_eq, not_true_eq_false, if_false]
      exact ⟨i1, fun h => i2 (s2 h), fun h _ h2 _ => i3 h c3 (s2 h2) (c4 h2)⟩
    · simp only [write_blocks_seq, hr, ne_eq, not_false_eq_true, if_true]
      exact ⟨s1, s2, fun h => h.elim⟩

/-- Function `archwriter_close` on an open descriptor with fewer than
`devblocksize` bytes pending: no negative fill length, and the bytes handed to
`write` are the pending bytes followed by `devblocksize - pending > 0` zeros. -/
theorem close_remainder (ai : Writer) (w : World) (hfd : 0 ≤ ai.archfd)
    (hlt : ai.cache.length < ai.devblocksize) :
    (archwriter_close ai w).1 ≠ .crash ∧
      (ai.cache ≠ [] →
        0 < ai.devblocksize - ai.cache.length ∧
        (ai.cache ++ List.replicate (ai.devblocksize - ai.cache.length) 0).length
          = ai.devblocksize ∧
        ∃ evs, (archwriter_close ai w).2.2.trace
          = (sys_write w
              (ai.cache ++ List.replicate (ai.devblocksize - ai.cache.length) 0)).2.trace ++ evs) ∧
      (ai.cache = [] →
        ∃ evs, (archwriter_close ai w).2.2.trace = w.trace ++ evs ∧ writes evs = []) := by
  have h1 : ¬ ai.archfd < 0 := by omega
  have h2 : ¬ (ai.cache.length ≠ 0 ∧ ai.devblocksize < ai.cache.length) := by omega
  have hlen : (ai.cache ++ List.replicate (ai.devblocksize - ai.cache.length) 0).length
      = ai.devblocksize := by
    rw [List.length_append, List.length_replicate]; omega
  unfold archwriter_close
  simp only [h1, h2, if_false]
  refine ⟨?_, ?_, ?_⟩
  · generalize (if ai.cache.length ≠ 0 then
      sys_write w (ai.cache ++ List.replicate (ai.devblocksize - ai.cache.length) 0)
      else (ai.devblocksize, w)) = fl
    by_cases h3 : ai.cache.length ≠ 0 ∧ fl.1 ≠ ai.devblocksize
    · rw [if_pos h3]; intro h; exact Ret.noConfusion h
    · rw [if_neg h3]; intro h; exact Ret.noConfusion h
  · intro hne
    have h3 : ai.cache.length ≠ 0 := fun h => hne (List.eq_nil_of_length_eq_zero h)
    refine ⟨by omega, hlen, ?_⟩
    simp only [h3, ne_eq, not_false_eq_true, if_true, true_and]
    split
    · exact ⟨[], by simp⟩
    · split
      · exact ⟨[.ev_fsync, .ev_setblk ai.originaltapeblocksize.toNat, .ev_close],
          by simp [World.log]⟩
      · exact ⟨[.ev_fsync, .ev_close], by simp [World.log]⟩
  · intro he
    have h3 : ai.cache.length = 0 := by rw [he]; rfl
    simp only [h3, ne_eq, not_true_eq_false, if_false, false_and]
    split
    · exact ⟨[.ev_fsync, .ev_setblk ai.originaltapeblocksize.toNat, .ev_close],
        by simp [World.log], by simp [writes]⟩
    · exact ⟨[.ev_fsync, .ev_close], by simp [World.log], by simp [writes]⟩

/-- Claim C32: remainder invariant of the block writer.  `archwriter_init` leaves
no cache buffer, `archwriter_create` does not touch it and a successful
`archwriter_close` releases it, so after `archwriter_create` nothing is pending
and `cachesize` is 0.  Every call of `archwriter_write_blocks` keeps
`devblocksize` and keeps `cachesize` a multiple of it; a successful call has
`devblocksize = d > 0` and leaves `(pending + size) % d < d` bytes pending, inside
a buffer of at least `d` bytes when any are pending.  The same holds after every
sequence of successful calls.  Hence at `archwriter_close` on such a state the
zero-fill length `d - pending` is positive, the bytes handed to `write` are the
pending bytes followed by the zeros, `d` bytes in all, inside the buffer. -/
theorem block_writer_remainder (E : Env) (ai : Writer) (w : World) (D : List Nat)
    (Ds : List (List Nat)) (basepath volpath : String) :
    ((archwriter_init basepath volpath).cache = [] ∧
      (archwriter_init basepath volpath).cachesize = 0) ∧
    ((archwriter_create E ai w).2.1.cache = ai.cache ∧
      (archwriter_create E ai w).2.1.cachesize = ai.cachesize) ∧
    ((archwriter_close ai w).1 = .success →
      (archwriter_close ai w).2.1.cache = [] ∧ (archwriter_close ai w).2.1.cachesize = 0) ∧
    ((archwriter_create E (archwriter_init basepath volpath) w).2.1.cache.length = 0 ∧
      (archwriter_create E (archwriter_init basepath volpath) w).2.1.cachesize = 0) ∧
    ((archwriter_write_blocks E ai w D).2.1.devblocksize = ai.devblocksize ∧
      (ai.cachesize % ai.devblocksize = 0 →
        (archwriter_write_blocks E ai w D).2.1.cachesize % ai.devblocksize = 0)) ∧
    ((archwriter_write_blocks E ai w D).1 = .success →
      0 < ai.devblocksize ∧
      (archwriter_write_blocks E ai w D).2.1.cache.length
        = (ai.cache.length + D.length) % ai.devblocksize ∧
      (archwriter_write_blocks E ai w D).2.1.cache.length < ai.devblocksize ∧
      (ai.cachesize % ai.devblocksize = 0 →
        (archwriter_write_blocks E ai w D).2.1.cache = [] ∨
          ai.devblocksize ≤ (archwriter_write_blocks E ai w D).2.1.cachesize)) ∧
    ((write_blocks_seq E ai w Ds).1 = .success → ai.cache.length < ai.devblocksize →
      ai.cachesize % ai.devblocksize = 0 → (ai.cache = [] ∨ ai.devblocksize ≤ ai.cachesize) →
      (write_blocks_seq E ai w Ds).2.1.devblocksize = ai.devblocksize ∧
      (write_blocks_seq E ai w Ds).2.1.cache.length < ai.devblocksize ∧
      (write_blocks_seq E ai w Ds).2.1.cachesize % ai.devblocksize = 0 ∧
      ((write_blocks_seq E ai w Ds).2.1.cache = [] ∨
        ai.devblocksize ≤ (write_blocks_seq E ai w Ds).2.1.cachesize)) ∧
    (0 ≤ ai.archfd → ai.cache.length < ai.devblocksize →
      (archwriter_close ai w).1 ≠ .crash ∧
      (ai.cache ≠ [] →
        0 < ai.devblocksize - ai.cache.length ∧
        (ai.cache ++ List.replicate (ai.devblocksize - ai.cache.length) 0).length
          = ai.devblocksize ∧
        ∃ evs, (archwriter_close ai w).2.2.trace
          = (sys_write w
              (ai.cache ++ List.replicate (ai.devblocksize - ai.cache.length) 0)).2.trace ++ evs) ∧
      (ai.cache = [] →
        ∃ evs, (archwriter_close ai w).2.2.trace = w.trace ++ evs ∧ writes evs = [])) := by
  obtain ⟨c1, c2⟩ := create_cache E (archwriter_init basepath volpath) w
  obtain ⟨s1, s2, s3⟩ := write_blocks_remainder E ai w D
  obtain ⟨q1, q2, q3⟩ := write_blocks_seq_remainder E Ds ai w
  refine ⟨⟨rfl, rfl⟩, create_cache E ai w, close_cache ai w, ⟨?_, ?_⟩, ⟨s1, s2⟩, s3, ?_,
    close_remainder ai w⟩
  · rw [c1]; rfl
  · rw [c2]; rfl
  · intro h a b c
    obtain ⟨r1, r2⟩ := q3 h a b c
    exact ⟨q1, r1, q2 b, r2⟩

set_option maxRecDepth 100000 in
/-- Claim C32 (witness): block device with 4-byte blocks and data blocks of 8
bytes.  `archwriter_create` after `archwriter_init` gives a writer with nothing
pending; buffers of 3, 6 and 1 bytes leave 3, 1 and 2 bytes pending in a buffer
of 8 bytes; `archwriter_close` then writes `9 10 0 0`. -/
theorem block_writer_remainder_witness :
    (archwriter_create tinyEnv (archwriter_init "dev" "dev") blockWorld).1 = .success ∧
      (archwriter_create tinyEnv (archwriter_init "dev" "dev") blockWorld).2.1 = tinyWriter ∧
      (write_blocks_seq tinyEnv tinyWriter blockWorld
        [[1, 2, 3], [4, 5, 6, 7, 8, 9], [10]]).1 = .success ∧
      (write_blocks_seq tinyEnv tinyWriter blockWorld
        [[1, 2, 3], [4, 5, 6, 7, 8, 9], [10]]).2.1.cache = [9, 10] ∧
      ((write_blocks_seq tinyEnv tinyWriter blockWorld
          [[1, 2, 3], [4, 5, 6, 7, 8, 9], [10]]).2.1.devblocksize = tinyWriter.devblocksize ∧
        (write_blocks_seq tinyEnv tinyWriter blockWorld
          [[1, 2, 3], [4, 5, 6, 7, 8, 9], [10]]).2.1.cache.length < tinyWriter.devblocksize ∧
        (write_blocks_seq tinyEnv tinyWriter blockWorld
          [[1, 2, 3], [4, 5, 6, 7, 8, 9], [10]]).2.1.cachesize % tinyWriter.devblocksize = 0 ∧
        ((write_blocks_seq tinyEnv tinyWriter blockWorld
            [[1, 2, 3], [4, 5, 6, 7, 8, 9], [10]]).2.1.cache = [] ∨
          tinyWriter.devblocksize ≤ (write_blocks_seq tinyEnv tinyWriter blockWorld
            [[1, 2, 3], [4, 5, 6, 7, 8, 9], [10]]).2.1.cachesize)) ∧
      (write_blocks_seq tinyEnv tinyWriter blockWorld
        [[1, 2, 3], [4, 5, 6, 7, 8, 9], [10]]).2.1.cachesize = 8 ∧
      writes (blocks_session tinyEnv tinyWriter blockWorld
        [[1, 2, 3], [4, 5, 6, 7, 8, 9], [10]]).2.2.trace
        = [[1, 2, 3, 4, 5, 6, 7, 8], [9, 10, 0, 0]] :=
  ⟨by decide, by decide, by decide, by decide,
    (block_writer_remainder tinyEnv tinyWriter blockWorld [] [[1, 2, 3], [4, 5, 6, 7, 8, 9], [10]]
      "dev" "dev").2.2.2.2.2.2.1 (by decide) (by decide) (by decide) (by decide),
    by decide, by decide⟩

/-! ## Unreads issued inside the reader -/

theorem ai_read_cacheread (E : Env) (ai : Reader) (n : Nat) :
    (ai_read E ai n).2.cacheread = ai.cacheread := by
  unfold ai_read
  cases hk : ai.read <;> simp only
  · unfold archreader_read_regular
    dsimp only
    repeat' split
    all_goals first
      | rfl
      | exact (precache_fields E ai _).2.1
  · unfold archreader_read_select
    dsimp only
    repeat' split
    all_goals first
      | rfl
      | exact (precache_fields E ai _).2.1
  · unfold archreader_read_blocks
    dsimp only
    repeat' split
    all_goals first
      | rfl
      | exact (precache_fields E ai _).2.1

/-- After a successful `archreader_read_data(n)`, on any transport and from any
state, the read pointer stands `n` bytes further from the start of the buffer. -/
theorem read_data_cacheread (E : Env) (ai : Reader) (n : Nat)
    (h : (archreader_read_data E ai n).1 = .success) :
    (archreader_read_data E ai n).2.2.cacheread = ai.cacheread + n := by
  unfold archreader_read_data at h ⊢
  by_cases h0 : n = 0
  · simp [h0]
  · simp only [h0, if_false] at h ⊢
    by_cases hr : (ai_read E ai n).1 = .success
    · simp only [hr, ne_eq, not_true_eq_false, if_false]
      show (ai_read E ai n).2.cacheread + n = _
      rw [ai_read_cacheread]
    · simp only [hr, ne_eq, not_false_eq_true, if_true] at h
      exact absurd h (Ret.fail_ne_success _ _ hr (by decide))

theorem fmt_version_cacheread (ai : Reader) (volhead : List Nat) :
    (archreader_fmt_version ai volhead).2.cacheread = ai.cacheread := by
  unfold archreader_fmt_version
  dsimp only
  repeat' split
  all_goals rfl

/-- Function `archreader_unread` takes its error branch exactly when more bytes
are requested than lie before the read pointer. -/
theorem unread_ret (ai : Reader) (k : Nat) :
    ((archreader_unread ai k).1 = .success ↔ k ≤ ai.cacheread) ∧
      ((archreader_unread ai k).1 = .neg1 ↔ ai.cacheread < k) := by
  unfold archreader_unread
  by_cases h : ai.cacheread < k
  · rw [if_pos h]
    exact ⟨⟨fun h1 => Ret.noConfusion h1, fun h1 => by omega⟩, fun _ => h, fun _ => rfl⟩
  · rw [if_neg h]
    constructor
    · constructor
      · intro _; omega
      · intro _; dsimp only; split <;> rfl
    · constructor
      · intro h1; dsimp only at h1; split at h1 <;> exact Ret.noConfusion h1
      · intro h1; exact absurd h1 h


/-- One pass of the loops of `archreader_read_header`, with a window of at least
3 bytes and at most `FSA_CACHE_HEADER` bytes to unread after an accepted probe:
none of the three tests `archreader_unread(...) != FSAERR_SUCCESS` fires, so the
pass is the pass without them. -/
theorem scan_pass (E : Env) (readvol : Bool) (fuel : Nat) (ai : Reader) (readsize unread : Nat)
    (h3 : 3 ≤ readsize) (hu : unread ≤ E.FSA_CACHE_HEADER) :
    scan_loops E readvol (fuel + 1) ai readsize unread =
      (let r := archreader_read_data E ai readsize
      if r.1 ≠ .success then some (r.1.fail .fatal, r.2.2)
      else
        match find_magic E r.2.1 readsize with
        | none =>
          scan_loops E readvol fuel (archreader_unread r.2.2 (FSA_SIZEOF_MAGIC - 1)).2
            E.FSA_CACHE_HEADER unread
        | some k =>
          let u := archreader_unread r.2.2 (readsize - (k + 1) + 1)
          if readvol then
            let v := archreader_read_data E u.2 E.FSA_CACHE_HEADER
            if v.1 ≠ .success then some (v.1.fail .fatal, v.2.2)
            else
              let f := archreader_fmt_version v.2.2 v.2.1
              if f.1 ≠ .success then
                scan_loops E readvol fuel
                  (archreader_unread f.2 (E.FSA_CACHE_HEADER - FSA_SIZEOF_MAGIC)).2
                  E.FSA_CACHE_HEADER (E.FSA_CACHE_HEADER - FSA_SIZEOF_MAGIC)
              else some (.success, (archreader_unread f.2 unread).2)
          else some (.success, u.2)) := by
  have e3 : FSA_SIZEOF_MAGIC - 1 = 3 := rfl
  rw [scan_loops]
  dsimp only
  by_cases hr : (archreader_read_data E ai readsize).1 = .success
  · have hc := read_data_cacheread E ai readsize hr
    simp only [hr, ne_eq, not_true_eq_false, if_false]
    cases hf : find_magic E (archreader_read_data E ai readsize).2.1 readsize with
    | none =>
      have hu1 : (archreader_unread (archreader_read_data E ai readsize).2.2
          (FSA_SIZEOF_MAGIC - 1)).1 = .success :=
        (unread_ret _ _).1.2 (by rw [hc, e3]; omega)
      simp only [hu1, not_true_eq_false, if_false]
    | some k =>
      have hu1 : (archreader_unread (archreader_read_data E ai readsize).2.2
          (readsize - (k + 1) + 1)).1 = .success :=
        (unread_ret _ _).1.2 (by rw [hc]; omega)
      simp only [hu1, not_true_eq_false, if_false]
      by_cases hv : readvol = true
      · simp only [hv, if_true]
        by_cases hr2 : (archreader_read_data E
            (archreader_unread (archreader_read_data E ai readsize).2.2
              (readsize - (k + 1) + 1)).2 E.FSA_CACHE_HEADER).1 = .success
        · have hc2 := read_data_cacheread E _ _ hr2
          have hc3 := fmt_version_cacheread
            (archreader_read_data E
              (archreader_unread (archreader_read_data E ai readsize).2.2
                (readsize - (k + 1) + 1)).2 E.FSA_CACHE_HEADER).2.2
            (archreader_read_data E
              (archreader_unread (archreader_read_data E ai readsize).2.2
                (readsize - (k + 1) + 1)).2 E.FSA_CACHE_HEADER).2.1
          simp only [hr2, not_true_eq_false, if_false]
          by_cases hfm : (archreader_fmt_version
              (archreader_read_data E
                (archreader_unread (archreader_read_data E ai readsize).2.2
                  (readsize - (k + 1) + 1)).2 E.FSA_CACHE_HEADER).2.2
              (archreader_read_data E
                (archreader_unread (archreader_read_data E ai readsize).2.2
                  (readsize - (k + 1) + 1)).2 E.FSA_CACHE_HEADER).2.1).1 = .success
          · have hu2 := (unread_ret (archreader_fmt_version
              (archreader_read_data E
                (archreader_unread (archreader_read_data E ai readsize).2.2
                  (readsize - (k + 1) + 1)).2 E.FSA_CACHE_HEADER).2.2
              (archreader_read_data E
                (archreader_unread (archreader_read_data E ai readsize).2.2
                  (readsize - (k + 1) + 1)).2 E.FSA_CACHE_HEADER).2.1).2 unread).1.2
              (by rw [hc3, hc2]; omega)
            simp only [hfm, hu2, not_true_eq_false, if_false]
          · have hu2 := (unread_ret (archreader_fmt_version
              (archreader_read_data E
                (archreader_unread (archreader_read_data E ai readsize).2.2
                  (readsize - (k + 1) + 1)).2 E.FSA_CACHE_HEADER).2.2
              (archreader_read_data E
                (archreader_unread (archreader_read_data E ai readsize).2.2
                  (readsize - (k + 1) + 1)).2 E.FSA_CACHE_HEADER).2.1).2
              (E.FSA_CACHE_HEADER - FSA_SIZEOF_MAGIC)).1.2
              (by rw [hc3, hc2]; omega)
            simp only [hfm, hu2, not_true_eq_false, not_false_eq_true, if_false, if_true]
        · simp only [hr2, not_false_eq_true, if_true]
      · simp only [hv, if_false, Bool.false_eq_true]
  · simp only [hr, ne_eq, not_false_eq_true, if_true]

theorem fail_neg1_ne_enomem (r : Ret) : r.fail .neg1 ≠ .enomem := by
  unfold Ret.fail
  split
  · rename_i h
    rcases h with h | h <;> rw [h] <;> intro h1 <;> exact Ret.noConfusion h1
  · intro h1; exact Ret.noConfusion h1

/-- Function `archreader_read_block` never returns through the branch taken when
`archreader_unread` fails after a checksum mismatch. -/
theorem read_block_ne_enomem (E : Env) (ai : Reader) (d : cdico) (skip : Bool) :
    (archreader_read_block E ai d skip).1 ≠ .enomem := by
  unfold archreader_read_block
  repeat' split
  all_goals first
    | (intro h; exact Ret.noConfusion h)
    | skip
  · dsimp only
    split
    · exact fail_neg1_ne_enomem _
    · intro h; exact Ret.noConfusion h
  · rename_i fs _ _ _ _ _ _ _ _
    dsimp only
    by_cases hr : (archreader_read_data E ai fs).1 = .success
    · have hu := (unread_ret (archreader_read_data E ai fs).2.2 fs).1.2
        (by rw [read_data_cacheread E ai fs hr]; omega)
      simp only [hr, hu, archreader_reset_block, ne_eq, not_true_eq_false, if_false]
      split <;> (intro h; exact Ret.noConfusion h)
    · simp only [hr, ne_eq, not_false_eq_true, if_true]
      exact fail_neg1_ne_enomem _


/-- Claim C33: every unread issued internally satisfies its precondition.
`archreader_unread(k)` takes its error branch exactly when `k` exceeds
`cacheread - cache`, and after a successful `archreader_read_data(n)`, from any
state and on any transport, `cacheread - cache` has grown by `n`, so any unread of
at most `n` bytes succeeds.  In the loops of `archreader_read_header`, where
`readsize` is `FSA_SIZEOF_MAGIC` or `FSA_CACHE_HEADER` (at least 3) and `unread` is
`FSA_CACHE_HEADER` or `FSA_CACHE_HEADER - FSA_SIZEOF_MAGIC`, the counts
`FSA_SIZEOF_MAGIC - 1` and `readsize - i + 1` after the scan read, and `unread` and
`FSA_CACHE_HEADER - FSA_SIZEOF_MAGIC` after the probe read, are at most
`cacheread - cache`; one pass of the loops therefore equals the pass without the
three error tests, and it hands the same kind of `readsize` and `unread` to the
next pass.  `archreader_read_block` never returns through the failure branch of
its unread. -/
theorem internal_unread_ok (E : Env) (ai : Reader) (readvol : Bool)
    (fuel readsize unread n : Nat) (d : cdico) (skip : Bool)
    (h3 : 3 ≤ E.FSA_CACHE_HEADER)
    (hr : readsize = FSA_SIZEOF_MAGIC ∨ readsize = E.FSA_CACHE_HEADER)
    (hu : unread = E.FSA_CACHE_HEADER ∨ unread = E.FSA_CACHE_HEADER - FSA_SIZEOF_MAGIC) :
    (∀ k, (archreader_unread ai k).1 = .neg1 ↔ ai.cacheread < k) ∧
    ((archreader_read_data E ai n).1 = .success →
      (archreader_read_data E ai n).2.2.cacheread = ai.cacheread + n ∧
      ∀ k, k ≤ n → (archreader_unread (archreader_read_data E ai n).2.2 k).1 = .success) ∧
    ((archreader_read_data E ai readsize).1 = .success →
      FSA_SIZEOF_MAGIC - 1 ≤ (archreader_read_data E ai readsize).2.2.cacheread ∧
      ∀ k, find_magic E (archreader_read_data E ai readsize).2.1 readsize = some k →
        readsize - (k + 1) + 1 ≤ (archreader_read_data E ai readsize).2.2.cacheread) ∧
    ((archreader_read_data E ai E.FSA_CACHE_HEADER).1 = .success →
      unread ≤ (archreader_fmt_version (archreader_read_data E ai E.FSA_CACHE_HEADER).2.2
        (archreader_read_data E ai E.FSA_CACHE_HEADER).2.1).2.cacheread ∧
      E.FSA_CACHE_HEADER - FSA_SIZEOF_MAGIC ≤
        (archreader_fmt_version (archreader_read_data E ai E.FSA_CACHE_HEADER).2.2
          (archreader_read_data E ai E.FSA_CACHE_HEADER).2.1).2.cacheread) ∧
    scan_loops E readvol (fuel + 1) ai readsize unread =
      (let r := archreader_read_data E ai readsize
      if r.1 ≠ .success then some (r.1.fail .fatal, r.2.2)
      else
        match find_magic E r.2.1 readsize with
        | none =>
          scan_loops E readvol fuel (archreader_unread r.2.2 (FSA_SIZEOF_MAGIC - 1)).2
            E.FSA_CACHE_HEADER unread
        | some k =>
          let u := archreader_unread r.2.2 (readsize - (k + 1) + 1)
          if readvol then
            let v := archreader_read_data E u.2 E.FSA_CACHE_HEADER
            if v.1 ≠ .success then some (v.1.fail .fatal, v.2.2)
            else
              let f := archreader_fmt_version v.2.2 v.2.1
              if f.1 ≠ .success then
                scan_loops E readvol fuel
                  (archreader_unread f.2 (E.FSA_CACHE_HEADER - FSA_SIZEOF_MAGIC)).2
                  E.FSA_CACHE_HEADER (E.FSA_CACHE_HEADER - FSA_SIZEOF_MAGIC)
              else some (.success, (archreader_unread f.2 unread).2)
          else some (.success, u.2)) ∧
    (archreader_read_block E ai d skip).1 ≠ .enomem := by
  have e4 : FSA_SIZEOF_MAGIC = 4 := rfl
  have hr3 : 3 ≤ readsize := by rcases hr with h | h <;> omega
  have huH : unread ≤ E.FSA_CACHE_HEADER := by rcases hu with h | h <;> omega
  refine ⟨fun k => (unread_ret ai k).2, ?_, ?_, ?_, scan_pass E readvol fuel ai readsize unread hr3 huH,
    read_block_ne_enomem E ai d skip⟩
  · intro h
    have hc := read_data_cacheread E ai n h
    exact ⟨hc, fun k hk => (unread_ret _ k).1.2 (by rw [hc]; omega)⟩
  · intro h
    have hc := read_data_cacheread E ai readsize h
    rw [hc]
    exact ⟨by omega, fun k _ => by omega⟩
  · intro h
    have hc := read_data_cacheread E ai E.FSA_CACHE_HEADER h
    rw [fmt_version_cacheread, hc]
    exact ⟨by omega, by omega⟩

set_option maxRecDepth 100000 in
/-- Claim C33 (witness): the scan of `stale_stream` with 64-byte windows.  The
first read of 4 bytes finds the magic `FsAE` at window position 0 and unreads
`4 - 1 + 1 = 4` bytes of the 4 consumed; the probe read of 64 bytes is rejected
and 60 of its 64 bytes are unread; the scan ends with code 0. -/
theorem internal_unread_ok_witness :
    (archreader_read_data sampleEnv (sampleReader 0 stale_stream) 4).1 = .success ∧
      find_magic sampleEnv (archreader_read_data sampleEnv (sampleReader 0 stale_stream) 4).2.1 4
        = some 0 ∧
      (archreader_read_data sampleEnv (sampleReader 0 stale_stream) 4).2.2.cacheread = 4 ∧
      4 - (0 + 1) + 1 ≤ (archreader_read_data sampleEnv (sampleReader 0 stale_stream) 4).2.2.cacheread ∧
      (scan_loops sampleEnv true 3 (sampleReader 0 stale_stream) 4 64).map Prod.fst
        = some .success :=
  ⟨by decide, by decide, by decide,
    ((internal_unread_ok sampleEnv (sampleReader 0 stale_stream) true 2 4 64 0 [] false
      (by decide) (Or.inl rfl) (Or.inl rfl)).2.2.1 (by decide)).2 0 (by decide),
    by decide⟩

/-! ## Termination of the magic scan -/

theorem conf_devblocksize (a b : Reader) (h : a.conf = b.conf) :
    a.devblocksize = b.devblocksize := by
  have := congrArg (fun c => c.2.2.2.2.2.2.2) h
  exact this

theorem fmt_version_fields (ai : Reader) (volhead : List Nat) :
    (archreader_fmt_version ai volhead).2.cache = ai.cache ∧
      (archreader_fmt_version ai volhead).2.cacheread = ai.cacheread ∧
      (archreader_fmt_version ai volhead).2.input = ai.input ∧
      (archreader_fmt_version ai volhead).2.devblocksize = ai.devblocksize := by
  unfold archreader_fmt_version
  dsimp only
  repeat' split
  all_goals exact ⟨rfl, rfl, rfl, rfl⟩

/-- The codes of `archreader_precache`. -/
theorem precache_codes (E : Env) (ai : Reader) (size : Nat) :
    ((archreader_precache E ai size).1 = .success ∨ (archreader_precache E ai size).1 = .crash) ∧
      (0 < E.datablocksize → 0 < ai.devblocksize →
        (archreader_precache E ai size).1 = .success) := by
  unfold archreader_precache
  split
  · exact ⟨Or.inl rfl, fun _ _ => rfl⟩
  · split
    · rename_i h
      exact ⟨Or.inr rfl, fun h1 h2 => by omega⟩
    · exact ⟨Or.inl rfl, fun _ _ => rfl⟩

theorem fail_neg1_codes (r : Ret) (h : r = .success ∨ r = .crash) (hne : r ≠ .success) :
    r.fail .neg1 = .crash ∧ r = .crash := by
  rcases h with h | h
  · exact absurd h hne
  · rw [h]; exact ⟨rfl, rfl⟩

/-- The codes of the transport reads: 0, `-1`, or a crash (division by a zero
block size), the last only when a block size is zero. -/
theorem ai_read_codes (E : Env) (ai : Reader) (n : Nat) :
    ((ai_read E ai n).1 = .success ∨ (ai_read E ai n).1 = .neg1 ∨ (ai_read E ai n).1 = .crash) ∧
      (0 < E.datablocksize → 0 < ai.devblocksize → (ai_read E ai n).1 ≠ .crash) := by
  have key : ∀ size, ((archreader_precache E ai size).1 ≠ .success →
      (archreader_precache E ai size).1.fail .neg1 = .crash) ∧
      (0 < E.datablocksize → 0 < ai.devblocksize →
        (archreader_precache E ai size).1 = .success) := fun size =>
    ⟨fun hne => (fail_neg1_codes _ (precache_codes E ai size).1 hne).1,
      (precache_codes E ai size).2⟩
  unfold ai_read
  cases hk : ai.read <;> simp only
  · unfold archreader_read_regular
    dsimp only
    split
    · exact ⟨Or.inl rfl, fun _ _ h => Ret.noConfusion h⟩
    · split
      · rename_i hp
        exact ⟨Or.inr (Or.inr ((key _).1 hp)), fun h1 h2 => absurd ((key _).2 h1 h2) hp⟩
      · split
        · exact ⟨Or.inr (Or.inl rfl), fun _ _ h => Ret.noConfusion h⟩
        · exact ⟨Or.inl rfl, fun _ _ h => Ret.noConfusion h⟩
  · unfold archreader_read_select
    dsimp only
    split
    · exact ⟨Or.inl rfl, fun _ _ h => Ret.noConfusion h⟩
    · split
      · rename_i hp
        exact ⟨Or.inr (Or.inr ((key _).1 hp)), fun h1 h2 => absurd ((key _).2 h1 h2) hp⟩
      · split
        · exact ⟨Or.inr (Or.inl rfl), fun _ _ h => Ret.noConfusion h⟩
        · split
          · exact ⟨Or.inr (Or.inl rfl), fun _ _ h => Ret.noConfusion h⟩
          · exact ⟨Or.inl rfl, fun _ _ h => Ret.noConfusion h⟩
  · unfold archreader_read_blocks
    dsimp only
    split
    · exact ⟨Or.inl rfl, fun _ _ h => Ret.noConfusion h⟩
    · split
      · rename_i hd
        exact ⟨Or.inr (Or.inr rfl), fun _ h2 => by omega⟩
      · generalize (if (missing ai n).toNat % ai.devblocksize = 0 then (missing ai n).toNat
            else (missing ai n).toNat + (ai.devblocksize - (missing ai n).toNat % ai.devblocksize))
          = M
        split
        · rename_i hp
          exact ⟨Or.inr (Or.inr ((key _).1 hp)), fun h1 h2 => absurd ((key _).2 h1 h2) hp⟩
        · split
          · exact ⟨Or.inr (Or.inl rfl), fun _ _ h => Ret.noConfusion h⟩
          · exact ⟨Or.inl rfl, fun _ _ h => Ret.noConfusion h⟩

/-- The codes of `archreader_read_data`. -/
theorem read_data_codes (E : Env) (ai : Reader) (n : Nat) :
    ((archreader_read_data E ai n).1 = .success ∨ (archreader_read_data E ai n).1 = .neg1 ∨
        (archreader_read_data E ai n).1 = .crash) ∧
      (0 < E.datablocksize → 0 < ai.devblocksize → (archreader_read_data E ai n).1 ≠ .crash) := by
  obtain ⟨h1, h2⟩ := ai_read_codes E ai n
  unfold archreader_read_data
  split
  · exact ⟨Or.inl rfl, fun _ _ h => Ret.noConfusion h⟩
  · dsimp only
    split
    · rename_i hne
      rcases h1 with h | h | h
      · exact absurd h hne
      · rw [h]; exact ⟨Or.inr (Or.inl rfl), fun _ _ h => Ret.noConfusion h⟩
      · rw [h]; exact ⟨Or.inr (Or.inr rfl), fun a b => absurd h (h2 a b)⟩
    · exact ⟨Or.inl rfl, fun _ _ h => Ret.noConfusion h⟩

/-- A failed read inside the scan gives the fatal code, or a crash when a block
size is zero. -/
theorem scan_read_failed (E : Env) (ai : Reader) (n : Nat)
    (h : (archreader_read_data E ai n).1 ≠ .success) :
    ((archreader_read_data E ai n).1.fail .fatal = .fatal ∨
        (archreader_read_data E ai n).1.fail .fatal = .crash) ∧
      (0 < E.datablocksize → 0 < ai.devblocksize →
        (archreader_read_data E ai n).1.fail .fatal ≠ .crash) := by
  obtain ⟨h1, h2⟩ := read_data_codes E ai n
  rcases h1 with h1 | h1 | h1
  · exact absurd h1 h
  · rw [h1]; exact ⟨Or.inl rfl, fun _ _ h => Ret.noConfusion h⟩
  · rw [h1]; exact ⟨Or.inr rfl, fun a b => absurd h1 (h2 a b)⟩

/-- Reading `n` bytes and unreading `j ≤ n` of them, on any transport, leaves the
logical read position `n - j` bytes further. -/
theorem read_unread_pending (E : Env) (ai : Reader) (n j : Nat)
    (hwf : ai.cacheread ≤ ai.cache.length)
    (hr : (archreader_read_data E ai n).1 = .success) (hj : j ≤ n) :
    (archreader_unread (archreader_read_data E ai n).2.2 j).1 = .success ∧
      (archreader_unread (archreader_read_data E ai n).2.2 j).2.pending
        = ai.pending.drop (n - j) ∧
      (archreader_unread (archreader_read_data E ai n).2.2 j).2.cacheread
        ≤ (archreader_unread (archreader_read_data E ai n).2.2 j).2.cache.length ∧
      (archreader_unread (archreader_read_data E ai n).2.2 j).2.devblocksize = ai.devblocksize ∧
      n ≤ ai.pending.length ∧
      (archreader_read_data E ai n).2.1 = ai.pending.take n := by
  obtain ⟨hP, hpend, hcons, hcr, hwf1, hconf⟩ := read_data_success E ai
    (archreader_read_data E ai n).2.2 (archreader_read_data E ai n).2.1 n hwf
    (Prod.ext hr.symm.symm rfl)
  obtain ⟨a2, hu, hp2, -, hc2, -, hwf2, -, -⟩ := unread_success
    (archreader_read_data E ai n).2.2 j hwf1 (by omega)
  have hcl : ai.consumed.length = ai.cacheread := by simp [Reader.consumed, hwf]
  rw [hu]
  refine ⟨rfl, ?_, hwf2, ?_, ?_, ?_⟩
  · show a2.pending = _
    rw [hp2, hcons, hcr, hpend]
    have h1 : ai.cacheread + n - j = ai.consumed.length + (n - j) := by omega
    rw [h1, List.drop_append, List.drop_append_of_le_length (by omega)]
  · show a2.devblocksize = _
    rw [conf_devblocksize _ _ hc2, conf_devblocksize _ _ hconf]
  · rw [hpend, List.length_append]; omega
  · rw [hpend, List.take_append_of_le_length (by omega), List.take_of_length_le (by omega)]


theorem magic_at_drop (E : Env) (s : List Nat) (m q : Nat) :
    magic_at E (s.drop m) q = magic_at E s (m + q) := by
  unfold magic_at; rw [List.drop_drop]

/-- A hit of the window loop is a valid magic of the stream, inside the window. -/
theorem find_magic_some (E : Env) (s : List Nat) (r k : Nat)
    (h : find_magic E (s.take r) r = some k) : k + 4 ≤ r ∧ magic_at E s k = true := by
  unfold find_magic FSA_SIZEOF_MAGIC at h
  have h1 := List.find?_some h
  have h2 := List.mem_of_find?_eq_some h
  rw [List.mem_range] at h2
  have hk : k + 4 ≤ r := by omega
  refine ⟨hk, ?_⟩
  unfold magic_at FSA_SIZEOF_MAGIC
  rw [← window_eq s r k hk]
  exact h1

theorem fmt_version_rejected (ai : Reader) (volhead : List Nat)
    (h : (archreader_fmt_version ai volhead).1 ≠ .success) :
    (archreader_fmt_version ai volhead).2 = ai := by
  unfold archreader_fmt_version at h ⊢
  dsimp only at h ⊢
  split
  · rename_i h1; rw [if_pos h1] at h; exact absurd rfl h
  · rename_i h1
    rw [if_neg h1] at h
    split
    · rename_i h2; rw [if_pos h2] at h; exact absurd rfl h
    · rfl

/-- Termination of the loops of `archreader_read_header`: with at most `N` bytes
ahead they return within `N + 1` passes, with the same result for any larger
fuel. -/
theorem scan_loops_total (E : Env) (readvol : Bool) (h4 : 4 ≤ E.FSA_CACHE_HEADER) (N : Nat) :
    ∀ (ai : Reader) (readsize unread : Nat), ai.cacheread ≤ ai.cache.length →
      4 ≤ readsize → unread ≤ E.FSA_CACHE_HEADER → ai.pending.length ≤ N →
      ∃ res : Ret × Reader,
        (∀ fuel, N + 1 ≤ fuel → scan_loops E readvol fuel ai readsize unread = some res) ∧
        (res.1 = .success ∨ res.1 = .fatal ∨ res.1 = .crash) ∧
        (0 < E.datablocksize → 0 < ai.devblocksize → res.1 ≠ .crash) ∧
        (res.1 = .success → ∃ q, q + 4 ≤ ai.pending.length ∧ magic_at E ai.pending q = true) := by
  induction N using Nat.strong_induction_on with
  | _ N ih =>
    intro ai readsize unread hwf hrs hun hL
    have e3 : FSA_SIZEOF_MAGIC - 1 = 3 := rfl
    have e4 : FSA_SIZEOF_MAGIC = 4 := rfl
    by_cases hr : (archreader_read_data E ai readsize).1 = .success
    · cases hf : find_magic E (archreader_read_data E ai readsize).2.1 readsize with
      | none =>
        obtain ⟨-, hp, hwf1, hdev, hlen, -⟩ := read_unread_pending E ai readsize
          (FSA_SIZEOF_MAGIC - 1) hwf hr (by rw [e3]; omega)
        have hlt : (archreader_unread (archreader_read_data E ai readsize).2.2
            (FSA_SIZEOF_MAGIC - 1)).2.pending.length < N := by
          rw [hp, List.length_drop, e3]; omega
        obtain ⟨res, hres, hcodes, hcrash, hmag⟩ := ih _ hlt _ E.FSA_CACHE_HEADER unread hwf1 h4
          hun (Nat.le_refl _)
        refine ⟨res, ?_, hcodes, ?_, ?_⟩
        · intro fuel hfuel
          obtain ⟨f, rfl⟩ : ∃ f, fuel = f + 1 := ⟨fuel - 1, by omega⟩
          rw [scan_pass E readvol f ai readsize unread (by omega) hun]
          simp only [hr, hf, ne_eq, not_true_eq_false, if_false]
          exact hres f (by omega)
        · intro a b; exact hcrash a (by rw [hdev]; exact b)
        · intro hs
          obtain ⟨q, hq1, hq2⟩ := hmag hs
          rw [hp, magic_at_drop] at hq2
          rw [hp, List.length_drop] at hq1
          exact ⟨_, by omega, hq2⟩
      | some k =>
        obtain ⟨-, -, -, -, hlen0, hP⟩ := read_unread_pending E ai readsize 0 hwf hr (by omega)
        rw [hP] at hf
        obtain ⟨hk4, hmk⟩ := find_magic_some E ai.pending readsize k hf
        rw [← hP] at hf
        obtain ⟨-, hp, hwf1, hdev, hlen, -⟩ := read_unread_pending E ai readsize
          (readsize - (k + 1) + 1) hwf hr (by omega)
        have hk : readsize - (readsize - (k + 1) + 1) = k := by omega
        rw [hk] at hp
        by_cases hv : readvol = true
        · subst hv
          by_cases hr2 : (archreader_read_data E
              (archreader_unread (archreader_read_data E ai readsize).2.2
                (readsize - (k + 1) + 1)).2 E.FSA_CACHE_HEADER).1 = .success
          · by_cases hfm : (archreader_fmt_version
                (archreader_read_data E
                  (archreader_unread (archreader_read_data E ai readsize).2.2
                    (readsize - (k + 1) + 1)).2 E.FSA_CACHE_HEADER).2.2
                (archreader_read_data E
                  (archreader_unread (archreader_read_data E ai readsize).2.2
                    (readsize - (k + 1) + 1)).2 E.FSA_CACHE_HEADER).2.1).1 = .success
            · refine ⟨(.success, (archreader_unread (archreader_fmt_version
                (archreader_read_data E
                  (archreader_unread (archreader_read_data E ai readsize).2.2
                    (readsize - (k + 1) + 1)).2 E.FSA_CACHE_HEADER).2.2
                (archreader_read_data E
                  (archreader_unread (archreader_read_data E ai readsize).2.2
                    (readsize - (k + 1) + 1)).2 E.FSA_CACHE_HEADER).2.1).2 unread).2), ?_,
                Or.inl rfl, fun _ _ h => Ret.noConfusion h, fun _ => ⟨k, by omega, hmk⟩⟩
              intro fuel hfuel
              obtain ⟨f, rfl⟩ : ∃ f, fuel = f + 1 := ⟨fuel - 1, by omega⟩
              rw [scan_pass E true f ai readsize unread (by omega) hun]
              simp only [hr, hf, hr2, hfm, ne_eq, not_true_eq_false, if_false, if_true]
            · have hrej := fmt_version_rejected _ _ hfm
              obtain ⟨-, hp2, hwf2, hdev2, hlen2, -⟩ := read_unread_pending E
                (archreader_unread (archreader_read_data E ai readsize).2.2
                  (readsize - (k + 1) + 1)).2 E.FSA_CACHE_HEADER
                (E.FSA_CACHE_HEADER - FSA_SIZEOF_MAGIC) hwf1 hr2 (by omega)
              rw [← hrej] at hp2 hwf2 hdev2
              have h44 : E.FSA_CACHE_HEADER - (E.FSA_CACHE_HEADER - FSA_SIZEOF_MAGIC) = 4 := by
                rw [e4]; omega
              rw [h44, hp, List.drop_drop] at hp2
              rw [hp, List.length_drop] at hlen2
              have hlt : (archreader_unread (archreader_fmt_version
                  (archreader_read_data E
                    (archreader_unread (archreader_read_data E ai readsize).2.2
                      (readsize - (k + 1) + 1)).2 E.FSA_CACHE_HEADER).2.2
                  (archreader_read_data E
                    (archreader_unread (archreader_read_data E ai readsize).2.2
                      (readsize - (k + 1) + 1)).2 E.FSA_CACHE_HEADER).2.1).2
                  (E.FSA_CACHE_HEADER - FSA_SIZEOF_MAGIC)).2.pending.length < N := by
                rw [hp2, List.length_drop]; omega
              obtain ⟨res, hres, hcodes, hcrash, hmag⟩ := ih _ hlt _ E.FSA_CACHE_HEADER
                (E.FSA_CACHE_HEADER - FSA_SIZEOF_MAGIC) hwf2 h4 (Nat.sub_le _ _) (Nat.le_refl _)
              refine ⟨res, ?_, hcodes, ?_, ?_⟩
              · intro fuel hfuel
                obtain ⟨f, rfl⟩ : ∃ f, fuel = f + 1 := ⟨fuel - 1, by omega⟩
                rw [scan_pass E true f ai readsize unread (by omega) hun]
                simp only [hr, hf, hr2, hfm, ne_eq, not_true_eq_false, not_false_eq_true,
                  if_false, if_true]
                exact hres f (by omega)
              · intro a b; exact hcrash a (by rw [hdev2, hdev]; exact b)
              · intro hs
                obtain ⟨q, hq1, hq2⟩ := hmag hs
                rw [hp2, magic_at_drop] at hq2
                rw [hp2, List.length_drop] at hq1
                exact ⟨_, by omega, hq2⟩
          · obtain ⟨c1, c2⟩ := scan_read_failed E _ E.FSA_CACHE_HEADER hr2
            refine ⟨((archreader_read_data E
                (archreader_unread (archreader_read_data E ai readsize).2.2
                  (readsize - (k + 1) + 1)).2 E.FSA_CACHE_HEADER).1.fail .fatal,
              (archreader_read_data E
                (archreader_unread (archreader_read_data E ai readsize).2.2
                  (readsize - (k + 1) + 1)).2 E.FSA_CACHE_HEADER).2.2), ?_, Or.inr c1,
              fun a b => c2 a (by rw [hdev]; exact b), ?_⟩
            · intro fuel hfuel
              obtain ⟨f, rfl⟩ : ∃ f, fuel = f + 1 := ⟨fuel - 1, by omega⟩
              rw [scan_pass E true f ai readsize unread (by omega) hun]
              simp only [hr, hf, hr2, ne_eq, not_true_eq_false, not_false_eq_true,
                if_false, if_true]
            · intro hs
              rcases c1 with c1 | c1 <;> rw [c1] at hs <;> exact Ret.noConfusion hs
        · refine ⟨(.success, (archreader_unread (archreader_read_data E ai readsize).2.2
            (readsize - (k + 1) + 1)).2), ?_, Or.inl rfl, fun _ _ h => Ret.noConfusion h,
            fun _ => ⟨k, by omega, hmk⟩⟩
          intro fuel hfuel
          obtain ⟨f, rfl⟩ : ∃ f, fuel = f + 1 := ⟨fuel - 1, by omega⟩
          rw [scan_pass E readvol f ai readsize unread (by omega) hun]
          simp only [hr, hf, hv, ne_eq, not_true_eq_false, if_false, Bool.false_eq_true]
    · obtain ⟨c1, c2⟩ := scan_read_failed E ai readsize hr
      refine ⟨((archreader_read_data E ai readsize).1.fail .fatal,
        (archreader_read_data E ai readsize).2.2), ?_, Or.inr c1, c2, ?_⟩
      · intro fuel hfuel
        obtain ⟨f, rfl⟩ : ∃ f, fuel = f + 1 := ⟨fuel - 1, by omega⟩
        rw [scan_pass E readvol f ai readsize unread (by omega) hun]
        simp only [hr, ne_eq, not_false_eq_true, if_true]
      · intro hs
        rcases c1 with c1 | c1 <;> rw [c1] at hs <;> exact Ret.noConfusion hs


/-- Function `archreader_read_header` returns: with `N` bytes ahead, any fuel of
at least `N + 1` gives the same result, and without a valid magic ahead the code
is the fatal one (or a crash when a block size is zero). -/
theorem read_header_total (E : Env) (ai : Reader) (readvol : Bool)
    (h4 : 4 ≤ E.FSA_CACHE_HEADER) (hwf : ai.cacheread ≤ ai.cache.length) :
    ∃ out : HeaderOut × Reader,
      (∀ fuel, ai.pending.length + 1 ≤ fuel →
        archreader_read_header E fuel ai readvol = some out) ∧
      ((∀ q, q < ai.pending.length → magic_at E ai.pending q = false) →
        (out.1.ret = .fatal ∨ out.1.ret = .crash) ∧
        (0 < E.datablocksize → 0 < ai.devblocksize → out.1.ret = .fatal)) := by
  obtain ⟨res, hres, hcodes, hcrash, hmag⟩ := scan_loops_total E readvol h4 ai.pending.length ai
    FSA_SIZEOF_MAGIC E.FSA_CACHE_HEADER hwf (Nat.le_refl _) (Nat.le_refl _) (Nat.le_refl _)
  by_cases ha : E.abort = true
  · refine ⟨(⟨.fatal, List.replicate FSA_SIZEOF_MAGIC 0, none, E.FSA_FILESYSID_NULL⟩, ai), ?_,
      fun _ => ⟨Or.inl rfl, fun _ _ => rfl⟩⟩
    intro fuel _
    unfold archreader_read_header
    simp only [ha, if_true]
  · by_cases hs : res.1 = .success
    · have hsome : ∀ fuel, ai.pending.length + 1 ≤ fuel →
          archreader_read_header E fuel ai readvol
            = archreader_read_header E (ai.pending.length + 1) ai readvol := by
        intro fuel hf
        unfold archreader_read_header
        simp only [ha, if_false, hres fuel hf, hres _ (Nat.le_refl _)]
      have hne : archreader_read_header E (ai.pending.length + 1) ai readvol ≠ none := by
        unfold archreader_read_header
        simp only [ha, if_false, hres _ (Nat.le_refl _)]
        repeat' split
        all_goals exact Option.some_ne_none _
      cases hout : archreader_read_header E (ai.pending.length + 1) ai readvol with
      | none => exact absurd hout hne
      | some out =>
        refine ⟨out, fun fuel hf => (hsome fuel hf).trans hout, ?_⟩
        intro hno
        obtain ⟨q, hq1, hq2⟩ := hmag hs
        rw [hno q (by omega)] at hq2
        exact absurd hq2 (by decide)
    · refine ⟨(⟨res.1, List.replicate FSA_SIZEOF_MAGIC 0, none, E.FSA_FILESYSID_NULL⟩, res.2), ?_,
        fun _ => ⟨?_, ?_⟩⟩
      · intro fuel hf
        unfold archreader_read_header
        simp only [ha, if_false, hres fuel hf, hs, ne_eq, not_false_eq_true, if_true,
          Bool.false_eq_true]
      · rcases hcodes with h | h | h
        · exact absurd h hs
        · exact Or.inl h
        · exact Or.inr h
      · intro a b
        rcases hcodes with h | h | h
        · exact absurd h hs
        · exact h
        · exact absurd h (hcrash a b)

/-- Claim C35: the magic scan makes progress and terminates.  With
`FSA_CACHE_HEADER ≥ 4`, a read pointer inside the cached bytes, `readsize` one of
`FSA_SIZEOF_MAGIC` and `FSA_CACHE_HEADER`, and `unread` one of `FSA_CACHE_HEADER`
and `FSA_CACHE_HEADER - FSA_SIZEOF_MAGIC`: a pass that reads `readsize` bytes and
finds no magic leaves the logical read position `readsize - 3 ≥ 1` bytes further
and hands over to the next pass; a pass whose magic at window position `k` is
rejected by the format-version probe leaves it 4 bytes past that magic and hands
over to the next pass.  Hence with `N` bytes ahead the loops return within `N + 1`
passes, with code 0 only when a valid magic lies ahead and else with the fatal code
(a crash when `datablocksize` or `devblocksize` is zero), and
`archreader_read_header` returns. -/
theorem scan_terminates (E : Env) (ai : Reader) (readvol : Bool) (readsize unread k : Nat)
    (h4 : 4 ≤ E.FSA_CACHE_HEADER) (hwf : ai.cacheread ≤ ai.cache.length)
    (hr : readsize = FSA_SIZEOF_MAGIC ∨ readsize = E.FSA_CACHE_HEADER)
    (hu : unread = E.FSA_CACHE_HEADER ∨ unread = E.FSA_CACHE_HEADER - FSA_SIZEOF_MAGIC) :
    ((archreader_read_data E ai readsize).1 = .success →
      find_magic E (archreader_read_data E ai readsize).2.1 readsize = none →
      1 ≤ readsize - 3 ∧ readsize ≤ ai.pending.length ∧
      (archreader_unread (archreader_read_data E ai readsize).2.2
        (FSA_SIZEOF_MAGIC - 1)).2.pending = ai.pending.drop (readsize - 3) ∧
      (archreader_unread (archreader_read_data E ai readsize).2.2
        (FSA_SIZEOF_MAGIC - 1)).2.pending.length < ai.pending.length ∧
      ∀ fuel, scan_loops E readvol (fuel + 1) ai readsize unread =
        scan_loops E readvol fuel
          (archreader_unread (archreader_read_data E ai readsize).2.2 (FSA_SIZEOF_MAGIC - 1)).2
          E.FSA_CACHE_HEADER unread) ∧
    ((archreader_read_data E ai readsize).1 = .success →
      find_magic E (archreader_read_data E ai readsize).2.1 readsize = some k →
      (archreader_read_data E
        (archreader_unread (archreader_read_data E ai readsize).2.2 (readsize - (k + 1) + 1)).2
        E.FSA_CACHE_HEADER).1 = .success →
      (archreader_fmt_version
        (archreader_read_data E
          (archreader_unread (archreader_read_data E ai readsize).2.2 (readsize - (k + 1) + 1)).2
          E.FSA_CACHE_HEADER).2.2
        (archreader_read_data E
          (archreader_unread (archreader_read_data E ai readsize).2.2 (readsize - (k + 1) + 1)).2
          E.FSA_CACHE_HEADER).2.1).1 ≠ .success →
      magic_at E ai.pending k = true ∧ k + 4 ≤ ai.pending.length ∧
      (archreader_unread (archreader_read_data E ai readsize).2.2
        (readsize - (k + 1) + 1)).2.pending = ai.pending.drop k ∧
      (archreader_unread
        (archreader_fmt_version
          (archreader_read_data E
            (archreader_unread (archreader_read_data E ai readsize).2.2 (readsize - (k + 1) + 1)).2
            E.FSA_CACHE_HEADER).2.2
          (archreader_read_data E
            (archreader_unread (archreader_read_data E ai readsize).2.2 (readsize - (k + 1) + 1)).2
            E.FSA_CACHE_HEADER).2.1).2
        (E.FSA_CACHE_HEADER - FSA_SIZEOF_MAGIC)).2.pending = ai.pending.drop (k + 4) ∧
      ∀ fuel, scan_loops E true (fuel + 1) ai readsize unread =
        scan_loops E true fuel
          (archreader_unread
            (archreader_fmt_version
              (archreader_read_data E
                (archreader_unread (archreader_read_data E ai readsize).2.2
                  (readsize - (k + 1) + 1)).2 E.FSA_CACHE_HEADER).2.2
              (archreader_read_data E
                (archreader_unread (archreader_read_data E ai readsize).2.2
                  (readsize - (k + 1) + 1)).2 E.FSA_CACHE_HEADER).2.1).2
            (E.FSA_CACHE_HEADER - FSA_SIZEOF_MAGIC)).2
          E.FSA_CACHE_HEADER (E.FSA_CACHE_HEADER - FSA_SIZEOF_MAGIC)) ∧
    (∃ res : Ret × Reader,
      (∀ fuel, ai.pending.length + 1 ≤ fuel →
        scan_loops E readvol fuel ai readsize unread = some res) ∧
      (res.1 = .success ∨ res.1 = .fatal ∨ res.1 = .crash) ∧
      (0 < E.datablocksize → 0 < ai.devblocksize → res.1 ≠ .crash) ∧
      (res.1 = .success → ∃ q, q + 4 ≤ ai.pending.length ∧ magic_at E ai.pending q = true)) ∧
    (∃ out : HeaderOut × Reader,
      (∀ fuel, ai.pending.length + 1 ≤ fuel →
        archreader_read_header E fuel ai readvol = some out) ∧
      ((∀ q, q < ai.pending.length → magic_at E ai.pending q = false) →
        (out.1.ret = .fatal ∨ out.1.ret = .crash) ∧
        (0 < E.datablocksize → 0 < ai.devblocksize → out.1.ret = .fatal))) := by
  have e3 : FSA_SIZEOF_MAGIC - 1 = 3 := rfl
  have e4 : FSA_SIZEOF_MAGIC = 4 := rfl
  have hr4 : 4 ≤ readsize := by rcases hr with h | h <;> omega
  have huH : unread ≤ E.FSA_CACHE_HEADER := by rcases hu with h | h <;> omega
  refine ⟨?_, ?_, scan_loops_total E readvol h4 ai.pending.length ai readsize unread hwf hr4 huH
    (Nat.le_refl _), read_header_total E ai readvol h4 hwf⟩
  · intro hrd hf
    obtain ⟨-, hp, -, -, hlen, -⟩ := read_unread_pending E ai readsize
      (FSA_SIZEOF_MAGIC - 1) hwf hrd (by rw [e3]; omega)
    rw [e3] at hp ⊢
    refine ⟨by omega, hlen, hp, ?_, ?_⟩
    · rw [hp, List.length_drop]; omega
    · intro fuel
      rw [scan_pass E readvol fuel ai readsize unread (by omega) huH]
      simp only [hrd, hf, e3, ne_eq, not_true_eq_false, if_false]
  · intro hrd hf hr2 hfm
    obtain ⟨-, -, -, -, hlen0, hP⟩ := read_unread_pending E ai readsize 0 hwf hrd (by omega)
    rw [hP] at hf
    obtain ⟨hk4, hmk⟩ := find_magic_some E ai.pending readsize k hf
    rw [← hP] at hf
    obtain ⟨-, hp, hwf1, -, -, -⟩ := read_unread_pending E ai readsize
      (readsize - (k + 1) + 1) hwf hrd (by omega)
    have hk : readsize - (readsize - (k + 1) + 1) = k := by omega
    rw [hk] at hp
    have hrej := fmt_version_rejected _ _ hfm
    obtain ⟨-, hp2, -, -, -, -⟩ := read_unread_pending E
      (archreader_unread (archreader_read_data E ai readsize).2.2
        (readsize - (k + 1) + 1)).2 E.FSA_CACHE_HEADER
      (E.FSA_CACHE_HEADER - FSA_SIZEOF_MAGIC) hwf1 hr2 (by omega)
    rw [← hrej] at hp2
    have h44 : E.FSA_CACHE_HEADER - (E.FSA_CACHE_HEADER - FSA_SIZEOF_MAGIC) = 4 := by
      rw [e4]; omega
    rw [h44, hp, List.drop_drop] at hp2
    refine ⟨hmk, by omega, hp, hp2, ?_⟩
    intro fuel
    rw [scan_pass E true fuel ai readsize unread (by omega) huH]
    simp only [hrd, hf, hr2, hfm, ne_eq, not_true_eq_false, not_false_eq_true, if_false, if_true]

set_option maxRecDepth 100000 in
/-- Claim C35 (witness): a regular file of 70 zero bytes in the sample environment
(64-byte windows).  The scan tests the windows at offsets 0 and 1, cannot read a
third window of 64 bytes at offset 62 (8 bytes are left), and `archreader_read_header` returns the
fatal code, for every fuel of at least 71. -/
theorem scan_terminates_witness :
    (∃ out : HeaderOut × Reader,
      (∀ fuel, (sampleReader 2 (List.replicate 70 0)).pending.length + 1 ≤ fuel →
        archreader_read_header sampleEnv fuel (sampleReader 2 (List.replicate 70 0)) false
          = some out) ∧
      out.1.ret = .fatal) ∧
    (sampleReader 2 (List.replicate 70 0)).pending.length = 70 ∧
    (archreader_read_header sampleEnv 71 (sampleReader 2 (List.replicate 70 0)) false).map
      (fun o => (o.1.ret, o.2.pending.length)) = some (.fatal, 3) ∧
    scan_loops sampleEnv false 2 (sampleReader 2 (List.replicate 70 0)) 4 64 = none :=
  ⟨(scan_terminates sampleEnv (sampleReader 2 (List.replicate 70 0)) false 4 64 0 (by decide)
      (by decide) (Or.inl rfl) (Or.inl rfl)).2.2.2.elim
      (fun out h => ⟨out, h.1, (h.2 (by decide)).2 (by decide) (by decide)⟩),
    by decide, by decide, by decide⟩

/-! ## The assertion of the raw block read -/

/-- The rounding `x + (devblocksize - x % devblocksize)` of the block reader is
`round_up`. -/
theorem blocks_round (d x : Nat) (hd : 0 < d) :
    (if x % d = 0 then x else x + (d - x % d)) = round_up d x := by
  rw [← round_up_code _ _ hd]
  split <;> simp

/-- The loop of `archreader_skip_blocks`: every call asks for `cachesize` bytes,
the descriptor advances by the sum of the sizes asked for, and with enough fuel
the rest left at the exit of the loop is below `cachesize`. -/
theorem skip_chunks_calls_spec (cs : Nat) :
    ∀ (fuel : Nat) (input : List Nat) (pending : Nat) (cache : List Nat),
      (∀ s ∈ skip_chunks_raw_calls cs fuel input pending, s = cs) ∧
      (skip_chunks cs fuel input pending cache = none →
        input.drop (skip_chunks_raw_calls cs fuel input pending).sum = []) ∧
      (∀ i p c, skip_chunks cs fuel input pending cache = some (i, p, c) →
        i = input.drop (skip_chunks_raw_calls cs fuel input pending).sum ∧
        (pending < fuel → 0 < cs → p < cs)) := by
  intro fuel
  induction fuel with
  | zero =>
    intro input pending cache
    refine ⟨by simp [skip_chunks_raw_calls], by simp [skip_chunks], ?_⟩
    intro i p c h
    simp only [skip_chunks, Option.some.injEq, Prod.mk.injEq] at h
    exact ⟨by simp [skip_chunks_raw_calls, h.1], fun h1 => by omega⟩
  | succ fuel ih =>
    intro input pending cache
    by_cases h : pending < cs
    · refine ⟨by simp [skip_chunks_raw_calls, h], by simp [skip_chunks, h], ?_⟩
      intro i p c hs
      simp only [skip_chunks, h, if_true, Option.some.injEq, Prod.mk.injEq] at hs
      exact ⟨by simp [skip_chunks_raw_calls, h, hs.1], fun _ _ => by omega⟩
    · by_cases hl : (input.take cs).length ≠ cs
      · have hcalls : skip_chunks_raw_calls cs (fuel + 1) input pending = [cs] := by
          simp only [skip_chunks_raw_calls, h, hl, if_false, if_true, ne_eq, not_false_eq_true]
        have hch : skip_chunks cs (fuel + 1) input pending cache = none := by
          simp only [skip_chunks, h, hl, if_false, if_true, ne_eq, not_false_eq_true]
        rw [hcalls, hch]
        refine ⟨fun s hs => List.mem_singleton.mp hs, ?_, ?_⟩
        · intro _
          simp only [List.sum_cons, List.sum_nil, Nat.add_zero]
          apply List.drop_eq_nil_of_le
          rw [List.length_take] at hl
          omega
        · intro i p c hs
          exact absurd hs (by simp)
      · obtain ⟨i1, i2, i3⟩ := ih (input.drop cs) (pending - cs) (overwrite (input.take cs) cache)
        have hcalls : skip_chunks_raw_calls cs (fuel + 1) input pending
            = cs :: skip_chunks_raw_calls cs fuel (input.drop cs) (pending - cs) := by
          simp only [skip_chunks_raw_calls, h, hl, if_false]
        have hch : skip_chunks cs (fuel + 1) input pending cache
            = skip_chunks cs fuel (input.drop cs) (pending - cs)
                (overwrite (input.take cs) cache) := by
          simp only [skip_chunks, h, hl, if_false]
        rw [hcalls, hch]
        refine ⟨?_, ?_, ?_⟩
        · intro s hs
          rcases List.mem_cons.mp hs with hs | hs
          · exact hs
          · exact i1 s hs
        · intro hn
          rw [List.sum_cons, ← List.drop_drop]
          exact i2 hn
        · intro i p c hs
          obtain ⟨j1, j2⟩ := i3 i p c hs
          refine ⟨?_, fun hf hc => j2 (by omega) hc⟩
          rw [List.sum_cons, ← List.drop_drop]
          exact j1


/-- The call of `archreader_read_blocks_raw` made by `archreader_read_blocks`:
its size is a multiple of `devblocksize`, and the descriptor advances by it. -/
theorem read_blocks_calls_spec (E : Env) (ai : Reader) (n : Nat) :
    (0 < ai.devblocksize → ∀ s ∈ read_blocks_raw_calls E ai n, s % ai.devblocksize = 0) ∧
      (archreader_read_blocks E ai n).2.input
        = ai.input.drop (read_blocks_raw_calls E ai n).sum ∧
      (0 < ai.devblocksize → 0 < E.datablocksize → (archreader_read_blocks E ai n).1 ≠ .crash) := by
  unfold archreader_read_blocks read_blocks_raw_calls
  dsimp only
  by_cases hm : missing ai n ≤ 0
  · simp only [hm, if_true]
    exact ⟨fun _ s hs => absurd hs (List.not_mem_nil s), by simp, fun _ _ h => Ret.noConfusion h⟩
  · by_cases hd0 : ai.devblocksize = 0
    · simp only [hm, hd0, if_true, if_false]
      exact ⟨fun h => absurd h (by omega), by simp, fun h => absurd h (by omega)⟩
    · have hd : 0 < ai.devblocksize := by omega
      simp only [hm, hd0, if_false]
      rw [blocks_round _ _ hd]
      have hM : round_up ai.devblocksize (missing ai n).toNat % ai.devblocksize = 0 :=
        Nat.mod_eq_zero_of_dvd (round_up_spec _ _ hd).1
      obtain ⟨-, -, pi, -⟩ := precache_fields E ai
        (round_up ai.devblocksize (missing ai n).toNat)
      obtain ⟨-, pc2⟩ := precache_codes E ai (round_up ai.devblocksize (missing ai n).toNat)
      generalize round_up ai.devblocksize (missing ai n).toNat = M at hM pi pc2 ⊢
      by_cases hp : (archreader_precache E ai M).1 = .success
      · simp only [hp, ne_eq, not_true_eq_false, if_false, archreader_read_blocks_raw,
          List.mem_singleton, List.sum_cons, List.sum_nil, Nat.add_zero]
        refine ⟨fun _ s hs => by rw [hs]; exact hM, ?_, fun _ _ => ?_⟩
        · split
          · show List.drop _ _ = _
            rw [pi]
          · show List.drop _ _ = _
            rw [pi]
        · split <;> (intro h; exact Ret.noConfusion h)
      · simp only [hp, ne_eq, not_false_eq_true, if_true]
        refine ⟨fun _ s hs => absurd hs (List.not_mem_nil s), ?_, fun _ hdb => ?_⟩
        · show _ = List.drop 0 ai.input
          rw [pi]; rfl
        · exact absurd (pc2 hdb hd) hp

/-- Function `archreader_precache` keeps `cachesize` a multiple of
`devblocksize`. -/
theorem reader_precache_multiple (E : Env) (ai : Reader) (size : Nat)
    (hcs : ai.cachesize % ai.devblocksize = 0) :
    (archreader_precache E ai size).2.cachesize % ai.devblocksize = 0 ∧
      (archreader_precache E ai size).2.devblocksize = ai.devblocksize := by
  by_cases h : ai.cache.length + size ≤ ai.cachesize
  · simp only [archreader_precache, h, if_true]
    exact ⟨hcs, trivial⟩
  · by_cases h1 : E.datablocksize = 0 ∨ ai.devblocksize = 0
    · simp only [archreader_precache, h, h1, if_true, if_false]
      exact ⟨hcs, trivial⟩
    · have hdb : 0 < E.datablocksize := by omega
      have hd : 0 < ai.devblocksize := by omega
      rw [reader_precache_grow E ai size hdb hd (by omega)]
      refine ⟨?_, rfl⟩
      show spec_capacity _ _ _ % _ = 0
      unfold spec_capacity
      exact Nat.mod_eq_zero_of_dvd (round_up_spec _ _ hd).1

/-- The read that `archreader_skip_blocks` makes after its loop asks for the rest
`pending < cachesize` rounded up to a multiple of `devblocksize`, which is at most
`cachesize`. -/
theorem skip_blocks_final_spec (E : Env) (ai : Reader) (offset s : Nat)
    (hd : 0 < ai.devblocksize) (hcs : ai.cachesize % ai.devblocksize = 0)
    (h : skip_blocks_final_call E ai offset = some s) :
    s % ai.devblocksize = 0 ∧ s ≤ ai.cachesize ∧
      ∃ p, 0 < p ∧ p < ai.cachesize ∧ s = round_up ai.devblocksize p := by
  have hd0 : ai.devblocksize ≠ 0 := by omega
  unfold skip_blocks_final_call at h
  dsimp only at h
  split at h
  · exact absurd h (by simp)
  · split at h
    · exact absurd h (by simp)
    · split at h
      · exact absurd h (by simp)
      · split at h
        · exact absurd h (by simp)
        · rename_i hc0
          split at h
          · exact absurd h (by simp)
          · rename_i i p c hsk
            obtain ⟨-, -, k3⟩ := skip_chunks_calls_spec ai.cachesize _ ai.input _ ai.cache
            obtain ⟨-, hlt⟩ := k3 i p c hsk
            have hplt : p < ai.cachesize := hlt (Nat.lt_succ_self _) (by omega)
            by_cases hp0 : p = 0
            · simp [hp0] at h
            · simp only [hp0, ne_eq, not_false_eq_true, if_true, hd0, if_false,
                Option.some.injEq] at h
              rw [blocks_round _ _ hd] at h
              obtain ⟨r1, r2, r3⟩ := round_up_spec ai.devblocksize p hd
              rw [← h]
              exact ⟨Nat.mod_eq_zero_of_dvd r1,
                r3 _ (Nat.dvd_of_mod_eq_zero hcs) (by omega), p, by omega, hplt, rfl⟩

/-- Every call of `archreader_read_blocks_raw` made by `archreader_skip_blocks`
asks for a multiple of `devblocksize` that is at most `cachesize`, and the
descriptor advances by the sum of the sizes asked for. -/
theorem skip_blocks_calls_spec (E : Env) (ai : Reader) (offset : Nat)
    (hd : 0 < ai.devblocksize) (hcs : ai.cachesize % ai.devblocksize = 0) :
    (∀ s ∈ skip_blocks_raw_calls E ai offset, s % ai.devblocksize = 0 ∧ s ≤ ai.cachesize) ∧
      (archreader_skip_blocks E ai offset).2.input
        = ai.input.drop (skip_blocks_raw_calls E ai offset).sum ∧
      (archreader_skip_blocks E ai offset).1 ≠ .crash ∧
      (archreader_skip_blocks E ai offset).2.cachesize = ai.cachesize := by
  have hd0 : ai.devblocksize ≠ 0 := by omega
  have hfin := skip_blocks_final_spec E ai offset
  have hcr : ∀ P, ¬ (ai.cachesize ≤ P ∧
      (ai.devblocksize = 0 ∨ ai.cachesize % ai.devblocksize ≠ 0)) := by
    rintro P ⟨-, h | h⟩
    · exact hd0 h
    · exact h hcs
  unfold skip_blocks_raw_calls archreader_skip_blocks
  unfold skip_blocks_final_call at hfin ⊢
  dsimp only at hfin ⊢
  by_cases hm : (offset : Int) ≤ (ai.cache.length : Int) - (ai.cacheread : Int)
  · simp only [hm, if_true, Option.toList, List.append_nil, List.sum_nil, List.drop_zero]
    exact ⟨fun s hs => absurd hs (List.not_mem_nil s), by first | rfl | trivial,
      fun h => Ret.noConfusion h, by first | rfl | trivial⟩
  · by_cases ha : E.abort = true
    · simp only [hm, ha, if_true, if_false, Option.toList, List.append_nil, List.sum_nil,
        List.drop_zero]
      exact ⟨fun s hs => absurd hs (List.not_mem_nil s), by first | rfl | trivial,
        fun h => Ret.noConfusion h, by first | rfl | trivial⟩
    · simp only [hm, ha, if_false, hcr, Bool.false_eq_true] at hfin ⊢
      by_cases hc0 : ai.cachesize = 0
      · simp only [hc0, if_true, Option.toList, List.append_nil, List.sum_cons, List.sum_nil,
          List.drop_zero, List.mem_singleton]
        exact ⟨fun s hs => by rw [hs]; simp, rfl, fun h => Ret.noConfusion h,
          trivial⟩
      · simp only [hc0, if_false] at hfin ⊢
        obtain ⟨k1, k2, k3⟩ := skip_chunks_calls_spec ai.cachesize
          (((offset : Int) - ((ai.cache.length : Int) - (ai.cacheread : Int))).toNat + 1) ai.input
          ((offset : Int) - ((ai.cache.length : Int) - (ai.cacheread : Int))).toNat ai.cache
        have hloop : ∀ s ∈ skip_chunks_raw_calls ai.cachesize
            (((offset : Int) - ((ai.cache.length : Int) - (ai.cacheread : Int))).toNat + 1) ai.input
            ((offset : Int) - ((ai.cache.length : Int) - (ai.cacheread : Int))).toNat,
            s % ai.devblocksize = 0 ∧ s ≤ ai.cachesize := by
          intro s hs
          rw [k1 s hs]
          exact ⟨hcs, Nat.le_refl _⟩
        cases hsk : skip_chunks ai.cachesize
            (((offset : Int) - ((ai.cache.length : Int) - (ai.cacheread : Int))).toNat + 1) ai.input
            ((offset : Int) - ((ai.cache.length : Int) - (ai.cacheread : Int))).toNat ai.cache with
        | none =>
          simp only [Option.toList, List.append_nil]
          exact ⟨hloop, (k2 hsk).symm, fun h => Ret.noConfusion h, by first | rfl | trivial⟩
        | some t =>
          obtain ⟨i, p, c⟩ := t
          obtain ⟨j1, -⟩ := k3 i p c hsk
          rw [hsk] at hfin
          simp only at hfin ⊢
          by_cases hp0 : p = 0
          · simp only [hp0, ne_eq, not_true_eq_false, if_false, Option.toList, List.append_nil]
            exact ⟨hloop, j1, fun h => Ret.noConfusion h, by first | rfl | trivial⟩
          · simp only [hp0, ne_eq, not_false_eq_true, if_true, hd0, if_false, Option.toList,
              List.sum_append, List.sum_cons, List.sum_nil, Nat.add_zero,
              archreader_read_blocks_raw] at hfin ⊢
            refine ⟨?_, ?_, ?_, ?_⟩
            · intro s hs
              rcases List.mem_append.mp hs with hs | hs
              · exact hloop s hs
              · rw [List.mem_singleton] at hs
                obtain ⟨f1, f2, -⟩ := hfin s hd hcs (by rw [hs])
                exact ⟨f1, f2⟩
            · rw [← List.drop_drop, ← j1]
              repeat' split
              all_goals rfl
            · repeat' split
              all_goals (intro h; exact Ret.noConfusion h)
            · repeat' split
              all_goals rfl


/-- Claim C34: with `devblocksize = d > 0` and a `cachesize` that is a multiple of
`d` (which 0 is, and which `archreader_precache` keeps), the assertion
`size % devblocksize == 0` of `archreader_read_blocks_raw` holds at every call
made by `archreader_read_blocks` and by `archreader_skip_blocks`, for every
requested size and offset.  The read that `archreader_skip_blocks` makes after its
loop asks for the rest `0 < pending < cachesize` rounded up to a multiple of `d`,
which is at most `cachesize`, as is every size asked for by the loop.  The
descriptor advances by the sum of the sizes listed, and neither function stops on
a failed assertion or a division by zero (`datablocksize > 0` for the read). -/
theorem read_blocks_raw_assertion (E : Env) (ai : Reader) (n offset size s : Nat)
    (hd : 0 < ai.devblocksize) (hcs : ai.cachesize % ai.devblocksize = 0) :
    (∀ c ∈ read_blocks_raw_calls E ai n, c % ai.devblocksize = 0) ∧
    (∀ c ∈ skip_blocks_raw_calls E ai offset, c % ai.devblocksize = 0) ∧
    (skip_blocks_final_call E ai offset = some s →
      s % ai.devblocksize = 0 ∧ s ≤ ai.cachesize ∧
      ∃ p, 0 < p ∧ p < ai.cachesize ∧ s = round_up ai.devblocksize p) ∧
    (∀ c ∈ skip_blocks_raw_calls E ai offset, c ≤ ai.cachesize) ∧
    ((archreader_init ai.input).cachesize = 0 ∧
      (archreader_precache E ai size).2.cachesize % ai.devblocksize = 0 ∧
      (archreader_precache E ai size).2.devblocksize = ai.devblocksize ∧
      (archreader_skip_blocks E ai offset).2.cachesize = ai.cachesize) ∧
    ((archreader_read_blocks E ai n).2.input
        = ai.input.drop (read_blocks_raw_calls E ai n).sum ∧
      (archreader_skip_blocks E ai offset).2.input
        = ai.input.drop (skip_blocks_raw_calls E ai offset).sum) ∧
    ((0 < E.datablocksize → (archreader_read_blocks E ai n).1 ≠ .crash) ∧
      (archreader_skip_blocks E ai offset).1 ≠ .crash) := by
  obtain ⟨r1, r2, r3⟩ := read_blocks_calls_spec E ai n
  obtain ⟨k1, k2, k3, k4⟩ := skip_blocks_calls_spec E ai offset hd hcs
  obtain ⟨p1, p2⟩ := reader_precache_multiple E ai size hcs
  exact ⟨r1 hd, fun c hc => (k1 c hc).1, skip_blocks_final_spec E ai offset s hd hcs,
    fun c hc => (k1 c hc).2, ⟨rfl, p1, p2, k4⟩, ⟨r2, k2⟩, ⟨r3 hd, k3⟩⟩

set_option maxRecDepth 100000 in
/-- Claim C34 (witness): block device with 4-byte blocks holding the bytes 0..39
and a cache buffer of 12 bytes.  A skip of 30 bytes reads 12, 12 and then 8 bytes
(the rest of 6 rounded up); a read of 6 bytes reads 8 bytes. -/
theorem read_blocks_raw_assertion_witness :
    skip_blocks_raw_calls tinyEnv (blockReader [] (List.range 40)) 30 = [12, 12, 8] ∧
      skip_blocks_final_call tinyEnv (blockReader [] (List.range 40)) 30 = some 8 ∧
      read_blocks_raw_calls tinyEnv (blockReader [] (List.range 40)) 6 = [8] ∧
      (archreader_skip_blocks tinyEnv (blockReader [] (List.range 40)) 30).1 = .success ∧
      (archreader_skip_blocks tinyEnv (blockReader [] (List.range 40)) 30).2.pending
        = (List.range 40).drop 30 ∧
      (8 % (blockReader [] (List.range 40)).devblocksize = 0 ∧
        8 ≤ (blockReader [] (List.range 40)).cachesize ∧
        ∃ p, 0 < p ∧ p < (blockReader [] (List.range 40)).cachesize ∧
          8 = round_up (blockReader [] (List.range 40)).devblocksize p) :=
  ⟨by decide, by decide, by decide, by decide, by decide,
    (read_blocks_raw_assertion tinyEnv (blockReader [] (List.range 40)) 6 30 0 8 (by decide)
      (by decide)).2.2.1 (by decide)⟩

end Fsarchiver
